import Mathlib

/-!
# Bio/PDB/_kdtrees.c : a shallow embedding

The C module keeps one `struct KDTree` per Python object and mutates it in place.
Here every C function becomes a Lean function of the same name that takes the tree
(or the part of memory it touches) and returns the new one.

Conventions of the embedding:

* The type of the `float` values is a parameter `α` with the operations the code uses on
  them: `+`, `-`, `*`, unary minus, `<`, `<=`, `fabs` and the constants 0, 1 and `INF`;
  `sqrt` and `qsort` come from the C library and are taken as the parameter `Libc`.  With
  `α := F32` (defined after the model) the arithmetic is that of IEEE 754 binary32, every
  operation rounded: this is the program.  With `α` a linearly ordered commutative ring the
  arithmetic is exact; what does not depend on rounding (the control flow, the point store,
  the nodes, the regions, the bookkeeping of the result buffers) is proved for every such
  `α`, and the answers of the queries are proved for `F32` on the inputs on which no
  operation rounds, by comparing the run in `F32` with the run on the integers.
* A `float *` is the list of the floats stored from that address on; `p[i]` is `idx p i`.
* A `struct Node *` is a `Node α`, `Node.NULL` being the null pointer; a `struct Region *`
  that may be null is an `Option (Region α)`.
* `malloc` and `realloc` always succeed, so the `ok` flags of the C code are always 1 and
  are not represented.  `free` is not represented either: a pointer into a freed block keeps
  the contents the block had.
* Dereferencing a null pointer or reading the point store outside its bounds is a `Fault`.
* The global `Region_dim` is assigned `tree->dim` by every entry point before it is used;
  it is passed explicitly.  The global `DataPoint_current_dim` is the first argument of
  `compare`.
* Recursions that are not structural carry a fuel argument in a `.go` function; the
  function with the C name supplies enough fuel (this is proved below).
-/

namespace KDTrees

/-- Undefined behaviour the embedding can run into. -/
inductive Fault where
  | nullDeref
  | outOfBounds
  | outOfFuel
  deriving DecidableEq, Repr

deriving instance DecidableEq for Except

/-- A computation of the C module: a value, or a fault. -/
abbrev Run (σ : Type) := Except Fault σ

section Model

/-- `fabs` on the type of the floats. -/
class Fabs (α : Type) where
  fabs : α → α

/-- In an ordered ring `fabs` is the absolute value. -/
instance {α : Type} [LinearOrderedCommRing α] : Fabs α := ⟨fun x => |x|⟩

variable {α : Type} [Zero α] [One α] [Add α] [Sub α] [Mul α] [Neg α] [LT α] [LE α]
  [DecidableRel (fun a b : α => a < b)] [DecidableRel (fun a b : α => a ≤ b)]
  [DecidableEq α] [OfNat α 1000000] [Fabs α]

/-- `#define INF 1000000` -/
def INF : α := 1000000

/-- Reading `p[i]` through a `float *`. Reads past the block read 0. -/
def idx (p : List α) (i : Nat) : α := p.getD i 0

/-- `struct DataPoint`: the original index and the pointer to the coordinates. -/
structure DataPoint (α : Type) where
  _index : Nat
  _coord : List α
  deriving DecidableEq, Repr

/-- `compare`, the `qsort` callback; the global `DataPoint_current_dim` is its first argument. -/
def compare (DataPoint_current_dim : Nat) (self other : DataPoint α) : Int :=
  let a := idx self._coord DataPoint_current_dim
  let b := idx other._coord DataPoint_current_dim
  if a < b then -1
  else if a > b then 1
  else 0

/-- What the module uses of the C library: `sqrt`, and `qsort` with its contract for the
callback `compare`: the result is a rearrangement of the input, in ascending order of the
callback. The order of elements that compare equal is left open, as in C. -/
structure Libc (α : Type) [Zero α] [LT α] [DecidableRel (fun a b : α => a < b)] where
  sqrt : α → α
  qsort : (DataPoint α → DataPoint α → Int) → List (DataPoint α) → List (DataPoint α)
  qsort_perm : ∀ (d : Nat) (l : List (DataPoint α)), (qsort (compare d) l).Perm l
  qsort_sorted : ∀ (d : Nat) (l : List (DataPoint α)),
    (qsort (compare d) l).Pairwise (fun p q => compare d p q ≤ 0)

/-- `DataPoint_sort(list, n, i)`: sorts the first `n` records found at `list` on axis `i`. -/
def DataPoint_sort (libc : Libc α) (list : List (DataPoint α)) (n : Nat) (i : Nat) :
    List (DataPoint α) :=
  libc.qsort (compare i) (list.take n) ++ list.drop n

/-- `struct Neighbor` (the `next` link is the list structure). -/
structure Neighbor (α : Type) where
  index1 : Nat
  index2 : Nat
  radius : α
  deriving DecidableEq, Repr

/-- `struct Node *`: the null pointer or a node with its two child pointers. -/
inductive Node (α : Type) where
  | NULL : Node α
  | mk (_left _right : Node α) (_cut_value : α) (_cut_dim : Nat) (_start _end : Nat) : Node α
  deriving DecidableEq, Repr

/-- `Node_create`. -/
def Node_create (cut_value : α) (cut_dim : Nat) (start end_ : Nat) : Node α :=
  Node.mk Node.NULL Node.NULL cut_value cut_dim start end_

/-- Whether a node pointer is null (`node==NULL`). -/
def Node.isNull : Node α → Bool
  | Node.NULL => true
  | Node.mk _ _ _ _ _ _ => false

/-- `Node_is_leaf`: dereferences `node`. -/
def Node_is_leaf : Node α → Run Bool
  | Node.NULL => Except.error Fault.nullDeref
  | Node.mk l r _ _ _ _ => Except.ok (l.isNull && r.isNull)

/-- Number of levels below a node pointer; used only to supply fuel. -/
def Node.height : Node α → Nat
  | Node.NULL => 0
  | Node.mk l r _ _ _ _ => max l.height r.height + 1

/-- `struct Region`. -/
structure Region (α : Type) where
  _left : List α
  _right : List α
  deriving DecidableEq, Repr

/-- `Region_create(left, right)`: a new region of `Region_dim` bounds, copied from the
arguments, or `[-INF, INF]` on every axis when one of them is null. -/
def Region_create (Region_dim : Nat) (left right : Option (List α)) : Region α :=
  match left, right with
  | some left, some right =>
    { _left := (List.range Region_dim).map (fun i => idx left i),
      _right := (List.range Region_dim).map (fun i => idx right i) }
  | _, _ =>
    { _left := (List.range Region_dim).map (fun _ => -INF),
      _right := (List.range Region_dim).map (fun _ => INF) }

/-- `Region_encloses`. -/
def Region_encloses (Region_dim : Nat) (region : Region α) (coord : List α) : Bool :=
  (List.range Region_dim).all
    (fun i => decide (idx coord i ≥ idx region._left i ∧ idx coord i ≤ idx region._right i))

/-- `Region_test_intersect_left`. -/
def Region_test_intersect_left (region : Region α) (split_coord : α) (current_dim : Nat) : Int :=
  let r := idx region._right current_dim
  let l := idx region._left current_dim
  if split_coord < l then -1
  else if split_coord < r then 0
  else 1

/-- `Region_test_intersect_right`. -/
def Region_test_intersect_right (region : Region α) (split_coord : α) (current_dim : Nat) : Int :=
  let r := idx region._right current_dim
  let l := idx region._left current_dim
  if split_coord ≤ l then -1
  else if split_coord ≤ r then 0
  else 1

/-- The loop of `Region_test_intersection` over the remaining axes, with the current `status`. -/
def Region_test_intersection.loop (this_region query_region : Region α) (radius : α) :
    List Nat → Nat → Nat
  | [], status => status
  | i :: rest, status =>
    let rs := idx this_region._right i
    let ls := idx this_region._left i
    let rq := idx query_region._right i
    let lq := idx query_region._left i
    if ls - rq > radius then 0
    else if lq - rs > radius then 0
    else if rs ≤ rq ∧ ls ≥ lq then
      Region_test_intersection.loop this_region query_region radius rest
        (if status > 2 then 2 else status)
    else Region_test_intersection.loop this_region query_region radius rest 1

/-- `Region_test_intersection`: 0 outside, 1 overlap, 2 inside. -/
def Region_test_intersection (Region_dim : Nat) (this_region query_region : Region α)
    (radius : α) : Nat :=
  Region_test_intersection.loop this_region query_region radius (List.range Region_dim) 2

/-- `Region_create_intersect_left`: returns the new region and the argument region as the
call leaves it (the bound written for the copy is written back). -/
def Region_create_intersect_left (Region_dim : Nat) (region : Region α) (split_coord : α)
    (current_dim : Nat) : Region α × Region α :=
  let value := idx region._right current_dim
  let region1 : Region α := { region with _right := region._right.set current_dim split_coord }
  let p := Region_create Region_dim (some region1._left) (some region1._right)
  let region2 : Region α := { region1 with _right := region1._right.set current_dim value }
  (p, region2)

/-- `Region_create_intersect_right`: as `Region_create_intersect_left`, on the left bound. -/
def Region_create_intersect_right (Region_dim : Nat) (region : Region α) (split_coord : α)
    (current_dim : Nat) : Region α × Region α :=
  let value := idx region._left current_dim
  let region1 : Region α := { region with _left := region._left.set current_dim split_coord }
  let p := Region_create Region_dim (some region1._left) (some region1._right)
  let region2 : Region α := { region1 with _left := region1._left.set current_dim value }
  (p, region2)

/-- `struct Radius`. -/
structure Radius (α : Type) where
  index : Nat
  value : α
  deriving DecidableEq, Repr

/-- `struct KDTree`. `_data_point_list_size` is the length of `_data_point_list`. -/
structure KDTree (α : Type) where
  _data_point_list : List (DataPoint α)
  _radius_list : List (Radius α)
  _neighbor_list : List (Neighbor α)
  _root : Node α
  _query_region : Option (Region α)
  _count : Nat
  _neighbor_count : Nat
  _radius : α
  _radius_sq : α
  _neighbor_radius : α
  _neighbor_radius_sq : α
  _center_coord : List α
  _coords : List α
  _bucket_size : Nat
  dim : Nat
  deriving DecidableEq, Repr

/-- `KDTree_dist`: the square of the distance between two points. -/
def KDTree_dist (coord1 coord2 : List α) (dim : Nat) : α :=
  (List.range dim).foldl
    (fun sum i => sum + (idx coord1 i - idx coord2 i) * (idx coord1 i - idx coord2 i)) 0

/-- `KDTree_report_point`. The entry is written at position `_count`, which is the length
of `_radius_list` (the two are only ever changed together). -/
def KDTree_report_point (libc : Libc α) (tree : KDTree α) (index : Nat) (coord : List α) :
    KDTree α :=
  let r := KDTree_dist tree._center_coord coord tree.dim
  if r ≤ tree._radius_sq then
    { tree with
      _radius_list := tree._radius_list ++ [{ index := index, value := libc.sqrt r }],
      _count := tree._count + 1 }
  else tree

/-- `KDTree_test_neighbors`. The entry is written at position `_neighbor_count`, which is
the length of `_neighbor_list`. -/
def KDTree_test_neighbors (libc : Libc α) (tree : KDTree α) (p1 p2 : DataPoint α) : KDTree α :=
  let r := KDTree_dist p1._coord p2._coord tree.dim
  if r ≤ tree._neighbor_radius_sq then
    { tree with
      _neighbor_list := tree._neighbor_list ++
        [{ index1 := p1._index, index2 := p2._index, radius := libc.sqrt r }],
      _neighbor_count := tree._neighbor_count + 1 }
  else tree

/-- Reading `tree->_data_point_list[i]`. -/
def KDTree.point (tree : KDTree α) (i : Nat) : Run (DataPoint α) :=
  match tree._data_point_list.get? i with
  | some p => Except.ok p
  | none => Except.error Fault.outOfBounds

/-- The loop `for (i = lo; i < hi; i++) body`. -/
def forRange {σ : Type} (lo hi : Nat) (body : Nat → σ → Run σ) (s : σ) : Run σ :=
  (List.range' lo (hi - lo)).foldlM (fun s i => body i s) s

/-- `KDTree_search_neighbors_in_bucket`. -/
def KDTree_search_neighbors_in_bucket (libc : Libc α) (tree : KDTree α) :
    Node α → Run (KDTree α)
  | Node.NULL => Except.error Fault.nullDeref
  | Node.mk _ _ _ _ _start _end =>
    forRange _start _end (fun i tree => do
      let p1 ← tree.point i
      forRange (i + 1) _end (fun j tree => do
        let p2 ← tree.point j
        pure (KDTree_test_neighbors libc tree p1 p2)) tree) tree

/-- `KDTree_search_neighbors_between_buckets`. -/
def KDTree_search_neighbors_between_buckets (libc : Libc α) (tree : KDTree α) :
    Node α → Node α → Run (KDTree α)
  | Node.mk _ _ _ _ start1 end1, Node.mk _ _ _ _ start2 end2 =>
    forRange start1 end1 (fun i tree => do
      let p1 ← tree.point i
      forRange start2 end2 (fun j tree => do
        let p2 ← tree.point j
        pure (KDTree_test_neighbors libc tree p1 p2)) tree) tree
  | _, _ => Except.error Fault.nullDeref

/-- The left child region as KDTree_search, KDTree__neighbor_search and
KDTree_neighbor_search_pairs all form it: a copy when `Region_test_intersect_left` is 1, the
clipped region when it is 0, null when it is -1. -/
def left_child_region (Region_dim : Nat) (region : Region α) (cut_value : α) (localdim : Nat) :
    Option (Region α) :=
  let intersect := Region_test_intersect_left region cut_value localdim
  if intersect = 1 then
    some (Region_create Region_dim (some region._left) (some region._right))
  else if intersect = 0 then
    some (Region_create_intersect_left Region_dim region cut_value localdim).1
  else none

/-- The right child region as the three traversals form it: a copy when
`Region_test_intersect_right` is -1, the clipped region when it is 0, null when it is +1. -/
def right_child_region (Region_dim : Nat) (region : Region α) (cut_value : α) (localdim : Nat) :
    Option (Region α) :=
  let intersect := Region_test_intersect_right region cut_value localdim
  if intersect = -1 then
    some (Region_create Region_dim (some region._left) (some region._right))
  else if intersect = 0 then
    some (Region_create_intersect_right Region_dim region cut_value localdim).1
  else none

/-- The block of `KDTree_neighbor_search_pairs` that prepares one of its two sides: the
left node and region and the right node and region to recurse on. For a leaf these are the
node itself with a copy of its region, and null; otherwise the two children with their
child regions. -/
def pairs_children (Region_dim : Nat) (node : Node α) (region : Region α) (localdim : Nat) :
    Node α × Option (Region α) × Node α × Option (Region α) :=
  match node with
  | Node.NULL => (Node.NULL, none, Node.NULL, none)
  | Node.mk l r cut_value _ _ _ =>
    if l.isNull && r.isNull then
      (node, some (Region_create Region_dim (some region._left) (some region._right)),
        Node.NULL, none)
    else
      (l, left_child_region Region_dim region cut_value localdim,
        r, right_child_region Region_dim region cut_value localdim)

/-- `KDTree_neighbor_search_pairs` with fuel. -/
def KDTree_neighbor_search_pairs.go (libc : Libc α) :
    Nat → KDTree α → Node α → Option (Region α) → Node α → Option (Region α) → Nat →
      Run (KDTree α)
  | 0, _, _, _, _, _, _ => Except.error Fault.outOfFuel
  | fuel + 1, tree, down, down_region, up, up_region, depth =>
    match down, down_region, up, up_region with
    | Node.mk down_l down_r _ _ _ _, some down_reg, Node.mk up_l up_r _ _ _ _, some up_reg =>
      if Region_test_intersection tree.dim down_reg up_reg tree._neighbor_radius = 0 then
        pure tree
      else
        let localdim := depth % tree.dim
        let up_is_leaf := up_l.isNull && up_r.isNull
        let down_is_leaf := down_l.isNull && down_r.isNull
        if up_is_leaf && down_is_leaf then
          KDTree_search_neighbors_between_buckets libc tree down up
        else
          let d := pairs_children tree.dim down down_reg localdim
          let u := pairs_children tree.dim up up_reg localdim
          do
            let tree ← KDTree_neighbor_search_pairs.go libc fuel tree
              u.1 u.2.1 d.1 d.2.1 (depth + 1)
            let tree ← KDTree_neighbor_search_pairs.go libc fuel tree
              u.1 u.2.1 d.2.2.1 d.2.2.2 (depth + 1)
            let tree ← KDTree_neighbor_search_pairs.go libc fuel tree
              u.2.2.1 u.2.2.2 d.1 d.2.1 (depth + 1)
            KDTree_neighbor_search_pairs.go libc fuel tree
              u.2.2.1 u.2.2.2 d.2.2.1 d.2.2.2 (depth + 1)
    | _, _, _, _ => pure tree

/-- `KDTree_neighbor_search_pairs`. -/
def KDTree_neighbor_search_pairs (libc : Libc α) (tree : KDTree α) (down : Node α)
    (down_region : Option (Region α)) (up : Node α) (up_region : Option (Region α))
    (depth : Nat) : Run (KDTree α) :=
  KDTree_neighbor_search_pairs.go libc (down.height + up.height + 1) tree
    down down_region up up_region depth

/-- `KDTree__neighbor_search`. Both `node` and `region` are dereferenced. -/
def KDTree__neighbor_search (libc : Libc α) :
    KDTree α → Node α → Option (Region α) → Nat → Run (KDTree α)
  | _, Node.NULL, _, _ => Except.error Fault.nullDeref
  | _, Node.mk _ _ _ _ _ _, none, _ => Except.error Fault.nullDeref
  | tree, Node.mk left right cut_value _ _ _, some region, depth => do
    let localdim := depth % tree.dim
    let left_region := left_child_region tree.dim region cut_value localdim
    let right_region := right_child_region tree.dim region cut_value localdim
    let left_is_leaf ← Node_is_leaf left
    let tree ←
      if !left_is_leaf then KDTree__neighbor_search libc tree left left_region (depth + 1)
      else KDTree_search_neighbors_in_bucket libc tree left
    let right_is_leaf ← Node_is_leaf right
    let tree ←
      if !right_is_leaf then KDTree__neighbor_search libc tree right right_region (depth + 1)
      else KDTree_search_neighbors_in_bucket libc tree right
    KDTree_neighbor_search_pairs libc tree left left_region right right_region (depth + 1)

/-- `KDTree_neighbor_search`: returns the tree and the linked list `*neighbors`, which is
built by pushing the entries of `_neighbor_list` in turn onto its head. -/
def KDTree_neighbor_search (libc : Libc α) (tree : KDTree α) (neighbor_radius : α) :
    Run (KDTree α × List (Neighbor α)) := do
  let tree : KDTree α := { tree with
    _neighbor_list := [],
    _neighbor_count := 0,
    _neighbor_radius := neighbor_radius,
    _neighbor_radius_sq := neighbor_radius * neighbor_radius }
  let root_is_leaf ← Node_is_leaf tree._root
  let tree ←
    if root_is_leaf then KDTree_search_neighbors_in_bucket libc tree tree._root
    else KDTree__neighbor_search libc tree tree._root (some (Region_create tree.dim none none)) 0
  let neighbors := (tree._neighbor_list.take tree._neighbor_count).foldl
    (fun neighbors neighbor => neighbor :: neighbors) []
  pure (tree, neighbors)

/-- The inner loop of `KDTree_neighbor_simple_search` over the remaining positions `j`; it
stops at the first `j` with `fabs(x2-x1) > radius`. -/
def KDTree_neighbor_simple_search.inner (libc : Libc α) (radius : α) (p1 : DataPoint α)
    (x1 : α) : List Nat → KDTree α → Run (KDTree α)
  | [], tree => pure tree
  | j :: rest, tree => do
    let p2 ← tree.point j
    let x2 := idx p2._coord 0
    if Fabs.fabs (x2 - x1) ≤ radius then
      KDTree_neighbor_simple_search.inner libc radius p1 x1 rest
        (KDTree_test_neighbors libc tree p1 p2)
    else pure tree

/-- `KDTree_neighbor_simple_search`. -/
def KDTree_neighbor_simple_search (libc : Libc α) (tree : KDTree α) (radius : α) :
    Run (KDTree α × List (Neighbor α)) := do
  let tree : KDTree α := { tree with
    _neighbor_radius := radius,
    _neighbor_radius_sq := radius * radius,
    _neighbor_count := 0,
    _neighbor_list := [] }
  let tree : KDTree α := { tree with
    _data_point_list :=
      DataPoint_sort libc tree._data_point_list tree._data_point_list.length 0 }
  let size := tree._data_point_list.length
  let tree ← forRange 0 size (fun i tree => do
    let p1 ← tree.point i
    let x1 := idx p1._coord 0
    KDTree_neighbor_simple_search.inner libc radius p1 x1
      (List.range' (i + 1) (size - (i + 1))) tree) tree
  let neighbors := (tree._neighbor_list.take tree._neighbor_count).foldl
    (fun neighbors neighbor => neighbor :: neighbors) []
  pure (tree, neighbors)

/-- `KDTree_add_point`. -/
def KDTree_add_point (tree : KDTree α) (index : Nat) (coord : List α) : KDTree α :=
  { tree with _data_point_list := tree._data_point_list ++ [{ _index := index, _coord := coord }] }

/-- `KDTree_build_tree` with fuel; returns the node and the tree with its reordered store. -/
def KDTree_build_tree.go (libc : Libc α) :
    Nat → KDTree α → Nat → Nat → Nat → Run (Node α × KDTree α)
  | 0, _, _, _, _ => Except.error Fault.outOfFuel
  | fuel + 1, tree, offset_begin, offset_end, depth =>
    let offset_begin := if depth = 0 then 0 else offset_begin
    let offset_end := if depth = 0 then tree._data_point_list.length else offset_end
    let localdim := if depth = 0 then 0 else depth % tree.dim
    if offset_end - offset_begin ≤ tree._bucket_size then
      pure (Node_create (-1) localdim offset_begin offset_end, tree)
    else do
      let tree : KDTree α := { tree with
        _data_point_list := tree._data_point_list.take offset_begin ++
          DataPoint_sort libc (tree._data_point_list.drop offset_begin)
            (offset_end - offset_begin) localdim }
      let d := offset_end - offset_begin
      let offset_split := d / 2 + d % 2
      let data_point ← tree.point (offset_begin + offset_split - 1)
      let cut_value := idx data_point._coord localdim
      let left ← KDTree_build_tree.go libc fuel tree
        offset_begin (offset_begin + offset_split) (depth + 1)
      let right ← KDTree_build_tree.go libc fuel left.2
        (offset_begin + offset_split) offset_end (depth + 1)
      pure (Node.mk left.1 right.1 cut_value localdim offset_begin offset_end, right.2)

/-- `KDTree_build_tree`. A range of more than `_bucket_size >= 1` points is split into two
shorter ones, so one unit of fuel per point (and one for the leaf) is enough. -/
def KDTree_build_tree (libc : Libc α) (tree : KDTree α) (offset_begin offset_end depth : Nat) :
    Run (Node α × KDTree α) :=
  KDTree_build_tree.go libc (tree._data_point_list.length + 1) tree offset_begin offset_end depth

/-- `KDTree_report_subtree`. -/
def KDTree_report_subtree (libc : Libc α) : KDTree α → Node α → Run (KDTree α)
  | _, Node.NULL => Except.error Fault.nullDeref
  | tree, Node.mk left right _ _ _start _end =>
    if left.isNull && right.isNull then
      forRange _start _end (fun i tree => do
        let data_point ← tree.point i
        pure (KDTree_report_point libc tree data_point._index data_point._coord)) tree
    else do
      let tree ← KDTree_report_subtree libc tree left
      KDTree_report_subtree libc tree right

/-- Dereferencing a region pointer. -/
def Region.deref : Option (Region α) → Run (Region α)
  | some region => Except.ok region
  | none => Except.error Fault.nullDeref

mutual
/-- `KDTree_test_region` with fuel. -/
def KDTree_test_region.go (libc : Libc α) :
    Nat → KDTree α → Node α → Region α → Nat → Run (KDTree α)
  | 0, _, _, _, _ => Except.error Fault.outOfFuel
  | fuel + 1, tree, node, region, depth => do
    let query_region ← Region.deref tree._query_region
    let intersect_flag := Region_test_intersection tree.dim region query_region 0
    if intersect_flag = 2 then KDTree_report_subtree libc tree node
    else if intersect_flag = 1 then KDTree_search.go libc fuel tree (some region) node (depth + 1)
    else pure tree
/-- `KDTree_search` with fuel. -/
def KDTree_search.go (libc : Libc α) :
    Nat → KDTree α → Option (Region α) → Node α → Nat → Run (KDTree α)
  | 0, _, _, _, _ => Except.error Fault.outOfFuel
  | fuel + 1, tree, region, node, depth =>
    let region := if depth = 0 then some (Region_create tree.dim none none) else region
    let node := if depth = 0 then tree._root else node
    let current_dim := depth % tree.dim
    match node with
    | Node.NULL => Except.error Fault.nullDeref
    | Node.mk left_node right_node _cut_value _ _start _end =>
      if left_node.isNull && right_node.isNull then
        forRange _start _end (fun i tree => do
          let data_point ← tree.point i
          let query_region ← Region.deref tree._query_region
          if Region_encloses tree.dim query_region data_point._coord then
            pure (KDTree_report_point libc tree data_point._index data_point._coord)
          else pure tree) tree
      else do
        let region ← Region.deref region
        let tree ←
          match left_child_region tree.dim region _cut_value current_dim with
          | some left_region => KDTree_test_region.go libc fuel tree left_node left_region depth
          | none => pure tree
        match right_child_region tree.dim region _cut_value current_dim with
        | some right_region => KDTree_test_region.go libc fuel tree right_node right_region depth
        | none => pure tree
end

/-- `KDTree_test_region`. -/
def KDTree_test_region (libc : Libc α) (tree : KDTree α) (node : Node α) (region : Region α)
    (depth : Nat) : Run (KDTree α) :=
  KDTree_test_region.go libc (2 * node.height + 2) tree node region depth

/-- `KDTree_search`. At depth 0 the search starts from the root, whatever `node` is. -/
def KDTree_search (libc : Libc α) (tree : KDTree α) (region : Option (Region α)) (node : Node α)
    (depth : Nat) : Run (KDTree α) :=
  KDTree_search.go libc (2 * (if depth = 0 then tree._root else node).height + 2)
    tree region node depth

/-! ### The Python interface -/

/-- The Python exceptions the module raises. -/
inductive PyErr where
  | ValueError
  | RuntimeError
  | MemoryError
  deriving DecidableEq, Repr

/-- The outcome of a method call: the tree as the call leaves it with the returned value,
or with the exception raised, or a fault of the C code. -/
inductive PyRet (α ρ : Type) where
  | ok (tree : KDTree α) (value : ρ)
  | raise (tree : KDTree α) (exc : PyErr)
  | fault (f : Fault)
  deriving DecidableEq, Repr

/-- The `Py_buffer` view of an argument: its rank, shape and format string, and its
elements in row-major order, each already converted to `float` as `COPY2DARRAY` and
`COPY1DARRAY` do (the strides are not represented). -/
structure Py_buffer (α : Type) where
  ndim : Nat
  shape : List Nat
  format : List Char
  buf : List α
  deriving DecidableEq, Repr

/-- The format character after an optional byte-order mark, as every method computes it. -/
def Py_buffer.datatype (view : Py_buffer α) : Char :=
  let datatype := view.format.getD 0 (Char.ofNat 0)
  if datatype = '@' ∨ datatype = '=' ∨ datatype = '<' ∨ datatype = '>' ∨ datatype = '!' then
    view.format.getD 1 (Char.ofNat 0)
  else datatype

/-- The element types `COPY2DARRAY` and `COPY1DARRAY` are instantiated for. -/
def numerical (datatype : Char) : Bool :=
  datatype = 'd' || datatype = 'f' || datatype = 'i' || datatype = 'I' ||
    datatype = 'l' || datatype = 'L'

/-- `COPY2DARRAY`: the `n*m` floats copied from a two-dimensional view, row after row. -/
def COPY2DARRAY (view : Py_buffer α) (n m : Nat) : List α :=
  (List.range (n * m)).map (fun k => idx view.buf k)

/-- `COPY1DARRAY`: the `n` floats copied from a one-dimensional view. -/
def COPY1DARRAY (view : Py_buffer α) (n : Nat) : List α :=
  (List.range n).map (fun i => idx view.buf i)

/-- The memory of a newly allocated `PyTree` object, all zero. -/
def KDTree.zero : KDTree α :=
  { _data_point_list := [],
    _radius_list := [],
    _neighbor_list := [],
    _root := Node.NULL,
    _query_region := none,
    _count := 0,
    _neighbor_count := 0,
    _radius := 0,
    _radius_sq := 0,
    _neighbor_radius := 0,
    _neighbor_radius_sq := 0,
    _center_coord := [],
    _coords := [],
    _bucket_size := 0,
    dim := 0 }

/-- `PyTree_init` on the object `tree`. `_center_coord` becomes a fresh block of `dim`
floats. -/
def PyTree_init (tree : KDTree α) (dim bucket_size : Int) : PyRet α Unit :=
  if dim ≤ 0 ∨ bucket_size ≤ 0 then PyRet.raise tree PyErr.ValueError
  else PyRet.ok
    { tree with
      dim := dim.toNat,
      _query_region := none,
      _root := Node.NULL,
      _coords := [],
      _radius_list := [],
      _count := 0,
      _neighbor_count := 0,
      _neighbor_list := [],
      _bucket_size := bucket_size.toNat,
      _data_point_list := [],
      _center_coord := List.replicate dim.toNat 0 } ()

/-- `PyTree_get_count`. -/
def PyTree_get_count (tree : KDTree α) : Nat := tree._count

/-- `PyTree_neighbor_get_count`. -/
def PyTree_neighbor_get_count (tree : KDTree α) : Nat := tree._neighbor_count

/-- `PyTree_set_data`. -/
def PyTree_set_data (libc : Libc α) (tree : KDTree α) (view : Py_buffer α) : PyRet α Unit :=
  if view.ndim ≠ 2 then PyRet.raise tree PyErr.RuntimeError
  else
    let n := view.shape.getD 0 0
    let m := view.shape.getD 1 0
    if !numerical view.datatype then PyRet.raise tree PyErr.RuntimeError
    else
      let coords := COPY2DARRAY view n m
      let tree : KDTree α := { tree with _radius_list := [], _count := 0, _coords := coords }
      let tree := (List.range n).foldl
        (fun tree i => KDTree_add_point tree i (coords.drop (i * tree.dim))) tree
      match KDTree_build_tree libc tree 0 0 0 with
      | Except.ok built => PyRet.ok { built.2 with _root := built.1 } ()
      | Except.error f => PyRet.fault f

/-- `PyTree_search_center_radius`. -/
def PyTree_search_center_radius (libc : Libc α) (tree : KDTree α) (view : Py_buffer α)
    (radius : α) : PyRet α Unit :=
  if radius ≤ 0 then PyRet.raise tree PyErr.ValueError
  else if view.ndim ≠ 1 then PyRet.raise tree PyErr.RuntimeError
  else
    let n := view.shape.getD 0 0
    if !numerical view.datatype then PyRet.raise tree PyErr.RuntimeError
    else
      let coords := COPY1DARRAY view n
      let left := (List.range tree.dim).map (fun i => idx coords i - radius)
      let right := (List.range tree.dim).map (fun i => idx coords i + radius)
      let tree : KDTree α := { tree with
        _radius_list := [],
        _count := 0,
        _radius := radius,
        _radius_sq := radius * radius,
        _center_coord := (List.range tree.dim).map (fun i => idx coords i) ++
          tree._center_coord.drop tree.dim,
        _query_region := some (Region_create tree.dim (some left) (some right)) }
      match KDTree_search libc tree none Node.NULL 0 with
      | Except.ok tree => PyRet.ok tree ()
      | Except.error f => PyRet.fault f

/-- `PyTree_neighbor_search`: returns the Python list of the linked list of neighbors. -/
def PyTree_neighbor_search (libc : Libc α) (tree : KDTree α) (radius : α) :
    PyRet α (List (Neighbor α)) :=
  if radius ≤ 0 then PyRet.raise tree PyErr.ValueError
  else
    match KDTree_neighbor_search libc tree radius with
    | Except.ok r => PyRet.ok r.1 r.2
    | Except.error f => PyRet.fault f

/-- `PyTree_neighbor_simple_search`. -/
def PyTree_neighbor_simple_search (libc : Libc α) (tree : KDTree α) (radius : α) :
    PyRet α (List (Neighbor α)) :=
  if radius ≤ 0 then PyRet.raise tree PyErr.ValueError
  else
    match KDTree_neighbor_simple_search libc tree radius with
    | Except.ok r => PyRet.ok r.1 r.2
    | Except.error f => PyRet.fault f

/-- `PyTree_get_indices`: copies the indices of `_radius_list` into the array `view`.
`view.buf` is the memory of the array as the `Py_ssize_t *` the method writes through sees
it, and the value returned is that memory after the call. Writing past the array or reading
past `_radius_list` is a fault. -/
def PyTree_get_indices (tree : KDTree α) (view : Py_buffer Int) : PyRet α (List Int) :=
  if view.datatype ≠ 'l' then PyRet.raise tree PyErr.RuntimeError
  else if view.ndim ≠ 1 then PyRet.raise tree PyErr.ValueError
  else
    match forRange 0 tree._count (fun i (indices : List Int) =>
        match tree._radius_list.get? i with
        | some entry =>
          if i < indices.length then Except.ok (indices.set i (entry.index : Int))
          else Except.error Fault.outOfBounds
        | none => Except.error Fault.outOfBounds) view.buf with
    | Except.ok indices => PyRet.ok tree indices
    | Except.error f => PyRet.fault f

/-- `PyTree_get_radii`: copies the radii of `_radius_list` into the array `view`.
`view.buf` is the memory of the array as the `float *` the method writes through sees it,
and the value returned is that memory after the call. -/
def PyTree_get_radii (tree : KDTree α) (view : Py_buffer α) : PyRet α (List α) :=
  if view.datatype ≠ 'l' then PyRet.raise tree PyErr.RuntimeError
  else if view.ndim ≠ 1 then PyRet.raise tree PyErr.ValueError
  else
    match forRange 0 tree._count (fun i (radii : List α) =>
        match tree._radius_list.get? i with
        | some entry =>
          if i < radii.length then Except.ok (radii.set i entry.value)
          else Except.error Fault.outOfBounds
        | none => Except.error Fault.outOfBounds) view.buf with
    | Except.ok radii => PyRet.ok tree radii
    | Except.error f => PyRet.fault f

/-! ### Allocation failure in the pair queries

The functions above take every allocation to succeed. The functions of the namespace `Oom`
are the pair queries again, from the same source, with the outcome of every allocation
request given by a `Heap`; they return the `ok` flag of the C code with the tree. -/

/-- The outcomes of the allocation requests to come (`malloc`, `realloc`, `PyList_New`,
`tp_alloc`), in the order in which the code makes them: `false` is a request that returns
NULL. Requests past the end of the list succeed. -/
abbrev Heap := List Bool

/-- The next allocation request: its outcome and the outcomes to come. -/
def Heap.request : Heap → Bool × Heap
  | [] => (true, [])
  | outcome :: rest => (outcome, rest)

/-- A loop `for (i ...) { ok = body; if (!ok) return 0; } return 1;` over the indices of
the list. -/
def loopOk {σ : Type} (body : Nat → σ → Run (Bool × σ)) : List Nat → σ → Run (Bool × σ)
  | [], s => pure (true, s)
  | i :: rest, s => do
    let step ← body i s
    if step.1 then loopOk body rest step.2 else pure (false, step.2)

namespace Oom

/-- `Region_create`: NULL when the region cannot be allocated (the two arrays of bounds are
requested only when the struct was obtained, and then both are). -/
def Region_create (Region_dim : Nat) (left right : Option (List α)) (heap : Heap) :
    Option (Region α) × Heap :=
  let region := heap.request
  if !region.1 then (none, region.2)
  else
    let _left := region.2.request
    let _right := _left.2.request
    if !_left.1 || !_right.1 then (none, _right.2)
    else (some (KDTrees.Region_create Region_dim left right), _right.2)

/-- `Region_create_intersect_left`: the new region or NULL; the argument region is left as
it was. -/
def Region_create_intersect_left (Region_dim : Nat) (region : Region α) (split_coord : α)
    (current_dim : Nat) (heap : Heap) : Option (Region α) × Heap :=
  let region1 : Region α := { region with _right := region._right.set current_dim split_coord }
  Region_create Region_dim (some region1._left) (some region1._right) heap

/-- `Region_create_intersect_right`: the new region or NULL; the argument region is left as
it was. -/
def Region_create_intersect_right (Region_dim : Nat) (region : Region α) (split_coord : α)
    (current_dim : Nat) (heap : Heap) : Option (Region α) × Heap :=
  let region1 : Region α := { region with _left := region._left.set current_dim split_coord }
  Region_create Region_dim (some region1._left) (some region1._right) heap

/-- The left child region as the traversals form it, with the flag `ok`: it is 0 when a
region was requested and could not be allocated. -/
def left_child_region (Region_dim : Nat) (region : Region α) (cut_value : α) (localdim : Nat)
    (heap : Heap) : Option (Region α) × Bool × Heap :=
  let intersect := Region_test_intersect_left region cut_value localdim
  if intersect = 1 then
    let p := Region_create Region_dim (some region._left) (some region._right) heap
    (p.1, p.1.isSome, p.2)
  else if intersect = 0 then
    let p := Region_create_intersect_left Region_dim region cut_value localdim heap
    (p.1, p.1.isSome, p.2)
  else (none, true, heap)

/-- The right child region as the traversals form it, with the flag `ok`. -/
def right_child_region (Region_dim : Nat) (region : Region α) (cut_value : α) (localdim : Nat)
    (heap : Heap) : Option (Region α) × Bool × Heap :=
  let intersect := Region_test_intersect_right region cut_value localdim
  if intersect = -1 then
    let p := Region_create Region_dim (some region._left) (some region._right) heap
    (p.1, p.1.isSome, p.2)
  else if intersect = 0 then
    let p := Region_create_intersect_right Region_dim region cut_value localdim heap
    (p.1, p.1.isSome, p.2)
  else (none, true, heap)

/-- `KDTree_test_neighbors`: when `realloc` fails it returns 0 and leaves `_neighbor_list`
and `_neighbor_count` as they are. -/
def KDTree_test_neighbors (libc : Libc α) (tree : KDTree α) (p1 p2 : DataPoint α)
    (heap : Heap) : Bool × KDTree α × Heap :=
  let r := KDTree_dist p1._coord p2._coord tree.dim
  if r ≤ tree._neighbor_radius_sq then
    let p := heap.request
    if !p.1 then (false, tree, p.2)
    else
      (true,
        { tree with
          _neighbor_list := tree._neighbor_list ++
            [{ index1 := p1._index, index2 := p2._index, radius := libc.sqrt r }],
          _neighbor_count := tree._neighbor_count + 1 },
        p.2)
  else (true, tree, heap)

/-- `KDTree_search_neighbors_in_bucket`: returns 0 at the first `KDTree_test_neighbors`
that fails. -/
def KDTree_search_neighbors_in_bucket (libc : Libc α) (tree : KDTree α) (heap : Heap) :
    Node α → Run (Bool × KDTree α × Heap)
  | Node.NULL => Except.error Fault.nullDeref
  | Node.mk _ _ _ _ _start _end =>
    loopOk (fun i s => do
      let p1 ← s.1.point i
      loopOk (fun j s => do
        let p2 ← s.1.point j
        pure (KDTree_test_neighbors libc s.1 p1 p2 s.2))
        (List.range' (i + 1) (_end - (i + 1))) s)
      (List.range' _start (_end - _start)) (tree, heap)

/-- `KDTree_search_neighbors_between_buckets`: returns 0 at the first
`KDTree_test_neighbors` that fails. -/
def KDTree_search_neighbors_between_buckets (libc : Libc α) (tree : KDTree α) (heap : Heap) :
    Node α → Node α → Run (Bool × KDTree α × Heap)
  | Node.mk _ _ _ _ start1 end1, Node.mk _ _ _ _ start2 end2 =>
    loopOk (fun i s => do
      let p1 ← s.1.point i
      loopOk (fun j s => do
        let p2 ← s.1.point j
        pure (KDTree_test_neighbors libc s.1 p1 p2 s.2))
        (List.range' start2 (end2 - start2)) s)
      (List.range' start1 (end1 - start1)) (tree, heap)
  | _, _ => Except.error Fault.nullDeref

/-- The block of `KDTree_neighbor_search_pairs` that prepares one of its two sides, with
the flag `ok`: it is 0 when one of the regions requested could not be allocated (the second
region is requested also when the first could not be allocated). -/
def pairs_children (Region_dim : Nat) (node : Node α) (region : Region α) (localdim : Nat)
    (heap : Heap) : (Node α × Option (Region α) × Node α × Option (Region α)) × Bool × Heap :=
  match node with
  | Node.NULL => ((Node.NULL, none, Node.NULL, none), true, heap)
  | Node.mk l r cut_value _ _ _ =>
    if l.isNull && r.isNull then
      let p := Region_create Region_dim (some region._left) (some region._right) heap
      ((node, p.1, Node.NULL, none), p.1.isSome, p.2)
    else
      let left := left_child_region Region_dim region cut_value localdim heap
      let right := right_child_region Region_dim region cut_value localdim left.2.2
      ((l, left.1, r, right.1), left.2.1 && right.2.1, right.2.2)

/-- `KDTree_neighbor_search_pairs` with fuel. The `down` side is prepared before the `up`
side; each of the four recursive calls is made only while `ok` is 1. -/
def KDTree_neighbor_search_pairs.go (libc : Libc α) :
    Nat → KDTree α → Heap → Node α → Option (Region α) → Node α → Option (Region α) → Nat →
      Run (Bool × KDTree α × Heap)
  | 0, _, _, _, _, _, _, _ => Except.error Fault.outOfFuel
  | fuel + 1, tree, heap, down, down_region, up, up_region, depth =>
    match down, down_region, up, up_region with
    | Node.mk down_l down_r _ _ _ _, some down_reg, Node.mk up_l up_r _ _ _ _, some up_reg =>
      if Region_test_intersection tree.dim down_reg up_reg tree._neighbor_radius = 0 then
        pure (true, tree, heap)
      else
        let localdim := depth % tree.dim
        let up_is_leaf := up_l.isNull && up_r.isNull
        let down_is_leaf := down_l.isNull && down_r.isNull
        if up_is_leaf && down_is_leaf then
          KDTree_search_neighbors_between_buckets libc tree heap down up
        else
          let d := pairs_children tree.dim down down_reg localdim heap
          let u := pairs_children tree.dim up up_reg localdim d.2.2
          if !(d.2.1 && u.2.1) then pure (false, tree, u.2.2)
          else do
            let s ← KDTree_neighbor_search_pairs.go libc fuel tree u.2.2
              u.1.1 u.1.2.1 d.1.1 d.1.2.1 (depth + 1)
            if !s.1 then pure s
            else do
              let s ← KDTree_neighbor_search_pairs.go libc fuel s.2.1 s.2.2
                u.1.1 u.1.2.1 d.1.2.2.1 d.1.2.2.2 (depth + 1)
              if !s.1 then pure s
              else do
                let s ← KDTree_neighbor_search_pairs.go libc fuel s.2.1 s.2.2
                  u.1.2.2.1 u.1.2.2.2 d.1.1 d.1.2.1 (depth + 1)
                if !s.1 then pure s
                else
                  KDTree_neighbor_search_pairs.go libc fuel s.2.1 s.2.2
                    u.1.2.2.1 u.1.2.2.2 d.1.2.2.1 d.1.2.2.2 (depth + 1)
    | _, _, _, _ => pure (true, tree, heap)

/-- `KDTree_neighbor_search_pairs`. -/
def KDTree_neighbor_search_pairs (libc : Libc α) (tree : KDTree α) (heap : Heap)
    (down : Node α) (down_region : Option (Region α)) (up : Node α)
    (up_region : Option (Region α)) (depth : Nat) : Run (Bool × KDTree α × Heap) :=
  KDTree_neighbor_search_pairs.go libc (down.height + up.height + 1) tree heap
    down down_region up up_region depth

/-- `KDTree__neighbor_search`. The two child regions are requested first, the right one
also when the left one could not be allocated; the three steps that follow are made only
while `ok` is 1. -/
def KDTree__neighbor_search (libc : Libc α) :
    KDTree α → Heap → Node α → Option (Region α) → Nat → Run (Bool × KDTree α × Heap)
  | _, _, Node.NULL, _, _ => Except.error Fault.nullDeref
  | _, _, Node.mk _ _ _ _ _ _, none, _ => Except.error Fault.nullDeref
  | tree, heap, Node.mk left right cut_value _ _ _, some region, depth =>
    let localdim := depth % tree.dim
    let left_region := left_child_region tree.dim region cut_value localdim heap
    let right_region := right_child_region tree.dim region cut_value localdim left_region.2.2
    if !(left_region.2.1 && right_region.2.1) then pure (false, tree, right_region.2.2)
    else do
      let left_is_leaf ← Node_is_leaf left
      let s ←
        if !left_is_leaf then
          KDTree__neighbor_search libc tree right_region.2.2 left left_region.1 (depth + 1)
        else KDTree_search_neighbors_in_bucket libc tree right_region.2.2 left
      if !s.1 then pure s
      else do
        let right_is_leaf ← Node_is_leaf right
        let s ←
          if !right_is_leaf then
            KDTree__neighbor_search libc s.2.1 s.2.2 right right_region.1 (depth + 1)
          else KDTree_search_neighbors_in_bucket libc s.2.1 s.2.2 right
        if !s.1 then pure s
        else
          KDTree_neighbor_search_pairs libc s.2.1 s.2.2 left left_region.1 right right_region.1
            (depth + 1)

/-- The loop that copies the entries of `_neighbor_list` into a linked list, one `malloc`
per entry: NULL-terminated list built so far, or `none` when a `malloc` failed (the nodes
allocated so far are then freed). -/
def copyNeighbors : List (Neighbor α) → List (Neighbor α) → Heap →
    Option (List (Neighbor α)) × Heap
  | [], neighbors, heap => (some neighbors, heap)
  | entry :: rest, neighbors, heap =>
    let neighbor := heap.request
    if !neighbor.1 then (none, neighbor.2)
    else copyNeighbors rest (entry :: neighbors) neighbor.2

/-- `KDTree_neighbor_search`: the flag `ok`, the tree, the linked list `*neighbors` (empty
when `ok` is 0) and the allocation outcomes to come. -/
def KDTree_neighbor_search (libc : Libc α) (tree : KDTree α) (neighbor_radius : α)
    (heap : Heap) : Run (Bool × KDTree α × List (Neighbor α) × Heap) := do
  let tree : KDTree α := { tree with
    _neighbor_list := [],
    _neighbor_count := 0,
    _neighbor_radius := neighbor_radius,
    _neighbor_radius_sq := neighbor_radius * neighbor_radius }
  let root_is_leaf ← Node_is_leaf tree._root
  let s ←
    if root_is_leaf then KDTree_search_neighbors_in_bucket libc tree heap tree._root
    else
      let region := Region_create tree.dim none none heap
      match region.1 with
      | none => pure (false, tree, region.2)
      | some region1 => KDTree__neighbor_search libc tree region.2 tree._root (some region1) 0
  if !s.1 then pure (false, s.2.1, [], s.2.2)
  else
    let neighbors := copyNeighbors (s.2.1._neighbor_list.take s.2.1._neighbor_count) [] s.2.2
    match neighbors.1 with
    | none => pure (false, s.2.1, [], neighbors.2)
    | some list => pure (true, s.2.1, list, neighbors.2)

/-- The inner loop of `KDTree_neighbor_simple_search` over the remaining positions `j`,
with the variable `ok` of the function: the loop is left at the first
`KDTree_test_neighbors` that fails, and at the first `j` with `fabs(x2-x1) > radius`. -/
def KDTree_neighbor_simple_search.inner (libc : Libc α) (radius : α) (p1 : DataPoint α)
    (x1 : α) : List Nat → Bool × KDTree α × Heap → Run (Bool × KDTree α × Heap)
  | [], s => pure s
  | j :: rest, s => do
    let p2 ← s.2.1.point j
    let x2 := idx p2._coord 0
    if Fabs.fabs (x2 - x1) ≤ radius then
      let step := KDTree_test_neighbors libc s.2.1 p1 p2 s.2.2
      if !step.1 then pure step
      else KDTree_neighbor_simple_search.inner libc radius p1 x1 rest step
    else pure s

/-- `KDTree_neighbor_simple_search`. The variable `ok` starts at 1 and holds the result of
the last `KDTree_test_neighbors`; a failure leaves the inner loop only, and `ok` is tested
after both loops. -/
def KDTree_neighbor_simple_search (libc : Libc α) (tree : KDTree α) (radius : α)
    (heap : Heap) : Run (Bool × KDTree α × List (Neighbor α) × Heap) := do
  let tree : KDTree α := { tree with
    _neighbor_radius := radius,
    _neighbor_radius_sq := radius * radius,
    _neighbor_count := 0,
    _neighbor_list := [] }
  let tree : KDTree α := { tree with
    _data_point_list :=
      DataPoint_sort libc tree._data_point_list tree._data_point_list.length 0 }
  let size := tree._data_point_list.length
  let s ← forRange 0 size (fun i (s : Bool × KDTree α × Heap) => do
    let p1 ← s.2.1.point i
    let x1 := idx p1._coord 0
    KDTree_neighbor_simple_search.inner libc radius p1 x1
      (List.range' (i + 1) (size - (i + 1))) s) (true, tree, heap)
  if !s.1 then pure (false, s.2.1, [], s.2.2)
  else
    let neighbors := copyNeighbors (s.2.1._neighbor_list.take s.2.1._neighbor_count) [] s.2.2
    match neighbors.1 with
    | none => pure (false, s.2.1, [], neighbors.2)
    | some list => pure (true, s.2.1, list, neighbors.2)

/-- The loop of `PyTree_neighbor_search` and `PyTree_neighbor_simple_search` that makes
one Python object per entry of the linked list, one `tp_alloc` each: whether all were
made. -/
def allocItems : Nat → Heap → Bool × Heap
  | 0, heap => (true, heap)
  | n + 1, heap =>
    let p := heap.request
    if !p.1 then (false, p.2) else allocItems n p.2

/-- The part of `PyTree_neighbor_search` and `PyTree_neighbor_simple_search` after the
search: `MemoryError` when the search returned 0, when `PyList_New` fails, and when a
`tp_alloc` fails; the list otherwise. -/
def returnNeighbors (s : Bool × KDTree α × List (Neighbor α) × Heap) :
    PyRet α (List (Neighbor α)) :=
  if !s.1 then PyRet.raise s.2.1 PyErr.MemoryError
  else
    let list := s.2.2.2.request
    if !list.1 then PyRet.raise s.2.1 PyErr.MemoryError
    else if !(allocItems s.2.2.1.length list.2).1 then PyRet.raise s.2.1 PyErr.MemoryError
    else PyRet.ok s.2.1 s.2.2.1

/-- `PyTree_neighbor_search`. -/
def PyTree_neighbor_search (libc : Libc α) (tree : KDTree α) (radius : α) (heap : Heap) :
    PyRet α (List (Neighbor α)) :=
  if radius ≤ 0 then PyRet.raise tree PyErr.ValueError
  else
    match KDTree_neighbor_search libc tree radius heap with
    | Except.ok s => returnNeighbors s
    | Except.error f => PyRet.fault f

/-- `PyTree_neighbor_simple_search`. -/
def PyTree_neighbor_simple_search (libc : Libc α) (tree : KDTree α) (radius : α)
    (heap : Heap) : PyRet α (List (Neighbor α)) :=
  if radius ≤ 0 then PyRet.raise tree PyErr.ValueError
  else
    match KDTree_neighbor_simple_search libc tree radius heap with
    | Except.ok s => returnNeighbors s
    | Except.error f => PyRet.fault f

end Oom

/-! ### Notions used to state the properties -/

/-- The elements at positions `[s, e)` of a list. -/
def slice {β : Type} (l : List β) (s e : Nat) : List β := (l.take e).drop s

/-- `node->_start` (0 for the null pointer). -/
def Node.start : Node α → Nat
  | Node.NULL => 0
  | Node.mk _ _ _ _ s _ => s

/-- `node->_end` (0 for the null pointer). -/
def Node.stop : Node α → Nat
  | Node.NULL => 0
  | Node.mk _ _ _ _ _ e => e

/-- The store records a subtree covers: the ranges of its leaves, from left to right. -/
def Node.pts (store : List (DataPoint α)) : Node α → List (DataPoint α)
  | Node.NULL => []
  | Node.mk l r _ _ s e =>
    if l.isNull && r.isNull then slice store s e else l.pts store ++ r.pts store

/-- A region has one bound per axis on each side. -/
def Region.WF (dim : Nat) (region : Region α) : Prop :=
  region._left.length = dim ∧ region._right.length = dim

/-- The point `p` lies in the box on each of the `dim` axes (both bounds inclusive). -/
def Encloses (dim : Nat) (region : Region α) (p : List α) : Prop :=
  ∀ i, i < dim → idx region._left i ≤ idx p i ∧ idx p i ≤ idx region._right i

/-- The invariant of a built subtree whose root is at depth `depth`, over the final store:
every node has a range inside the store; a node is a leaf or has two subtrees whose
ranges are non-empty and split its own range; and the points stored in the left range
are at most the cut value on axis `depth % dim`, those in the right range at least. -/
def Node.Inv (store : List (DataPoint α)) (dim : Nat) : Node α → Nat → Prop
  | Node.NULL, _ => False
  | Node.mk l r v _ s e, depth =>
    s ≤ e ∧ e ≤ store.length ∧
    ((l = Node.NULL ∧ r = Node.NULL) ∨
      (l.Inv store dim (depth + 1) ∧ r.Inv store dim (depth + 1) ∧
        l.start = s ∧ s < l.stop ∧ l.stop = r.start ∧ r.start < e ∧ r.stop = e ∧
        (∀ p ∈ slice store s l.stop, idx p._coord (depth % dim) ≤ v) ∧
        (∀ p ∈ slice store l.stop e, v ≤ idx p._coord (depth % dim))))

/-- The tree after `hits` have been appended to `_radius_list`. -/
def KDTree.addRadii (tree : KDTree α) (hits : List (Radius α)) : KDTree α :=
  { tree with _radius_list := tree._radius_list ++ hits, _count := tree._count + hits.length }

/-- The tree after `hits` have been appended to `_neighbor_list`. -/
def KDTree.addNeighbors (tree : KDTree α) (hits : List (Neighbor α)) : KDTree α :=
  { tree with
    _neighbor_list := tree._neighbor_list ++ hits,
    _neighbor_count := tree._neighbor_count + hits.length }

/-- What the point query owes for one record: its entry when it is within the radius. -/
def rhit (libc : Libc α) (tree : KDTree α) (p : DataPoint α) : List (Radius α) :=
  if KDTree_dist tree._center_coord p._coord tree.dim ≤ tree._radius_sq then
    [{ index := p._index, value := libc.sqrt (KDTree_dist tree._center_coord p._coord tree.dim) }]
  else []

/-- What a pair query owes for two records: their entry when they are within the radius. -/
def nhit (libc : Libc α) (tree : KDTree α) (p1 p2 : DataPoint α) : List (Neighbor α) :=
  if KDTree_dist p1._coord p2._coord tree.dim ≤ tree._neighbor_radius_sq then
    [{ index1 := p1._index, index2 := p2._index,
       radius := libc.sqrt (KDTree_dist p1._coord p2._coord tree.dim) }]
  else []

/-- The entries owed for the pairs with the first record in `A` and the second in `B`. -/
def crossL (libc : Libc α) (tree : KDTree α) (A B : List (DataPoint α)) : List (Neighbor α) :=
  A.flatMap (fun a => B.flatMap (fun b => nhit libc tree a b))

/-- The entries owed for the pairs of records of `L`, each pair taken once, the record
that comes first in `L` first. -/
def innerL (libc : Libc α) (tree : KDTree α) : List (DataPoint α) → List (Neighbor α)
  | [] => []
  | a :: rest => rest.flatMap (fun b => nhit libc tree a b) ++ innerL libc tree rest

/-- An entry of the neighbor list up to the order of its two indices: the unordered pair of
indices, and the radius. -/
def nkey (h : Neighbor α) : Sym2 Nat × α := (s(h.index1, h.index2), h.radius)

/-- The entries of a neighbor list as a multiset of unordered pairs with their radii. -/
def keys (hits : List (Neighbor α)) : Multiset (Sym2 Nat × α) :=
  Multiset.ofList (hits.map nkey)

/-- The query of the tree is the ball of radius `r >= 0` around `_center_coord`: `_radius_sq`
is `r*r` and `_query_region` is the box `Q` from `center - r` to `center + r`. -/
def QueryOK (tree : KDTree α) (Q : Region α) (r : α) : Prop :=
  0 ≤ r ∧ tree._radius_sq = r * r ∧ tree._query_region = some Q ∧
    ∀ i, i < tree.dim →
      idx Q._left i = idx tree._center_coord i - r ∧ idx Q._right i = idx tree._center_coord i + r

/-- The pair query of the tree has radius `_neighbor_radius >= 0` and `_neighbor_radius_sq`
is its square. -/
def NeighborOK (tree : KDTree α) : Prop :=
  0 ≤ tree._neighbor_radius ∧
    tree._neighbor_radius_sq = tree._neighbor_radius * tree._neighbor_radius

/-- A side of the dual descent at depth `depth`: the null pointer, or a subtree that
satisfies the invariant. -/
def SideOK (store : List (DataPoint α)) (dim : Nat) (node : Node α) (depth : Nat) : Prop :=
  node = Node.NULL ∨ node.Inv store dim depth

/-- The region that goes with a side of the dual descent accounts for its points: a present
region encloses them all, an absent one goes with no points. -/
def SideEncl (store : List (DataPoint α)) (dim : Nat) (node : Node α)
    (region : Option (Region α)) : Prop :=
  match region with
  | none => node.pts store = []
  | some R => R.WF dim ∧ ∀ p ∈ node.pts store, Encloses dim R p._coord

/-- What a step of the pair search run from the tree `t` achieves, against the multiset `M`
of entries owed: if it returns, it has appended entries that are among `M`; and under the
condition `C` it does return and has appended exactly `M`. -/
def PairSpec (res : Run (KDTree α)) (t : KDTree α) (M : Multiset (Sym2 Nat × α)) (C : Prop) :
    Prop :=
  (∀ t', res = Except.ok t' →
      ∃ hits, t' = t.addNeighbors hits ∧ keys hits ≤ M ∧ (C → keys hits = M)) ∧
    (C → ∃ t', res = Except.ok t')

/-- The point store right after `set_data` has added `n` points of `dim` coordinates from
the buffer `coords`: record `i` has index `i` and points at `coords + i*dim`. -/
def loaded (dim n : Nat) (coords : List α) : List (DataPoint α) :=
  (List.range n).map (fun i => { _index := i, _coord := coords.drop (i * dim) })

/-- The next call on the object after a call that returned normally; an exception or a
fault ends the session. -/
def PyRet.andThen {ρ σ : Type} (r : PyRet α ρ) (f : KDTree α → PyRet α σ) : PyRet α σ :=
  match r with
  | PyRet.ok tree _ => f tree
  | PyRet.raise tree exc => PyRet.raise tree exc
  | PyRet.fault x => PyRet.fault x

/-- The tree a call that returned normally leaves behind. -/
def PyRet.tree? {ρ : Type} : PyRet α ρ → Option (KDTree α)
  | PyRet.ok tree _ => some tree
  | _ => none

/-- The value a call returned. -/
def PyRet.value? {ρ : Type} : PyRet α ρ → Option ρ
  | PyRet.ok _ value => some value
  | _ => none

/-- The exception a call raised and the tree it leaves behind. -/
def PyRet.raised? {ρ : Type} : PyRet α ρ → Option (PyErr × KDTree α)
  | PyRet.raise tree exc => some (exc, tree)
  | _ => none

/-- The tree a call that returned, normally or with an exception, leaves behind. -/
def PyRet.state? {ρ : Type} : PyRet α ρ → Option (KDTree α)
  | PyRet.ok tree _ => some tree
  | PyRet.raise tree _ => some tree
  | PyRet.fault _ => none

/-- The tree a call leaves behind, also when it raised (the zeroed object after a fault). -/
def PyRet.finalTree {ρ : Type} : PyRet α ρ → KDTree α
  | PyRet.ok tree _ => tree
  | PyRet.raise tree _ => tree
  | PyRet.fault _ => KDTree.zero

/-- The point store and the nodes of `t'` are those of `t`. -/
def SameTree (t t' : KDTree α) : Prop :=
  t'._data_point_list = t._data_point_list ∧ t'._root = t._root

/-- A tree freshly initialised with `init(dim, bucket_size)` and loaded with
`set_data(points)`. -/
def loadedTree (libc : Libc α) (dim bucket_size : Int) (points : Py_buffer α) : PyRet α Unit :=
  (PyTree_init KDTree.zero dim bucket_size).andThen (fun tree => PyTree_set_data libc tree points)

/-- The squared distance between the point with original index `i` of the `n x dim` buffer
`coords` and the point `c`. -/
def dist2To (dim : Nat) (coords : List α) (c : List α) (i : Nat) : α :=
  KDTree_dist c (coords.drop (i * dim)) dim

/-- The squared distance between the points with original indices `i` and `j`. -/
def dist2 (dim : Nat) (coords : List α) (i j : Nat) : α :=
  KDTree_dist (coords.drop (i * dim)) (coords.drop (j * dim)) dim

/-- The brute-force answer to the point query: for each index `i < n` in turn, the entry
`(i, sqrt d)` when the squared distance `d` to `c` is at most `r*r`. -/
def bruteRadii (libc : Libc α) (dim n : Nat) (coords : List α) (c : List α) (r : α) :
    List (Radius α) :=
  (List.range n).flatMap (fun i =>
    if dist2To dim coords c i ≤ r * r then
      [{ index := i, value := libc.sqrt (dist2To dim coords c i) }]
    else [])

/-- The unordered pair of indices of an entry of the neighbor list. -/
def pairOf (h : Neighbor α) : Sym2 Nat := s(h.index1, h.index2)

/-- The pair of original indices `i`, `j` is owed by a pair query of radius `r` on the
`n x dim` buffer `coords`: two different points at squared distance at most `r*r`. -/
def Qualifies (dim n : Nat) (coords : List α) (r : α) (i j : Nat) : Prop :=
  i < n ∧ j < n ∧ i ≠ j ∧ dist2 dim coords i j ≤ r * r

/-- The list `out` holds every qualifying unordered pair, only qualifying pairs, each
with the square root of its squared distance as radius. -/
def SamePairs (libc : Libc α) (dim n : Nat) (coords : List α) (r : α)
    (out : List (Neighbor α)) : Prop :=
  (∀ i j, Qualifies dim n coords r i j → s(i, j) ∈ out.map pairOf) ∧
    ∀ h ∈ out, Qualifies dim n coords r h.index1 h.index2 ∧
      h.radius = libc.sqrt (dist2 dim coords h.index1 h.index2)

/-- Every coordinate of the `n` points lies in `[-INF, INF]`. -/
def InBox (dim n : Nat) (coords : List α) : Prop :=
  ∀ i, i < n → ∀ j, j < dim →
    -INF ≤ idx (coords.drop (i * dim)) j ∧ idx (coords.drop (i * dim)) j ≤ INF

/-- The ordering invariant of the tree over the point store: for every internal node
with cut dimension `d` and cut value `v`, the points stored in its left child's range have
`coord[d] <= v` and those in its right child's range have `coord[d] >= v`. -/
def Node.ordered (store : List (DataPoint α)) : Node α → Bool
  | Node.NULL => true
  | Node.mk l r v d _ _ =>
    if l.isNull && r.isNull then true
    else
      (slice store l.start l.stop).all (fun p => decide (idx p._coord d ≤ v)) &&
      (slice store r.start r.stop).all (fun p => decide (v ≤ idx p._coord d)) &&
      l.ordered store && r.ordered store

/-- The view is a C-contiguous `n x m` array of a numerical type: rank 2, shape `(n, m)`,
and a buffer of `n*m` elements. -/
def Py_buffer.IsMatrix (view : Py_buffer α) (n m : Nat) : Prop :=
  view.ndim = 2 ∧ view.shape = [n, m] ∧ numerical view.datatype = true ∧
    view.buf.length = n * m

/-- The view is a contiguous array of `n` elements of a numerical type. -/
def Py_buffer.IsVector (view : Py_buffer α) (n : Nat) : Prop :=
  view.ndim = 1 ∧ view.shape = [n] ∧ numerical view.datatype = true ∧ view.buf.length = n

instance (view : Py_buffer α) (n m : Nat) : Decidable (view.IsMatrix n m) := by
  unfold Py_buffer.IsMatrix
  infer_instance

instance (view : Py_buffer α) (n : Nat) : Decidable (view.IsVector n) := by
  unfold Py_buffer.IsVector
  infer_instance

instance (dim n : Nat) (coords : List α) : Decidable (InBox dim n coords) := by
  unfold InBox
  infer_instance

instance (dim n : Nat) (coords : List α) (r : α) (i j : Nat) :
    Decidable (Qualifies dim n coords r i j) := by
  unfold Qualifies
  infer_instance

/-- The session `init(dim, bucket_size); set_data(points); search_center_radius(center, r)`
on a new object. -/
def searchSession (libc : Libc α) (dim bucket_size : Int) (points center : Py_buffer α)
    (r : α) : PyRet α Unit :=
  (loadedTree libc dim bucket_size points).andThen
    (fun tree => PyTree_search_center_radius libc tree center r)

/-- The session `init(dim, bucket_size); set_data(points); all_pairs(r)` on a new object
(`all_pairs` is the method `neighbor_search`). -/
def pairsSession (libc : Libc α) (dim bucket_size : Int) (points : Py_buffer α) (r : α) :
    PyRet α (List (Neighbor α)) :=
  (loadedTree libc dim bucket_size points).andThen
    (fun tree => PyTree_neighbor_search libc tree r)

/-- The session `init(dim, bucket_size); set_data(points); all_pairs_sweep(r)` on a new
object (`all_pairs_sweep` is the method `neighbor_simple_search`). -/
def sweepSession (libc : Libc α) (dim bucket_size : Int) (points : Py_buffer α) (r : α) :
    PyRet α (List (Neighbor α)) :=
  (loadedTree libc dim bucket_size points).andThen
    (fun tree => PyTree_neighbor_simple_search libc tree r)

/-- The tree of the pair query of radius `r` in `dim` dimensions, as far as the entries
owed depend on it. -/
def pairQuery (dim : Nat) (r : α) : KDTree α :=
  { KDTree.zero with dim := dim, _neighbor_radius := r, _neighbor_radius_sq := r * r }

/-- Every node of a subtree whose root is at depth `depth` has `_cut_dim = depth % dim`. -/
def Node.CutDims (dim : Nat) : Node α → Nat → Prop
  | Node.NULL, _ => True
  | Node.mk l r _ d _ _, depth =>
    d = depth % dim ∧ l.CutDims dim (depth + 1) ∧ r.CutDims dim (depth + 1)

/-- The `[start, end)` ranges of the leaves of a subtree, left before right. -/
def Node.leafRanges : Node α → List (Nat × Nat)
  | Node.NULL => []
  | Node.mk l r _ _ s e =>
    if l.isNull && r.isNull then [(s, e)] else l.leafRanges ++ r.leafRanges

/-- The ranges of the list lie end to end from `a` to `b`: the first starts at `a`, each
next one starts where the one before ends, and the last ends at `b`. -/
def Tiles : List (Nat × Nat) → Nat → Nat → Prop
  | [], a, b => a = b
  | range :: rest, a, b => range.1 = a ∧ range.1 ≤ range.2 ∧ Tiles rest range.2 b

/-- Every internal node of the subtree has two children, and its range is the range of its
left child followed by the range of its right child. -/
def Node.Splits : Node α → Prop
  | Node.NULL => False
  | Node.mk l r _ _ s e =>
    (l = Node.NULL ∧ r = Node.NULL) ∨
      (l.Splits ∧ r.Splits ∧ l.start = s ∧ l.stop = r.start ∧ r.stop = e)

/-- Every leaf of the subtree holds at most `B` points and every internal node more than
`B`: a node is a leaf exactly when its range has at most `B` points. -/
def Node.Bucketed (B : Nat) : Node α → Prop
  | Node.NULL => False
  | Node.mk l r _ _ s e =>
    if l.isNull && r.isNull then e - s ≤ B
    else B < e - s ∧ l.Bucketed B ∧ r.Bucketed B

/-- The median rule at every internal node of a subtree whose root is at depth `depth`,
over the store `store`: with `d = end - start` the left child covers the first
`m = d/2 + d%2` positions of the range and the right child the others, the cut dimension is
`depth % dim`, and the cut value is the largest coordinate on that axis among the records of
the left child's range (it is the coordinate of one of them, and none has more). -/
def Node.Median (store : List (DataPoint α)) (dim : Nat) : Node α → Nat → Prop
  | Node.NULL, _ => False
  | Node.mk l r v d s e, depth =>
    (l = Node.NULL ∧ r = Node.NULL) ∨
      (d = depth % dim ∧
        l.start = s ∧ l.stop = s + ((e - s) / 2 + (e - s) % 2) ∧
        r.start = s + ((e - s) / 2 + (e - s) % 2) ∧ r.stop = e ∧
        (∃ p ∈ slice store l.start l.stop, idx p._coord d = v) ∧
        (∀ p ∈ slice store l.start l.stop, idx p._coord d ≤ v) ∧
        l.Median store dim (depth + 1) ∧ r.Median store dim (depth + 1))

/-- Ties go left at every internal node of the subtree: no record in the right child's range
has the cut value as its coordinate on the cut dimension. -/
def Node.tiesLeft (store : List (DataPoint α)) : Node α → Bool
  | Node.NULL => true
  | Node.mk l r v d _ _ =>
    if l.isNull && r.isNull then true
    else
      (slice store r.start r.stop).all (fun p => decide (idx p._coord d ≠ v)) &&
      l.tiesLeft store && r.tiesLeft store

/-- At every internal node of the subtree the cut value is the coordinate, on the cut
dimension, of only one record of the node's range. -/
def Node.cutOnce (store : List (DataPoint α)) : Node α → Bool
  | Node.NULL => true
  | Node.mk l r v d s e =>
    if l.isNull && r.isNull then true
    else
      decide (((slice store s e).map (fun p => idx p._coord d)).count v ≤ 1) &&
      l.cutOnce store && r.cutOnce store

/-- At every internal node of the subtree the cut value is the coordinate, on the cut
dimension, of a record in the left child's range. -/
def Node.cutInLeft (store : List (DataPoint α)) : Node α → Bool
  | Node.NULL => true
  | Node.mk l r v d _ _ =>
    if l.isNull && r.isNull then true
    else
      (slice store l.start l.stop).any (fun p => decide (idx p._coord d = v)) &&
      l.cutInLeft store && r.cutInLeft store

/-- Every internal node of the subtree has two children whose ranges are not empty, follow
one another and make up the range of the node, so that each is strictly shorter. -/
def Node.Halved : Node α → Prop
  | Node.NULL => False
  | Node.mk l r _ _ s e =>
    (l = Node.NULL ∧ r = Node.NULL) ∨
      (l.Halved ∧ r.Halved ∧ l.start = s ∧ s < l.stop ∧ l.stop = r.start ∧ r.start < e ∧
        r.stop = e)

/-- The nodes of a tree at tree depth `depth` (the root is at depth 0). -/
def Node.atDepth : Node α → Nat → List (Node α)
  | Node.NULL, _ => []
  | Node.mk l r v d s e, 0 => [Node.mk l r v d s e]
  | Node.mk l r _ _ _ _, depth + 1 => l.atDepth depth ++ r.atDepth depth

/-- `node->_cut_dim` (0 for the null pointer). -/
def Node.cutDim : Node α → Nat
  | Node.NULL => 0
  | Node.mk _ _ _ d _ _ => d

/-- The node is an internal node: not null and not a leaf. -/
def Node.isInternal : Node α → Bool
  | Node.NULL => false
  | Node.mk l r _ _ _ _ => !(l.isNull && r.isNull)

/-! ### The calls made by `all_pairs`

The functions below follow the control flow of `KDTree_neighbor_search`,
`KDTree__neighbor_search` and `KDTree_neighbor_search_pairs` and list the calls of the last
two that are made, with their arguments, in the order in which they are entered. The neighbor
buffer has no influence on the control flow and is left out. The list goes on past a call
that dereferences a null pointer, where the C code crashes: it holds every call the C code
makes, and after such a call some that it does not make. -/

/-- A call of `KDTree__neighbor_search` or of `KDTree_neighbor_search_pairs` with its
arguments; `outOfFuel` marks a call that the fuel of the model did not allow to follow. -/
inductive Call (α : Type) where
  | descent (node : Node α) (region : Option (Region α)) (depth : Nat)
  | pairs (down : Node α) (down_region : Option (Region α)) (up : Node α)
      (up_region : Option (Region α)) (depth : Nat)
  | outOfFuel
  deriving DecidableEq, Repr

/-- The calls of `KDTree_neighbor_search_pairs` made by a call of it, this call first. -/
def KDTree_neighbor_search_pairs.calls (tree : KDTree α) :
    Nat → Node α → Option (Region α) → Node α → Option (Region α) → Nat → List (Call α)
  | 0, _, _, _, _, _ => [Call.outOfFuel]
  | fuel + 1, down, down_region, up, up_region, depth =>
    Call.pairs down down_region up up_region depth ::
      match down, down_region, up, up_region with
      | Node.mk down_l down_r _ _ _ _, some down_reg, Node.mk up_l up_r _ _ _ _, some up_reg =>
        if Region_test_intersection tree.dim down_reg up_reg tree._neighbor_radius = 0 then []
        else
          let localdim := depth % tree.dim
          let up_is_leaf := up_l.isNull && up_r.isNull
          let down_is_leaf := down_l.isNull && down_r.isNull
          if up_is_leaf && down_is_leaf then []
          else
            let d := pairs_children tree.dim down down_reg localdim
            let u := pairs_children tree.dim up up_reg localdim
            KDTree_neighbor_search_pairs.calls tree fuel u.1 u.2.1 d.1 d.2.1 (depth + 1) ++
            KDTree_neighbor_search_pairs.calls tree fuel u.1 u.2.1 d.2.2.1 d.2.2.2
              (depth + 1) ++
            KDTree_neighbor_search_pairs.calls tree fuel u.2.2.1 u.2.2.2 d.1 d.2.1
              (depth + 1) ++
            KDTree_neighbor_search_pairs.calls tree fuel u.2.2.1 u.2.2.2 d.2.2.1 d.2.2.2
              (depth + 1)
      | _, _, _, _ => []

/-- The calls made by a call of `KDTree__neighbor_search`, this call first: its own
recursive calls on the children that are not leaves, then those of the call of
`KDTree_neighbor_search_pairs` on the two children. -/
def KDTree__neighbor_search.calls (tree : KDTree α) :
    Node α → Option (Region α) → Nat → List (Call α)
  | Node.NULL, region, depth => [Call.descent Node.NULL region depth]
  | Node.mk left right cut_value cut_dim start stop, none, depth =>
    [Call.descent (Node.mk left right cut_value cut_dim start stop) none depth]
  | Node.mk left right cut_value cut_dim start stop, some region, depth =>
    let localdim := depth % tree.dim
    let left_region := left_child_region tree.dim region cut_value localdim
    let right_region := right_child_region tree.dim region cut_value localdim
    Call.descent (Node.mk left right cut_value cut_dim start stop) (some region) depth ::
      ((match Node_is_leaf left with
        | Except.ok false => KDTree__neighbor_search.calls tree left left_region (depth + 1)
        | _ => []) ++
      (match Node_is_leaf right with
        | Except.ok false => KDTree__neighbor_search.calls tree right right_region (depth + 1)
        | _ => []) ++
      KDTree_neighbor_search_pairs.calls tree (left.height + right.height + 1)
        left left_region right right_region (depth + 1))

/-- The calls made by `KDTree_neighbor_search(tree, neighbor_radius, ...)`: none when the
root is a leaf, otherwise those of `KDTree__neighbor_search` on the root with the region
`[-INF, INF]`. -/
def KDTree_neighbor_search.calls (tree : KDTree α) (neighbor_radius : α) : List (Call α) :=
  let tree : KDTree α := { tree with
    _neighbor_list := [],
    _neighbor_count := 0,
    _neighbor_radius := neighbor_radius,
    _neighbor_radius_sq := neighbor_radius * neighbor_radius }
  match Node_is_leaf tree._root with
  | Except.ok false =>
    KDTree__neighbor_search.calls tree tree._root (some (Region_create tree.dim none none)) 0
  | _ => []

/-- The region a call of `KDTree__neighbor_search` receives is not null. -/
def Call.regionPresent : Call α → Bool
  | Call.descent _ region _ => region.isSome
  | _ => true

/-- The axes agree at a call: each node of the call that is an internal node is a node of
the tree `root` at tree depth `depth`, the depth the call was given, and its `_cut_dim` is
`depth % dim`. The mark `outOfFuel` does not satisfy it. -/
def Call.AxisAgrees (root : Node α) (dim : Nat) : Call α → Prop
  | Call.descent node _ depth =>
    node.isInternal = true → node ∈ root.atDepth depth ∧ node.cutDim = depth % dim
  | Call.pairs down _ up _ depth =>
    (down.isInternal = true → down ∈ root.atDepth depth ∧ down.cutDim = depth % dim) ∧
    (up.isInternal = true → up ∈ root.atDepth depth ∧ up.cutDim = depth % dim)
  | Call.outOfFuel => False

end Model

/-! ### A concrete C library over the integers, for evaluating the model -/

/-- A reference `Libc` on integer coordinates: `qsort` is insertion sort on the callback and
`sqrt` is the integer square root. -/
def libcInt : Libc ℤ where
  sqrt := Int.sqrt
  qsort := fun cmp l => List.insertionSort (fun p q => cmp p q ≤ 0) l
  qsort_perm := fun d l => List.perm_insertionSort _ l
  qsort_sorted := fun d l => by
    have htot : IsTotal (DataPoint ℤ) (fun p q => compare d p q ≤ 0) := by
      constructor
      intro p q
      unfold compare
      simp only
      split_ifs <;> omega
    have htr : IsTrans (DataPoint ℤ) (fun p q => compare d p q ≤ 0) := by
      constructor
      intro p q r
      unfold compare
      simp only
      split_ifs <;> intros <;> omega
    exact List.sorted_insertionSort _ l

/-- An `n x m` array of C `long` with the elements `buf` in row-major order. -/
def longMatrix (n m : Nat) (buf : List ℤ) : Py_buffer ℤ :=
  { ndim := 2, shape := [n, m], format := ['l'], buf := buf }

/-- A one-dimensional array of C `long`. -/
def longVector (buf : List ℤ) : Py_buffer ℤ :=
  { ndim := 1, shape := [buf.length], format := ['l'], buf := buf }

/-- A one-dimensional array of C `float`, seen through `float *`. -/
def floatVector (buf : List ℤ) : Py_buffer ℤ :=
  { ndim := 1, shape := [buf.length], format := ['f'], buf := buf }

/-- The tree as `set_data` hands it to `KDTree_build_tree`: initialised with
`init(dim, bucket_size)`, with the `n` points of the buffer `coords` added. -/
def unbuilt (dim bucket_size : Int) (n : Nat) (coords : List ℤ) : KDTree ℤ :=
  (List.range n).foldl (fun tree i => KDTree_add_point tree i (coords.drop (i * tree.dim)))
    { (PyTree_init (KDTree.zero : KDTree ℤ) dim bucket_size).finalTree with _coords := coords }

end KDTrees

namespace KDTrees

/-! ### The C type `float`

The functions of the model are written over a type `α` with the operations of C `float`.
`F32` is that type as the C code has it on a platform with IEEE 754 binary32 `float`,
round-to-nearest-even, each operation rounded to `float` (`FLT_EVAL_METHOD` 0) and no fused
multiply-add. A finite value is kept as the integer number of units of `2^-149` it is made
of: every finite binary32 number, subnormal or not, is a whole number of these units. The
two zeros are one value (no operation of the module tells them apart), and there is one NaN.
-/

/-- A value of type `float`: the finite value `n * 2^-149`, an infinity, or NaN. -/
inductive F32 where
  | fin (n : Int)
  | inf (negative : Bool)
  | nan
  deriving DecidableEq, Repr

namespace F32

/-- The number of binary digits of `a`, counted up to `fuel` digits. -/
def bitLen : Nat → Nat → Nat
  | 0, _ => 0
  | fuel + 1, a => if a = 0 then 0 else bitLen fuel (a / 2) + 1

/-- The magnitude `a / 2^sh` units rounded to the nearest number that has at most 24
significant bits and is a whole number of units, ties to the even one; `none` when that
number is beyond the largest finite `float`, which is `(2^24 - 1) * 2^253` units. The result
is in units. -/
def roundMag (a sh : Nat) : Option Nat :=
  if 2 ^ (sh + 300) ≤ a then none
  else
    let q := max sh (bitLen (sh + 300) a - 24)
    let t := a / 2 ^ q
    let rem := a % 2 ^ q
    let r := if 2 ^ q < 2 * rem ∨ (2 * rem = 2 ^ q ∧ t % 2 = 1) then t + 1 else t
    let n := r * 2 ^ (q - sh)
    if n < 2 ^ 277 then some n else none

/-- The number `m / 2^sh` units rounded to `float`; beyond the largest finite `float` it
is an infinity. -/
def round (m : Int) (sh : Nat) : F32 :=
  match roundMag m.natAbs sh with
  | some n => fin (if m < 0 then -(n : Int) else (n : Int))
  | none => inf (decide (m < 0))

/-- The conversion of an integer to `float`. -/
def ofInt (n : Int) : F32 := round (n * 2 ^ 149) 0

/-- `-x`. -/
def neg : F32 → F32
  | fin a => fin (-a)
  | inf s => inf (!s)
  | nan => nan

/-- `x + y`. -/
def add : F32 → F32 → F32
  | fin a, fin b => round (a + b) 0
  | fin _, inf t => inf t
  | inf s, fin _ => inf s
  | inf s, inf t => if s = t then inf s else nan
  | _, _ => nan

/-- `x - y`. -/
def sub (x y : F32) : F32 := add x (neg y)

/-- `x * y`. -/
def mul : F32 → F32 → F32
  | fin a, fin b => round (a * b) 149
  | fin a, inf t => if a = 0 then nan else inf (decide (a < 0) != t)
  | inf s, fin b => if b = 0 then nan else inf (s != decide (b < 0))
  | inf s, inf t => inf (s != t)
  | _, _ => nan

/-- `x < y`; false when one of them is NaN. -/
def blt : F32 → F32 → Bool
  | fin a, fin b => decide (a < b)
  | fin _, inf t => !t
  | inf s, fin _ => s
  | inf s, inf t => s && !t
  | _, _ => false

/-- `x <= y`; false when one of them is NaN. -/
def ble : F32 → F32 → Bool
  | fin a, fin b => decide (a ≤ b)
  | fin _, inf t => !t
  | inf s, fin _ => s
  | inf s, inf t => s || !t
  | _, _ => false

/-- `fabs(x)`. -/
def fabs : F32 → F32
  | fin a => fin |a|
  | inf _ => inf false
  | nan => nan

/-- The integer part of the square root of `a`, for `a < 2^(2*bits)`: its binary digits
from the highest down. -/
def isqrt (bits a : Nat) : Nat :=
  (List.range bits).foldr (fun i s => if (s + 2 ^ i) * (s + 2 ^ i) ≤ a then s + 2 ^ i else s) 0

/-- `sqrt(x)` stored in a `float`: the square root rounded to `float`. -/
def sqrt : F32 → F32
  | fin n =>
    if n < 0 then nan
    else
      let a := n.toNat * 2 ^ 149
      let s := isqrt 256 a
      round ((2 * s + (if s * s = a then 0 else 1) : Nat) : Int) 1
  | inf s => if s then nan else inf false
  | nan => nan

instance : Zero F32 := ⟨fin 0⟩
instance : One F32 := ⟨fin (2 ^ 149)⟩
instance : Add F32 := ⟨add⟩
instance : Sub F32 := ⟨sub⟩
instance : Mul F32 := ⟨mul⟩
instance : Neg F32 := ⟨neg⟩
instance : LT F32 := ⟨fun x y => blt x y = true⟩
instance : LE F32 := ⟨fun x y => ble x y = true⟩
instance : DecidableRel (fun x y : F32 => x < y) :=
  fun x y => inferInstanceAs (Decidable (blt x y = true))
instance : DecidableRel (fun x y : F32 => x ≤ y) :=
  fun x y => inferInstanceAs (Decidable (ble x y = true))
instance : OfNat F32 1000000 := ⟨fin (1000000 * 2 ^ 149)⟩
instance : Fabs F32 := ⟨fabs⟩

end F32

/-- A record is isolated in `l` under a callback when it compares equal to every record of
`l`, both ways round; a record whose coordinate is NaN is. -/
def F32.isolated (cmp : DataPoint F32 → DataPoint F32 → Int) (l : List (DataPoint F32))
    (p : DataPoint F32) : Bool :=
  l.all (fun q => decide (cmp p q = 0) && decide (cmp q p = 0))

/-- A reference `Libc` on `float` coordinates: `sqrt` is the rounded square root, and `qsort`
is insertion sort on the callback for the records that are not isolated, the isolated ones
coming last in the order they had. -/
def libcF32 : Libc F32 where
  sqrt := F32.sqrt
  qsort := fun cmp l =>
    List.insertionSort (fun p q => cmp p q ≤ 0) (l.filter (fun p => !F32.isolated cmp l p)) ++
      l.filter (fun p => F32.isolated cmp l p)
  qsort_perm := fun d l => by
    refine List.Perm.trans (List.Perm.append (List.perm_insertionSort _ _) (List.Perm.refl _)) ?_
    refine List.Perm.trans List.perm_append_comm ?_
    exact List.filter_append_perm _ l
  qsort_sorted := fun d l => by
    have htrans : ∀ x y z : F32, x ≠ F32.nan → y ≠ F32.nan → z ≠ F32.nan →
        F32.blt y x = false → F32.blt z y = false → F32.blt z x = false := by
      intro x y z hx hy hz
      cases x <;> cases y <;> cases z <;> simp_all [F32.blt] <;> omega
    have hasym : ∀ x y : F32, F32.blt x y = true → F32.blt y x = false := by
      clear htrans
      intro x y
      cases x <;> cases y <;> simp_all [F32.blt] <;> omega
    have hlt : ∀ x y : F32, x < y ↔ F32.blt x y = true := fun _ _ => Iff.rfl
    have hcmp : ∀ p q : DataPoint F32, compare d p q ≤ 0 ↔
        F32.blt (idx q._coord d) (idx p._coord d) = false := by
      intro p q
      unfold compare
      simp only [gt_iff_lt, hlt]
      by_cases h1 : F32.blt (idx p._coord d) (idx q._coord d) = true
      · simp [h1, hasym _ _ h1]
      · by_cases h2 : F32.blt (idx q._coord d) (idx p._coord d) = true
        · simp [h1, h2]
        · simp [h1, h2]
    have hnan : ∀ p : DataPoint F32, idx p._coord d = F32.nan →
        ∀ q : DataPoint F32, compare d p q = 0 ∧ compare d q p = 0 := by
      intro p hp q
      unfold compare
      simp only [gt_iff_lt, hlt, hp]
      generalize idx q._coord d = y
      cases y <;> simp only [F32.blt] <;> exact ⟨rfl, rfl⟩
    have htotal : ∀ p q : DataPoint F32, ¬ compare d p q ≤ 0 → compare d q p ≤ 0 := by
      intro p q h
      rw [hcmp] at h ⊢
      exact hasym _ _ (by simpa using h)
    have hins : ∀ (a : DataPoint F32) (m : List (DataPoint F32)),
        (∀ x ∈ a :: m, idx x._coord d ≠ F32.nan) →
        m.Pairwise (fun p q => compare d p q ≤ 0) →
        (List.orderedInsert (fun p q => compare d p q ≤ 0) a m).Pairwise
          (fun p q => compare d p q ≤ 0) := by
      intro a m
      induction m with
      | nil => intro _ _; simp
      | cons b m ih =>
        intro hm hpw
        have ha := hm a (by simp)
        have hb := hm b (by simp)
        rw [List.orderedInsert]
        split_ifs with hab
        · refine List.Pairwise.cons ?_ hpw
          intro c hc
          rcases List.mem_cons.mp hc with rfl | hc
          · exact hab
          · have hbc := List.rel_of_pairwise_cons hpw hc
            have hcn := hm c (by simp [hc])
            rw [hcmp] at hab hbc ⊢
            exact htrans _ _ _ ha hb hcn hab hbc
        · refine List.Pairwise.cons ?_
            (ih (fun x hx => hm x (by
              rcases List.mem_cons.mp hx with rfl | hx
              · simp
              · simp [hx])) (List.Pairwise.of_cons hpw))
          intro c hc
          rcases (List.mem_orderedInsert (fun p q => compare d p q ≤ 0)).mp hc with rfl | hc
          · exact htotal _ _ hab
          · exact List.rel_of_pairwise_cons hpw hc
    have hsort : ∀ m : List (DataPoint F32), (∀ x ∈ m, idx x._coord d ≠ F32.nan) →
        (List.insertionSort (fun p q => compare d p q ≤ 0) m).Pairwise
          (fun p q => compare d p q ≤ 0) := by
      intro m
      induction m with
      | nil => intro _; simp
      | cons a m ih =>
        intro hm
        rw [List.insertionSort]
        refine hins a _ ?_ (ih (fun x hx => hm x (by simp [hx])))
        intro x hx
        rcases List.mem_cons.mp hx with rfl | hx
        · exact hm _ (by simp)
        · exact hm x (by simp [(List.mem_insertionSort _).mp hx])
    have hiso : ∀ a b : DataPoint F32, F32.isolated (compare d) l b = true → a ∈ l →
        compare d a b ≤ 0 := by
      intro a b hb ha
      unfold F32.isolated at hb
      rw [List.all_eq_true] at hb
      have := hb a ha
      simp only [Bool.and_eq_true, decide_eq_true_eq] at this
      rw [this.2]
    rw [List.pairwise_append]
    refine ⟨hsort _ ?_, ?_, ?_⟩
    · intro x hx hx'
      have := (List.mem_filter.mp hx).2
      have hx2 : F32.isolated (compare d) l x = true := by
        unfold F32.isolated
        rw [List.all_eq_true]
        intro q _
        have := hnan x hx' q
        simp [this.1, this.2]
      simp [hx2] at this
    · rw [List.pairwise_iff_forall_sublist]
      intro a b hab
      have hb : b ∈ l.filter (fun p => F32.isolated (compare d) l p) :=
        hab.subset (by simp)
      have ha : a ∈ l.filter (fun p => F32.isolated (compare d) l p) :=
        hab.subset (by simp)
      exact hiso a b (List.mem_filter.mp hb).2 (List.mem_filter.mp ha).1
    · intro a ha b hb
      exact hiso a b (List.mem_filter.mp hb).2
        (List.mem_filter.mp ((List.mem_insertionSort _).mp ha)).1

/-- An `n x m` array of C `double` whose elements are the integers `buf`, in row-major
order, each as `COPY2DARRAY` converts it to `float`. -/
def doubleMatrix (n m : Nat) (buf : List ℤ) : Py_buffer F32 :=
  { ndim := 2, shape := [n, m], format := ['d'], buf := buf.map F32.ofInt }

/-- A one-dimensional array of C `double` whose elements are the integers `buf`, each as
`COPY1DARRAY` converts it to `float`. -/
def doubleVector (buf : List ℤ) : Py_buffer F32 :=
  { ndim := 1, shape := [buf.length], format := ['d'], buf := buf.map F32.ofInt }

/-! ### Integer inputs

For inputs that are integers of bounded size, every `float` operation of a query is exact.
The definitions below serve to compare the run of the model in `float` on such inputs with
its run on the integers themselves, in exact arithmetic. -/

/-- The `float` whose value is the integer `n` (a `float` for `|n| <= 2^24`). -/
def F32.int (n : ℤ) : F32 := F32.fin (n * 2 ^ 149)

/-- The integer part of the value of a finite `float` (0 for the others). -/
def F32.toInt : F32 → ℤ
  | F32.fin n => n / 2 ^ 149
  | _ => 0

section Maps

variable {α β : Type}

/-- A record with its coordinates mapped by `f`. -/
def DataPoint.map (f : α → β) (p : DataPoint α) : DataPoint β :=
  { _index := p._index, _coord := p._coord.map f }

/-- A node with its cut values mapped by `f`. -/
def Node.map (f : α → β) : Node α → Node β
  | Node.NULL => Node.NULL
  | Node.mk l r v d s e => Node.mk (l.map f) (r.map f) (f v) d s e

/-- A region with its bounds mapped by `f`. -/
def Region.map (f : α → β) (region : Region α) : Region β :=
  { _left := region._left.map f, _right := region._right.map f }

/-- An entry of the radius list with its value mapped by `g`. -/
def Radius.map (g : α → β) (e : Radius α) : Radius β :=
  { index := e.index, value := g e.value }

/-- An entry of the neighbor list with its radius mapped by `g`. -/
def Neighbor.map (g : α → β) (h : Neighbor α) : Neighbor β :=
  { index1 := h.index1, index2 := h.index2, radius := g h.radius }

/-- A tree with its floats mapped by `f`, those stored in the two result buffers by `g`. -/
def KDTree.map (f g : α → β) (tree : KDTree α) : KDTree β :=
  { _data_point_list := tree._data_point_list.map (DataPoint.map f),
    _radius_list := tree._radius_list.map (Radius.map g),
    _neighbor_list := tree._neighbor_list.map (Neighbor.map g),
    _root := tree._root.map f,
    _query_region := tree._query_region.map (Region.map f),
    _count := tree._count,
    _neighbor_count := tree._neighbor_count,
    _radius := f tree._radius,
    _radius_sq := f tree._radius_sq,
    _neighbor_radius := f tree._neighbor_radius,
    _neighbor_radius_sq := f tree._neighbor_radius_sq,
    _center_coord := tree._center_coord.map f,
    _coords := tree._coords.map f,
    _bucket_size := tree._bucket_size,
    dim := tree.dim }

/-- A view with its elements mapped by `f`. -/
def Py_buffer.map (f : α → β) (view : Py_buffer α) : Py_buffer β :=
  { ndim := view.ndim, shape := view.shape, format := view.format, buf := view.buf.map f }

/-- The outcome of a call with the tree mapped by `f` and `g` and the value by `h`. -/
def PyRet.map {ρ σ : Type} (f g : α → β) (h : ρ → σ) : PyRet α ρ → PyRet β σ
  | PyRet.ok tree value => PyRet.ok (tree.map f g) (h value)
  | PyRet.raise tree exc => PyRet.raise (tree.map f g) exc
  | PyRet.fault x => PyRet.fault x

end Maps

/-- Every bound of the region is at most `L` in absolute value. -/
def Region.Within (L : ℤ) (region : Region ℤ) : Prop :=
  ∀ i, |idx region._left i| ≤ L ∧ |idx region._right i| ≤ L

/-- Every cut value of the subtree is at most `L` in absolute value. -/
def Node.Within (L : ℤ) : Node ℤ → Prop
  | Node.NULL => True
  | Node.mk l r v _ _ _ => |v| ≤ L ∧ l.Within L ∧ r.Within L

/-- Every element of the list is at most `M` in absolute value. -/
def SmallInts (M : ℤ) (l : List ℤ) : Prop := ∀ x ∈ l, |x| ≤ M

/-- Along each of the first `dim` axes the list is within `M` of the point `o`. -/
def Near (o : List ℤ) (dim : Nat) (M : ℤ) (l : List ℤ) : Prop :=
  ∀ i, i < dim → |idx l i - idx o i| ≤ M

/-- The coordinates found at `l` are at most `L` in absolute value, and the point is within
`M` of `o` along each axis. -/
def SmallPoint (o : List ℤ) (dim : Nat) (M L : ℤ) (l : List ℤ) : Prop :=
  SmallInts L l ∧ Near o dim M l

/-- The integers of the point store are small enough for `float` arithmetic on them to be
exact: the points lie in the cube of half side `M` around the point `o`, where
`dim * (2*M)^2 <= 2^24`, and every coordinate is at most `L` in absolute value. -/
def KDTree.Small (o : List ℤ) (M L : ℤ) (tree : KDTree ℤ) : Prop :=
  0 ≤ M ∧ (tree.dim : ℤ) * (2 * M) ^ 2 ≤ 2 ^ 24 ∧
    ∀ p ∈ tree._data_point_list, SmallPoint o tree.dim M L p._coord

/-- The store is small and the centre of the point query lies in the same cube. -/
def KDTree.SmallQuery (o : List ℤ) (M L : ℤ) (tree : KDTree ℤ) : Prop :=
  tree.Small o M L ∧ Near o tree.dim M tree._center_coord

/-- The tree `t'` is `t` but for the contents of the two result buffers. -/
def KDTree.SameQuery (t t' : KDTree ℤ) : Prop :=
  t'._data_point_list = t._data_point_list ∧ t'._root = t._root ∧
    t'._query_region = t._query_region ∧ t'._radius = t._radius ∧
    t'._radius_sq = t._radius_sq ∧ t'._neighbor_radius = t._neighbor_radius ∧
    t'._neighbor_radius_sq = t._neighbor_radius_sq ∧
    t'._center_coord = t._center_coord ∧ t'._coords = t._coords ∧
    t'._bucket_size = t._bucket_size ∧ t'.dim = t.dim

/-- The C library `libcZ` on the integers does what `libcF` does on `float`: `qsort` puts
integer records in the order in which `libcF` puts them as `float` records, and `g` takes
the result of `sqrt` on an integer to its result on the same number as a `float`. -/
def LibcAgree (libcF : Libc F32) (libcZ : Libc ℤ) (g : ℤ → F32) : Prop :=
  (∀ d, g (libcZ.sqrt d) = libcF.sqrt (F32.int d)) ∧
    ∀ (d : Nat) (l : List (DataPoint ℤ)),
      (libcZ.qsort (compare d) l).map (DataPoint.map F32.int) =
        libcF.qsort (compare d) (l.map (DataPoint.map F32.int))

/-- The run `y` in `float` is the run `x` on the integers, started from the tree `t`: it
ends in the same fault, or with the same tree as a tree of `float`, which is then `t` but
for the result buffers. -/
def SimRun (g : ℤ → F32) (t : KDTree ℤ) (x : Run (KDTree ℤ)) (y : Run (KDTree F32)) : Prop :=
  y = x.map (KDTree.map F32.int g) ∧ ∀ t', x = Except.ok t' → t.SameQuery t'

/-! ### The exact answers

The answers the specification asks for, from integer coordinates in exact arithmetic; the
radius reported with an answer is the `float` square root of the exact squared distance. -/

/-- The brute-force answer to the point query in exact arithmetic: for each index `i < n`
in turn, the entry `(i, sqrt d)` when the squared distance `d` of point `i` to `c`, an
integer, is at most `r*r`. -/
def exactRadii (sqrt : F32 → F32) (dim n : Nat) (coords c : List ℤ) (r : ℤ) :
    List (Radius F32) :=
  (List.range n).flatMap (fun i =>
    if dist2To dim coords c i ≤ r * r then
      [{ index := i, value := sqrt (F32.ofInt (dist2To dim coords c i)) }]
    else [])

/-- The list `out` holds every unordered pair that qualifies in exact arithmetic, only such
pairs, each with the `float` square root of its exact squared distance as radius. -/
def ExactPairs (sqrt : F32 → F32) (dim n : Nat) (coords : List ℤ) (r : ℤ)
    (out : List (Neighbor F32)) : Prop :=
  (∀ i j, Qualifies dim n coords r i j → s(i, j) ∈ out.map pairOf) ∧
    ∀ h ∈ out, Qualifies dim n coords r h.index1 h.index2 ∧
      h.radius = sqrt (F32.ofInt (dist2 dim coords h.index1 h.index2))

/-- The `n x dim` integer array `points` is one on which the `float` arithmetic of the
queries is exact: every element is at most `2^23` in absolute value, and the rows lie in
the cube of half side `M` around the point `o`, where `dim * (2*M)^2 <= 2^24`. -/
def ExactPoints (dim n : Nat) (o : List ℤ) (M : ℤ) (points : Py_buffer ℤ) : Prop :=
  SmallInts (2 ^ 23) points.buf ∧ 0 ≤ M ∧ (dim : ℤ) * (2 * M) ^ 2 ≤ 2 ^ 24 ∧
    ∀ i, i < n → Near o dim M ((COPY2DARRAY points n dim).drop (i * dim))

/-- The integer centre `center` is one for which the `float` arithmetic of the point query
of radius `r` is exact: every element of the centre is at most `2^23 - r` in absolute value,
and the centre lies in the cube of the points. -/
def ExactCenter (dim : Nat) (o : List ℤ) (M : ℤ) (center : Py_buffer ℤ) (r : ℤ) : Prop :=
  SmallInts (2 ^ 23 - r) center.buf ∧ Near o dim M (COPY1DARRAY center dim)

instance (M : ℤ) (l : List ℤ) : Decidable (SmallInts M l) := by
  unfold SmallInts
  infer_instance

instance (o : List ℤ) (dim : Nat) (M : ℤ) (l : List ℤ) : Decidable (Near o dim M l) := by
  unfold Near
  infer_instance

instance (dim n : Nat) (o : List ℤ) (M : ℤ) (points : Py_buffer ℤ) :
    Decidable (ExactPoints dim n o M points) := by
  unfold ExactPoints
  infer_instance

instance (dim : Nat) (o : List ℤ) (M : ℤ) (center : Py_buffer ℤ) (r : ℤ) :
    Decidable (ExactCenter dim o M center r) := by
  unfold ExactCenter
  infer_instance

/-- An `n x m` array of C `double` with the integer elements `buf`, in row-major order. -/
def intMatrix (n m : Nat) (buf : List ℤ) : Py_buffer ℤ :=
  { ndim := 2, shape := [n, m], format := ['d'], buf := buf }

/-- A one-dimensional array of C `double` with the integer elements `buf`. -/
def intVector (buf : List ℤ) : Py_buffer ℤ :=
  { ndim := 1, shape := [buf.length], format := ['d'], buf := buf }

/-- An `n x m` array of C `float` with the elements `buf`, in row-major order. -/
def f32Matrix (n m : Nat) (buf : List F32) : Py_buffer F32 :=
  { ndim := 2, shape := [n, m], format := ['f'], buf := buf }

/-- A one-dimensional array of C `float` with the elements `buf`. -/
def f32Vector (buf : List F32) : Py_buffer F32 :=
  { ndim := 1, shape := [buf.length], format := ['f'], buf := buf }

/-- The `float` `2^e`, for `-149 <= e`. -/
def F32.pow2 (e : ℤ) : F32 := F32.fin (2 ^ (e + 149).toNat)

/-- The entries of `hits` that get appended when each in turn asks for one allocation and
the first request that fails ends the loop: the flag `ok`, the entries before the failure,
and the outcomes to come. -/
def keep {β : Type} : List β → Heap → Bool × List β × Heap
  | [], heap => (true, [], heap)
  | x :: rest, heap =>
    if !heap.request.1 then (false, [], heap.request.2)
    else ((keep rest heap.request.2).1, x :: (keep rest heap.request.2).2.1,
      (keep rest heap.request.2).2.2)

end KDTrees

namespace KDTrees

/-! ### The allocation requests of a pair query

A list `tr` stands for the allocation requests that a step of a pair query makes when none
fails, in the order in which it makes them: `none` for a request made to allocate a region,
`some e` for the `realloc` of `KDTree_test_neighbors` that appends the entry `e`. -/

/-- The run `r` of a step, entered with the tree `u` and the allocation outcomes `h`, makes
the requests `tr` and stops at the first that fails: it returns, its flag `ok` is 0 exactly
when one of the requests failed, and its tree is `u` with the entries appended whose request
came before the failure (all the entries of `tr` when none failed, and then the outcomes
left are those after the requests). -/
def Follows {α : Type} (u : KDTree α) (tr : List (Option (Neighbor α))) (h : Heap)
    (r : Run (Bool × KDTree α × Heap)) : Prop :=
  ∃ h' : Heap,
    r = Except.ok ((keep tr h).1, u.addNeighbors ((keep tr h).2.1.filterMap id), h') ∧
      ((keep tr h).1 = true → h' = (keep tr h).2.2)

/-- The step `F` with allocation outcomes is the step `x` without: whenever `x`, entered
with the tree `u`, returns a tree, there is a list of requests whose entries are those that
`x` appends and that `F` follows on every list of outcomes. -/
def Traced {α : Type} (x : Run (KDTree α)) (u : KDTree α)
    (F : Heap → Run (Bool × KDTree α × Heap)) : Prop :=
  ∀ X : KDTree α, x = Except.ok X →
    ∃ tr : List (Option (Neighbor α)),
      X = u.addNeighbors (tr.filterMap id) ∧ ∀ h : Heap, Follows u tr h (F h)

/-- The block `A` of region allocations makes `c` requests when none fails, and then its
value is `v`: its flag `ok` is 1 exactly when the `c` requests succeed, and then it returns
`v` and the outcomes after them. -/
def Requests (α : Type) {β : Type} (c : Nat) (v : β) (A : Heap → β × Bool × Heap) : Prop :=
  ∀ h : Heap,
    (A h).2.1 = (keep (List.replicate c (none : Option (Neighbor α))) h).1 ∧
      ((keep (List.replicate c (none : Option (Neighbor α))) h).1 = true →
        A h = (v, true, (keep (List.replicate c (none : Option (Neighbor α))) h).2.2))

/-- The entries that get appended when the lists `rows` are gone through in turn, each as
by `keep`: a list is left at its first request that fails, and the next list goes on with
the outcomes that come after. -/
def keepRows {β : Type} : List (List β) → Heap → List β
  | [], _ => []
  | row :: rest, heap => (keep row heap).2.1 ++ keepRows rest (keep row heap).2.2

/-- The tree of the points 0, 1, 2, 3 on a line, built with bucket size 1: four leaves. -/
def fourLeaves : KDTree ℤ :=
  (loadedTree libcInt 1 1 (longMatrix 4 1 [0, 1, 2, 3])).finalTree

end KDTrees

/-!
# Properties of the embedding
-/

namespace KDTrees

section Proofs

variable {α : Type} [LinearOrderedCommRing α]

set_option linter.unusedSectionVars false

/-! ### Regions -/

theorem idx_map_range (f : Nat → α) {n i : Nat} (h : i < n) :
    idx ((List.range n).map f) i = f i := by
  simp [idx, List.getD, h]

theorem idx_set_self (l : List α) (d : Nat) (v : α) (hd : d < l.length) :
    idx (l.set d v) d = v := by
  simp [idx, List.getD, hd]

theorem idx_set_ne (l : List α) {d i : Nat} (v : α) (h : d ≠ i) :
    idx (l.set d v) i = idx l i := by
  simp [idx, List.getD, List.getElem?_set_ne h]

/-- A region made by `Region_create` has `Region_dim` bounds on each side. -/
theorem Region_create_WF (dim : Nat) (l r : Option (List α)) :
    (Region_create dim l r).WF dim := by
  unfold Region_create Region.WF
  cases l <;> cases r <;> simp

theorem Region_create_left (dim : Nat) (l r : List α) {i : Nat} (h : i < dim) :
    idx (Region_create dim (some l) (some r))._left i = idx l i := by
  simp [Region_create, idx_map_range _ h]

theorem Region_create_right (dim : Nat) (l r : List α) {i : Nat} (h : i < dim) :
    idx (Region_create dim (some l) (some r))._right i = idx r i := by
  simp [Region_create, idx_map_range _ h]

/-- `Region_encloses` decides `Encloses`. -/
theorem Region_encloses_iff (dim : Nat) (R : Region α) (p : List α) :
    Region_encloses dim R p = true ↔ Encloses dim R p := by
  simp [Region_encloses, Encloses, List.all_eq_true]

theorem Encloses_copy (dim : Nat) (R : Region α) (p : List α) :
    Encloses dim (Region_create dim (some R._left) (some R._right)) p ↔ Encloses dim R p := by
  unfold Encloses
  constructor
  · intro h i hi
    have := h i hi
    rwa [Region_create_left _ _ _ hi, Region_create_right _ _ _ hi] at this
  · intro h i hi
    rw [Region_create_left _ _ _ hi, Region_create_right _ _ _ hi]
    exact h i hi

/-- A left child region, when there is one, is well formed and encloses the points of the
parent region that are at most the cut value on the cut axis. -/
theorem left_child_region_some {dim : Nat} {R R' : Region α} {v : α} {d : Nat}
    (hR : R.WF dim) (hd : d < dim) (h : left_child_region dim R v d = some R') :
    R'.WF dim ∧ ∀ p, Encloses dim R' p ↔ (Encloses dim R p ∧ idx p d ≤ v) := by
  unfold left_child_region Region_test_intersect_left at h
  simp only at h
  by_cases h1 : v < idx R._left d
  · simp [h1] at h
  · by_cases h2 : v < idx R._right d
    · simp [h1, h2, Region_create_intersect_left] at h
      subst h
      refine ⟨Region_create_WF _ _ _, fun p => ?_⟩
      unfold Encloses
      constructor
      · intro h
        refine ⟨fun i hi => ?_, ?_⟩
        · have := h i hi
          rw [Region_create_left _ _ _ hi, Region_create_right _ _ _ hi] at this
          by_cases hid : d = i
          · subst hid
            rw [idx_set_self _ _ _ (by rw [hR.2]; exact hd)] at this
            exact ⟨this.1, le_trans this.2 (le_of_lt h2)⟩
          · rwa [idx_set_ne _ _ hid] at this
        · have := h d hd
          rw [Region_create_left _ _ _ hd, Region_create_right _ _ _ hd,
            idx_set_self _ _ _ (by rw [hR.2]; exact hd)] at this
          exact this.2
      · rintro ⟨h, hv⟩ i hi
        rw [Region_create_left _ _ _ hi, Region_create_right _ _ _ hi]
        by_cases hid : d = i
        · subst hid
          rw [idx_set_self _ _ _ (by rw [hR.2]; exact hd)]
          exact ⟨(h d hi).1, hv⟩
        · rw [idx_set_ne _ _ hid]
          exact h i hi
    · simp [h1, h2] at h
      subst h
      refine ⟨Region_create_WF _ _ _, fun p => ?_⟩
      rw [Encloses_copy]
      constructor
      · intro h
        exact ⟨h, le_trans (h d hd).2 (not_lt.mp h2)⟩
      · exact fun h => h.1

/-- There is no left child region only when no point of the parent region is at most the
cut value on the cut axis. -/
theorem left_child_region_none {dim : Nat} {R : Region α} {v : α} {d : Nat}
    (hd : d < dim) (h : left_child_region dim R v d = none) (p : List α)
    (hp : Encloses dim R p) : ¬ idx p d ≤ v := by
  unfold left_child_region Region_test_intersect_left at h
  simp only at h
  by_cases h1 : v < idx R._left d
  · intro hv
    exact absurd (lt_of_le_of_lt (le_trans (hp d hd).1 hv) h1) (lt_irrefl _)
  · by_cases h2 : v < idx R._right d
    · simp [h1, h2] at h
    · simp [h1, h2] at h

/-- A right child region, when there is one, is well formed and encloses the points of the
parent region that are at least the cut value on the cut axis. -/
theorem right_child_region_some {dim : Nat} {R R' : Region α} {v : α} {d : Nat}
    (hR : R.WF dim) (hd : d < dim) (h : right_child_region dim R v d = some R') :
    R'.WF dim ∧ ∀ p, Encloses dim R' p ↔ (Encloses dim R p ∧ v ≤ idx p d) := by
  unfold right_child_region Region_test_intersect_right at h
  simp only at h
  by_cases h1 : v ≤ idx R._left d
  · simp [h1] at h
    subst h
    refine ⟨Region_create_WF _ _ _, fun p => ?_⟩
    rw [Encloses_copy]
    constructor
    · intro h
      exact ⟨h, le_trans h1 (h d hd).1⟩
    · exact fun h => h.1
  · by_cases h2 : v ≤ idx R._right d
    · simp [h1, h2, Region_create_intersect_right] at h
      subst h
      refine ⟨Region_create_WF _ _ _, fun p => ?_⟩
      unfold Encloses
      constructor
      · intro h
        refine ⟨fun i hi => ?_, ?_⟩
        · have := h i hi
          rw [Region_create_left _ _ _ hi, Region_create_right _ _ _ hi] at this
          by_cases hid : d = i
          · subst hid
            rw [idx_set_self _ _ _ (by rw [hR.1]; exact hd)] at this
            exact ⟨le_trans (le_of_lt (not_le.mp h1)) this.1, this.2⟩
          · rwa [idx_set_ne _ _ hid] at this
        · have := h d hd
          rw [Region_create_left _ _ _ hd, Region_create_right _ _ _ hd,
            idx_set_self _ _ _ (by rw [hR.1]; exact hd)] at this
          exact this.1
      · rintro ⟨h, hv⟩ i hi
        rw [Region_create_left _ _ _ hi, Region_create_right _ _ _ hi]
        by_cases hid : d = i
        · subst hid
          rw [idx_set_self _ _ _ (by rw [hR.1]; exact hd)]
          exact ⟨hv, (h d hi).2⟩
        · rw [idx_set_ne _ _ hid]
          exact h i hi
    · simp [h1, h2] at h

/-- There is no right child region only when no point of the parent region is at least the
cut value on the cut axis. -/
theorem right_child_region_none {dim : Nat} {R : Region α} {v : α} {d : Nat}
    (hd : d < dim) (h : right_child_region dim R v d = none) (p : List α)
    (hp : Encloses dim R p) : ¬ v ≤ idx p d := by
  unfold right_child_region Region_test_intersect_right at h
  simp only at h
  by_cases h1 : v ≤ idx R._left d
  · simp [h1] at h
  · by_cases h2 : v ≤ idx R._right d
    · simp [h1, h2] at h
    · intro hv
      exact h2 (le_trans hv (hp d hd).2)

/-! ### Intersection of regions, and distances -/

theorem loop_le_two (A Q : Region α) (r : α) : ∀ (is : List Nat) (s : Nat), s ≤ 2 →
    Region_test_intersection.loop A Q r is s ≤ 2 := by
  intro is
  induction is with
  | nil => intro s hs; simpa [Region_test_intersection.loop] using hs
  | cons i rest ih =>
    intro s hs
    unfold Region_test_intersection.loop
    simp only
    split_ifs with h1 h2 h3 h4
    · omega
    · omega
    · exact ih 2 (le_refl _)
    · exact ih s hs
    · exact ih 1 (by omega)

theorem loop_zero (A Q : Region α) (r : α) : ∀ (is : List Nat) (s : Nat),
    Region_test_intersection.loop A Q r is s = 0 → s = 0 ∨
      ∃ i ∈ is, (r < idx A._left i - idx Q._right i ∨ r < idx Q._left i - idx A._right i) := by
  intro is
  induction is with
  | nil => intro s h; left; simpa [Region_test_intersection.loop] using h
  | cons i rest ih =>
    intro s h
    unfold Region_test_intersection.loop at h
    simp only at h
    split_ifs at h with h1 h2 h3 h4
    · right; exact ⟨i, by simp, Or.inl h1⟩
    · right; exact ⟨i, by simp, Or.inr h2⟩
    · rcases ih _ h with h' | ⟨j, hj, hh⟩
      · omega
      · right; exact ⟨j, by simp [hj], hh⟩
    · rcases ih _ h with h' | ⟨j, hj, hh⟩
      · exact Or.inl h'
      · right; exact ⟨j, by simp [hj], hh⟩
    · rcases ih _ h with h' | ⟨j, hj, hh⟩
      · omega
      · right; exact ⟨j, by simp [hj], hh⟩

theorem Region_test_intersection_cases (dim : Nat) (A Q : Region α) (r : α) :
    Region_test_intersection dim A Q r = 0 ∨ Region_test_intersection dim A Q r = 1 ∨
      Region_test_intersection dim A Q r = 2 := by
  have := loop_le_two A Q r (List.range dim) 2 (le_refl _)
  unfold Region_test_intersection
  omega

/-- When `Region_test_intersection` is 0, the two boxes are more than `radius` apart on
some axis. -/
theorem Region_test_intersection_zero {dim : Nat} {A Q : Region α} {r : α}
    (h : Region_test_intersection dim A Q r = 0) :
    ∃ i, i < dim ∧ (r < idx A._left i - idx Q._right i ∨ r < idx Q._left i - idx A._right i) := by
  rcases loop_zero A Q r _ 2 h with h' | ⟨i, hi, hh⟩
  · omega
  · exact ⟨i, List.mem_range.mp hi, hh⟩

theorem KDTree_dist_eq_sum (a b : List α) (dim : Nat) :
    KDTree_dist a b dim =
      ((List.range dim).map (fun i => (idx a i - idx b i) * (idx a i - idx b i))).sum := by
  unfold KDTree_dist
  rw [List.sum_eq_foldl, List.foldl_map]

theorem sq_le_KDTree_dist (a b : List α) {dim i : Nat} (h : i < dim) :
    (idx a i - idx b i) * (idx a i - idx b i) ≤ KDTree_dist a b dim := by
  rw [KDTree_dist_eq_sum]
  apply List.single_le_sum
  · intro x hx
    rcases List.mem_map.mp hx with ⟨j, _, rfl⟩
    exact mul_self_nonneg _
  · exact List.mem_map.mpr ⟨i, List.mem_range.mpr h, rfl⟩

theorem KDTree_dist_comm (a b : List α) (dim : Nat) :
    KDTree_dist a b dim = KDTree_dist b a dim := by
  rw [KDTree_dist_eq_sum, KDTree_dist_eq_sum]
  congr 1
  apply List.map_congr_left
  intro i _
  ring

theorem KDTree_dist_congr {a a' b b' : List α} {dim : Nat}
    (ha : ∀ i, i < dim → idx a i = idx a' i) (hb : ∀ i, i < dim → idx b i = idx b' i) :
    KDTree_dist a b dim = KDTree_dist a' b' dim := by
  rw [KDTree_dist_eq_sum, KDTree_dist_eq_sum]
  congr 1
  apply List.map_congr_left
  intro i hi
  rw [ha i (List.mem_range.mp hi), hb i (List.mem_range.mp hi)]

/-- Two points more than `r >= 0` apart on one axis have a squared distance above `r*r`. -/
theorem KDTree_dist_far (a b : List α) {dim i : Nat} {r : α} (h : i < dim) (hr : 0 ≤ r)
    (hfar : r < idx a i - idx b i ∨ r < idx b i - idx a i) :
    ¬ KDTree_dist a b dim ≤ r * r := by
  intro hle
  have h1 := sq_le_KDTree_dist a b h
  rcases hfar with hf | hf
  · have := mul_self_lt_mul_self hr hf
    exact absurd (lt_of_lt_of_le this (le_trans h1 hle)) (lt_irrefl _)
  · have := mul_self_lt_mul_self hr hf
    have e : (idx b i - idx a i) * (idx b i - idx a i) =
        (idx a i - idx b i) * (idx a i - idx b i) := by ring
    rw [e] at this
    exact absurd (lt_of_lt_of_le this (le_trans h1 hle)) (lt_irrefl _)

/-! ### Slices of the store -/

theorem slice_nil {β : Type} (l : List β) {s e : Nat} (h : e ≤ s) : slice l s e = [] := by
  unfold slice
  apply List.drop_eq_nil_of_le
  rw [List.length_take]
  omega

theorem slice_cons {β : Type} (l : List β) {s e : Nat} (h : s < e) (he : e ≤ l.length) :
    slice l s e = l[s] :: slice l (s + 1) e := by
  unfold slice
  have hs : s < (l.take e).length := by rw [List.length_take]; omega
  rw [List.drop_eq_getElem_cons hs, List.getElem_take]

theorem slice_append {β : Type} (l : List β) {s m e : Nat} (h1 : s ≤ m) (h2 : m ≤ e) :
    slice l s m ++ slice l m e = slice l s e := by
  unfold slice
  have : l.take m = (l.take e).take m := by rw [List.take_take, Nat.min_eq_left h2]
  rw [this]
  have h3 : (List.take m (List.take e l)).drop s = ((List.take e l).drop s).take (m - s) := by
    rw [List.drop_take]
  rw [h3]
  have h4 : (List.take e l).drop m = ((List.take e l).drop s).drop (m - s) := by
    rw [List.drop_drop]; congr 1; omega
  rw [h4, List.take_append_drop]

theorem slice_full {β : Type} (l : List β) : slice l 0 l.length = l := by
  simp [slice]

theorem slice_length {β : Type} (l : List β) {s e : Nat} (he : e ≤ l.length) :
    (slice l s e).length = e - s := by
  simp [slice, List.length_take, Nat.min_eq_left he]

theorem point_eq (t : KDTree α) {i : Nat} (h : i < t._data_point_list.length) :
    t.point i = Except.ok t._data_point_list[i] := by
  simp [KDTree.point, List.get?_eq_getElem?, List.getElem?_eq_getElem h]

/-! ### Result buffers -/

@[simp] theorem addNeighbors_nil (t : KDTree α) : t.addNeighbors [] = t := by
  cases t; simp [KDTree.addNeighbors]

@[simp] theorem addNeighbors_addNeighbors (t : KDTree α) (a b : List (Neighbor α)) :
    (t.addNeighbors a).addNeighbors b = t.addNeighbors (a ++ b) := by
  simp [KDTree.addNeighbors, Nat.add_assoc]

@[simp] theorem addNeighbors_store (t : KDTree α) (a : List (Neighbor α)) :
    (t.addNeighbors a)._data_point_list = t._data_point_list := rfl

@[simp] theorem addNeighbors_dim (t : KDTree α) (a : List (Neighbor α)) :
    (t.addNeighbors a).dim = t.dim := rfl

@[simp] theorem addNeighbors_radius (t : KDTree α) (a : List (Neighbor α)) :
    (t.addNeighbors a)._neighbor_radius = t._neighbor_radius := rfl

@[simp] theorem nhit_addNeighbors (libc : Libc α) (t : KDTree α) (a : List (Neighbor α)) :
    nhit libc (t.addNeighbors a) = nhit libc t := rfl

@[simp] theorem crossL_addNeighbors (libc : Libc α) (t : KDTree α) (a : List (Neighbor α)) :
    crossL libc (t.addNeighbors a) = crossL libc t := rfl

@[simp] theorem innerL_addNeighbors (libc : Libc α) (t : KDTree α) (a : List (Neighbor α)) :
    innerL libc (t.addNeighbors a) = innerL libc t := by
  funext L
  induction L with
  | nil => rfl
  | cons p rest ih => simp [innerL, ih]

@[simp] theorem addRadii_nil (t : KDTree α) : t.addRadii [] = t := by
  cases t; simp [KDTree.addRadii]

@[simp] theorem addRadii_addRadii (t : KDTree α) (a b : List (Radius α)) :
    (t.addRadii a).addRadii b = t.addRadii (a ++ b) := by
  simp [KDTree.addRadii, Nat.add_assoc]

@[simp] theorem addRadii_store (t : KDTree α) (a : List (Radius α)) :
    (t.addRadii a)._data_point_list = t._data_point_list := rfl

@[simp] theorem addRadii_dim (t : KDTree α) (a : List (Radius α)) :
    (t.addRadii a).dim = t.dim := rfl

@[simp] theorem addRadii_query (t : KDTree α) (a : List (Radius α)) :
    (t.addRadii a)._query_region = t._query_region := rfl

@[simp] theorem rhit_addRadii (libc : Libc α) (t : KDTree α) (a : List (Radius α)) :
    rhit libc (t.addRadii a) = rhit libc t := rfl

theorem KDTree_test_neighbors_eq (libc : Libc α) (t : KDTree α) (p1 p2 : DataPoint α) :
    KDTree_test_neighbors libc t p1 p2 = t.addNeighbors (nhit libc t p1 p2) := by
  unfold KDTree_test_neighbors nhit
  simp only
  split_ifs
  · rfl
  · simp

theorem KDTree_report_point_eq (libc : Libc α) (t : KDTree α) (p : DataPoint α) :
    KDTree_report_point libc t p._index p._coord = t.addRadii (rhit libc t p) := by
  unfold KDTree_report_point rhit
  simp only
  split_ifs
  · rfl
  · simp

/-! ### Loops -/

theorem ok_bind {β γ : Type} (a : β) (f : β → Run γ) : (Except.ok a >>= f) = f a := rfl

theorem deref_some (Q : Region α) : Region.deref (some Q) = Except.ok Q := rfl

theorem forRange_done {σ : Type} {lo hi : Nat} (body : Nat → σ → Run σ) (s : σ) (h : hi ≤ lo) :
    forRange lo hi body s = pure s := by
  unfold forRange
  rw [Nat.sub_eq_zero_of_le h]
  rfl

theorem forRange_step {σ : Type} {lo hi : Nat} (body : Nat → σ → Run σ) (s : σ) (h : lo < hi) :
    forRange lo hi body s = body lo s >>= fun s' => forRange (lo + 1) hi body s' := by
  unfold forRange
  have : hi - lo = (hi - (lo + 1)) + 1 := by omega
  rw [this, List.range'_succ, List.foldlM_cons]

theorem loop_neighbors_row (libc : Libc α) (p1 : DataPoint α) (e : Nat) :
    ∀ (n a : Nat) (t : KDTree α), e - a = n → e ≤ t._data_point_list.length →
      forRange a e (fun j tree => do
        let p2 ← tree.point j
        pure (KDTree_test_neighbors libc tree p1 p2)) t =
      pure (t.addNeighbors ((slice t._data_point_list a e).flatMap (fun b => nhit libc t p1 b))) := by
  intro n
  induction n with
  | zero =>
    intro a t h he
    rw [forRange_done _ _ (by omega), slice_nil _ (by omega)]
    simp
  | succ n ih =>
    intro a t h he
    rw [forRange_step _ _ (by omega), point_eq t (by omega), slice_cons _ (by omega) he]
    simp only [ok_bind, pure_bind]
    rw [KDTree_test_neighbors_eq, ih (a + 1) _ (by omega) (by simpa using he)]
    simp

theorem loop_in_bucket (libc : Libc α)
    (e : Nat) : ∀ (n s : Nat) (t : KDTree α), e - s = n → e ≤ t._data_point_list.length →
      forRange s e (fun i tree => do
        let p1 ← tree.point i
        forRange (i + 1) e (fun j tree => do
          let p2 ← tree.point j
          pure (KDTree_test_neighbors libc tree p1 p2)) tree) t =
        pure (t.addNeighbors (innerL libc t (slice t._data_point_list s e))) := by
  intro n
  induction n with
  | zero =>
    intro s t h he
    rw [forRange_done _ _ (by omega), slice_nil _ (by omega)]
    simp [innerL]
  | succ n ih =>
    intro s t h he
    rw [forRange_step _ _ (by omega), point_eq t (by omega), slice_cons _ (by omega) he]
    simp only [ok_bind]
    rw [loop_neighbors_row libc _ e _ (s + 1) t rfl he]
    simp only [pure_bind]
    rw [ih (s + 1) _ (by omega) (by simpa using he)]
    simp [innerL]

theorem KDTree_search_neighbors_in_bucket_eq (libc : Libc α) (l r : Node α) (v : α)
    (cd s e : Nat) (t : KDTree α) (he : e ≤ t._data_point_list.length) :
    KDTree_search_neighbors_in_bucket libc t (Node.mk l r v cd s e) =
      pure (t.addNeighbors (innerL libc t (slice t._data_point_list s e))) :=
  loop_in_bucket libc e _ s t rfl he

theorem loop_between_buckets (libc : Libc α) (e1 s2 e2 : Nat) :
    ∀ (n s1 : Nat) (t : KDTree α), e1 - s1 = n → e1 ≤ t._data_point_list.length →
      e2 ≤ t._data_point_list.length →
      forRange s1 e1 (fun i tree => do
        let p1 ← tree.point i
        forRange s2 e2 (fun j tree => do
          let p2 ← tree.point j
          pure (KDTree_test_neighbors libc tree p1 p2)) tree) t =
        pure (t.addNeighbors (crossL libc t (slice t._data_point_list s1 e1)
          (slice t._data_point_list s2 e2))) := by
  intro n
  induction n with
  | zero =>
    intro s t h he _
    rw [forRange_done _ _ (by omega), slice_nil _ (by omega)]
    simp [crossL]
  | succ n ih =>
    intro s t h he he2
    rw [forRange_step _ _ (by omega), point_eq t (by omega), slice_cons _ (by omega) he]
    simp only [ok_bind]
    rw [loop_neighbors_row libc _ e2 _ s2 t rfl he2]
    simp only [pure_bind]
    rw [ih (s + 1) _ (by omega) (by simpa using he) (by simpa using he2)]
    simp [crossL]

theorem KDTree_search_neighbors_between_buckets_eq (libc : Libc α) (l1 r1 l2 r2 : Node α)
    (v1 v2 : α) (c1 c2 : Nat) (s1 e1 s2 e2 : Nat) (t : KDTree α)
    (he1 : e1 ≤ t._data_point_list.length) (he2 : e2 ≤ t._data_point_list.length) :
    KDTree_search_neighbors_between_buckets libc t (Node.mk l1 r1 v1 c1 s1 e1)
        (Node.mk l2 r2 v2 c2 s2 e2) =
      pure (t.addNeighbors (crossL libc t (slice t._data_point_list s1 e1)
        (slice t._data_point_list s2 e2))) :=
  loop_between_buckets libc e1 s2 e2 _ s1 t rfl he1 he2

theorem loop_report (libc : Libc α) (e : Nat) :
    ∀ (n a : Nat) (t : KDTree α), e - a = n → e ≤ t._data_point_list.length →
      forRange a e (fun i tree => do
        let data_point ← tree.point i
        pure (KDTree_report_point libc tree data_point._index data_point._coord)) t =
      pure (t.addRadii ((slice t._data_point_list a e).flatMap (fun p => rhit libc t p))) := by
  intro n
  induction n with
  | zero =>
    intro a t h he
    rw [forRange_done _ _ (by omega), slice_nil _ (by omega)]
    simp
  | succ n ih =>
    intro a t h he
    rw [forRange_step _ _ (by omega), point_eq t (by omega), slice_cons _ (by omega) he]
    simp only [ok_bind, pure_bind]
    rw [KDTree_report_point_eq, ih (a + 1) _ (by omega) (by simpa using he)]
    simp

theorem loop_search_leaf (libc : Libc α) (e : Nat) (Q : Region α) :
    ∀ (n a : Nat) (t : KDTree α), e - a = n → e ≤ t._data_point_list.length →
      t._query_region = some Q →
      forRange a e (fun i tree => do
        let data_point ← tree.point i
        let query_region ← Region.deref tree._query_region
        if Region_encloses tree.dim query_region data_point._coord then
          pure (KDTree_report_point libc tree data_point._index data_point._coord)
        else pure tree) t =
      pure (t.addRadii ((slice t._data_point_list a e).flatMap
        (fun p => if Region_encloses t.dim Q p._coord then rhit libc t p else []))) := by
  intro n
  induction n with
  | zero =>
    intro a t h he _
    rw [forRange_done _ _ (by omega), slice_nil _ (by omega)]
    simp
  | succ n ih =>
    intro a t h he hq
    rw [forRange_step _ _ (by omega), point_eq t (by omega), slice_cons _ (by omega) he]
    rw [hq, deref_some]
    simp only [ok_bind]
    by_cases henc : Region_encloses t.dim Q t._data_point_list[a]._coord = true
    · rw [if_pos henc]
      simp only [pure_bind]
      rw [KDTree_report_point_eq, ih (a + 1) _ (by omega) (by simpa using he) (by simpa using hq)]
      simp [henc]
    · rw [if_neg henc]
      simp only [pure_bind]
      rw [ih (a + 1) t (by omega) he hq]
      simp [henc]

/-! ### The tree invariant -/

theorem Inv_not_null {store : List (DataPoint α)} {dim : Nat} {node : Node α} {depth : Nat}
    (h : node.Inv store dim depth) : node.isNull = false := by
  cases node with
  | NULL => exact absurd h (by simp [Node.Inv])
  | mk => rfl

theorem Inv_bounds {store : List (DataPoint α)} {dim : Nat} {node : Node α} {depth : Nat}
    (h : node.Inv store dim depth) : node.start ≤ node.stop ∧ node.stop ≤ store.length := by
  cases node with
  | NULL => exact absurd h (by simp [Node.Inv])
  | mk l r v cd s e =>
    simp only [Node.Inv] at h
    exact ⟨h.1, h.2.1⟩

theorem Inv_pts {store : List (DataPoint α)} {dim : Nat} {node : Node α} :
    ∀ {depth : Nat}, node.Inv store dim depth →
      node.pts store = slice store node.start node.stop := by
  induction node with
  | NULL => intro depth h; exact absurd h (by simp [Node.Inv])
  | mk l r v cd s e ihl ihr =>
    intro depth h
    simp only [Node.Inv] at h
    rcases h with ⟨_, _, h | h⟩
    · rcases h with ⟨rfl, rfl⟩
      simp [Node.pts, Node.isNull, Node.start, Node.stop]
    · rcases h with ⟨hl, hr, h1, h2, h3, h4, h5, _, _⟩
      have hln := Inv_not_null hl
      simp only [Node.pts, hln, Bool.false_and, Node.start, Node.stop]
      rw [ihl hl, ihr hr, h1, ← h3, h5]
      exact slice_append _ (le_of_lt h2) (by rw [h3]; exact le_of_lt h4)

theorem Inv_leaf_depth {store : List (DataPoint α)} {dim : Nat} {v : α} {cd s e : Nat}
    {depth : Nat} (depth' : Nat)
    (h : (Node.mk Node.NULL Node.NULL v cd s e).Inv store dim depth) :
    (Node.mk Node.NULL Node.NULL v cd s e).Inv store dim depth' := by
  simp only [Node.Inv] at h ⊢
  exact ⟨h.1, h.2.1, Or.inl (by simp)⟩

/-! ### The point query -/

theorem flatMap_congr_mem {β γ : Type} {l : List β} {f g : β → List γ}
    (h : ∀ x ∈ l, f x = g x) : l.flatMap f = l.flatMap g := by
  induction l with
  | nil => rfl
  | cons a rest ih =>
    simp only [List.flatMap_cons]
    rw [h a (by simp), ih (fun x hx => h x (by simp [hx]))]

theorem flatMap_nil_of_forall {β γ : Type} {l : List β} {f : β → List γ}
    (h : ∀ x ∈ l, f x = []) : l.flatMap f = [] := by
  rw [flatMap_congr_mem h]
  induction l with
  | nil => rfl
  | cons a rest ih => simp

theorem rhit_enclosed (libc : Libc α) {t : KDTree α} {Q : Region α} {r : α}
    (hq : QueryOK t Q r) (p : DataPoint α) (h : rhit libc t p ≠ []) :
    Encloses t.dim Q p._coord := by
  rcases hq with ⟨hr, hsq, _, hQ⟩
  unfold rhit at h
  by_cases hd : KDTree_dist t._center_coord p._coord t.dim ≤ t._radius_sq
  · intro i hi
    rw [(hQ i hi).1, (hQ i hi).2]
    rw [hsq] at hd
    constructor
    · by_contra hlt
      exact KDTree_dist_far _ _ hi hr (Or.inl (by linarith [not_le.mp hlt])) hd
    · by_contra hlt
      exact KDTree_dist_far _ _ hi hr (Or.inr (by linarith [not_le.mp hlt])) hd
  · simp [hd] at h

theorem rhit_outside (libc : Libc α) {t : KDTree α} {Q R : Region α} {r : α}
    (hq : QueryOK t Q r) (h0 : Region_test_intersection t.dim R Q 0 = 0) (p : DataPoint α)
    (hp : Encloses t.dim R p._coord) : rhit libc t p = [] := by
  rcases hq with ⟨hr, hsq, _, hQ⟩
  rcases Region_test_intersection_zero h0 with ⟨i, hi, hh⟩
  unfold rhit
  rw [if_neg]
  rw [hsq]
  rcases hh with hh | hh
  · apply KDTree_dist_far _ _ hi hr
    right
    have := (hp i hi).1
    rw [(hQ i hi).2] at hh
    linarith
  · apply KDTree_dist_far _ _ hi hr
    left
    have := (hp i hi).2
    rw [(hQ i hi).1] at hh
    linarith

theorem KDTree_report_subtree_eq (libc : Libc α) (node : Node α) :
    ∀ (depth : Nat) (t : KDTree α), node.Inv t._data_point_list t.dim depth →
      KDTree_report_subtree libc t node =
        pure (t.addRadii ((node.pts t._data_point_list).flatMap (fun p => rhit libc t p))) := by
  induction node with
  | NULL => intro depth t h; exact absurd h (by simp [Node.Inv])
  | mk l r v cd s e ihl ihr =>
    intro depth t h
    simp only [Node.Inv] at h
    rcases h with ⟨_, he, h | h⟩
    · rcases h with ⟨rfl, rfl⟩
      simp only [KDTree_report_subtree, Node.isNull, Bool.and_self, if_true, Node.pts]
      exact loop_report libc e _ s t rfl he
    · rcases h with ⟨hl, hr, _⟩
      have hln := Inv_not_null hl
      simp only [KDTree_report_subtree, hln, Bool.false_and, Node.pts, Bool.false_eq_true,
        if_false]
      rw [ihl _ t hl]
      simp only [pure_bind]
      rw [ihr (depth + 1) (t.addRadii _) hr]
      simp

theorem mem_slice_of_mem_slice {β : Type} {l : List β} {s m e : Nat} (h1 : s ≤ m) (h2 : m ≤ e)
    {x : β} : (x ∈ slice l s m ∨ x ∈ slice l m e) → x ∈ slice l s e := by
  rw [← slice_append l h1 h2, List.mem_append]
  exact id

/-- The point search is exact below a node that satisfies the invariant and whose region
encloses its points: with enough fuel `KDTree_search` and `KDTree_test_region` return, having
appended the entry of every point of the subtree that is within the radius, in store order. -/
theorem search_spec (libc : Libc α) (Q : Region α) (r : α) : ∀ fuel : Nat,
    (∀ (t : KDTree α) (region : Option (Region α)) (node : Node α) (depth : Nat)
        (node' : Node α) (R : Region α),
        (if depth = 0 then t._root else node) = node' →
        (if depth = 0 then some (Region_create t.dim none none) else region) = some R →
        2 * node'.height ≤ fuel + 1 →
        node'.Inv t._data_point_list t.dim depth → R.WF t.dim →
        (∀ p ∈ node'.pts t._data_point_list, Encloses t.dim R p._coord) →
        QueryOK t Q r → 0 < t.dim →
        KDTree_search.go libc fuel t region node depth =
          pure (t.addRadii ((node'.pts t._data_point_list).flatMap (fun p => rhit libc t p)))) ∧
    (∀ (t : KDTree α) (node : Node α) (R : Region α) (depth : Nat),
        2 * node.height ≤ fuel →
        node.Inv t._data_point_list t.dim (depth + 1) → R.WF t.dim →
        (∀ p ∈ node.pts t._data_point_list, Encloses t.dim R p._coord) →
        QueryOK t Q r → 0 < t.dim →
        KDTree_test_region.go libc fuel t node R depth =
          pure (t.addRadii ((node.pts t._data_point_list).flatMap (fun p => rhit libc t p)))) := by
  intro fuel
  induction fuel with
  | zero =>
    constructor
    · intro t region node depth node' R _ _ hh hinv
      cases node' with
      | NULL => exact absurd hinv (by simp [Node.Inv])
      | mk l r v cd s e => simp only [Node.height] at hh; omega
    · intro t node R depth hh hinv
      cases node with
      | NULL => exact absurd hinv (by simp [Node.Inv])
      | mk l r v cd s e => simp only [Node.height] at hh; omega
  | succ fuel ih =>
    constructor
    · intro t region node depth node' R hnode hreg hh hinv hwf henc hq hdim
      rw [KDTree_search.go]
      simp only [hnode, hreg]
      cases node' with
      | NULL => exact absurd hinv (by simp [Node.Inv])
      | mk l r v cd s e =>
        have hpts := Inv_pts hinv
        simp only [Node.Inv] at hinv
        rcases hinv with ⟨hse, he, hleaf | hint⟩
        · rcases hleaf with ⟨rfl, rfl⟩
          simp only [Node.isNull, Bool.and_self, if_true, Node.pts]
          rw [loop_search_leaf libc e Q _ s t rfl he hq.2.2.1]
          congr 2
          apply flatMap_congr_mem
          intro p _
          by_cases hp : rhit libc t p = []
          · simp [hp]
          · rw [if_pos ((Region_encloses_iff _ _ _).mpr (rhit_enclosed libc hq p hp))]
        · rcases hint with ⟨hl, hr, h1, h2, h3, h4, h5, hle, hge⟩
          have hln := Inv_not_null hl
          have hlp := Inv_pts hl
          have hrp := Inv_pts hr
          have hmod : depth % t.dim < t.dim := Nat.mod_lt _ hdim
          simp only [hln, Bool.false_and, Bool.false_eq_true, if_false, deref_some, ok_bind,
            Node.pts]
          simp only [Node.pts, hln, Bool.false_and, Bool.false_eq_true, if_false] at henc
          have hhl : 2 * l.height ≤ fuel := by simp only [Node.height] at hh; omega
          have hhr : 2 * r.height ≤ fuel := by simp only [Node.height] at hh; omega
          have hLs : ∀ RL, left_child_region t.dim R v (depth % t.dim) = some RL →
              KDTree_test_region.go libc fuel t l RL depth =
              pure (t.addRadii ((l.pts t._data_point_list).flatMap (fun p => rhit libc t p))) := by
            intro RL hL
            have hRL := left_child_region_some hwf hmod hL
            apply ih.2 t l RL depth hhl hl hRL.1 _ hq hdim
            intro p hp
            rw [hRL.2]
            refine ⟨henc p (List.mem_append.mpr (Or.inl hp)), ?_⟩
            apply hle
            rw [hlp, h1] at hp
            exact hp
          have hLn : left_child_region t.dim R v (depth % t.dim) = none →
              l.pts t._data_point_list = [] := by
            intro hL
            apply List.eq_nil_iff_forall_not_mem.mpr
            intro p hp
            refine left_child_region_none hmod hL p._coord
              (henc p (List.mem_append.mpr (Or.inl hp))) ?_
            apply hle
            rw [hlp, h1] at hp
            exact hp
          have hRs : ∀ (hits : List (Radius α)) (RR : Region α),
              right_child_region t.dim R v (depth % t.dim) = some RR →
              KDTree_test_region.go libc fuel (t.addRadii hits) r RR depth =
              pure ((t.addRadii hits).addRadii
                ((r.pts t._data_point_list).flatMap (fun p => rhit libc t p))) := by
            intro hits RR hR
            have hRR := right_child_region_some hwf hmod hR
            apply ih.2 (t.addRadii hits) r RR depth hhr hr hRR.1 _ hq hdim
            intro p hp
            show Encloses t.dim RR p._coord
            rw [hRR.2]
            refine ⟨henc p (List.mem_append.mpr (Or.inr hp)), ?_⟩
            apply hge
            have hp' : p ∈ r.pts t._data_point_list := hp
            rw [hrp, ← h3, h5] at hp'
            exact hp'
          have hRn : right_child_region t.dim R v (depth % t.dim) = none →
              r.pts t._data_point_list = [] := by
            intro hR
            apply List.eq_nil_iff_forall_not_mem.mpr
            intro p hp
            refine right_child_region_none hmod hR p._coord
              (henc p (List.mem_append.mpr (Or.inr hp))) ?_
            apply hge
            rw [hrp, ← h3, h5] at hp
            exact hp
          cases hL : left_child_region t.dim R v (depth % t.dim) with
          | none =>
            simp only [pure_bind]
            rw [hLn hL]
            cases hR : right_child_region t.dim R v (depth % t.dim) with
            | none =>
              simp only
              rw [hRn hR]
              simp
            | some RR =>
              simp only
              have := hRs [] RR hR
              simp only [addRadii_nil] at this
              rw [this]
              simp
          | some RL =>
            simp only
            rw [hLs RL hL]
            simp only [pure_bind, addRadii_dim]
            cases hR : right_child_region t.dim R v (depth % t.dim) with
            | none =>
              simp only
              rw [hRn hR]
              simp
            | some RR =>
              simp only
              rw [hRs _ RR hR]
              simp
    · intro t node R depth hh hinv hwf henc hq hdim
      rw [KDTree_test_region.go]
      rw [hq.2.2.1, deref_some]
      simp only [ok_bind]
      rcases Region_test_intersection_cases t.dim R Q 0 with h0 | h1 | h2
      · simp only [h0]
        have : (node.pts t._data_point_list).flatMap (fun p => rhit libc t p) = [] := by
          apply flatMap_nil_of_forall
          intro p hp
          exact rhit_outside libc hq h0 p (henc p hp)
        rw [this]
        simp
      · simp only [h1]
        simp only [OfNat.ofNat_ne_one, if_false, if_true]
        exact ih.1 t (some R) node (depth + 1) node R (by simp) (by simp) (by omega) hinv hwf
          henc hq hdim
      · simp only [h2, if_true]
        exact KDTree_report_subtree_eq libc node _ t hinv

/-! ### Building the tree -/

theorem slice_eq_drop_take {β : Type} (l : List β) (s e : Nat) :
    slice l s e = (l.drop s).take (e - s) := by
  unfold slice
  rw [List.drop_take]

theorem slice_sub_left {β : Type} (l : List β) {s m e : Nat} (h2 : m ≤ e) :
    slice l s m = (slice l s e).take (m - s) := by
  unfold slice
  have : l.take m = (l.take e).take m := by rw [List.take_take, Nat.min_eq_left h2]
  rw [this, List.drop_take]

theorem slice_sub_right {β : Type} (l : List β) {s m e : Nat} (h1 : s ≤ m) :
    slice l m e = (slice l s e).drop (m - s) := by
  unfold slice
  rw [List.drop_drop]
  congr 1
  omega

theorem take_of_take_eq {β : Type} {l1 l2 : List β} {m n : Nat} (h : l1.take n = l2.take n)
    (hm : m ≤ n) : l1.take m = l2.take m := by
  have := congrArg (List.take m) h
  rwa [List.take_take, List.take_take, Nat.min_eq_left hm] at this

theorem drop_of_drop_eq {β : Type} {l1 l2 : List β} {m n : Nat} (h : l1.drop n = l2.drop n)
    (hm : n ≤ m) : l1.drop m = l2.drop m := by
  have := congrArg (List.drop (m - n)) h
  rw [List.drop_drop, List.drop_drop] at this
  have e : n + (m - n) = m := by omega
  rwa [e] at this

theorem slice_of_take_eq {β : Type} {l1 l2 : List β} {s e : Nat} (h : l1.take e = l2.take e) :
    slice l1 s e = slice l2 s e := by
  unfold slice
  rw [h]

theorem slice_of_drop_eq {β : Type} {l1 l2 : List β} {s e : Nat} (h : l1.drop s = l2.drop s) :
    slice l1 s e = slice l2 s e := by
  rw [slice_eq_drop_take, slice_eq_drop_take, h]

theorem take_slice_drop {β : Type} (l : List β) {s e : Nat} (h : s ≤ e) :
    l.take s ++ slice l s e ++ l.drop e = l := by
  have h1 : l.take s = slice l 0 s := by simp [slice]
  rw [h1, slice_append l (Nat.zero_le _) h]
  simp [slice]

theorem Inv_congr {dim : Nat} {store store' : List (DataPoint α)}
    (hlen : store'.length = store.length) (node : Node α) :
    ∀ depth, node.Inv store dim depth →
      slice store' node.start node.stop = slice store node.start node.stop →
      node.Inv store' dim depth := by
  induction node with
  | NULL => intro depth h; exact absurd h (by simp [Node.Inv])
  | mk l r v cd s e ihl ihr =>
    intro depth h hs
    simp only [Node.start, Node.stop] at hs
    simp only [Node.Inv] at h ⊢
    rcases h with ⟨hse, he, hleaf | hint⟩
    · exact ⟨hse, by rw [hlen]; exact he, Or.inl hleaf⟩
    · rcases hint with ⟨hl, hr, h1, h2, h3, h4, h5, hle, hge⟩
      have hsl : slice store' s l.stop = slice store s l.stop := by
        rw [slice_sub_left store' (by omega : l.stop ≤ e),
          slice_sub_left store (by omega : l.stop ≤ e), hs]
      have hsr : slice store' l.stop e = slice store l.stop e := by
        rw [slice_sub_right store' (by omega : s ≤ l.stop),
          slice_sub_right store (by omega : s ≤ l.stop), hs]
      refine ⟨hse, by rw [hlen]; exact he, Or.inr ⟨?_, ?_, h1, h2, h3, h4, h5, ?_, ?_⟩⟩
      · exact ihl _ hl (by rw [h1]; exact hsl)
      · exact ihr _ hr (by rw [← h3, h5]; exact hsr)
      · rw [hsl]; exact hle
      · rw [hsr]; exact hge

theorem compare_le_iff (d : Nat) (p q : DataPoint α) :
    compare d p q ≤ 0 ↔ idx p._coord d ≤ idx q._coord d := by
  unfold compare
  simp only
  split_ifs with h1 h2
  · simp [le_of_lt h1]
  · simp [h2]
  · simp [not_lt.mp h2]

/-- In a list sorted on axis `d`, the first `m` elements are at most element `m-1` on that
axis and the others at least. -/
theorem sorted_split {d : Nat} {L : List (DataPoint α)}
    (hs : L.Pairwise (fun p q => compare d p q ≤ 0)) {m : Nat} (hm1 : 1 ≤ m)
    {q : DataPoint α} (hq : L.get? (m - 1) = some q) :
    (∀ p ∈ L.take m, idx p._coord d ≤ idx q._coord d) ∧
    (∀ p ∈ L.drop m, idx q._coord d ≤ idx p._coord d) := by
  rw [List.pairwise_iff_getElem] at hs
  rw [List.get?_eq_getElem?] at hq
  have hlen : m - 1 < L.length := (List.getElem?_eq_some_iff.mp hq).1
  have hq' : L[m - 1] = q := (List.getElem?_eq_some_iff.mp hq).2
  constructor
  · intro p hp
    rcases List.getElem_of_mem hp with ⟨i, hi, rfl⟩
    rw [List.length_take] at hi
    rw [List.getElem_take, ← hq']
    by_cases hlt : i < m - 1
    · exact (compare_le_iff d _ _).mp (hs i (m - 1) (by omega) (by omega) hlt)
    · have : i = m - 1 := by omega
      subst this
      exact le_refl _
  · intro p hp
    rcases List.getElem_of_mem hp with ⟨i, hi, rfl⟩
    rw [List.length_drop] at hi
    rw [List.getElem_drop, ← hq']
    exact (compare_le_iff d _ _).mp (hs (m - 1) (m + i) (by omega) (by omega) (by omega))

theorem slice_get? {β : Type} (l : List β) {s e k : Nat} (hk : k < e - s) :
    (slice l s e).get? k = l.get? (s + k) := by
  rw [slice_eq_drop_take, List.get?_eq_getElem?, List.get?_eq_getElem?,
    List.getElem?_take_of_lt hk, List.getElem?_drop]

theorem store_eta (t : KDTree α) : { t with _data_point_list := t._data_point_list } = t := by
  cases t; rfl

/-- With one unit of fuel per point and one more, `KDTree_build_tree` returns; it permutes
the store within `[b, e)` only, and the node it returns covers `[b, e)` and satisfies the
invariant over the store it leaves. -/
theorem build_go_spec (libc : Libc α) : ∀ (fuel : Nat) (t : KDTree α) (b e depth : Nat),
    0 < t._bucket_size → (depth = 0 → b = 0 ∧ e = t._data_point_list.length) →
    b ≤ e → e ≤ t._data_point_list.length → e - b < fuel →
    ∃ (node : Node α) (store' : List (DataPoint α)),
      KDTree_build_tree.go libc fuel t b e depth =
        pure (node, { t with _data_point_list := store' }) ∧
      store'.length = t._data_point_list.length ∧
      store'.take b = t._data_point_list.take b ∧
      store'.drop e = t._data_point_list.drop e ∧
      (slice store' b e).Perm (slice t._data_point_list b e) ∧
      node.start = b ∧ node.stop = e ∧ node.Inv store' t.dim depth := by
  intro fuel
  induction fuel with
  | zero => intro t b e depth _ _ _ _ h; omega
  | succ fuel ih =>
    intro t b e depth hbucket hd0 hbe he hfuel
    have eb : (if depth = 0 then 0 else b) = b := by
      by_cases h : depth = 0
      · simp [h, (hd0 h).1]
      · simp [h]
    have ee : (if depth = 0 then t._data_point_list.length else e) = e := by
      by_cases h : depth = 0
      · simp [h, (hd0 h).2]
      · simp [h]
    have ed : (if depth = 0 then 0 else depth % t.dim) = depth % t.dim := by
      by_cases h : depth = 0
      · simp [h]
      · simp [h]
    rw [KDTree_build_tree.go]
    simp only [eb, ee, ed]
    by_cases hleaf : e - b ≤ t._bucket_size
    · rw [if_pos hleaf]
      refine ⟨Node_create (-1) (depth % t.dim) b e, t._data_point_list, ?_, rfl, rfl, rfl,
        List.Perm.refl _, rfl, rfl, ?_⟩
      · rw [store_eta]
      · simp [Node_create, Node.Inv, hbe, he]
    · rw [if_neg hleaf]
      -- the sorted store
      generalize hS : slice t._data_point_list b e = S
      generalize hsorted : libc.qsort (compare (depth % t.dim)) S = sorted
      have hperm : sorted.Perm S := by rw [← hsorted]; exact libc.qsort_perm _ _
      have hpw : sorted.Pairwise (fun p q => compare (depth % t.dim) p q ≤ 0) := by
        rw [← hsorted]; exact libc.qsort_sorted _ _
      have hSlen : S.length = e - b := by rw [← hS]; exact slice_length _ he
      have hsl : sorted.length = e - b := by rw [hperm.length_eq, hSlen]
      have hstore1 : t._data_point_list.take b ++
          DataPoint_sort libc (t._data_point_list.drop b) (e - b) (depth % t.dim) =
          t._data_point_list.take b ++ sorted ++ t._data_point_list.drop e := by
        unfold DataPoint_sort
        rw [← slice_eq_drop_take, hS, hsorted, List.drop_drop, List.append_assoc]
        congr 3
        omega
      rw [hstore1]
      generalize hst1 : t._data_point_list.take b ++ sorted ++ t._data_point_list.drop e = store1
      have htb : (t._data_point_list.take b).length = b := by
        rw [List.length_take]; omega
      have h1len : store1.length = t._data_point_list.length := by
        rw [← hst1]
        simp only [List.length_append, htb, hsl, List.length_drop]
        omega
      have h1take : store1.take b = t._data_point_list.take b := by
        rw [← hst1, List.append_assoc, List.take_left' htb]
      have h1drop : store1.drop e = t._data_point_list.drop e := by
        rw [← hst1]
        apply List.drop_left'
        simp only [List.length_append, htb, hsl]
        omega
      have h1slice : slice store1 b e = sorted := by
        rw [slice_eq_drop_take, ← hst1, List.append_assoc, List.drop_left' htb,
          List.take_left' hsl]
      -- the split point
      have hd2 : 2 ≤ e - b := by omega
      generalize hm : (e - b) / 2 + (e - b) % 2 = m
      have hm1 : 1 ≤ m := by omega
      have hm2 : m < e - b := by omega
      have hidx : b + m - 1 = b + (m - 1) := by omega
      have hq : ∃ q, store1.get? (b + m - 1) = some q ∧ sorted.get? (m - 1) = some q := by
        have hlt : m - 1 < sorted.length := by omega
        refine ⟨sorted[m - 1], ?_, ?_⟩
        · rw [hidx, ← slice_get? store1 (by omega : m - 1 < e - b), h1slice,
            List.get?_eq_getElem?, List.getElem?_eq_getElem hlt]
        · rw [List.get?_eq_getElem?, List.getElem?_eq_getElem hlt]
      rcases hq with ⟨q, hq1, hq2⟩
      have hsplit := sorted_split hpw hm1 hq2
      have hpoint : KDTree.point { t with _data_point_list := store1 } (b + m - 1) =
          Except.ok q := by
        simp only [KDTree.point, hq1]
      rw [hpoint]
      simp only [ok_bind]
      -- left subtree
      rcases ih { t with _data_point_list := store1 } b (b + m) (depth + 1) hbucket
        (by simp) (by omega) (by simp only [h1len]; omega) (by omega) with
        ⟨L, store2, hgoL, h2len, h2take, h2drop, h2perm, hLs, hLe, hLinv⟩
      simp only at h2len h2take h2drop h2perm hLinv hgoL
      rw [hgoL]
      simp only [pure_bind]
      -- right subtree
      rcases ih { t with _data_point_list := store2 } (b + m) e (depth + 1) hbucket
        (by simp) (by omega) (by simp only [h2len, h1len]; omega) (by omega) with
        ⟨R, store3, hgoR, h3len, h3take, h3drop, h3perm, hRs, hRe, hRinv⟩
      simp only at h3len h3take h3drop h3perm hRinv hgoR
      rw [hgoR]
      simp only [pure_bind]
      have hA : slice store3 b (b + m) = slice store2 b (b + m) := slice_of_take_eq h3take
      have hB : slice store2 (b + m) e = slice store1 (b + m) e := slice_of_drop_eq h2drop
      have hC : slice store1 b (b + m) = sorted.take m := by
        rw [slice_sub_left store1 (by omega : b + m ≤ e), h1slice]
        congr 1
        omega
      have hD : slice store1 (b + m) e = sorted.drop m := by
        rw [slice_sub_right store1 (by omega : b ≤ b + m), h1slice]
        congr 1
        omega
      refine ⟨_, store3, rfl, ?_, ?_, ?_, ?_, rfl, rfl, ?_⟩
      · rw [h3len, h2len, h1len]
      · rw [take_of_take_eq h3take (by omega), h2take, h1take]
      · rw [h3drop, drop_of_drop_eq h2drop (by omega), h1drop]
      · rw [← slice_append store3 (by omega : b ≤ b + m) (by omega : b + m ≤ e), hA, ← hS]
        have h5 : (slice store2 b (b + m) ++ slice store3 (b + m) e).Perm
            (sorted.take m ++ sorted.drop m) := by
          apply List.Perm.append
          · rw [← hC]; exact h2perm
          · rw [← hD, ← hB]; exact h3perm
        rw [List.take_append_drop] at h5
        rw [hS]
        exact h5.trans hperm
      · simp only [Node.Inv]
        refine ⟨hbe, by rw [h3len, h2len, h1len]; exact he, Or.inr ⟨?_, hRinv, hLs, ?_, ?_, ?_,
          hRe, ?_, ?_⟩⟩
        · apply Inv_congr (by rw [h3len]) L _ hLinv
          rw [hLs, hLe]
          exact hA
        · rw [hLe]; omega
        · rw [hLe, hRs]
        · rw [hRs]; omega
        · intro p hp
          rw [hLe, hA] at hp
          exact hsplit.1 p (by rw [← hC]; exact h2perm.subset hp)
        · intro p hp
          rw [hLe] at hp
          exact hsplit.2 p (by rw [← hD, ← hB]; exact h3perm.subset hp)

/-! ### Entries of the neighbor list as multisets -/

@[simp] theorem keys_nil : keys ([] : List (Neighbor α)) = 0 := rfl

@[simp] theorem keys_append (a b : List (Neighbor α)) : keys (a ++ b) = keys a + keys b := by
  simp [keys]

theorem keys_reverse (a : List (Neighbor α)) : keys a.reverse = keys a := by
  unfold keys
  rw [List.map_reverse]
  exact Multiset.coe_reverse _

theorem keys_perm {a b : List (Neighbor α)} (h : a.Perm b) : keys a = keys b := by
  unfold keys
  exact Multiset.coe_eq_coe.mpr (h.map _)

theorem keys_flatMap {β : Type} (l : List β) (f : β → List (Neighbor α)) :
    keys (l.flatMap f) = (Multiset.ofList l).bind (fun a => keys (f a)) := by
  induction l with
  | nil => simp
  | cons a rest ih =>
    rw [List.flatMap_cons, keys_append, ih, ← Multiset.cons_coe, Multiset.cons_bind]

theorem keys_nhit_comm (libc : Libc α) (t : KDTree α) (a b : DataPoint α) :
    keys (nhit libc t a b) = keys (nhit libc t b a) := by
  unfold nhit
  rw [KDTree_dist_comm b._coord a._coord]
  split_ifs
  · simp [keys, nkey, Sym2.eq_swap]
  · rfl

theorem keys_crossL (libc : Libc α) (t : KDTree α) (A B : List (DataPoint α)) :
    keys (crossL libc t A B) = (Multiset.ofList A).bind (fun a =>
      (Multiset.ofList B).bind (fun b => keys (nhit libc t a b))) := by
  unfold crossL
  rw [keys_flatMap]
  congr 1
  funext a
  rw [keys_flatMap]

theorem keys_crossL_comm (libc : Libc α) (t : KDTree α) (A B : List (DataPoint α)) :
    keys (crossL libc t A B) = keys (crossL libc t B A) := by
  rw [keys_crossL, keys_crossL, Multiset.bind_bind]
  congr 1
  funext b
  congr 1
  funext a
  exact keys_nhit_comm libc t a b

theorem keys_crossL_append_left (libc : Libc α) (t : KDTree α) (A1 A2 B : List (DataPoint α)) :
    keys (crossL libc t (A1 ++ A2) B) = keys (crossL libc t A1 B) + keys (crossL libc t A2 B) := by
  simp [crossL]

theorem keys_crossL_append_right (libc : Libc α) (t : KDTree α) (A B1 B2 : List (DataPoint α)) :
    keys (crossL libc t A (B1 ++ B2)) = keys (crossL libc t A B1) + keys (crossL libc t A B2) := by
  rw [keys_crossL_comm, keys_crossL_append_left, keys_crossL_comm libc t B1,
    keys_crossL_comm libc t B2]

@[simp] theorem crossL_nil_left (libc : Libc α) (t : KDTree α) (B : List (DataPoint α)) :
    crossL libc t [] B = [] := rfl

@[simp] theorem crossL_nil_right (libc : Libc α) (t : KDTree α) (A : List (DataPoint α)) :
    crossL libc t A [] = [] := by
  simp [crossL]

theorem keys_crossL_perm_left (libc : Libc α) (t : KDTree α) {A A' : List (DataPoint α)}
    (B : List (DataPoint α)) (h : A.Perm A') :
    keys (crossL libc t A B) = keys (crossL libc t A' B) := by
  rw [keys_crossL, keys_crossL, Multiset.coe_eq_coe.mpr h]

theorem keys_innerL_cons (libc : Libc α) (t : KDTree α) (a : DataPoint α)
    (L : List (DataPoint α)) :
    keys (innerL libc t (a :: L)) = keys (crossL libc t [a] L) + keys (innerL libc t L) := by
  simp [innerL, crossL]

theorem keys_innerL_append (libc : Libc α) (t : KDTree α) (A B : List (DataPoint α)) :
    keys (innerL libc t (A ++ B)) =
      keys (innerL libc t A) + keys (innerL libc t B) + keys (crossL libc t A B) := by
  induction A with
  | nil => simp [innerL]
  | cons a rest ih =>
    have e : a :: rest = [a] ++ rest := rfl
    rw [List.cons_append, keys_innerL_cons, ih, keys_innerL_cons, keys_crossL_append_right,
      e, keys_crossL_append_left]
    abel

theorem keys_innerL_perm (libc : Libc α) (t : KDTree α) {L L' : List (DataPoint α)}
    (h : L.Perm L') : keys (innerL libc t L) = keys (innerL libc t L') := by
  induction h with
  | nil => rfl
  | cons a _ ih =>
    rw [keys_innerL_cons, keys_innerL_cons, ih]
    congr 1
    rw [keys_crossL_comm, keys_crossL_comm libc t [a]]
    exact keys_crossL_perm_left libc t _ ‹_›
  | swap a b l =>
    rw [keys_innerL_cons, keys_innerL_cons, keys_innerL_cons, keys_innerL_cons]
    have e1 : b :: l = [b] ++ l := rfl
    have e2 : a :: l = [a] ++ l := rfl
    rw [e1, e2, keys_crossL_append_right, keys_crossL_append_right,
      keys_crossL_comm libc t [a] [b]]
    abel
  | trans _ _ ih1 ih2 => exact ih1.trans ih2

/-! ### Composing steps of the pair search -/

theorem PairSpec.of_total {res : Run (KDTree α)} {t : KDTree α} (hits : List (Neighbor α))
    {M : Multiset (Sym2 Nat × α)} {C : Prop} (h : res = pure (t.addNeighbors hits))
    (hle : keys hits ≤ M) (heq : C → keys hits = M) : PairSpec res t M C := by
  constructor
  · intro t' ht'
    rw [h] at ht'
    cases ht'
    exact ⟨hits, rfl, hle, heq⟩
  · intro _
    exact ⟨_, h⟩

theorem PairSpec.bind {r1 : Run (KDTree α)} {f : KDTree α → Run (KDTree α)} {t : KDTree α}
    {M1 M2 : Multiset (Sym2 Nat × α)} {C1 C2 : Prop} (h1 : PairSpec r1 t M1 C1)
    (h2 : ∀ hits, PairSpec (f (t.addNeighbors hits)) (t.addNeighbors hits) M2 C2) :
    PairSpec (r1 >>= f) t (M1 + M2) (C1 ∧ C2) := by
  constructor
  · intro t' ht'
    cases hr : r1 with
    | error e => rw [hr] at ht'; cases ht'
    | ok t1 =>
      rw [hr] at ht'
      rcases h1.1 t1 hr with ⟨hits1, rfl, hle1, heq1⟩
      rcases (h2 hits1).1 t' ht' with ⟨hits2, rfl, hle2, heq2⟩
      refine ⟨hits1 ++ hits2, by simp, ?_, ?_⟩
      · rw [keys_append]; exact add_le_add hle1 hle2
      · rintro ⟨c1, c2⟩
        rw [keys_append, heq1 c1, heq2 c2]
  · rintro ⟨c1, c2⟩
    rcases h1.2 c1 with ⟨t1, hr⟩
    rcases h1.1 t1 hr with ⟨hits1, rfl, _, _⟩
    rcases (h2 hits1).2 c2 with ⟨t', ht'⟩
    exact ⟨t', by rw [hr]; exact ht'⟩

theorem PairSpec.mono {res : Run (KDTree α)} {t : KDTree α} {M M' : Multiset (Sym2 Nat × α)}
    {C C' : Prop} (h : PairSpec res t M C) (hM : M = M') (hC : C' → C) :
    PairSpec res t M' C' := by
  subst hM
  constructor
  · intro t' ht'
    rcases h.1 t' ht' with ⟨hits, e, hle, heq⟩
    exact ⟨hits, e, hle, fun c => heq (hC c)⟩
  · intro c
    exact h.2 (hC c)

theorem PairSpec.skip {t : KDTree α} {M : Multiset (Sym2 Nat × α)} {C : Prop}
    (h : C → M = 0) : PairSpec (pure t) t M C :=
  PairSpec.of_total [] (by simp) (by simp) (fun c => by simp [h c])

/-! ### The descent over two subtrees -/

theorem nhit_far (libc : Libc α) {t : KDTree α} (hN : NeighborOK t) {RD RU : Region α}
    (h0 : Region_test_intersection t.dim RD RU t._neighbor_radius = 0) {a b : DataPoint α}
    (ha : Encloses t.dim RD a._coord) (hb : Encloses t.dim RU b._coord) :
    nhit libc t a b = [] := by
  rcases Region_test_intersection_zero h0 with ⟨i, hi, hh⟩
  unfold nhit
  rw [if_neg]
  rw [hN.2]
  apply KDTree_dist_far _ _ hi hN.1
  rcases hh with hh | hh
  · left
    have := (ha i hi).1
    have := (hb i hi).2
    linarith
  · right
    have := (ha i hi).2
    have := (hb i hi).1
    linarith

theorem crossL_pruned (libc : Libc α) {t : KDTree α} (hN : NeighborOK t) {RD RU : Region α}
    (h0 : Region_test_intersection t.dim RD RU t._neighbor_radius = 0)
    {A B : List (DataPoint α)} (hA : ∀ p ∈ A, Encloses t.dim RD p._coord)
    (hB : ∀ p ∈ B, Encloses t.dim RU p._coord) : crossL libc t A B = [] := by
  unfold crossL
  apply flatMap_nil_of_forall
  intro a ha
  apply flatMap_nil_of_forall
  intro b hb
  exact nhit_far libc hN h0 (hA a ha) (hB b hb)

/-- The two sides `pairs_children` prepares from a node split its points, satisfy the
invariant one level down, have regions that account for their points, and are no higher
than the node (lower when the node is internal). -/
theorem pairs_children_spec {store : List (DataPoint α)} {dim : Nat} {l r : Node α} {v : α}
    {cd s e depth : Nat} (hX : (Node.mk l r v cd s e).Inv store dim depth) (RX : Region α) :
    (Node.mk l r v cd s e).pts store =
        (pairs_children dim (Node.mk l r v cd s e) RX (depth % dim)).1.pts store ++
        (pairs_children dim (Node.mk l r v cd s e) RX (depth % dim)).2.2.1.pts store ∧
    SideOK store dim (pairs_children dim (Node.mk l r v cd s e) RX (depth % dim)).1 (depth + 1) ∧
    SideOK store dim (pairs_children dim (Node.mk l r v cd s e) RX (depth % dim)).2.2.1
      (depth + 1) ∧
    (0 < dim → RX.WF dim → (∀ p ∈ (Node.mk l r v cd s e).pts store, Encloses dim RX p._coord) →
      SideEncl store dim (pairs_children dim (Node.mk l r v cd s e) RX (depth % dim)).1
        (pairs_children dim (Node.mk l r v cd s e) RX (depth % dim)).2.1 ∧
      SideEncl store dim (pairs_children dim (Node.mk l r v cd s e) RX (depth % dim)).2.2.1
        (pairs_children dim (Node.mk l r v cd s e) RX (depth % dim)).2.2.2) ∧
    (pairs_children dim (Node.mk l r v cd s e) RX (depth % dim)).1.height ≤
      (Node.mk l r v cd s e).height ∧
    (pairs_children dim (Node.mk l r v cd s e) RX (depth % dim)).2.2.1.height ≤
      (Node.mk l r v cd s e).height ∧
    ((l.isNull && r.isNull) = false →
      (pairs_children dim (Node.mk l r v cd s e) RX (depth % dim)).1.height <
        (Node.mk l r v cd s e).height ∧
      (pairs_children dim (Node.mk l r v cd s e) RX (depth % dim)).2.2.1.height <
        (Node.mk l r v cd s e).height) := by
  have hX' := hX
  simp only [Node.Inv] at hX'
  rcases hX' with ⟨hse, he, hleaf | hint⟩
  · rcases hleaf with ⟨rfl, rfl⟩
    simp only [pairs_children, Node.isNull, Bool.and_self, if_true]
    refine ⟨by simp [Node.pts], Or.inr (Inv_leaf_depth _ hX), Or.inl rfl, ?_, le_refl _,
      by simp [Node.height], by simp⟩
    intro _ hwf henc
    refine ⟨⟨Region_create_WF _ _ _, fun p hp => (Encloses_copy _ _ _).mpr (henc p hp)⟩, ?_⟩
    simp [SideEncl, Node.pts]
  · rcases hint with ⟨hl, hr, h1, h2, h3, h4, h5, hle, hge⟩
    have hln := Inv_not_null hl
    have hlp := Inv_pts hl
    have hrp := Inv_pts hr
    simp only [pairs_children, hln, Bool.false_and, Bool.false_eq_true, if_false]
    refine ⟨by simp [Node.pts, hln], Or.inr hl, Or.inr hr, ?_, ?_, ?_, ?_⟩
    · intro hdim hwf henc
      have hmod : depth % dim < dim := Nat.mod_lt _ hdim
      simp only [Node.pts, hln, Bool.false_and, Bool.false_eq_true, if_false] at henc
      constructor
      · cases hL : left_child_region dim RX v (depth % dim) with
        | none =>
          simp only [SideEncl]
          apply List.eq_nil_iff_forall_not_mem.mpr
          intro p hp
          refine left_child_region_none hmod hL p._coord
            (henc p (List.mem_append.mpr (Or.inl hp))) ?_
          apply hle
          rw [hlp, h1] at hp
          exact hp
        | some RL =>
          have hRL := left_child_region_some hwf hmod hL
          refine ⟨hRL.1, fun p hp => ?_⟩
          rw [hRL.2]
          refine ⟨henc p (List.mem_append.mpr (Or.inl hp)), ?_⟩
          apply hle
          rw [hlp, h1] at hp
          exact hp
      · cases hR : right_child_region dim RX v (depth % dim) with
        | none =>
          simp only [SideEncl]
          apply List.eq_nil_iff_forall_not_mem.mpr
          intro p hp
          refine right_child_region_none hmod hR p._coord
            (henc p (List.mem_append.mpr (Or.inr hp))) ?_
          apply hge
          rw [hrp, ← h3, h5] at hp
          exact hp
        | some RR =>
          have hRR := right_child_region_some hwf hmod hR
          refine ⟨hRR.1, fun p hp => ?_⟩
          rw [hRR.2]
          refine ⟨henc p (List.mem_append.mpr (Or.inr hp)), ?_⟩
          apply hge
          rw [hrp, ← h3, h5] at hp
          exact hp
    · simp only [Node.height]; omega
    · simp only [Node.height]; omega
    · intro _
      simp only [Node.height]
      omega

/-- The dual descent `KDTree_neighbor_search_pairs` appends only entries owed for pairs
across the two subtrees; when the regions given account for the points, it returns and
appends them all. -/
theorem pairs_spec (libc : Libc α) : ∀ (fuel : Nat) (t : KDTree α) (down : Node α)
    (dreg : Option (Region α)) (up : Node α) (ureg : Option (Region α)) (depth : Nat),
    down.height + up.height < fuel →
    SideOK t._data_point_list t.dim down depth → SideOK t._data_point_list t.dim up depth →
    PairSpec (KDTree_neighbor_search_pairs.go libc fuel t down dreg up ureg depth) t
      (keys (crossL libc t (down.pts t._data_point_list) (up.pts t._data_point_list)))
      (NeighborOK t ∧ 0 < t.dim ∧ SideEncl t._data_point_list t.dim down dreg ∧
        SideEncl t._data_point_list t.dim up ureg) := by
  intro fuel
  induction fuel with
  | zero => intro t down dreg up ureg depth h; omega
  | succ fuel ih =>
    intro t down dreg up ureg depth hfuel hdown hup
    unfold KDTree_neighbor_search_pairs.go
    cases down with
    | NULL => exact PairSpec.skip (fun _ => by simp [Node.pts])
    | mk dl dr dv dc ds de =>
    cases dreg with
    | none =>
      refine PairSpec.skip (fun c => ?_)
      have : (Node.mk dl dr dv dc ds de).pts t._data_point_list = [] := c.2.2.1
      rw [this]
      rfl
    | some RD =>
    cases up with
    | NULL => exact PairSpec.skip (fun _ => by simp [Node.pts])
    | mk ul ur uv uc us ue =>
    cases ureg with
    | none =>
      refine PairSpec.skip (fun c => ?_)
      have : (Node.mk ul ur uv uc us ue).pts t._data_point_list = [] := c.2.2.2
      rw [this]
      simp
    | some RU =>
    simp only
    have hD : (Node.mk dl dr dv dc ds de).Inv t._data_point_list t.dim depth := by
      rcases hdown with h | h
      · cases h
      · exact h
    have hU : (Node.mk ul ur uv uc us ue).Inv t._data_point_list t.dim depth := by
      rcases hup with h | h
      · cases h
      · exact h
    by_cases h0 : Region_test_intersection t.dim RD RU t._neighbor_radius = 0
    · rw [if_pos h0]
      refine PairSpec.skip (fun c => ?_)
      rw [crossL_pruned libc c.1 h0 c.2.2.1.2 c.2.2.2.2]
      rfl
    · rw [if_neg h0]
      by_cases hleaf : (ul.isNull && ur.isNull && (dl.isNull && dr.isNull)) = true
      · rw [if_pos hleaf]
        simp only [Bool.and_eq_true] at hleaf
        have hdb := Inv_bounds hD
        have hub := Inv_bounds hU
        simp only [Node.start, Node.stop] at hdb hub
        rw [KDTree_search_neighbors_between_buckets_eq libc _ _ _ _ _ _ _ _ _ _ _ _ t hdb.2 hub.2]
        refine PairSpec.of_total _ rfl ?_ (fun _ => ?_)
        · simp [Node.pts, hleaf.1.1, hleaf.1.2, hleaf.2.1, hleaf.2.2]
        · simp [Node.pts, hleaf.1.1, hleaf.1.2, hleaf.2.1, hleaf.2.2]
      · rw [if_neg hleaf]
        have cD := pairs_children_spec hD RD
        have cU := pairs_children_spec hU RU
        generalize pairs_children t.dim (Node.mk dl dr dv dc ds de) RD (depth % t.dim) = d at cD ⊢
        generalize pairs_children t.dim (Node.mk ul ur uv uc us ue) RU (depth % t.dim) = u at cU ⊢
        rcases cD with ⟨dpts, dok1, dok2, denc, dh1, dh2, dh3⟩
        rcases cU with ⟨upts, uok1, uok2, uenc, uh1, uh2, uh3⟩
        have hheights : (dl.isNull && dr.isNull) = false ∨ (ul.isNull && ur.isNull) = false := by
          by_contra hc
          push_neg at hc
          simp only [Bool.not_eq_false] at hc
          exact hleaf (by simp [hc.1, hc.2])
        have IH : ∀ (hits : List (Neighbor α)) (X : Node α) (XR : Option (Region α)) (Y : Node α)
            (YR : Option (Region α)), X.height + Y.height < fuel →
            SideOK t._data_point_list t.dim X (depth + 1) →
            SideOK t._data_point_list t.dim Y (depth + 1) →
            PairSpec (KDTree_neighbor_search_pairs.go libc fuel (t.addNeighbors hits) X XR Y YR
              (depth + 1)) (t.addNeighbors hits)
              (keys (crossL libc t (X.pts t._data_point_list) (Y.pts t._data_point_list)))
              (NeighborOK t ∧ 0 < t.dim ∧ SideEncl t._data_point_list t.dim X XR ∧
                SideEncl t._data_point_list t.dim Y YR) :=
          fun hits X XR Y YR hh hx hy => ih (t.addNeighbors hits) X XR Y YR (depth + 1) hh hx hy
        have hsum : (Node.mk dl dr dv dc ds de).height + (Node.mk ul ur uv uc us ue).height
            < fuel + 1 := hfuel
        have f1 : u.1.height + d.1.height < fuel := by
          rcases hheights with h | h
          · have := dh3 h; omega
          · have := uh3 h; omega
        have f2 : u.1.height + d.2.2.1.height < fuel := by
          rcases hheights with h | h
          · have := dh3 h; omega
          · have := uh3 h; omega
        have f3 : u.2.2.1.height + d.1.height < fuel := by
          rcases hheights with h | h
          · have := dh3 h; omega
          · have := uh3 h; omega
        have f4 : u.2.2.1.height + d.2.2.1.height < fuel := by
          rcases hheights with h | h
          · have := dh3 h; omega
          · have := uh3 h; omega
        have s4 : ∀ hits, PairSpec
            (KDTree_neighbor_search_pairs.go libc fuel (t.addNeighbors hits)
              u.2.2.1 u.2.2.2 d.2.2.1 d.2.2.2 (depth + 1)) (t.addNeighbors hits) _ _ :=
          fun hits => IH hits u.2.2.1 u.2.2.2 d.2.2.1 d.2.2.2 f4 uok2 dok2
        have s3 : ∀ hits, PairSpec
            (KDTree_neighbor_search_pairs.go libc fuel (t.addNeighbors hits)
              u.2.2.1 u.2.2.2 d.1 d.2.1 (depth + 1) >>= fun tree =>
             KDTree_neighbor_search_pairs.go libc fuel tree
              u.2.2.1 u.2.2.2 d.2.2.1 d.2.2.2 (depth + 1)) (t.addNeighbors hits) _ _ :=
          fun hits => PairSpec.bind (IH hits u.2.2.1 u.2.2.2 d.1 d.2.1 f3 uok2 dok1)
            (fun hits' => by rw [addNeighbors_addNeighbors]; exact s4 _)
        have s2 : ∀ hits, PairSpec
            (KDTree_neighbor_search_pairs.go libc fuel (t.addNeighbors hits)
              u.1 u.2.1 d.2.2.1 d.2.2.2 (depth + 1) >>= fun tree =>
             KDTree_neighbor_search_pairs.go libc fuel tree
              u.2.2.1 u.2.2.2 d.1 d.2.1 (depth + 1) >>= fun tree =>
             KDTree_neighbor_search_pairs.go libc fuel tree
              u.2.2.1 u.2.2.2 d.2.2.1 d.2.2.2 (depth + 1)) (t.addNeighbors hits) _ _ :=
          fun hits => PairSpec.bind (IH hits u.1 u.2.1 d.2.2.1 d.2.2.2 f2 uok1 dok2)
            (fun hits' => by rw [addNeighbors_addNeighbors]; exact s3 _)
        have h1 := IH [] u.1 u.2.1 d.1 d.2.1 f1 uok1 dok1
        rw [addNeighbors_nil] at h1
        refine PairSpec.mono (PairSpec.bind h1 s2) ?_ ?_
        · rw [dpts, upts, keys_crossL_comm libc t (d.1.pts _ ++ d.2.2.1.pts _),
            keys_crossL_append_left, keys_crossL_append_right, keys_crossL_append_right]
          abel
        · rintro ⟨hN, hdim, hde, hue⟩
          have hd' := denc hdim hde.1 hde.2
          have hu' := uenc hdim hue.1 hue.2
          exact ⟨⟨hN, hdim, hu'.1, hd'.1⟩, ⟨hN, hdim, hu'.1, hd'.2⟩, ⟨hN, hdim, hu'.2, hd'.1⟩,
            hN, hdim, hu'.2, hd'.2⟩

/-! ### The descent over one tree -/

theorem Inv_internal_pts {store : List (DataPoint α)} {dim : Nat} {l r : Node α} {v : α}
    {cd s e depth : Nat} (h : (Node.mk l r v cd s e).Inv store dim depth)
    (hint : (l.isNull && r.isNull) = false) : (Node.mk l r v cd s e).pts store ≠ [] := by
  have hp := Inv_pts h
  simp only [Node.start, Node.stop] at hp
  simp only [Node.Inv] at h
  rcases h with ⟨_, he, hleaf | hi⟩
  · rcases hleaf with ⟨rfl, rfl⟩
    simp [Node.isNull] at hint
  · rcases hi with ⟨_, _, _, h2, h3, h4, _⟩
    intro hnil
    have := congrArg List.length hnil
    rw [hp, slice_length _ he] at this
    simp only [List.length_nil] at this
    omega

theorem ite_bind_run {β γ : Type} (c : Prop) [Decidable c] (a b : Run β) (f : β → Run γ) :
    (if c then a >>= f else b >>= f) = (if c then a else b) >>= f := by
  split_ifs <;> rfl

theorem child_step (libc : Libc α) (c : Node α)
    (ih : ∀ (t : KDTree α) (reg : Option (Region α)) (depth : Nat),
      c.Inv t._data_point_list t.dim depth →
      (∀ l r v cd s e, c = Node.mk l r v cd s e → (l.isNull && r.isNull) = false) →
      PairSpec (KDTree__neighbor_search libc t c reg depth) t
        (keys (innerL libc t (c.pts t._data_point_list)))
        (NeighborOK t ∧ 0 < t.dim ∧ SideEncl t._data_point_list t.dim c reg))
    (t : KDTree α) (creg : Option (Region α)) (depth : Nat)
    (hc : c.Inv t._data_point_list t.dim depth) :
    ∃ flag, Node_is_leaf c = Except.ok flag ∧
      ∀ hits, PairSpec
        (if (!flag) = true then KDTree__neighbor_search libc (t.addNeighbors hits) c creg depth
          else KDTree_search_neighbors_in_bucket libc (t.addNeighbors hits) c)
        (t.addNeighbors hits)
        (keys (innerL libc t (c.pts t._data_point_list)))
        (NeighborOK t ∧ 0 < t.dim ∧ SideEncl t._data_point_list t.dim c creg) := by
  cases c with
  | NULL => exact absurd hc (by simp [Node.Inv])
  | mk l r v cd s e =>
    refine ⟨l.isNull && r.isNull, rfl, fun hits => ?_⟩
    by_cases hflag : (l.isNull && r.isNull) = true
    · rw [hflag]
      simp only [Bool.not_true, Bool.false_eq_true, if_false]
      have hb := Inv_bounds hc
      simp only [Node.stop] at hb
      rw [KDTree_search_neighbors_in_bucket_eq libc l r v cd s e (t.addNeighbors hits) hb.2]
      refine PairSpec.of_total _ rfl ?_ (fun _ => ?_)
      · simp [Node.pts, hflag]
      · simp [Node.pts, hflag]
    · have hflag' : (l.isNull && r.isNull) = false := by simpa using hflag
      rw [hflag']
      simp only [Bool.not_false, if_true]
      refine PairSpec.mono (ih (t.addNeighbors hits) creg depth hc (by
        intro l' r' v' cd' s' e' heq
        cases heq
        exact hflag')) (by rw [innerL_addNeighbors]; rfl) (fun c => c)

/-- The descent `KDTree__neighbor_search` appends only entries owed for pairs within the
subtree; when the region given encloses its points, it returns and appends them all. -/
theorem neighbor_search_spec (libc : Libc α) (node : Node α) :
    ∀ (t : KDTree α) (reg : Option (Region α)) (depth : Nat),
      node.Inv t._data_point_list t.dim depth →
      (∀ l r v cd s e, node = Node.mk l r v cd s e → (l.isNull && r.isNull) = false) →
      PairSpec (KDTree__neighbor_search libc t node reg depth) t
        (keys (innerL libc t (node.pts t._data_point_list)))
        (NeighborOK t ∧ 0 < t.dim ∧ SideEncl t._data_point_list t.dim node reg) := by
  induction node with
  | NULL => intro t reg depth h; exact absurd h (by simp [Node.Inv])
  | mk l r v cd s e ihl ihr =>
    intro t reg depth hinv hint
    have hint' := hint l r v cd s e rfl
    cases reg with
    | none =>
      constructor
      · intro t' ht'
        simp [KDTree__neighbor_search] at ht'
      · rintro ⟨_, _, hnil⟩
        exact absurd hnil (Inv_internal_pts hinv hint')
    | some R =>
      have cX := pairs_children_spec hinv R
      simp only [pairs_children, hint', Bool.false_eq_true, if_false] at cX
      rcases cX with ⟨hpts, -, -, henc, -, -, -⟩
      have hinv' := hinv
      simp only [Node.Inv] at hinv'
      rcases hinv' with ⟨_, _, hleaf | hi⟩
      · rcases hleaf with ⟨rfl, rfl⟩
        simp [Node.isNull] at hint'
      · rcases hi with ⟨hl, hr, _⟩
        rcases child_step libc l ihl t
          (left_child_region t.dim R v (depth % t.dim)) (depth + 1) hl with ⟨fl, hfl, sl⟩
        rcases child_step libc r ihr t
          (right_child_region t.dim R v (depth % t.dim)) (depth + 1) hr with ⟨fr, hfr, sr⟩
        rw [KDTree__neighbor_search]
        simp only [hfl, hfr, ok_bind, addNeighbors_dim]
        simp only [ite_bind_run]
        have sl0 := sl []
        rw [addNeighbors_nil] at sl0
        have sp : ∀ hits, PairSpec
            (KDTree_neighbor_search_pairs libc (t.addNeighbors hits) l
              (left_child_region t.dim R v (depth % t.dim)) r
              (right_child_region t.dim R v (depth % t.dim)) (depth + 1))
            (t.addNeighbors hits)
            (keys (crossL libc t (l.pts t._data_point_list) (r.pts t._data_point_list)))
            (NeighborOK t ∧ 0 < t.dim ∧
              SideEncl t._data_point_list t.dim l (left_child_region t.dim R v (depth % t.dim)) ∧
              SideEncl t._data_point_list t.dim r (right_child_region t.dim R v (depth % t.dim))) :=
          fun hits => pairs_spec libc _ (t.addNeighbors hits) l _ r _ (depth + 1)
            (Nat.lt_succ_self _) (Or.inr hl) (Or.inr hr)
        have s2 : ∀ hits, PairSpec
            ((if (!fr) = true then KDTree__neighbor_search libc (t.addNeighbors hits) r
                (right_child_region t.dim R v (depth % t.dim)) (depth + 1)
              else KDTree_search_neighbors_in_bucket libc (t.addNeighbors hits) r) >>= fun tree =>
              KDTree_neighbor_search_pairs libc tree l
                (left_child_region t.dim R v (depth % t.dim)) r
                (right_child_region t.dim R v (depth % t.dim)) (depth + 1))
            (t.addNeighbors hits)
            (keys (innerL libc t (r.pts t._data_point_list)) +
              keys (crossL libc t (l.pts t._data_point_list) (r.pts t._data_point_list)))
            ((NeighborOK t ∧ 0 < t.dim ∧
              SideEncl t._data_point_list t.dim r (right_child_region t.dim R v (depth % t.dim))) ∧
             (NeighborOK t ∧ 0 < t.dim ∧
              SideEncl t._data_point_list t.dim l (left_child_region t.dim R v (depth % t.dim)) ∧
              SideEncl t._data_point_list t.dim r
                (right_child_region t.dim R v (depth % t.dim)))) :=
          fun hits => PairSpec.bind (sr hits)
            (fun hits' => by rw [addNeighbors_addNeighbors]; exact sp _)
        refine PairSpec.mono (PairSpec.bind sl0 s2) ?_ ?_
        · rw [hpts, keys_innerL_append]
          abel
        · rintro ⟨hN, hdim, hwf, he⟩
          have := henc hdim hwf he
          exact ⟨⟨hN, hdim, this.1⟩, ⟨hN, hdim, this.2⟩, hN, hdim, this.1, this.2⟩

/-! ### The pair query -/

theorem foldl_push {β : Type} (l : List β) :
    ∀ acc : List β, l.foldl (fun neighbors neighbor => neighbor :: neighbors) acc =
      l.reverse ++ acc := by
  induction l with
  | nil => intro acc; rfl
  | cons a rest ih => intro acc; simp [ih]

theorem take_count_addNeighbors (t : KDTree α) (hits : List (Neighbor α))
    (h1 : t._neighbor_list = []) (h2 : t._neighbor_count = 0) :
    ((t.addNeighbors hits)._neighbor_list.take (t.addNeighbors hits)._neighbor_count).foldl
      (fun neighbors neighbor => neighbor :: neighbors) [] = hits.reverse := by
  simp [KDTree.addNeighbors, h1, h2, foldl_push]

/-- The pair query on a tree that satisfies the invariant: its output holds only entries
owed, and when the root region encloses every point it returns with all of them. -/
theorem KDTree_neighbor_search_spec (libc : Libc α) (T : KDTree α) (r : α)
    (hroot : T._root.Inv T._data_point_list T.dim 0) (t0 : KDTree α)
    (ht0 : { T with
             _neighbor_list := [],
             _neighbor_count := 0,
             _neighbor_radius := r,
             _neighbor_radius_sq := r * r } = t0) :
    (∀ res, KDTree_neighbor_search libc T r = Except.ok res →
      ∃ hits, res = (t0.addNeighbors hits, hits.reverse) ∧
        keys hits ≤ keys (innerL libc t0 (T._root.pts T._data_point_list)) ∧
        ((0 ≤ r ∧ 0 < T.dim ∧ ∀ p ∈ T._root.pts T._data_point_list,
            Encloses T.dim (Region_create T.dim none none) p._coord) →
          keys hits = keys (innerL libc t0 (T._root.pts T._data_point_list)))) ∧
    ((0 ≤ r ∧ 0 < T.dim ∧ ∀ p ∈ T._root.pts T._data_point_list,
        Encloses T.dim (Region_create T.dim none none) p._coord) →
      ∃ res, KDTree_neighbor_search libc T r = Except.ok res) := by
  have hst : t0._data_point_list = T._data_point_list := by rw [← ht0]
  have hdim : t0.dim = T.dim := by rw [← ht0]
  have hrt : t0._root = T._root := by rw [← ht0]
  have hnl : t0._neighbor_list = [] := by rw [← ht0]
  have hnc : t0._neighbor_count = 0 := by rw [← ht0]
  have hnr : t0._neighbor_radius = r := by rw [← ht0]
  have hnq : t0._neighbor_radius_sq = r * r := by rw [← ht0]
  have hstep : ∃ flag, Node_is_leaf T._root = Except.ok flag ∧ PairSpec
      (if flag = true then KDTree_search_neighbors_in_bucket libc t0 T._root
        else KDTree__neighbor_search libc t0 T._root
          (some (Region_create T.dim none none)) 0) t0
      (keys (innerL libc t0 (T._root.pts T._data_point_list)))
      (0 ≤ r ∧ 0 < T.dim ∧ ∀ p ∈ T._root.pts T._data_point_list,
        Encloses T.dim (Region_create T.dim none none) p._coord) := by
    have hroot' : T._root.Inv t0._data_point_list t0.dim 0 := by rw [hst, hdim]; exact hroot
    rcases child_step libc T._root (neighbor_search_spec libc T._root) t0
      (some (Region_create T.dim none none)) 0 hroot' with ⟨flag, hflag, hs⟩
    refine ⟨flag, hflag, ?_⟩
    have := hs []
    rw [addNeighbors_nil] at this
    cases flag
    · simp only [Bool.not_false, if_true, Bool.false_eq_true, if_false] at this ⊢
      refine PairSpec.mono this (by rw [hst]) ?_
      rintro ⟨h1, h2, h3⟩
      refine ⟨⟨by rw [hnr]; exact h1, by rw [hnq, hnr]⟩, by rw [hdim]; exact h2, ?_⟩
      simp only [SideEncl, hst, hdim]
      exact ⟨Region_create_WF _ _ _, h3⟩
    · simp only [Bool.not_true, Bool.false_eq_true, if_false, if_true] at this ⊢
      have hb := Inv_bounds hroot'
      cases hR : T._root with
      | NULL => rw [hR] at hroot; exact absurd hroot (by simp [Node.Inv])
      | mk l r' v cd s e =>
        rw [hR] at hb
        simp only [Node.stop] at hb
        rw [KDTree_search_neighbors_in_bucket_eq libc l r' v cd s e t0 hb.2]
        rw [hR] at hflag
        simp only [Node_is_leaf, Except.ok.injEq] at hflag
        refine PairSpec.of_total _ rfl ?_ (fun _ => ?_)
        · simp [Node.pts, hflag, hst]
        · simp [Node.pts, hflag, hst]
  rcases hstep with ⟨flag, hflag, hs⟩
  have hunf : KDTree_neighbor_search libc T r =
      ((if flag = true then KDTree_search_neighbors_in_bucket libc t0 T._root
        else KDTree__neighbor_search libc t0 T._root
          (some (Region_create T.dim none none)) 0) >>= fun tree =>
        pure (tree, (tree._neighbor_list.take tree._neighbor_count).foldl
          (fun neighbors neighbor => neighbor :: neighbors) [])) := by
    unfold KDTree_neighbor_search
    simp only [ht0, hrt, hflag, ok_bind, hdim]
    cases flag <;> simp
  rw [hunf]
  constructor
  · intro res hres
    cases hr : (if flag = true then KDTree_search_neighbors_in_bucket libc t0 T._root
        else KDTree__neighbor_search libc t0 T._root
          (some (Region_create T.dim none none)) 0) with
    | error e => rw [hr] at hres; cases hres
    | ok t1 =>
      rw [hr] at hres
      rcases hs.1 t1 hr with ⟨hits, rfl, hle, heq⟩
      refine ⟨hits, ?_, hle, heq⟩
      cases hres
      rw [take_count_addNeighbors t0 hits hnl hnc]
  · intro c
    rcases hs.2 c with ⟨t1, hr⟩
    rw [hr]
    exact ⟨_, rfl⟩

/-! ### The sweep -/

theorem sweep_inner_spec (libc : Libc α) (p1 : DataPoint α) (size : Nat) :
    ∀ (n a : Nat) (t : KDTree α), size - a = n → size ≤ t._data_point_list.length →
      NeighborOK t → 0 < t.dim →
      (slice t._data_point_list a size).Pairwise (fun p q => compare 0 p q ≤ 0) →
      (∀ q ∈ slice t._data_point_list a size, idx p1._coord 0 ≤ idx q._coord 0) →
      KDTree_neighbor_simple_search.inner libc t._neighbor_radius p1 (idx p1._coord 0)
          (List.range' a (size - a)) t =
        pure (t.addNeighbors ((slice t._data_point_list a size).flatMap
          (fun b => nhit libc t p1 b))) := by
  intro n
  induction n with
  | zero =>
    intro a t h _ _ _ _ _
    rw [h, slice_nil _ (by omega)]
    simp [KDTree_neighbor_simple_search.inner]
  | succ n ih =>
    intro a t h hsz hN hdim hpw hge
    have hsl := slice_cons t._data_point_list (by omega : a < size) hsz
    rw [hsl] at hpw hge
    rw [h, List.range'_succ, KDTree_neighbor_simple_search.inner, point_eq t (by omega)]
    simp only [ok_bind]
    have hx : idx p1._coord 0 ≤ idx (t._data_point_list[a])._coord 0 := hge _ (by simp)
    by_cases hclose : |idx (t._data_point_list[a])._coord 0 - idx p1._coord 0| ≤
        t._neighbor_radius
    · rw [if_pos (show Fabs.fabs _ ≤ _ from hclose), KDTree_test_neighbors_eq]
      have hn : size - (a + 1) = n := by omega
      have := ih (a + 1) (t.addNeighbors (nhit libc t p1 t._data_point_list[a])) (by omega)
        hsz hN hdim (List.Pairwise.of_cons hpw) (fun q hq => hge q (List.mem_cons_of_mem _ hq))
      rw [show List.range' (a + 1) n = List.range' (a + 1) (size - (a + 1)) by rw [hn]]
      simp only [addNeighbors_radius] at this
      rw [this, hsl]
      simp
    · rw [if_neg (show ¬ Fabs.fabs _ ≤ _ from hclose)]
      have hfar : t._neighbor_radius <
          idx (t._data_point_list[a])._coord 0 - idx p1._coord 0 := by
        rw [abs_of_nonneg (by linarith)] at hclose
        exact not_le.mp hclose
      have : (slice t._data_point_list a size).flatMap (fun b => nhit libc t p1 b) = [] := by
        apply flatMap_nil_of_forall
        intro q hq
        rw [hsl] at hq
        have hq2 : idx (t._data_point_list[a])._coord 0 ≤ idx q._coord 0 := by
          rcases List.mem_cons.mp hq with rfl | hq'
          · exact le_refl _
          · exact (compare_le_iff 0 _ _).mp ((List.pairwise_cons.mp hpw).1 q hq')
        unfold nhit
        rw [if_neg]
        rw [hN.2]
        exact KDTree_dist_far _ _ hdim hN.1 (Or.inr (by linarith))
      rw [this]
      simp

/-- The outer loop of the sweep appends the entries owed for every pair of the range. -/
theorem sweep_outer_spec (libc : Libc α) (size : Nat) :
    ∀ (n i : Nat) (t : KDTree α), size - i = n → size ≤ t._data_point_list.length →
      NeighborOK t → 0 < t.dim →
      (slice t._data_point_list i size).Pairwise (fun p q => compare 0 p q ≤ 0) →
      forRange i size (fun i tree => do
        let p1 ← tree.point i
        let x1 := idx p1._coord 0
        KDTree_neighbor_simple_search.inner libc t._neighbor_radius p1 x1
          (List.range' (i + 1) (size - (i + 1))) tree) t =
      pure (t.addNeighbors (innerL libc t (slice t._data_point_list i size))) := by
  intro n
  induction n with
  | zero =>
    intro i t h _ _ _ _
    rw [forRange_done _ _ (by omega), slice_nil _ (by omega)]
    simp [innerL]
  | succ n ih =>
    intro i t h hsz hN hdim hpw
    have hsl := slice_cons t._data_point_list (by omega : i < size) hsz
    rw [hsl] at hpw
    rw [forRange_step _ _ (by omega), point_eq t (by omega)]
    simp only [ok_bind]
    rw [sweep_inner_spec libc _ size _ (i + 1) t rfl hsz hN hdim (List.Pairwise.of_cons hpw)
      (fun q hq => (compare_le_iff 0 _ _).mp ((List.pairwise_cons.mp hpw).1 q hq))]
    simp only [pure_bind]
    have := ih (i + 1) (t.addNeighbors ((slice t._data_point_list (i + 1) size).flatMap
      (fun b => nhit libc t t._data_point_list[i] b))) (by omega) hsz hN hdim
      (List.Pairwise.of_cons hpw)
    simp only [addNeighbors_radius] at this
    rw [this, hsl]
    simp [innerL]

/-- The sweep returns, for any store: it sorts the store on axis 0 and appends the entries
owed for every pair of records. -/
theorem KDTree_neighbor_simple_search_spec (libc : Libc α) (T : KDTree α) (r : α) (hr : 0 ≤ r)
    (hdim : 0 < T.dim) (t1 : KDTree α)
    (ht1 : { T with
             _neighbor_radius := r,
             _neighbor_radius_sq := r * r,
             _neighbor_count := 0,
             _neighbor_list := [],
             _data_point_list := libc.qsort (compare 0) T._data_point_list } = t1) :
    KDTree_neighbor_simple_search libc T r =
      Except.ok (t1.addNeighbors (innerL libc t1 t1._data_point_list),
        (innerL libc t1 t1._data_point_list).reverse) := by
  have hsort : DataPoint_sort libc T._data_point_list T._data_point_list.length 0 =
      libc.qsort (compare 0) T._data_point_list := by
    simp [DataPoint_sort]
  have hst : t1._data_point_list = libc.qsort (compare 0) T._data_point_list := by rw [← ht1]
  have hnr : t1._neighbor_radius = r := by rw [← ht1]
  have hN : NeighborOK t1 := by rw [← ht1]; exact ⟨hr, rfl⟩
  have hd : 0 < t1.dim := by rw [← ht1]; exact hdim
  have hpw : (slice t1._data_point_list 0 t1._data_point_list.length).Pairwise
      (fun p q => compare 0 p q ≤ 0) := by
    rw [slice_full, hst]
    exact libc.qsort_sorted 0 _
  have hloop := sweep_outer_spec libc t1._data_point_list.length _ 0 t1 rfl (le_refl _) hN hd hpw
  rw [slice_full, hnr] at hloop
  simp only [hst] at hloop
  unfold KDTree_neighbor_simple_search
  simp only [hsort, ht1, hst]
  rw [hloop]
  simp only [pure_bind]
  rw [take_count_addNeighbors t1 _ (by rw [← ht1]) (by rw [← ht1])]
  rfl

/-! ### Loading the points -/

theorem loaded_succ (dim n : Nat) (coords : List α) :
    loaded dim (n + 1) coords =
      loaded dim n coords ++ [{ _index := n, _coord := coords.drop (n * dim) }] := by
  simp [loaded, List.range_succ]

theorem add_loop (coords : List α) : ∀ (n : Nat) (t : KDTree α),
    (List.range n).foldl (fun tree i => KDTree_add_point tree i (coords.drop (i * tree.dim))) t =
      { t with _data_point_list := t._data_point_list ++ loaded t.dim n coords } := by
  intro n
  induction n with
  | zero => intro t; simp [loaded, store_eta]
  | succ n ih =>
    intro t
    rw [List.range_succ, List.foldl_append, ih, loaded_succ]
    simp [KDTree_add_point]

theorem build_go_root (libc : Libc α) (fuel : Nat) (t : KDTree α) :
    KDTree_build_tree.go libc (fuel + 1) t 0 0 0 =
      KDTree_build_tree.go libc (fuel + 1) t 0 t._data_point_list.length 0 := by
  rw [KDTree_build_tree.go, KDTree_build_tree.go]
  simp

/-- The call `KDTree_build_tree(tree, 0, 0, 0)` returns a root that covers the whole store
and satisfies the invariant over the permuted store. -/
theorem KDTree_build_tree_spec (libc : Libc α) (t : KDTree α) (hb : 0 < t._bucket_size) :
    ∃ (root : Node α) (store' : List (DataPoint α)),
      KDTree_build_tree libc t 0 0 0 = pure (root, { t with _data_point_list := store' }) ∧
      store'.Perm t._data_point_list ∧ root.Inv store' t.dim 0 ∧
      root.start = 0 ∧ root.stop = store'.length := by
  rcases build_go_spec libc (t._data_point_list.length + 1) t 0 t._data_point_list.length 0 hb
    (fun _ => ⟨rfl, rfl⟩) (Nat.zero_le _) (le_refl _) (by omega) with
    ⟨root, store', hgo, hlen, _, _, hperm, hs, he, hinv⟩
  refine ⟨root, store', ?_, ?_, hinv, hs, by rw [he, hlen]⟩
  · unfold KDTree_build_tree
    rw [build_go_root, hgo]
  · have h1 := slice_full store'
    rw [hlen] at h1
    rw [h1, slice_full] at hperm
    exact hperm

/-- The effect of `set_data` on any tree state with a positive bucket size: the new
records are appended to those the store holds, the store is permuted, and the root built
covers all of it. -/
theorem PyTree_set_data_spec (libc : Libc α) (t : KDTree α) (view : Py_buffer α)
    (hb : 0 < t._bucket_size) (hnd : view.ndim = 2) (hnum : numerical view.datatype = true) :
    ∃ (root : Node α) (store' : List (DataPoint α)),
      PyTree_set_data libc t view = PyRet.ok
        { t with
          _radius_list := [],
          _count := 0,
          _coords := COPY2DARRAY view (view.shape.getD 0 0) (view.shape.getD 1 0),
          _data_point_list := store',
          _root := root } () ∧
      store'.Perm (t._data_point_list ++ loaded t.dim (view.shape.getD 0 0)
        (COPY2DARRAY view (view.shape.getD 0 0) (view.shape.getD 1 0))) ∧
      root.Inv store' t.dim 0 ∧ root.start = 0 ∧ root.stop = store'.length := by
  unfold PyTree_set_data
  simp only [hnd, ne_eq, not_true_eq_false, if_false, hnum, Bool.not_true, Bool.false_eq_true]
  rw [add_loop]
  rcases KDTree_build_tree_spec libc
    { t with
      _radius_list := [],
      _count := 0,
      _coords := COPY2DARRAY view (view.shape.getD 0 0) (view.shape.getD 1 0),
      _data_point_list := t._data_point_list ++ loaded t.dim (view.shape.getD 0 0)
        (COPY2DARRAY view (view.shape.getD 0 0) (view.shape.getD 1 0)) } hb with
    ⟨root, store', hgo, hperm, hinv, hs, he⟩
  refine ⟨root, store', ?_, hperm, hinv, hs, he⟩
  simp only at hgo ⊢
  rw [hgo]
  rfl

theorem PyTree_init_ok (tree : KDTree α) (k B : Nat) (hk : 0 < k) (hB : 0 < B) :
    PyTree_init tree (k : Int) (B : Int) = PyRet.ok
      { tree with
        dim := k,
        _query_region := none,
        _root := Node.NULL,
        _coords := [],
        _radius_list := [],
        _count := 0,
        _neighbor_count := 0,
        _neighbor_list := [],
        _bucket_size := B,
        _data_point_list := [],
        _center_coord := List.replicate k 0 } () := by
  unfold PyTree_init
  rw [if_neg (by omega)]
  simp

/-- A tree initialised and loaded once holds exactly the given points and satisfies the
invariant; both result buffers are empty. -/
theorem loadedTree_spec (libc : Libc α) (k B : Nat) (hk : 0 < k) (hB : 0 < B)
    (view : Py_buffer α) (hnd : view.ndim = 2) (hnum : numerical view.datatype = true) :
    ∃ T : KDTree α, loadedTree libc (k : Int) (B : Int) view = PyRet.ok T () ∧
      T.dim = k ∧ T._bucket_size = B ∧
      T._data_point_list.Perm (loaded k (view.shape.getD 0 0)
        (COPY2DARRAY view (view.shape.getD 0 0) (view.shape.getD 1 0))) ∧
      T._root.Inv T._data_point_list k 0 ∧
      T._root.pts T._data_point_list = T._data_point_list ∧
      T._count = 0 ∧ T._neighbor_count = 0 ∧ T._radius_list = [] ∧ T._neighbor_list = [] := by
  unfold loadedTree
  rw [PyTree_init_ok _ k B hk hB]
  simp only [PyRet.andThen]
  rcases PyTree_set_data_spec libc
    { (KDTree.zero : KDTree α) with
      dim := k,
      _query_region := none,
      _root := Node.NULL,
      _coords := [],
      _radius_list := [],
      _count := 0,
      _neighbor_count := 0,
      _neighbor_list := [],
      _bucket_size := B,
      _data_point_list := [],
      _center_coord := List.replicate k 0 } view hB hnd hnum with
    ⟨root, store', hset, hperm, hinv, hs, he⟩
  rw [hset]
  refine ⟨_, rfl, rfl, rfl, ?_, hinv, ?_, rfl, rfl, rfl, rfl⟩
  · simpa using hperm
  · show root.pts store' = store'
    rw [Inv_pts hinv, hs, he, slice_full]

/-! ### The point query on a loaded tree -/

theorem idx_append_left (l1 l2 : List α) {i : Nat} (h : i < l1.length) :
    idx (l1 ++ l2) i = idx l1 i := by
  simp [idx, List.getD, List.getElem?_append_left h]

theorem root_region_encloses {dim n : Nat} {coords : List α} (hbox : InBox dim n coords)
    {p : DataPoint α} (hp : p ∈ loaded dim n coords) :
    Encloses dim (Region_create dim none none) p._coord := by
  unfold loaded at hp
  rcases List.mem_map.mp hp with ⟨i, hi, rfl⟩
  intro j hj
  have := hbox i (List.mem_range.mp hi) j hj
  simp only [Region_create, idx_map_range _ hj]
  exact this

theorem flatMap_loaded {β : Type} (dim n : Nat) (coords : List α) (f : DataPoint α → List β) :
    (loaded dim n coords).flatMap f =
      (List.range n).flatMap (fun i => f { _index := i, _coord := coords.drop (i * dim) }) := by
  unfold loaded
  induction List.range n with
  | nil => rfl
  | cons a rest ih => simp [List.flatMap_cons, ih]

theorem search_loaded (libc : Libc α) (T : KDTree α) (hdim : 0 < T.dim)
    (hinv : T._root.Inv T._data_point_list T.dim 0)
    (cview : Py_buffer α) (hnd : cview.ndim = 1) (hnum : numerical cview.datatype = true)
    (r : α) (hr : 0 < r)
    (hbox : ∀ p ∈ T._root.pts T._data_point_list,
      Encloses T.dim (Region_create T.dim none none) p._coord) :
    ∃ T' : KDTree α, PyTree_search_center_radius libc T cview r = PyRet.ok T' () ∧
      T'._radius_list = (T._root.pts T._data_point_list).flatMap (fun p =>
        if KDTree_dist (COPY1DARRAY cview (cview.shape.getD 0 0)) p._coord T.dim ≤ r * r then
          [{ index := p._index,
             value := libc.sqrt
               (KDTree_dist (COPY1DARRAY cview (cview.shape.getD 0 0)) p._coord T.dim) }]
        else []) ∧
      T'._count = T'._radius_list.length ∧
      T'._data_point_list = T._data_point_list ∧ T'._root = T._root ∧
      T'._neighbor_list = T._neighbor_list ∧ T'._neighbor_count = T._neighbor_count := by
  unfold PyTree_search_center_radius
  rw [if_neg (not_le.mpr hr)]
  simp only [hnd, ne_eq, not_true_eq_false, if_false, hnum, Bool.not_true, Bool.false_eq_true]
  generalize hc : COPY1DARRAY cview (cview.shape.getD 0 0) = c
  generalize ht2 : ({ T with
      _radius_list := [],
      _count := 0,
      _radius := r,
      _radius_sq := r * r,
      _center_coord := (List.range T.dim).map (fun i => idx c i) ++ T._center_coord.drop T.dim,
      _query_region := some (Region_create T.dim
        (some ((List.range T.dim).map (fun i => idx c i - r)))
        (some ((List.range T.dim).map (fun i => idx c i + r)))) } : KDTree α) = t2
  have hst : t2._data_point_list = T._data_point_list := by rw [← ht2]
  have hd : t2.dim = T.dim := by rw [← ht2]
  have hrt : t2._root = T._root := by rw [← ht2]
  have hcen : ∀ i, i < T.dim → idx t2._center_coord i = idx c i := by
    intro i hi
    rw [← ht2]
    simp only
    rw [idx_append_left _ _ (by simpa using hi), idx_map_range _ hi]
  have hq : QueryOK t2 (Region_create T.dim
        (some ((List.range T.dim).map (fun i => idx c i - r)))
        (some ((List.range T.dim).map (fun i => idx c i + r)))) r := by
    refine ⟨le_of_lt hr, by rw [← ht2], by rw [← ht2], ?_⟩
    intro i hi
    rw [hd] at hi
    rw [Region_create_left _ _ _ hi, Region_create_right _ _ _ hi, idx_map_range _ hi,
      idx_map_range _ hi, hcen i hi]
    exact ⟨rfl, rfl⟩
  have hgo := (search_spec libc _ r (2 * T._root.height + 2)).1 t2 none Node.NULL 0 T._root
    (Region_create T.dim none none) (by simp [hrt]) (by simp [hd]) (by omega)
    (by rw [hst, hd]; exact hinv) (by rw [hd]; exact Region_create_WF _ _ _)
    (by rw [hst, hd]; exact hbox) hq (by rw [hd]; exact hdim)
  unfold KDTree_search
  simp only [if_true, hrt]
  rw [hgo]
  refine ⟨_, rfl, ?_, ?_, hst, hrt, by rw [← ht2]; rfl, by rw [← ht2]; rfl⟩
  · have h1 : t2._radius_list = [] := by rw [← ht2]
    simp only [KDTree.addRadii, h1, List.nil_append, hst]
    apply flatMap_congr_mem
    intro p _
    unfold rhit
    have hdist : KDTree_dist t2._center_coord p._coord t2.dim = KDTree_dist c p._coord T.dim := by
      rw [hd]
      exact KDTree_dist_congr hcen (fun _ _ => rfl)
    have hsq : t2._radius_sq = r * r := by rw [← ht2]
    rw [hdist, hsq]
  · have h1 : t2._radius_list = [] := by rw [← ht2]
    have h2 : t2._count = 0 := by rw [← ht2]
    simp [KDTree.addRadii, h1, h2]

/-- On a freshly loaded tree whose points lie in the root region, the point query returns
the brute-force entries up to order. -/
theorem point_query_exact (libc : Libc α) (k B : Nat) (hk : 0 < k) (hB : 0 < B)
    (points : Py_buffer α) (hnd : points.ndim = 2) (hnum : numerical points.datatype = true)
    (center : Py_buffer α) (hcnd : center.ndim = 1)
    (hcnum : numerical center.datatype = true) (r : α) (hr : 0 < r)
    (hbox : InBox k (points.shape.getD 0 0)
      (COPY2DARRAY points (points.shape.getD 0 0) (points.shape.getD 1 0))) :
    ∃ T : KDTree α,
      (loadedTree libc (k : Int) (B : Int) points).andThen
        (fun tree => PyTree_search_center_radius libc tree center r) = PyRet.ok T () ∧
      T._radius_list.Perm (bruteRadii libc k (points.shape.getD 0 0)
        (COPY2DARRAY points (points.shape.getD 0 0) (points.shape.getD 1 0))
        (COPY1DARRAY center (center.shape.getD 0 0)) r) ∧
      T._count = T._radius_list.length := by
  rcases loadedTree_spec libc k B hk hB points hnd hnum with
    ⟨T, hT, hdim, _, hperm, hinv, hpts, _⟩
  rw [hT]
  simp only [PyRet.andThen]
  rcases search_loaded libc T (by rw [hdim]; exact hk) (by rw [hdim]; exact hinv) center hcnd
    hcnum r hr (by
      intro p hp
      rw [hpts] at hp
      rw [hdim]
      exact root_region_encloses hbox (hperm.subset hp)) with ⟨T', hT', hrl, hcount, _⟩
  refine ⟨T', hT', ?_, hcount⟩
  rw [hrl, hpts, hdim]
  unfold bruteRadii dist2To
  refine (hperm.flatMap_right _).trans ?_
  rw [flatMap_loaded]

/-! ### The entries owed by a pair query, by original index -/

theorem dist2_comm (dim : Nat) (coords : List α) (i j : Nat) :
    dist2 dim coords i j = dist2 dim coords j i :=
  KDTree_dist_comm _ _ _

theorem keys_innerL_loaded_succ (libc : Libc α) (t : KDTree α) (coords : List α) (n : Nat) :
    keys (innerL libc t (loaded t.dim (n + 1) coords)) =
      keys (innerL libc t (loaded t.dim n coords)) +
      keys ((List.range n).flatMap (fun i =>
        if dist2 t.dim coords i n ≤ t._neighbor_radius_sq then
          [{ index1 := i, index2 := n, radius := libc.sqrt (dist2 t.dim coords i n) }]
        else [])) := by
  rw [loaded_succ, keys_innerL_append]
  have h1 : innerL libc t [{ _index := n, _coord := coords.drop (n * t.dim) }] = [] := by
    simp [innerL]
  rw [h1, keys_nil, add_zero]
  congr 1
  unfold crossL
  rw [flatMap_loaded]
  congr 1
  apply flatMap_congr_mem
  intro i _
  simp [nhit, dist2]

theorem mem_keys_row (libc : Libc α) (t : KDTree α) (coords : List α) (n : Nat)
    (x : Sym2 Nat × α) :
    x ∈ keys ((List.range n).flatMap (fun i =>
        if dist2 t.dim coords i n ≤ t._neighbor_radius_sq then
          [{ index1 := i, index2 := n, radius := libc.sqrt (dist2 t.dim coords i n) }]
        else [])) ↔
      ∃ i, i < n ∧ dist2 t.dim coords i n ≤ t._neighbor_radius_sq ∧
        x = (s(i, n), libc.sqrt (dist2 t.dim coords i n)) := by
  unfold keys
  rw [Multiset.mem_coe, List.mem_map]
  constructor
  · rintro ⟨h, hh, rfl⟩
    rcases List.mem_flatMap.mp hh with ⟨i, hi, hmem⟩
    refine ⟨i, List.mem_range.mp hi, ?_⟩
    by_cases hd : dist2 t.dim coords i n ≤ t._neighbor_radius_sq
    · rw [if_pos hd] at hmem
      rw [List.mem_singleton] at hmem
      subst hmem
      exact ⟨hd, rfl⟩
    · rw [if_neg hd] at hmem
      cases hmem
  · rintro ⟨i, hi, hd, rfl⟩
    refine ⟨{ index1 := i, index2 := n, radius := libc.sqrt (dist2 t.dim coords i n) },
      List.mem_flatMap.mpr ⟨i, List.mem_range.mpr hi, ?_⟩, rfl⟩
    rw [if_pos hd]
    exact List.mem_singleton.mpr rfl

/-- The entries owed for the loaded points are those of the index pairs `i < j` within
the radius. -/
theorem mem_keys_brute (libc : Libc α) (t : KDTree α) (coords : List α) :
    ∀ (n : Nat) (x : Sym2 Nat × α),
      x ∈ keys (innerL libc t (loaded t.dim n coords)) ↔
        ∃ i j, i < j ∧ j < n ∧ dist2 t.dim coords i j ≤ t._neighbor_radius_sq ∧
          x = (s(i, j), libc.sqrt (dist2 t.dim coords i j)) := by
  intro n
  induction n with
  | zero =>
    intro x
    simp [loaded, innerL]
  | succ n ih =>
    intro x
    rw [keys_innerL_loaded_succ, Multiset.mem_add, ih, mem_keys_row]
    constructor
    · rintro (⟨i, j, hij, hj, hd, rfl⟩ | ⟨i, hi, hd, rfl⟩)
      · exact ⟨i, j, hij, by omega, hd, rfl⟩
      · exact ⟨i, n, hi, by omega, hd, rfl⟩
    · rintro ⟨i, j, hij, hj, hd, rfl⟩
      by_cases hjn : j = n
      · subst hjn
        exact Or.inr ⟨i, hij, hd, rfl⟩
      · exact Or.inl ⟨i, j, hij, by omega, hd, rfl⟩

theorem nodup_keys_row (libc : Libc α) (t : KDTree α) (coords : List α) (n : Nat) :
    ∀ m, ((keys ((List.range m).flatMap (fun i =>
        if dist2 t.dim coords i n ≤ t._neighbor_radius_sq then
          [{ index1 := i, index2 := n, radius := libc.sqrt (dist2 t.dim coords i n) }]
        else []))).map Prod.fst).Nodup ∧
      ∀ p ∈ (keys ((List.range m).flatMap (fun i =>
        if dist2 t.dim coords i n ≤ t._neighbor_radius_sq then
          [{ index1 := i, index2 := n, radius := libc.sqrt (dist2 t.dim coords i n) }]
        else []))).map Prod.fst, ∃ i, i < m ∧ p = s(i, n) := by
  intro m
  induction m with
  | zero => simp
  | succ m ih =>
    rw [List.range_succ, List.flatMap_append, keys_append, Multiset.map_add]
    simp only [List.flatMap_cons, List.flatMap_nil, List.append_nil]
    by_cases hd : dist2 t.dim coords m n ≤ t._neighbor_radius_sq
    · rw [if_pos hd]
      constructor
      · rw [Multiset.nodup_add]
        refine ⟨ih.1, by simp [keys], Multiset.disjoint_left.mpr ?_⟩
        intro p hp hp'
        rcases ih.2 p hp with ⟨i, hi, rfl⟩
        simp only [keys, nkey, List.map_cons, List.map_nil, Multiset.coe_singleton,
          Multiset.map_singleton, Multiset.mem_singleton] at hp'
        rcases Sym2.eq_iff.mp hp' with ⟨h1, _⟩ | ⟨h1, h2⟩
        · omega
        · omega
      · intro p hp
        rcases Multiset.mem_add.mp hp with hp | hp
        · rcases ih.2 p hp with ⟨i, hi, rfl⟩
          exact ⟨i, by omega, rfl⟩
        · simp only [keys, nkey, List.map_cons, List.map_nil, Multiset.coe_singleton,
            Multiset.map_singleton, Multiset.mem_singleton] at hp
          exact ⟨m, by omega, hp⟩
    · rw [if_neg hd]
      simp only [keys_nil, Multiset.map_zero, add_zero]
      exact ⟨ih.1, fun p hp => by
        rcases ih.2 p hp with ⟨i, hi, rfl⟩
        exact ⟨i, by omega, rfl⟩⟩

/-- No unordered index pair is owed twice. -/
theorem nodup_keys_brute (libc : Libc α) (t : KDTree α) (coords : List α) :
    ∀ n : Nat, ((keys (innerL libc t (loaded t.dim n coords))).map Prod.fst).Nodup := by
  intro n
  induction n with
  | zero => simp [loaded, innerL]
  | succ n ih =>
    rw [keys_innerL_loaded_succ, Multiset.map_add, Multiset.nodup_add]
    refine ⟨ih, (nodup_keys_row libc t coords n n).1, Multiset.disjoint_left.mpr ?_⟩
    intro p hp hp'
    rcases Multiset.mem_map.mp hp with ⟨x, hx, rfl⟩
    rcases (mem_keys_brute libc t coords n x).mp hx with ⟨i, j, hij, hj, _, rfl⟩
    rcases (nodup_keys_row libc t coords n n).2 _ hp' with ⟨i', hi', he⟩
    simp only at he
    rcases Sym2.eq_iff.mp he with ⟨_, h2⟩ | ⟨h1, _⟩
    · omega
    · omega

theorem innerL_congr (libc : Libc α) {t t' : KDTree α} (hd : t.dim = t'.dim)
    (hr : t._neighbor_radius_sq = t'._neighbor_radius_sq) (L : List (DataPoint α)) :
    innerL libc t L = innerL libc t' L := by
  have hn : nhit libc t = nhit libc t' := by
    funext a b
    unfold nhit
    rw [hd, hr]
  induction L with
  | nil => rfl
  | cons a rest ih => simp only [innerL, hn, ih]

/-! ### The pair queries on a loaded tree -/

theorem map_fst_keys (out : List (Neighbor α)) :
    (keys out).map Prod.fst = Multiset.ofList (out.map pairOf) := by
  unfold keys
  rw [Multiset.map_coe, List.map_map]
  rfl

/-- A list of entries that are among those owed has no self pair and no unordered pair
twice. -/
theorem unique_of_keys_le (libc : Libc α) (t : KDTree α) (coords : List α) (n : Nat)
    {out : List (Neighbor α)}
    (h : keys out ≤ keys (innerL libc t (loaded t.dim n coords))) :
    (∀ x ∈ out, x.index1 ≠ x.index2) ∧ (out.map pairOf).Nodup := by
  constructor
  · intro x hx
    have h1 : nkey x ∈ keys out := by
      unfold keys
      exact Multiset.mem_coe.mpr (List.mem_map.mpr ⟨x, hx, rfl⟩)
    rcases (mem_keys_brute libc t coords n _).mp (Multiset.mem_of_le h h1) with
      ⟨i, j, hij, _, _, he⟩
    have h2 : s(x.index1, x.index2) = s(i, j) := congrArg Prod.fst he
    rcases Sym2.eq_iff.mp h2 with ⟨h3, h4⟩ | ⟨h3, h4⟩ <;> omega
  · have h1 := Multiset.map_le_map (f := Prod.fst) h
    rw [map_fst_keys] at h1
    exact Multiset.coe_nodup.mp (Multiset.nodup_of_le h1 (nodup_keys_brute libc t coords n))

/-- A list with exactly the entries owed is the brute-force answer. -/
theorem same_of_keys_eq (libc : Libc α) (t : KDTree α) (coords : List α) (n : Nat) (r : α)
    (hr : t._neighbor_radius_sq = r * r) {out : List (Neighbor α)}
    (h : keys out = keys (innerL libc t (loaded t.dim n coords))) :
    SamePairs libc t.dim n coords r out := by
  constructor
  · rintro i j ⟨hi, hj, hne, hd⟩
    rw [← hr] at hd
    have key : ∀ a b, a < b → b < n → dist2 t.dim coords a b ≤ t._neighbor_radius_sq →
        s(a, b) ∈ out.map pairOf := by
      intro a b hab hb hdab
      have h1 : (s(a, b), libc.sqrt (dist2 t.dim coords a b)) ∈ keys out := by
        rw [h]
        exact (mem_keys_brute libc t coords n _).mpr ⟨a, b, hab, hb, hdab, rfl⟩
      have h2 := Multiset.mem_map_of_mem Prod.fst h1
      rw [map_fst_keys] at h2
      exact Multiset.mem_coe.mp h2
    rcases Nat.lt_or_gt_of_ne hne with hlt | hgt
    · exact key i j hlt hj hd
    · rw [Sym2.eq_swap]
      exact key j i hgt hi (by rw [dist2_comm]; exact hd)
  · intro x hx
    have h1 : nkey x ∈ keys out := by
      unfold keys
      exact Multiset.mem_coe.mpr (List.mem_map.mpr ⟨x, hx, rfl⟩)
    rw [h] at h1
    rcases (mem_keys_brute libc t coords n _).mp h1 with ⟨i, j, hij, hj, hd, he⟩
    have h2 : s(x.index1, x.index2) = s(i, j) := congrArg Prod.fst he
    have h3 : x.radius = libc.sqrt (dist2 t.dim coords i j) := congrArg Prod.snd he
    rw [hr] at hd
    rcases Sym2.eq_iff.mp h2 with ⟨h4, h5⟩ | ⟨h4, h5⟩
    · rw [h4, h5]
      exact ⟨⟨by omega, hj, by omega, hd⟩, h3⟩
    · rw [h4, h5, dist2_comm]
      exact ⟨⟨hj, by omega, by omega, by rw [dist2_comm]; exact hd⟩, h3⟩

theorem pairs_loaded (libc : Libc α) (T : KDTree α) (r : α) (hr : 0 < r)
    (hinv : T._root.Inv T._data_point_list T.dim 0)
    (hpts : T._root.pts T._data_point_list = T._data_point_list) (t0 : KDTree α)
    (ht0 : { T with
             _neighbor_list := [],
             _neighbor_count := 0,
             _neighbor_radius := r,
             _neighbor_radius_sq := r * r } = t0) :
    (∀ T' out, PyTree_neighbor_search libc T r = PyRet.ok T' out →
      keys out ≤ keys (innerL libc t0 T._data_point_list) ∧
      ((0 < T.dim ∧ ∀ p ∈ T._data_point_list,
          Encloses T.dim (Region_create T.dim none none) p._coord) →
        keys out = keys (innerL libc t0 T._data_point_list)) ∧
      T'._neighbor_count = out.length ∧ T'._data_point_list = T._data_point_list ∧
      T'._root = T._root ∧ T'._radius_list = T._radius_list ∧ T'._count = T._count) ∧
    ((0 < T.dim ∧ ∀ p ∈ T._data_point_list,
        Encloses T.dim (Region_create T.dim none none) p._coord) →
      ∃ T' out, PyTree_neighbor_search libc T r = PyRet.ok T' out) := by
  have hspec := KDTree_neighbor_search_spec libc T r hinv t0 ht0
  rw [hpts] at hspec
  unfold PyTree_neighbor_search
  rw [if_neg (not_le.mpr hr)]
  constructor
  · intro T' out hres
    cases hk : KDTree_neighbor_search libc T r with
    | error e => rw [hk] at hres; cases hres
    | ok res =>
      rw [hk] at hres
      simp only [PyRet.ok.injEq] at hres
      rcases hspec.1 res hk with ⟨hits, rfl, hle, heq⟩
      rcases hres with ⟨rfl, rfl⟩
      refine ⟨by rw [keys_reverse]; exact hle, fun c => ?_, ?_, ?_, ?_, ?_, ?_⟩
      · rw [keys_reverse]
        exact heq ⟨le_of_lt hr, c.1, c.2⟩
      · rw [← ht0]
        simp [KDTree.addNeighbors]
      · rw [← ht0]; rfl
      · rw [← ht0]; rfl
      · rw [← ht0]; rfl
      · rw [← ht0]; rfl
  · intro c
    rcases hspec.2 ⟨le_of_lt hr, c.1, c.2⟩ with ⟨res, hk⟩
    rw [hk]
    exact ⟨_, _, rfl⟩

theorem sweep_loaded (libc : Libc α) (T : KDTree α) (r : α) (hr : 0 < r) (hdim : 0 < T.dim)
    (t0 : KDTree α)
    (ht0 : { T with
             _neighbor_list := [],
             _neighbor_count := 0,
             _neighbor_radius := r,
             _neighbor_radius_sq := r * r } = t0) :
    ∃ T' out, PyTree_neighbor_simple_search libc T r = PyRet.ok T' out ∧
      keys out = keys (innerL libc t0 T._data_point_list) ∧
      T'._neighbor_count = out.length ∧
      T'._data_point_list = libc.qsort (compare 0) T._data_point_list ∧
      T'._root = T._root ∧ T'._radius_list = T._radius_list ∧ T'._count = T._count := by
  unfold PyTree_neighbor_simple_search
  rw [if_neg (not_le.mpr hr)]
  rw [KDTree_neighbor_simple_search_spec libc T r (le_of_lt hr) hdim _ rfl]
  refine ⟨_, _, rfl, ?_, ?_, rfl, rfl, rfl, rfl⟩
  · rw [keys_reverse]
    simp only
    rw [keys_innerL_perm libc _ (libc.qsort_perm 0 T._data_point_list)]
    exact congrArg keys (innerL_congr libc (by rw [← ht0]) (by rw [← ht0]) _)
  · simp [KDTree.addNeighbors]

/-! ### Queries do not touch the store or the nodes -/

theorem SameTree.refl (t : KDTree α) : SameTree t t := ⟨rfl, rfl⟩

theorem SameTree.trans {t1 t2 t3 : KDTree α} (h1 : SameTree t1 t2) (h2 : SameTree t2 t3) :
    SameTree t1 t3 := ⟨h2.1.trans h1.1, h2.2.trans h1.2⟩

theorem bind_same {t : KDTree α} {r1 : Run (KDTree α)} {f : KDTree α → Run (KDTree α)}
    (h1 : ∀ t1, r1 = Except.ok t1 → SameTree t t1)
    (h2 : ∀ t1 t2, SameTree t t1 → f t1 = Except.ok t2 → SameTree t1 t2) :
    ∀ t2, (r1 >>= f) = Except.ok t2 → SameTree t t2 := by
  intro t2 h
  cases hr : r1 with
  | error e => rw [hr] at h; cases h
  | ok t1 =>
    rw [hr] at h
    exact (h1 t1 hr).trans (h2 t1 t2 (h1 t1 hr) h)

theorem forRange_same (body : Nat → KDTree α → Run (KDTree α))
    (hbody : ∀ i t t', body i t = Except.ok t' → SameTree t t') (hi : Nat) :
    ∀ (n lo : Nat) (t t' : KDTree α), hi - lo = n →
      forRange lo hi body t = Except.ok t' → SameTree t t' := by
  intro n
  induction n with
  | zero =>
    intro lo t t' h hr
    rw [forRange_done _ _ (by omega)] at hr
    cases hr
    exact SameTree.refl _
  | succ n ih =>
    intro lo t t' h hr
    rw [forRange_step _ _ (by omega)] at hr
    exact bind_same (hbody lo t) (fun t1 t2 _ h2 => ih (lo + 1) t1 t2 (by omega) h2) t' hr

theorem point_bind_same {t : KDTree α} {i : Nat} {f : DataPoint α → Run (KDTree α)}
    (hf : ∀ p t', f p = Except.ok t' → SameTree t t') :
    ∀ t', (t.point i >>= f) = Except.ok t' → SameTree t t' := by
  intro t' h
  cases hp : t.point i with
  | error e => rw [hp] at h; cases h
  | ok p => rw [hp] at h; exact hf p t' h

theorem KDTree_report_subtree_same (libc : Libc α) (node : Node α) :
    ∀ (t t' : KDTree α), KDTree_report_subtree libc t node = Except.ok t' → SameTree t t' := by
  induction node with
  | NULL => intro t t' h; simp [KDTree_report_subtree] at h
  | mk l r v cd s e ihl ihr =>
    intro t t' h
    rw [KDTree_report_subtree] at h
    split_ifs at h
    · refine forRange_same _ ?_ e _ s t t' rfl h
      intro i t1 t2
      apply point_bind_same
      intro p t3 h3
      cases h3
      unfold KDTree_report_point
      simp only
      split_ifs <;> exact ⟨rfl, rfl⟩
    · exact bind_same (ihl t) (fun t1 t2 _ h2 => ihr t1 t2 h2) t' h

/-- The point search leaves the store and the nodes alone. -/
theorem search_same (libc : Libc α) : ∀ fuel : Nat,
    (∀ (t t' : KDTree α) (region : Option (Region α)) (node : Node α) (depth : Nat),
      KDTree_search.go libc fuel t region node depth = Except.ok t' → SameTree t t') ∧
    (∀ (t t' : KDTree α) (node : Node α) (region : Region α) (depth : Nat),
      KDTree_test_region.go libc fuel t node region depth = Except.ok t' → SameTree t t') := by
  intro fuel
  induction fuel with
  | zero =>
    constructor
    · intro t t' region node depth h
      simp [KDTree_search.go] at h
    · intro t t' node region depth h
      simp [KDTree_test_region.go] at h
  | succ fuel ih =>
    constructor
    · intro t t' region node depth h
      rw [KDTree_search.go] at h
      simp only at h
      generalize (if depth = 0 then t._root else node) = node' at h
      generalize (if depth = 0 then some (Region_create t.dim none none) else region) =
        region' at h
      cases node' with
      | NULL => cases h
      | mk l r v cd s e =>
        simp only at h
        by_cases hleaf : (l.isNull && r.isNull) = true
        · rw [if_pos hleaf] at h
          refine forRange_same _ ?_ _ _ _ t t' rfl h
          intro i t1 t2
          apply point_bind_same
          intro p t3 h3
          cases hq : Region.deref t1._query_region with
          | error e => rw [hq] at h3; cases h3
          | ok q =>
            rw [hq] at h3
            simp only [ok_bind] at h3
            split_ifs at h3
            · cases h3
              unfold KDTree_report_point
              simp only
              split_ifs <;> exact ⟨rfl, rfl⟩
            · cases h3
              exact SameTree.refl _
        · rw [if_neg hleaf] at h
          cases hreg : Region.deref region' with
          | error e => rw [hreg] at h; cases h
          | ok R =>
            rw [hreg] at h
            simp only [ok_bind] at h
            have hright : ∀ t1 t2 : KDTree α, SameTree t t1 →
                (match right_child_region t1.dim R v (depth % t.dim) with
                  | some right_region => KDTree_test_region.go libc fuel t1 r right_region depth
                  | none => pure t1) = Except.ok t2 → SameTree t1 t2 := by
              intro t1 t2 _ h2
              split at h2
              · exact ih.2 _ _ _ _ _ h2
              · cases h2; exact SameTree.refl _
            split at h
            · exact bind_same (fun t1 h1 => ih.2 _ _ _ _ _ h1) hright t' h
            · rw [pure_bind] at h
              exact hright t t' (SameTree.refl _) h
    · intro t t' node region depth h
      rw [KDTree_test_region.go] at h
      cases hq : Region.deref t._query_region with
      | error e => rw [hq] at h; cases h
      | ok q =>
        rw [hq] at h
        simp only [ok_bind] at h
        split_ifs at h
        · exact KDTree_report_subtree_same libc node t t' h
        · exact ih.1 _ _ _ _ _ h
        · cases h; exact SameTree.refl _

theorem KDTree_test_neighbors_same (libc : Libc α) (t : KDTree α) (p1 p2 : DataPoint α) :
    SameTree t (KDTree_test_neighbors libc t p1 p2) := by
  unfold KDTree_test_neighbors
  simp only
  split_ifs <;> exact ⟨rfl, rfl⟩

theorem row_same (libc : Libc α) (p1 : DataPoint α) (lo hi : Nat) (t t' : KDTree α)
    (h : forRange lo hi (fun j tree => do
        let p2 ← tree.point j
        pure (KDTree_test_neighbors libc tree p1 p2)) t = Except.ok t') : SameTree t t' := by
  refine forRange_same _ ?_ hi _ lo t t' rfl h
  intro j t1 t2
  apply point_bind_same
  intro p t3 h3
  cases h3
  exact KDTree_test_neighbors_same libc t1 p1 p

theorem KDTree_search_neighbors_in_bucket_same (libc : Libc α) (node : Node α)
    (t t' : KDTree α) (h : KDTree_search_neighbors_in_bucket libc t node = Except.ok t') :
    SameTree t t' := by
  cases node with
  | NULL => cases h
  | mk l r v cd s e =>
    refine forRange_same _ ?_ e _ s t t' rfl h
    intro i t1 t2
    apply point_bind_same
    intro p t3 h3
    exact row_same libc p _ _ t1 t3 h3

theorem KDTree_search_neighbors_between_buckets_same (libc : Libc α) (node1 node2 : Node α)
    (t t' : KDTree α)
    (h : KDTree_search_neighbors_between_buckets libc t node1 node2 = Except.ok t') :
    SameTree t t' := by
  cases node1 with
  | NULL => cases h
  | mk l r v cd s e =>
    cases node2 with
    | NULL => cases h
    | mk l2 r2 v2 cd2 s2 e2 =>
      refine forRange_same _ ?_ e _ s t t' rfl h
      intro i t1 t2
      apply point_bind_same
      intro p t3 h3
      exact row_same libc p _ _ t1 t3 h3

/-- The dual descent leaves the store and the nodes alone. -/
theorem pairs_same (libc : Libc α) : ∀ (fuel : Nat) (t t' : KDTree α) (down : Node α)
    (down_region : Option (Region α)) (up : Node α) (up_region : Option (Region α))
    (depth : Nat),
    KDTree_neighbor_search_pairs.go libc fuel t down down_region up up_region depth =
      Except.ok t' → SameTree t t' := by
  intro fuel
  induction fuel with
  | zero =>
    intro t t' down dr up ur depth h
    simp [KDTree_neighbor_search_pairs.go] at h
  | succ fuel ih =>
    intro t t' down dr up ur depth h
    unfold KDTree_neighbor_search_pairs.go at h
    split at h
    · simp only at h
      split_ifs at h
      · cases h; exact SameTree.refl _
      · exact KDTree_search_neighbors_between_buckets_same libc _ _ t t' h
      · refine bind_same (fun t1 h1 => ih _ _ _ _ _ _ _ h1) ?_ t' h
        intro t1 t2 _ h2
        refine bind_same (fun t1 h1 => ih _ _ _ _ _ _ _ h1) ?_ t2 h2
        intro t3 t4 _ h4
        refine bind_same (fun t1 h1 => ih _ _ _ _ _ _ _ h1) ?_ t4 h4
        intro t5 t6 _ h6
        exact ih _ _ _ _ _ _ _ h6
    · cases h; exact SameTree.refl _

theorem KDTree_neighbor_search_pairs_same (libc : Libc α) (t t' : KDTree α) (down : Node α)
    (down_region : Option (Region α)) (up : Node α) (up_region : Option (Region α))
    (depth : Nat)
    (h : KDTree_neighbor_search_pairs libc t down down_region up up_region depth =
      Except.ok t') : SameTree t t' :=
  pairs_same libc _ t t' down down_region up up_region depth h

theorem leaf_bind_same {t : KDTree α} {node : Node α} {f : Bool → Run (KDTree α)}
    (hf : ∀ b t', f b = Except.ok t' → SameTree t t') :
    ∀ t', (Node_is_leaf node >>= f) = Except.ok t' → SameTree t t' := by
  intro t' h
  cases hp : Node_is_leaf node with
  | error e => rw [hp] at h; cases h
  | ok p => rw [hp] at h; exact hf p t' h

/-- The descent over one tree leaves the store and the nodes alone. -/
theorem neighbor_search_same (libc : Libc α) (node : Node α) :
    ∀ (t t' : KDTree α) (region : Option (Region α)) (depth : Nat),
      KDTree__neighbor_search libc t node region depth = Except.ok t' → SameTree t t' := by
  induction node with
  | NULL => intro t t' region depth h; simp [KDTree__neighbor_search] at h
  | mk l r v cd s e ihl ihr =>
    intro t t' region depth h
    cases region with
    | none => simp [KDTree__neighbor_search] at h
    | some R =>
      rw [KDTree__neighbor_search] at h
      simp only at h
      refine leaf_bind_same ?_ t' h
      intro b t1 h1
      have hrest : ∀ (f : KDTree α → Run (KDTree α)) (t2 t3 : KDTree α)
          (hf : ∀ t5 t6, f t5 = Except.ok t6 → SameTree t5 t6),
          (Node_is_leaf r >>= fun right_is_leaf =>
            if (!right_is_leaf) = true then
              KDTree__neighbor_search libc t2 r
                (right_child_region t.dim R v (depth % t.dim)) (depth + 1) >>= f
            else KDTree_search_neighbors_in_bucket libc t2 r >>= f) = Except.ok t3 →
            SameTree t2 t3 := by
        intro f t2 t3 hf h3
        refine leaf_bind_same ?_ t3 h3
        intro b2 t4 h4
        split_ifs at h4
        · exact bind_same (fun t5 h5 => ihr _ _ _ _ h5) (fun t5 t6 _ h6 => hf t5 t6 h6) t4 h4
        · exact bind_same (fun t5 h5 => KDTree_search_neighbors_in_bucket_same libc _ _ _ h5)
            (fun t5 t6 _ h6 => hf t5 t6 h6) t4 h4
      split_ifs at h1
      · refine bind_same (fun t2 h2 => ihl _ _ _ _ h2) ?_ t1 h1
        intro t2 t3 _ h3
        exact hrest _ t2 t3
          (fun t5 t6 h6 => KDTree_neighbor_search_pairs_same libc _ _ _ _ _ _ _ h6) h3
      · refine bind_same (fun t2 h2 => KDTree_search_neighbors_in_bucket_same libc _ _ _ h2)
          ?_ t1 h1
        intro t2 t3 _ h3
        exact hrest _ t2 t3
          (fun t5 t6 h6 => KDTree_neighbor_search_pairs_same libc _ _ _ _ _ _ _ h6) h3

theorem bind_pair_same {β : Type} {t : KDTree α} {r1 : Run (KDTree α)} {g : KDTree α → β}
    (h1 : ∀ t1, r1 = Except.ok t1 → SameTree t t1) (res : KDTree α × β)
    (h : (r1 >>= fun y => pure (y, g y)) = Except.ok res) : SameTree t res.1 := by
  cases hr : r1 with
  | error e => rw [hr] at h; cases h
  | ok t1 =>
    rw [hr] at h
    cases h
    exact h1 t1 hr

theorem KDTree_neighbor_search_same (libc : Libc α) (t : KDTree α) (r : α)
    (res : KDTree α × List (Neighbor α))
    (h : KDTree_neighbor_search libc t r = Except.ok res) : SameTree t res.1 := by
  unfold KDTree_neighbor_search at h
  simp only at h
  cases hl : Node_is_leaf t._root with
  | error e => rw [hl] at h; cases h
  | ok b =>
    rw [hl] at h
    simp only [ok_bind] at h
    generalize hT : ({ t with
        _neighbor_list := [],
        _neighbor_count := 0,
        _neighbor_radius := r,
        _neighbor_radius_sq := r * r } : KDTree α) = T at h
    have hTt : SameTree t T := by subst hT; exact ⟨rfl, rfl⟩
    refine hTt.trans ?_
    split_ifs at h
    · exact bind_pair_same
        (fun t1 h1 => KDTree_search_neighbors_in_bucket_same libc _ _ _ h1) res h
    · exact bind_pair_same (fun t1 h1 => neighbor_search_same libc _ _ _ _ _ h1) res h

theorem KDTree_search_same (libc : Libc α) (t t' : KDTree α) (region : Option (Region α))
    (node : Node α) (depth : Nat)
    (h : KDTree_search libc t region node depth = Except.ok t') : SameTree t t' :=
  (search_same libc _).1 t t' region node depth h

theorem PyTree_search_center_radius_same (libc : Libc α) (t T : KDTree α) (view : Py_buffer α)
    (r : α) (v : Unit) (h : PyTree_search_center_radius libc t view r = PyRet.ok T v) :
    SameTree t T := by
  unfold PyTree_search_center_radius at h
  simp only at h
  split_ifs at h
  split at h
  · rename_i T1 hrun
    cases h
    have h2 := KDTree_search_same libc _ T _ _ _ hrun
    exact ⟨h2.1, h2.2⟩
  · cases h

theorem PyTree_neighbor_search_same (libc : Libc α) (t T : KDTree α) (r : α)
    (out : List (Neighbor α)) (h : PyTree_neighbor_search libc t r = PyRet.ok T out) :
    SameTree t T := by
  unfold PyTree_neighbor_search at h
  split_ifs at h
  split at h
  · rename_i res hrun
    cases h
    exact KDTree_neighbor_search_same libc t r res hrun
  · cases h

theorem ordered_same {t T : KDTree α} (h : SameTree t T) :
    Node.ordered T._data_point_list T._root = Node.ordered t._data_point_list t._root := by
  rw [h.1, h.2]

/-! ### Whole sessions on a new object -/

theorem IsMatrix.rows {view : Py_buffer α} {n m : Nat} (h : view.IsMatrix n m) :
    view.shape.getD 0 0 = n := by
  rw [h.2.1]
  rfl

theorem IsMatrix.cols {view : Py_buffer α} {n m : Nat} (h : view.IsMatrix n m) :
    view.shape.getD 1 0 = m := by
  rw [h.2.1]
  rfl

theorem IsVector.size {view : Py_buffer α} {n : Nat} (h : view.IsVector n) :
    view.shape.getD 0 0 = n := by
  rw [h.2.1]
  rfl

theorem pairQuery_dim (k : Nat) (r : α) : (pairQuery k r : KDTree α).dim = k := rfl

theorem pairQuery_sq (k : Nat) (r : α) :
    (pairQuery k r : KDTree α)._neighbor_radius_sq = r * r := rfl

/-- The point-query session on points in the root region returns the brute-force entries
up to order. -/
theorem search_session (libc : Libc α) (k B n : Nat) (hk : 0 < k) (hB : 0 < B)
    (points : Py_buffer α) (hpoints : points.IsMatrix n k)
    (center : Py_buffer α) (hcenter : center.IsVector k) (r : α) (hr : 0 < r)
    (hbox : InBox k n (COPY2DARRAY points n k)) :
    ∃ T : KDTree α,
      searchSession libc (k : Int) (B : Int) points center r = PyRet.ok T () ∧
      T._radius_list.Perm
        (bruteRadii libc k n (COPY2DARRAY points n k) (COPY1DARRAY center k) r) ∧
      T._count = T._radius_list.length := by
  have h := point_query_exact libc k B hk hB points hpoints.1 hpoints.2.2.1 center
    hcenter.1 hcenter.2.2.1 r hr
  rw [IsMatrix.rows hpoints, IsMatrix.cols hpoints, IsVector.size hcenter] at h
  exact h hbox

/-- The `all_pairs` session: its output is among the entries owed, and is exactly those
when the points lie in the root region, in which case the session returns. -/
theorem pairs_session (libc : Libc α) (k B n : Nat) (hk : 0 < k) (hB : 0 < B)
    (points : Py_buffer α) (hpoints : points.IsMatrix n k) (r : α) (hr : 0 < r) :
    (∀ T out, pairsSession libc (k : Int) (B : Int) points r = PyRet.ok T out →
      keys out ≤ keys (innerL libc (pairQuery k r) (loaded k n (COPY2DARRAY points n k))) ∧
      PyTree_neighbor_get_count T = out.length) ∧
    (InBox k n (COPY2DARRAY points n k) →
      ∃ T out, pairsSession libc (k : Int) (B : Int) points r = PyRet.ok T out ∧
        keys out = keys (innerL libc (pairQuery k r) (loaded k n (COPY2DARRAY points n k)))) := by
  rcases loadedTree_spec libc k B hk hB points hpoints.1 hpoints.2.2.1 with
    ⟨T0, hT0, hdim, _, hperm, hinv, hpts, _⟩
  rw [IsMatrix.rows hpoints, IsMatrix.cols hpoints] at hperm
  have hsp := pairs_loaded libc T0 r hr (by rw [hdim]; exact hinv) hpts _ rfl
  unfold pairsSession
  rw [hT0]
  simp only [PyRet.andThen]
  constructor
  · intro T out hres
    rcases hsp.1 T out hres with ⟨hle, _, hcount, _⟩
    refine ⟨le_of_le_of_eq hle ?_, hcount⟩
    rw [keys_innerL_perm libc _ hperm]
    refine congrArg keys (innerL_congr libc ?_ ?_ _)
    · exact hdim
    · rfl
  · intro hbox
    have hc : 0 < T0.dim ∧ ∀ p ∈ T0._data_point_list,
        Encloses T0.dim (Region_create T0.dim none none) p._coord := by
      refine ⟨by rw [hdim]; exact hk, ?_⟩
      intro p hp
      rw [hdim]
      exact root_region_encloses hbox (hperm.subset hp)
    rcases hsp.2 hc with ⟨T, out, hres⟩
    refine ⟨T, out, hres, ?_⟩
    rw [(hsp.1 T out hres).2.1 hc, keys_innerL_perm libc _ hperm]
    refine congrArg keys (innerL_congr libc ?_ ?_ _)
    · exact hdim
    · rfl

/-- The `all_pairs_sweep` session returns exactly the entries owed, for any points. -/
theorem sweep_session (libc : Libc α) (k B n : Nat) (hk : 0 < k) (hB : 0 < B)
    (points : Py_buffer α) (hpoints : points.IsMatrix n k) (r : α) (hr : 0 < r) :
    ∃ T out, sweepSession libc (k : Int) (B : Int) points r = PyRet.ok T out ∧
      keys out = keys (innerL libc (pairQuery k r) (loaded k n (COPY2DARRAY points n k))) ∧
      PyTree_neighbor_get_count T = out.length := by
  rcases loadedTree_spec libc k B hk hB points hpoints.1 hpoints.2.2.1 with
    ⟨T0, hT0, hdim, _, hperm, _⟩
  rw [IsMatrix.rows hpoints, IsMatrix.cols hpoints] at hperm
  rcases sweep_loaded libc T0 r hr (by rw [hdim]; exact hk) _ rfl with
    ⟨T, out, hres, hkeys, hcount, _⟩
  unfold sweepSession
  rw [hT0]
  simp only [PyRet.andThen]
  refine ⟨T, out, hres, ?_, hcount⟩
  rw [hkeys, keys_innerL_perm libc _ hperm]
  refine congrArg keys (innerL_congr libc ?_ ?_ _)
  · exact hdim
  · rfl

theorem same_pairs_of_keys (libc : Libc α) (k n : Nat) (coords : List α) (r : α)
    {out : List (Neighbor α)}
    (h : keys out = keys (innerL libc (pairQuery k r) (loaded k n coords))) :
    SamePairs libc k n coords r out :=
  same_of_keys_eq libc (pairQuery k r) coords n r rfl h

theorem unique_of_keys (libc : Libc α) (k n : Nat) (coords : List α) (r : α)
    {out : List (Neighbor α)}
    (h : keys out ≤ keys (innerL libc (pairQuery k r) (loaded k n coords))) :
    (∀ x ∈ out, x.index1 ≠ x.index2) ∧ (out.map pairOf).Nodup :=
  unique_of_keys_le libc (pairQuery k r) coords n h

/-! ### The fuel of the queries is enough on every tree -/

theorem bind_fuel {σ τ : Type} {r1 : Run σ} {f : σ → Run τ}
    (h1 : r1 ≠ Except.error Fault.outOfFuel)
    (h2 : ∀ a, r1 = Except.ok a → f a ≠ Except.error Fault.outOfFuel) :
    (r1 >>= f) ≠ Except.error Fault.outOfFuel := by
  cases hr : r1 with
  | error e =>
    rw [hr] at h1
    intro h
    cases h
    exact h1 rfl
  | ok a => exact h2 a hr

theorem forRange_fuel {σ : Type} (body : Nat → σ → Run σ)
    (hbody : ∀ i s, body i s ≠ Except.error Fault.outOfFuel) (hi : Nat) :
    ∀ (n lo : Nat) (s : σ), hi - lo = n →
      forRange lo hi body s ≠ Except.error Fault.outOfFuel := by
  intro n
  induction n with
  | zero =>
    intro lo s h
    rw [forRange_done _ _ (by omega)]
    intro hc
    cases hc
  | succ n ih =>
    intro lo s h
    rw [forRange_step _ _ (by omega)]
    exact bind_fuel (hbody lo s) (fun a _ => ih (lo + 1) a (by omega))

theorem point_fuel (t : KDTree α) (i : Nat) : t.point i ≠ Except.error Fault.outOfFuel := by
  unfold KDTree.point
  split <;> intro h <;> cases h

theorem deref_fuel (region : Option (Region α)) :
    Region.deref region ≠ Except.error Fault.outOfFuel := by
  cases region <;> intro h <;> cases h

theorem Node_is_leaf_fuel (node : Node α) :
    Node_is_leaf node ≠ Except.error Fault.outOfFuel := by
  cases node <;> intro h <;> cases h

theorem pure_fuel {σ : Type} (a : σ) : (pure a : Run σ) ≠ Except.error Fault.outOfFuel := by
  intro h
  cases h

theorem row_fuel (libc : Libc α) (p1 : DataPoint α) (lo hi : Nat) (t : KDTree α) :
    forRange lo hi (fun j tree => do
        let p2 ← tree.point j
        pure (KDTree_test_neighbors libc tree p1 p2)) t ≠ Except.error Fault.outOfFuel := by
  refine forRange_fuel _ ?_ hi _ lo t rfl
  intro j s
  exact bind_fuel (point_fuel s j) (fun p _ => pure_fuel _)

theorem KDTree_search_neighbors_in_bucket_fuel (libc : Libc α) (node : Node α) (t : KDTree α) :
    KDTree_search_neighbors_in_bucket libc t node ≠ Except.error Fault.outOfFuel := by
  cases node with
  | NULL => intro h; cases h
  | mk l r v cd s e =>
    refine forRange_fuel _ ?_ e _ s t rfl
    intro i t1
    exact bind_fuel (point_fuel t1 i) (fun p _ => row_fuel libc p _ _ t1)

theorem KDTree_search_neighbors_between_buckets_fuel (libc : Libc α) (node1 node2 : Node α)
    (t : KDTree α) :
    KDTree_search_neighbors_between_buckets libc t node1 node2 ≠
      Except.error Fault.outOfFuel := by
  cases node1 with
  | NULL => intro h; cases h
  | mk l r v cd s e =>
    cases node2 with
    | NULL => intro h; cases h
    | mk l2 r2 v2 cd2 s2 e2 =>
      refine forRange_fuel _ ?_ e _ s t rfl
      intro i t1
      exact bind_fuel (point_fuel t1 i) (fun p _ => row_fuel libc p _ _ t1)

theorem KDTree_report_subtree_fuel (libc : Libc α) (node : Node α) :
    ∀ t : KDTree α, KDTree_report_subtree libc t node ≠ Except.error Fault.outOfFuel := by
  induction node with
  | NULL => intro t h; simp [KDTree_report_subtree] at h
  | mk l r v cd s e ihl ihr =>
    intro t
    rw [KDTree_report_subtree]
    split_ifs
    · refine forRange_fuel _ ?_ e _ s t rfl
      intro i t1
      exact bind_fuel (point_fuel t1 i) (fun p _ => pure_fuel _)
    · exact bind_fuel (ihl t) (fun a _ => ihr a)

/-- The point search never runs out of fuel: `2 * height + 1` units are enough for
`KDTree_search` and one more for `KDTree_test_region`, on every tree. -/
theorem search_fuel (libc : Libc α) : ∀ fuel : Nat,
    (∀ (t : KDTree α) (region : Option (Region α)) (node : Node α) (depth : Nat),
      2 * (if depth = 0 then t._root else node).height + 1 ≤ fuel →
      KDTree_search.go libc fuel t region node depth ≠ Except.error Fault.outOfFuel) ∧
    (∀ (t : KDTree α) (node : Node α) (region : Region α) (depth : Nat),
      2 * node.height + 2 ≤ fuel →
      KDTree_test_region.go libc fuel t node region depth ≠ Except.error Fault.outOfFuel) := by
  intro fuel
  induction fuel with
  | zero =>
    constructor
    · intro t region node depth h
      omega
    · intro t node region depth h
      omega
  | succ fuel ih =>
    constructor
    · intro t region node depth hf
      rw [KDTree_search.go]
      simp only
      generalize (if depth = 0 then t._root else node) = node' at hf
      generalize (if depth = 0 then some (Region_create t.dim none none) else region) = region'
      cases node' with
      | NULL => intro h; cases h
      | mk l r v cd s e =>
        simp only
        simp only [Node.height] at hf
        by_cases hleaf : (l.isNull && r.isNull) = true
        · rw [if_pos hleaf]
          refine forRange_fuel _ ?_ _ _ _ t rfl
          intro i t1
          refine bind_fuel (point_fuel t1 i) (fun p _ => ?_)
          refine bind_fuel (deref_fuel _) (fun q _ => ?_)
          split_ifs <;> exact pure_fuel _
        · rw [if_neg hleaf]
          refine bind_fuel (deref_fuel _) (fun R _ => ?_)
          have hright : ∀ t1 : KDTree α,
              (match right_child_region t1.dim R v (depth % t.dim) with
                | some right_region => KDTree_test_region.go libc fuel t1 r right_region depth
                | none => pure t1) ≠ Except.error Fault.outOfFuel := by
            intro t1
            split
            · exact ih.2 _ _ _ _ (by omega)
            · exact pure_fuel _
          split
          · exact bind_fuel (ih.2 _ _ _ _ (by omega)) (fun t1 _ => hright t1)
          · rw [pure_bind]
            exact hright t
    · intro t node region depth hf
      rw [KDTree_test_region.go]
      refine bind_fuel (deref_fuel _) (fun q _ => ?_)
      simp only
      split_ifs
      · exact KDTree_report_subtree_fuel libc node t
      · refine ih.1 _ _ _ _ ?_
        rw [if_neg (Nat.succ_ne_zero depth)]
        omega
      · exact pure_fuel _

theorem KDTree_search_fuel (libc : Libc α) (t : KDTree α) (region : Option (Region α))
    (node : Node α) (depth : Nat) :
    KDTree_search libc t region node depth ≠ Except.error Fault.outOfFuel :=
  (search_fuel libc _).1 t region node depth (by omega)

theorem pairs_children_height (dim : Nat) (X : Node α) (R : Region α) (localdim : Nat) :
    (pairs_children dim X R localdim).1.height ≤ X.height ∧
    (pairs_children dim X R localdim).2.2.1.height ≤ X.height ∧
    (∀ l r v cd s e, X = Node.mk l r v cd s e → (l.isNull && r.isNull) = false →
      (pairs_children dim X R localdim).1.height < X.height ∧
      (pairs_children dim X R localdim).2.2.1.height < X.height) := by
  cases X with
  | NULL =>
    refine ⟨le_refl _, le_refl _, ?_⟩
    intro l r v cd s e h
    cases h
  | mk l r v cd s e =>
    unfold pairs_children
    by_cases hleaf : (l.isNull && r.isNull) = true
    · simp only [hleaf, if_true]
      refine ⟨le_refl _, by simp [Node.height], ?_⟩
      intro l2 r2 v2 cd2 s2 e2 h h2
      cases h
      rw [hleaf] at h2
      cases h2
    · simp only [hleaf, if_false, Bool.false_eq_true]
      simp only [Node.height]
      refine ⟨by omega, by omega, ?_⟩
      intro l2 r2 v2 cd2 s2 e2 h h2
      constructor <;> omega

/-- The dual descent never runs out of fuel when it starts with more units than the two
heights together, on every tree. -/
theorem pairs_fuel (libc : Libc α) : ∀ (fuel : Nat) (t : KDTree α) (down : Node α)
    (down_region : Option (Region α)) (up : Node α) (up_region : Option (Region α))
    (depth : Nat), down.height + up.height < fuel →
    KDTree_neighbor_search_pairs.go libc fuel t down down_region up up_region depth ≠
      Except.error Fault.outOfFuel := by
  intro fuel
  induction fuel with
  | zero =>
    intro t down dr up ur depth h
    omega
  | succ fuel ih =>
    intro t down dr up ur depth hf
    unfold KDTree_neighbor_search_pairs.go
    split
    · rename_i dl drr dv dcd ds de dreg ul urr uv ucd us ue ureg
      simp only
      split_ifs with h0 hleaf
      · exact pure_fuel _
      · exact KDTree_search_neighbors_between_buckets_fuel libc _ _ t
      · have hd := pairs_children_height t.dim (Node.mk dl drr dv dcd ds de) dreg
          (depth % t.dim)
        have hu := pairs_children_height t.dim (Node.mk ul urr uv ucd us ue) ureg
          (depth % t.dim)
        have hlt : ∀ (a b : Nat),
            (a ≤ (Node.mk ul urr uv ucd us ue).height) →
            (b ≤ (Node.mk dl drr dv dcd ds de).height) →
            ((ul.isNull && urr.isNull) = false → a < (Node.mk ul urr uv ucd us ue).height) →
            ((dl.isNull && drr.isNull) = false → b < (Node.mk dl drr dv dcd ds de).height) →
            a + b < fuel := by
          intro a b ha hb ha2 hb2
          by_cases hul : (ul.isNull && urr.isNull) = true
          · by_cases hdl : (dl.isNull && drr.isNull) = true
            · exact absurd (by rw [hul, hdl]; rfl) hleaf
            · have := hb2 (by simpa using hdl)
              omega
          · have := ha2 (by simpa using hul)
            omega
        have c11 := hlt _ _ hu.1 hd.1 (fun h => (hu.2.2 _ _ _ _ _ _ rfl h).1)
          (fun h => (hd.2.2 _ _ _ _ _ _ rfl h).1)
        have c12 := hlt _ _ hu.1 hd.2.1 (fun h => (hu.2.2 _ _ _ _ _ _ rfl h).1)
          (fun h => (hd.2.2 _ _ _ _ _ _ rfl h).2)
        have c21 := hlt _ _ hu.2.1 hd.1 (fun h => (hu.2.2 _ _ _ _ _ _ rfl h).2)
          (fun h => (hd.2.2 _ _ _ _ _ _ rfl h).1)
        have c22 := hlt _ _ hu.2.1 hd.2.1 (fun h => (hu.2.2 _ _ _ _ _ _ rfl h).2)
          (fun h => (hd.2.2 _ _ _ _ _ _ rfl h).2)
        refine bind_fuel (ih _ _ _ _ _ _ c11) (fun t1 _ => ?_)
        refine bind_fuel (ih _ _ _ _ _ _ c12) (fun t2 _ => ?_)
        refine bind_fuel (ih _ _ _ _ _ _ c21) (fun t3 _ => ?_)
        exact ih _ _ _ _ _ _ c22
    · exact pure_fuel _

theorem KDTree_neighbor_search_pairs_fuel (libc : Libc α) (t : KDTree α) (down : Node α)
    (down_region : Option (Region α)) (up : Node α) (up_region : Option (Region α))
    (depth : Nat) :
    KDTree_neighbor_search_pairs libc t down down_region up up_region depth ≠
      Except.error Fault.outOfFuel :=
  pairs_fuel libc _ t down down_region up up_region depth (by omega)

theorem neighbor_search_fuel (libc : Libc α) (node : Node α) :
    ∀ (t : KDTree α) (region : Option (Region α)) (depth : Nat),
      KDTree__neighbor_search libc t node region depth ≠ Except.error Fault.outOfFuel := by
  induction node with
  | NULL => intro t region depth h; simp [KDTree__neighbor_search] at h
  | mk l r v cd s e ihl ihr =>
    intro t region depth
    cases region with
    | none => intro h; simp [KDTree__neighbor_search] at h
    | some R =>
      rw [KDTree__neighbor_search]
      simp only
      refine bind_fuel (Node_is_leaf_fuel _) (fun b _ => ?_)
      have hrest : ∀ (f : KDTree α → Run (KDTree α)) (t2 : KDTree α)
          (hf : ∀ t5, f t5 ≠ Except.error Fault.outOfFuel),
          (Node_is_leaf r >>= fun right_is_leaf =>
            if (!right_is_leaf) = true then
              KDTree__neighbor_search libc t2 r
                (right_child_region t.dim R v (depth % t.dim)) (depth + 1) >>= f
            else KDTree_search_neighbors_in_bucket libc t2 r >>= f) ≠
            Except.error Fault.outOfFuel := by
        intro f t2 hf
        refine bind_fuel (Node_is_leaf_fuel _) (fun b2 _ => ?_)
        split_ifs
        · exact bind_fuel (ihr _ _ _) (fun t5 _ => hf t5)
        · exact bind_fuel (KDTree_search_neighbors_in_bucket_fuel libc _ _) (fun t5 _ => hf t5)
      split_ifs
      · refine bind_fuel (ihl _ _ _) (fun t2 _ => ?_)
        exact hrest _ t2 (fun t5 => KDTree_neighbor_search_pairs_fuel libc _ _ _ _ _ _)
      · refine bind_fuel (KDTree_search_neighbors_in_bucket_fuel libc _ _) (fun t2 _ => ?_)
        exact hrest _ t2 (fun t5 => KDTree_neighbor_search_pairs_fuel libc _ _ _ _ _ _)

theorem KDTree_neighbor_search_fuel (libc : Libc α) (t : KDTree α) (r : α) :
    KDTree_neighbor_search libc t r ≠ Except.error Fault.outOfFuel := by
  unfold KDTree_neighbor_search
  simp only
  refine bind_fuel (Node_is_leaf_fuel _) (fun b _ => ?_)
  split_ifs
  · exact bind_fuel (KDTree_search_neighbors_in_bucket_fuel libc _ _) (fun t1 _ => pure_fuel _)
  · exact bind_fuel (neighbor_search_fuel libc _ _ _ _) (fun t1 _ => pure_fuel _)

/-- A point query never ends in the fuel fault of the model. -/
theorem PyTree_search_center_radius_fuel (libc : Libc α) (t : KDTree α) (view : Py_buffer α)
    (r : α) : PyTree_search_center_radius libc t view r ≠ PyRet.fault Fault.outOfFuel := by
  unfold PyTree_search_center_radius
  simp only
  split_ifs
  · intro h; cases h
  · intro h; cases h
  · intro h; cases h
  · split
    · intro h; cases h
    · rename_i f hrun
      intro h
      cases h
      exact KDTree_search_fuel libc _ _ _ _ hrun

/-- A pair query never ends in the fuel fault of the model. -/
theorem PyTree_neighbor_search_fuel (libc : Libc α) (t : KDTree α) (r : α) :
    PyTree_neighbor_search libc t r ≠ PyRet.fault Fault.outOfFuel := by
  unfold PyTree_neighbor_search
  split_ifs
  · intro h; cases h
  · split
    · intro h; cases h
    · rename_i f hrun
      intro h
      cases h
      exact KDTree_neighbor_search_fuel libc _ _ hrun

/-- The `all_pairs` session never ends in the fuel fault of the model. -/
theorem pairs_session_fuel (libc : Libc α) (k B : Nat) (hk : 0 < k) (hB : 0 < B)
    (points : Py_buffer α) (hnd : points.ndim = 2) (hnum : numerical points.datatype = true)
    (r : α) :
    pairsSession libc (k : Int) (B : Int) points r ≠ PyRet.fault Fault.outOfFuel := by
  rcases loadedTree_spec libc k B hk hB points hnd hnum with ⟨T0, hT0, _⟩
  unfold pairsSession
  rw [hT0]
  exact PyTree_neighbor_search_fuel libc T0 r

/-! ### The pairs of `all_pairs` -/

/-- C5: for every dimension `k >= 1`, bucket size `B >= 1`, `n x k` point array
(duplicate points allowed, any coordinates) and `r > 0`, whenever the session
`init(k, B); set_data(points); all_pairs(r)` returns, its output has no entry with
`index1 = index2` and no two entries with the same unordered pair. The session does return
when the coordinates lie in `[-INF, INF]`, and in no case does the model run out of fuel (a
session that does not return is a null dereference in the C code). -/
theorem C5_all_pairs_unique (libc : Libc α) (k B n : Nat) (hk : 0 < k) (hB : 0 < B)
    (points : Py_buffer α) (hpoints : points.IsMatrix n k) (r : α) (hr : 0 < r) :
    (∀ (T : KDTree α) (out : List (Neighbor α)),
      pairsSession libc (k : Int) (B : Int) points r = PyRet.ok T out →
        (∀ h ∈ out, h.index1 ≠ h.index2) ∧ (out.map pairOf).Nodup) ∧
    (InBox k n (COPY2DARRAY points n k) →
      ∃ (T : KDTree α) (out : List (Neighbor α)),
        pairsSession libc (k : Int) (B : Int) points r = PyRet.ok T out) ∧
    pairsSession libc (k : Int) (B : Int) points r ≠ PyRet.fault Fault.outOfFuel := by
  have h := pairs_session libc k B n hk hB points hpoints r hr
  refine ⟨?_, ?_, pairs_session_fuel libc k B hk hB points hpoints.1 hpoints.2.2.1 r⟩
  · intro T out hres
    exact unique_of_keys libc k n _ r (h.1 T out hres).1
  · intro hbox
    rcases h.2 hbox with ⟨T, out, hres, _⟩
    exact ⟨T, out, hres⟩

/-- C5 at a concrete input: the point `(0, 0, 0)` twice and `(5, 5, 5)`, bucket size 1,
radius 1: the hypotheses hold and the output is the one pair `{0, 1}` with radius 0. -/
theorem C5_witness_duplicate_point :
    ((longMatrix 3 3 [0, 0, 0, 0, 0, 0, 5, 5, 5]).IsMatrix 3 3 ∧
      (pairsSession libcInt 3 1 (longMatrix 3 3 [0, 0, 0, 0, 0, 0, 5, 5, 5]) 1).value? =
        some [⟨0, 1, 0⟩]) ∧
    ((∀ (T : KDTree ℤ) (out : List (Neighbor ℤ)),
      pairsSession libcInt ((3 : Nat) : Int) ((1 : Nat) : Int)
        (longMatrix 3 3 [0, 0, 0, 0, 0, 0, 5, 5, 5]) 1 = PyRet.ok T out →
        (∀ h ∈ out, h.index1 ≠ h.index2) ∧ (out.map pairOf).Nodup) ∧
    (InBox 3 3 (COPY2DARRAY (longMatrix 3 3 [0, 0, 0, 0, 0, 0, 5, 5, 5]) 3 3) →
      ∃ (T : KDTree ℤ) (out : List (Neighbor ℤ)),
        pairsSession libcInt ((3 : Nat) : Int) ((1 : Nat) : Int)
          (longMatrix 3 3 [0, 0, 0, 0, 0, 0, 5, 5, 5]) 1 = PyRet.ok T out) ∧
    pairsSession libcInt ((3 : Nat) : Int) ((1 : Nat) : Int)
      (longMatrix 3 3 [0, 0, 0, 0, 0, 0, 5, 5, 5]) 1 ≠ PyRet.fault Fault.outOfFuel) :=
  ⟨by decide!,
    C5_all_pairs_unique libcInt 3 1 3 (by decide) (by decide)
      (longMatrix 3 3 [0, 0, 0, 0, 0, 0, 5, 5, 5]) (by decide!) 1 (by decide)⟩

/-! ### What the queries leave of the tree -/

/-- C6, for the two queries that walk the tree: from every tree state in which the ordering
invariant holds (for every internal node with cut dimension `d` and cut value `v`, the
points stored in its left child's range have `coord[d] <= v` and those in its right child's
range have `coord[d] >= v`), a `search_center_radius` or an `all_pairs` that returns leaves
the point store and the nodes as they were, so the invariant holds after the query. Neither
query runs out of fuel in the model, on any tree. -/
theorem C6_tree_queries_preserve_ordering (libc : Libc α) (t : KDTree α)
    (hord : Node.ordered t._data_point_list t._root = true) :
    (∀ (center : Py_buffer α) (r : α),
      PyTree_search_center_radius libc t center r ≠ PyRet.fault Fault.outOfFuel ∧
      ∀ T : KDTree α, PyTree_search_center_radius libc t center r = PyRet.ok T () →
        SameTree t T ∧ Node.ordered T._data_point_list T._root = true) ∧
    (∀ r : α,
      PyTree_neighbor_search libc t r ≠ PyRet.fault Fault.outOfFuel ∧
      ∀ (T : KDTree α) (out : List (Neighbor α)),
        PyTree_neighbor_search libc t r = PyRet.ok T out →
          SameTree t T ∧ Node.ordered T._data_point_list T._root = true) := by
  constructor
  · intro center r
    refine ⟨PyTree_search_center_radius_fuel libc t center r, ?_⟩
    intro T h
    have hs := PyTree_search_center_radius_same libc t T center r () h
    exact ⟨hs, by rw [ordered_same hs]; exact hord⟩
  · intro r
    refine ⟨PyTree_neighbor_search_fuel libc t r, ?_⟩
    intro T out h
    have hs := PyTree_neighbor_search_same libc t T r out h
    exact ⟨hs, by rw [ordered_same hs]; exact hord⟩

/-- C6 at a concrete input: the tree built with bucket size 1 from `(0,1)`, `(1,0)`,
`(2,0)` satisfies the ordering invariant, and still does after `search_center_radius` and
after `all_pairs`, which both return. -/
theorem C6_witness_three_points :
    (Node.ordered
        (loadedTree libcInt 2 1 (longMatrix 3 2 [0, 1, 1, 0, 2, 0])).finalTree._data_point_list
        (loadedTree libcInt 2 1 (longMatrix 3 2 [0, 1, 1, 0, 2, 0])).finalTree._root = true ∧
      (PyTree_search_center_radius libcInt
        (loadedTree libcInt 2 1 (longMatrix 3 2 [0, 1, 1, 0, 2, 0])).finalTree
        (longVector [0, 2]) 1).tree?.map
          (fun T => (Node.ordered T._data_point_list T._root, T._radius_list)) =
        some (true, [⟨0, 1⟩]) ∧
      (PyTree_neighbor_search libcInt
        (loadedTree libcInt 2 1 (longMatrix 3 2 [0, 1, 1, 0, 2, 0])).finalTree 1).tree?.map
          (fun T => Node.ordered T._data_point_list T._root) = some true) ∧
    ((∀ (center : Py_buffer ℤ) (r : ℤ),
      PyTree_search_center_radius libcInt
        (loadedTree libcInt 2 1 (longMatrix 3 2 [0, 1, 1, 0, 2, 0])).finalTree center r ≠
        PyRet.fault Fault.outOfFuel ∧
      ∀ T : KDTree ℤ, PyTree_search_center_radius libcInt
        (loadedTree libcInt 2 1 (longMatrix 3 2 [0, 1, 1, 0, 2, 0])).finalTree center r =
        PyRet.ok T () →
        SameTree (loadedTree libcInt 2 1 (longMatrix 3 2 [0, 1, 1, 0, 2, 0])).finalTree T ∧
          Node.ordered T._data_point_list T._root = true) ∧
    (∀ r : ℤ,
      PyTree_neighbor_search libcInt
        (loadedTree libcInt 2 1 (longMatrix 3 2 [0, 1, 1, 0, 2, 0])).finalTree r ≠
        PyRet.fault Fault.outOfFuel ∧
      ∀ (T : KDTree ℤ) (out : List (Neighbor ℤ)),
        PyTree_neighbor_search libcInt
          (loadedTree libcInt 2 1 (longMatrix 3 2 [0, 1, 1, 0, 2, 0])).finalTree r =
          PyRet.ok T out →
          SameTree (loadedTree libcInt 2 1 (longMatrix 3 2 [0, 1, 1, 0, 2, 0])).finalTree T ∧
            Node.ordered T._data_point_list T._root = true)) :=
  ⟨by decide!,
    C6_tree_queries_preserve_ordering libcInt
      (loadedTree libcInt 2 1 (longMatrix 3 2 [0, 1, 1, 0, 2, 0])).finalTree (by decide!)⟩

/-- C6 fails as stated: the tree built with bucket size 1 from `(0,1)`, `(1,0)`, `(2,0)`
satisfies the ordering invariant; after `all_pairs_sweep(1)`, which sorts the point store
on axis 0 and keeps the nodes, it does not (the left leaf of the node that cuts axis 1 at
0 now holds `(0,1)`), and a following `search_center_radius((0,2), 1)` misses the point
`(0,1)` at distance 1. -/
theorem C6_counterexample_sweep_breaks_ordering :
    (loadedTree libcInt 2 1 (longMatrix 3 2 [0, 1, 1, 0, 2, 0])).tree?.map
        (fun T => Node.ordered T._data_point_list T._root) = some true ∧
      (sweepSession libcInt 2 1 (longMatrix 3 2 [0, 1, 1, 0, 2, 0]) 1).tree?.map
        (fun T => Node.ordered T._data_point_list T._root) = some false ∧
      ((sweepSession libcInt 2 1 (longMatrix 3 2 [0, 1, 1, 0, 2, 0]) 1).andThen
        (fun tree => PyTree_search_center_radius libcInt tree (longVector [0, 2]) 1)).tree?.map
        (fun T => T._radius_list) = some [] := by
  decide!

/-! ### Loading data a second time -/

/-- C7 does not hold of the code: after `init(1, 10); set_data([[0], [1]]);
set_data([[5]])` the second `set_data` returns normally and installs the new coordinate
buffer, but the point store holds three records, with original indices 0, 1, 0 (the two
records of the first call are still there, before the new one), and the root covers
`[0, 3)` instead of `[0, 1)`. -/
theorem C7_set_data_twice_appends :
    (((PyTree_init (KDTree.zero : KDTree ℤ) 1 10).andThen
        (fun tree => PyTree_set_data libcInt tree (longMatrix 2 1 [0, 1]))).andThen
        (fun tree => PyTree_set_data libcInt tree (longMatrix 1 1 [5]))).tree?.map
      (fun T => (T._coords, T._data_point_list.map (fun p => p._index),
        T._root.start, T._root.stop)) =
      some ([5], [0, 1, 0], 0, 3) := by
  decide!

/-- C8 does not hold of the code: after `init(1, 10); set_data([[0], [1]]); all_pairs(2);
set_data([[0]])` the second `set_data` returns normally with `count = 0`, but
`neighbor_count` is still 1 and `neighbor_list` still holds the pair found before. -/
theorem C8_set_data_keeps_neighbors :
    (((PyTree_init (KDTree.zero : KDTree ℤ) 1 10).andThen
        (fun tree => PyTree_set_data libcInt tree (longMatrix 2 1 [0, 1]))).andThen
        (fun tree => PyTree_neighbor_search libcInt tree 2)).tree?.map
      (fun T => (PyTree_get_count T, PyTree_neighbor_get_count T)) = some (0, 1) ∧
    ((((PyTree_init (KDTree.zero : KDTree ℤ) 1 10).andThen
        (fun tree => PyTree_set_data libcInt tree (longMatrix 2 1 [0, 1]))).andThen
        (fun tree => PyTree_neighbor_search libcInt tree 2)).andThen
        (fun tree => PyTree_set_data libcInt tree (longMatrix 1 1 [0]))).tree?.map
      (fun T => (PyTree_get_count T, PyTree_neighbor_get_count T, T._neighbor_list)) =
      some (0, 1, [⟨0, 1, 1⟩]) := by
  decide!

/-! ### The radius guard -/

/-- C9, as the guard is written: for every tree state, center and `r <= 0`,
`search_center_radius(center, r)` and `all_pairs(r)` raise `ValueError` and leave the
tree, its result buffers and counts included, exactly as it was. -/
theorem C9_radius_guard_leaves_tree (libc : Libc α) (tree : KDTree α) (center : Py_buffer α)
    (r : α) (hr : r ≤ 0) :
    PyTree_search_center_radius libc tree center r = PyRet.raise tree PyErr.ValueError ∧
      PyTree_neighbor_search libc tree r = PyRet.raise tree PyErr.ValueError := by
  unfold PyTree_search_center_radius PyTree_neighbor_search
  rw [if_pos hr, if_pos hr]
  exact ⟨rfl, rfl⟩

/-- C9 at a concrete input: radius `-1` on a tree loaded with two points. -/
theorem C9_witness_negative_radius :
    (-1 : ℤ) ≤ 0 ∧
    (PyTree_search_center_radius libcInt
        (loadedTree libcInt 1 10 (longMatrix 2 1 [0, 1])).finalTree (longVector [0]) (-1) =
        PyRet.raise (loadedTree libcInt 1 10 (longMatrix 2 1 [0, 1])).finalTree
          PyErr.ValueError ∧
      PyTree_neighbor_search libcInt
        (loadedTree libcInt 1 10 (longMatrix 2 1 [0, 1])).finalTree (-1) =
        PyRet.raise (loadedTree libcInt 1 10 (longMatrix 2 1 [0, 1])).finalTree
          PyErr.ValueError) :=
  ⟨by decide,
    C9_radius_guard_leaves_tree libcInt
      (loadedTree libcInt 1 10 (longMatrix 2 1 [0, 1])).finalTree (longVector [0]) (-1)
      (by decide)⟩

/-- C9 fails as stated: on the tree loaded with the points 0 and 1, after
`search_center_radius([0], 1)` has found two points, `search_center_radius([0], 0)` raises
`ValueError` and `count` is still 2; after `all_pairs(2)` has found one pair, `all_pairs(0)`
raises `ValueError` and `neighbor_count` is still 1. -/
theorem C9_counterexample_results_survive_guard :
    ((searchSession libcInt 1 10 (longMatrix 2 1 [0, 1]) (longVector [0]) 1).andThen
        (fun tree => PyTree_search_center_radius libcInt tree (longVector [0]) 0)).raised?.map
      (fun e => (e.1, PyTree_get_count e.2)) = some (PyErr.ValueError, 2) ∧
    ((pairsSession libcInt 1 10 (longMatrix 2 1 [0, 1]) 2).andThen
        (fun tree => PyTree_neighbor_search libcInt tree 0)).raised?.map
      (fun e => (e.1, PyTree_neighbor_get_count e.2)) = some (PyErr.ValueError, 1) := by
  decide!

/-! ### The shape of the tree that is built -/

/-- Whatever `KDTree_build_tree` returns, every node cuts on the axis of its depth, a node
is a leaf exactly when its range has at most `_bucket_size` points, and the tree keeps its
`dim` and `_bucket_size`. -/
theorem build_go_shape (libc : Libc α) : ∀ (fuel : Nat) (t : KDTree α) (b e depth : Nat)
    (node : Node α) (t' : KDTree α),
    KDTree_build_tree.go libc fuel t b e depth = Except.ok (node, t') →
    t'.dim = t.dim ∧ t'._bucket_size = t._bucket_size ∧
      node.CutDims t.dim depth ∧ node.Bucketed t._bucket_size := by
  intro fuel
  induction fuel with
  | zero =>
    intro t b e depth node t' h
    simp [KDTree_build_tree.go] at h
  | succ fuel ih =>
    intro t b e depth node t' h
    have ed : (if depth = 0 then 0 else depth % t.dim) = depth % t.dim := by
      by_cases h0 : depth = 0
      · simp [h0]
      · simp [h0]
    rw [KDTree_build_tree.go] at h
    simp only [ed] at h
    generalize (if depth = 0 then 0 else b) = b' at h
    generalize (if depth = 0 then t._data_point_list.length else e) = e' at h
    by_cases hleaf : e' - b' ≤ t._bucket_size
    · rw [if_pos hleaf] at h
      cases h
      refine ⟨rfl, rfl, ?_, ?_⟩
      · simp [Node_create, Node.CutDims]
      · simp [Node_create, Node.Bucketed, Node.isNull, hleaf]
    · rw [if_neg hleaf] at h
      generalize hst : ({ t with
        _data_point_list := t._data_point_list.take b' ++
          DataPoint_sort libc (t._data_point_list.drop b') (e' - b') (depth % t.dim) } :
          KDTree α) = t1 at h
      have h1d : t1.dim = t.dim := by rw [← hst]
      have h1b : t1._bucket_size = t._bucket_size := by rw [← hst]
      cases hp : t1.point (b' + ((e' - b') / 2 + (e' - b') % 2) - 1) with
      | error x => rw [hp] at h; cases h
      | ok q =>
        rw [hp] at h
        simp only [ok_bind] at h
        cases hL : KDTree_build_tree.go libc fuel t1 b'
            (b' + ((e' - b') / 2 + (e' - b') % 2)) (depth + 1) with
        | error x => rw [hL] at h; cases h
        | ok left =>
          rw [hL] at h
          simp only [ok_bind] at h
          cases hR : KDTree_build_tree.go libc fuel left.2
              (b' + ((e' - b') / 2 + (e' - b') % 2)) e' (depth + 1) with
          | error x => rw [hR] at h; cases h
          | ok right =>
            rw [hR] at h
            cases h
            rcases ih _ _ _ _ _ _ hL with ⟨hLd, hLb, hLc, hLk⟩
            rcases ih _ _ _ _ _ _ hR with ⟨hRd, hRb, hRc, hRk⟩
            rw [hLd, h1d] at hRd hRc
            rw [h1d] at hLc
            rw [hLb, h1b] at hRb hRk
            rw [h1b] at hLk
            refine ⟨hRd, hRb, ⟨rfl, hLc, hRc⟩, ?_⟩
            have hnl : left.1.isNull = false := by
              cases hl : left.1 with
              | NULL => rw [hl] at hLk; exact absurd hLk (by simp [Node.Bucketed])
              | mk _ _ _ _ _ _ => rfl
            simp only [Node.Bucketed, hnl, Bool.false_and, Bool.false_eq_true, if_false]
            exact ⟨by omega, hLk, hRk⟩

/-- The invariant, with every node cutting on the axis of its depth, gives the ordering of
the points around the cut value of each internal node on its own `_cut_dim`. -/
theorem ordered_of_Inv (store : List (DataPoint α)) (dim : Nat) (node : Node α) :
    ∀ depth : Nat, node.Inv store dim depth → node.CutDims dim depth →
      Node.ordered store node = true := by
  induction node with
  | NULL => intro depth h; exact absurd h (by simp [Node.Inv])
  | mk l r v d s e ihl ihr =>
    intro depth hinv hcut
    simp only [Node.Inv] at hinv
    simp only [Node.CutDims] at hcut
    rcases hinv with ⟨_, _, ⟨hl, hr⟩ | ⟨hLi, hRi, hls, _, hlr, _, hre, hle, hge⟩⟩
    · subst hl
      subst hr
      simp [Node.ordered, Node.isNull]
    · have hnl := Inv_not_null hLi
      rw [Node.ordered]
      simp only [hnl, Bool.false_and, Bool.false_eq_true, if_false, Bool.and_eq_true,
        List.all_eq_true, decide_eq_true_eq]
      rw [hcut.1]
      refine ⟨⟨⟨?_, ?_⟩, ihl _ hLi hcut.2.1⟩, ihr _ hRi hcut.2.2⟩
      · intro p hp
        rw [hls] at hp
        exact hle p hp
      · intro p hp
        rw [← hlr, hre] at hp
        exact hge p hp

theorem Tiles_append {xs ys : List (Nat × Nat)} {a m b : Nat} (h1 : Tiles xs a m)
    (h2 : Tiles ys m b) : Tiles (xs ++ ys) a b := by
  induction xs generalizing a with
  | nil =>
    simp only [Tiles] at h1
    subst h1
    exact h2
  | cons x rest ih =>
    simp only [Tiles, List.cons_append] at h1 ⊢
    exact ⟨h1.1, h1.2.1, ih h1.2.2⟩

/-- Under the invariant the leaf ranges of a subtree lie end to end over its range. -/
theorem Tiles_of_Inv (store : List (DataPoint α)) (dim : Nat) (node : Node α) :
    ∀ depth : Nat, node.Inv store dim depth → Tiles node.leafRanges node.start node.stop := by
  induction node with
  | NULL => intro depth h; exact absurd h (by simp [Node.Inv])
  | mk l r v d s e ihl ihr =>
    intro depth hinv
    simp only [Node.Inv] at hinv
    rcases hinv with ⟨hse, _, ⟨hl, hr⟩ | ⟨hLi, hRi, hls, _, hlr, _, hre, _, _⟩⟩
    · subst hl
      subst hr
      simp [Node.leafRanges, Node.isNull, Tiles, Node.start, Node.stop, hse]
    · have hnl := Inv_not_null hLi
      simp only [Node.leafRanges, hnl, Bool.false_and, Bool.false_eq_true, if_false,
        Node.start, Node.stop]
      have h1 := ihl _ hLi
      have h2 := ihr _ hRi
      rw [hls] at h1
      rw [← hlr, hre] at h2
      exact Tiles_append h1 h2

/-- Under the invariant the range of every internal node is the range of its left child
followed by the range of its right child. -/
theorem Splits_of_Inv (store : List (DataPoint α)) (dim : Nat) (node : Node α) :
    ∀ depth : Nat, node.Inv store dim depth → node.Splits := by
  induction node with
  | NULL => intro depth h; exact absurd h (by simp [Node.Inv])
  | mk l r v d s e ihl ihr =>
    intro depth hinv
    simp only [Node.Inv] at hinv
    rcases hinv with ⟨_, _, ⟨hl, hr⟩ | ⟨hLi, hRi, hls, _, hlr, _, hre, _, _⟩⟩
    · exact Or.inl ⟨hl, hr⟩
    · exact Or.inr ⟨ihl _ hLi, ihr _ hRi, hls, hlr, hre⟩

/-- The call `KDTree_build_tree(tree, 0, 0, 0)` with a positive bucket size: it returns, and
the root has the invariant, the cut axes and the leaf sizes over the store it leaves. -/
theorem KDTree_build_tree_shape (libc : Libc α) (t : KDTree α) (hb : 0 < t._bucket_size) :
    ∃ (root : Node α) (store' : List (DataPoint α)),
      KDTree_build_tree libc t 0 0 0 = pure (root, { t with _data_point_list := store' }) ∧
      store'.Perm t._data_point_list ∧ root.Inv store' t.dim 0 ∧
      root.start = 0 ∧ root.stop = store'.length ∧
      root.CutDims t.dim 0 ∧ root.Bucketed t._bucket_size := by
  rcases KDTree_build_tree_spec libc t hb with ⟨root, store', hrun, hperm, hinv, hs, he⟩
  have hsh := build_go_shape libc _ t 0 0 0 root _ hrun
  exact ⟨root, store', hrun, hperm, hinv, hs, he, hsh.2.2.1, hsh.2.2.2⟩

/-! ### What a query changes of the tree, for any relation the single steps keep -/

theorem bind_rel {R : KDTree α → KDTree α → Prop}
    (htrans : ∀ a b c, R a b → R b c → R a c) {t : KDTree α} {r1 : Run (KDTree α)}
    {f : KDTree α → Run (KDTree α)}
    (h1 : ∀ t1, r1 = Except.ok t1 → R t t1)
    (h2 : ∀ t1 t2, f t1 = Except.ok t2 → R t1 t2) :
    ∀ t2, (r1 >>= f) = Except.ok t2 → R t t2 := by
  intro t2 h
  cases hr : r1 with
  | error e => rw [hr] at h; cases h
  | ok t1 =>
    rw [hr] at h
    exact htrans _ _ _ (h1 t1 hr) (h2 t1 t2 h)

theorem forRange_rel {R : KDTree α → KDTree α → Prop} (hrefl : ∀ t, R t t)
    (htrans : ∀ a b c, R a b → R b c → R a c) (body : Nat → KDTree α → Run (KDTree α))
    (hbody : ∀ i t t', body i t = Except.ok t' → R t t') (hi : Nat) :
    ∀ (n lo : Nat) (t t' : KDTree α), hi - lo = n →
      forRange lo hi body t = Except.ok t' → R t t' := by
  intro n
  induction n with
  | zero =>
    intro lo t t' h hr
    rw [forRange_done _ _ (by omega)] at hr
    cases hr
    exact hrefl _
  | succ n ih =>
    intro lo t t' h hr
    rw [forRange_step _ _ (by omega)] at hr
    exact bind_rel htrans (hbody lo t) (fun t1 t2 h2 => ih (lo + 1) t1 t2 (by omega) h2) t' hr

theorem point_bind_rel {R : KDTree α → KDTree α → Prop} {t : KDTree α} {i : Nat}
    {f : DataPoint α → Run (KDTree α)} (hf : ∀ p t', f p = Except.ok t' → R t t') :
    ∀ t', (t.point i >>= f) = Except.ok t' → R t t' := by
  intro t' h
  cases hp : t.point i with
  | error e => rw [hp] at h; cases h
  | ok p => rw [hp] at h; exact hf p t' h

theorem leaf_bind_rel {R : KDTree α → KDTree α → Prop} {t : KDTree α} {node : Node α}
    {f : Bool → Run (KDTree α)} (hf : ∀ b t', f b = Except.ok t' → R t t') :
    ∀ t', (Node_is_leaf node >>= f) = Except.ok t' → R t t' := by
  intro t' h
  cases hp : Node_is_leaf node with
  | error e => rw [hp] at h; cases h
  | ok p => rw [hp] at h; exact hf p t' h

/-- The point search keeps every relation that is reflexive, transitive and kept by
`KDTree_report_point`. -/
theorem KDTree_report_subtree_rel (libc : Libc α) {R : KDTree α → KDTree α → Prop}
    (hrefl : ∀ t, R t t) (htrans : ∀ a b c, R a b → R b c → R a c)
    (hstep : ∀ t i c, R t (KDTree_report_point libc t i c)) (node : Node α) :
    ∀ (t t' : KDTree α), KDTree_report_subtree libc t node = Except.ok t' → R t t' := by
  induction node with
  | NULL => intro t t' h; simp [KDTree_report_subtree] at h
  | mk l r v cd s e ihl ihr =>
    intro t t' h
    rw [KDTree_report_subtree] at h
    split_ifs at h
    · refine forRange_rel hrefl htrans _ ?_ e _ s t t' rfl h
      intro i t1 t2
      apply point_bind_rel
      intro p t3 h3
      cases h3
      exact hstep _ _ _
    · exact bind_rel htrans (ihl t) (fun t1 t2 h2 => ihr t1 t2 h2) t' h

theorem search_rel (libc : Libc α) {R : KDTree α → KDTree α → Prop}
    (hrefl : ∀ t, R t t) (htrans : ∀ a b c, R a b → R b c → R a c)
    (hstep : ∀ t i c, R t (KDTree_report_point libc t i c)) : ∀ fuel : Nat,
    (∀ (t t' : KDTree α) (region : Option (Region α)) (node : Node α) (depth : Nat),
      KDTree_search.go libc fuel t region node depth = Except.ok t' → R t t') ∧
    (∀ (t t' : KDTree α) (node : Node α) (region : Region α) (depth : Nat),
      KDTree_test_region.go libc fuel t node region depth = Except.ok t' → R t t') := by
  intro fuel
  induction fuel with
  | zero =>
    constructor
    · intro t t' region node depth h
      simp [KDTree_search.go] at h
    · intro t t' node region depth h
      simp [KDTree_test_region.go] at h
  | succ fuel ih =>
    constructor
    · intro t t' region node depth h
      rw [KDTree_search.go] at h
      simp only at h
      generalize (if depth = 0 then t._root else node) = node' at h
      generalize (if depth = 0 then some (Region_create t.dim none none) else region) =
        region' at h
      cases node' with
      | NULL => cases h
      | mk l r v cd s e =>
        simp only at h
        by_cases hleaf : (l.isNull && r.isNull) = true
        · rw [if_pos hleaf] at h
          refine forRange_rel hrefl htrans _ ?_ _ _ _ t t' rfl h
          intro i t1 t2
          apply point_bind_rel
          intro p t3 h3
          cases hq : Region.deref t1._query_region with
          | error e => rw [hq] at h3; cases h3
          | ok q =>
            rw [hq] at h3
            simp only [ok_bind] at h3
            split_ifs at h3
            · cases h3
              exact hstep _ _ _
            · cases h3
              exact hrefl _
        · rw [if_neg hleaf] at h
          cases hreg : Region.deref region' with
          | error e => rw [hreg] at h; cases h
          | ok Rg =>
            rw [hreg] at h
            simp only [ok_bind] at h
            have hright : ∀ t1 t2 : KDTree α,
                (match right_child_region t1.dim Rg v (depth % t.dim) with
                  | some right_region => KDTree_test_region.go libc fuel t1 r right_region depth
                  | none => pure t1) = Except.ok t2 → R t1 t2 := by
              intro t1 t2 h2
              split at h2
              · exact ih.2 _ _ _ _ _ h2
              · cases h2; exact hrefl _
            split at h
            · exact bind_rel htrans (fun t1 h1 => ih.2 _ _ _ _ _ h1) hright t' h
            · rw [pure_bind] at h
              exact hright t t' h
    · intro t t' node region depth h
      rw [KDTree_test_region.go] at h
      cases hq : Region.deref t._query_region with
      | error e => rw [hq] at h; cases h
      | ok q =>
        rw [hq] at h
        simp only [ok_bind] at h
        split_ifs at h
        · exact KDTree_report_subtree_rel libc hrefl htrans hstep node t t' h
        · exact ih.1 _ _ _ _ _ h
        · cases h; exact hrefl _

theorem KDTree_search_rel (libc : Libc α) {R : KDTree α → KDTree α → Prop}
    (hrefl : ∀ t, R t t) (htrans : ∀ a b c, R a b → R b c → R a c)
    (hstep : ∀ t i c, R t (KDTree_report_point libc t i c)) (t t' : KDTree α)
    (region : Option (Region α)) (node : Node α) (depth : Nat)
    (h : KDTree_search libc t region node depth = Except.ok t') : R t t' :=
  (search_rel libc hrefl htrans hstep _).1 t t' region node depth h

theorem row_rel (libc : Libc α) {R : KDTree α → KDTree α → Prop}
    (hrefl : ∀ t, R t t) (htrans : ∀ a b c, R a b → R b c → R a c)
    (hstep : ∀ t p1 p2, R t (KDTree_test_neighbors libc t p1 p2))
    (p1 : DataPoint α) (lo hi : Nat) (t t' : KDTree α)
    (h : forRange lo hi (fun j tree => do
        let p2 ← tree.point j
        pure (KDTree_test_neighbors libc tree p1 p2)) t = Except.ok t') : R t t' := by
  refine forRange_rel hrefl htrans _ ?_ hi _ lo t t' rfl h
  intro j t1 t2
  apply point_bind_rel
  intro p t3 h3
  cases h3
  exact hstep _ _ _

theorem KDTree_search_neighbors_in_bucket_rel (libc : Libc α)
    {R : KDTree α → KDTree α → Prop}
    (hrefl : ∀ t, R t t) (htrans : ∀ a b c, R a b → R b c → R a c)
    (hstep : ∀ t p1 p2, R t (KDTree_test_neighbors libc t p1 p2)) (node : Node α)
    (t t' : KDTree α) (h : KDTree_search_neighbors_in_bucket libc t node = Except.ok t') :
    R t t' := by
  cases node with
  | NULL => cases h
  | mk l r v cd s e =>
    refine forRange_rel hrefl htrans _ ?_ e _ s t t' rfl h
    intro i t1 t2
    apply point_bind_rel
    intro p t3 h3
    exact row_rel libc hrefl htrans hstep p _ _ t1 t3 h3

theorem KDTree_search_neighbors_between_buckets_rel (libc : Libc α)
    {R : KDTree α → KDTree α → Prop}
    (hrefl : ∀ t, R t t) (htrans : ∀ a b c, R a b → R b c → R a c)
    (hstep : ∀ t p1 p2, R t (KDTree_test_neighbors libc t p1 p2)) (node1 node2 : Node α)
    (t t' : KDTree α)
    (h : KDTree_search_neighbors_between_buckets libc t node1 node2 = Except.ok t') :
    R t t' := by
  cases node1 with
  | NULL => cases h
  | mk l r v cd s e =>
    cases node2 with
    | NULL => cases h
    | mk l2 r2 v2 cd2 s2 e2 =>
      refine forRange_rel hrefl htrans _ ?_ e _ s t t' rfl h
      intro i t1 t2
      apply point_bind_rel
      intro p t3 h3
      exact row_rel libc hrefl htrans hstep p _ _ t1 t3 h3

/-- The dual descent keeps every relation that is reflexive, transitive and kept by
`KDTree_test_neighbors`. -/
theorem pairs_rel (libc : Libc α) {R : KDTree α → KDTree α → Prop}
    (hrefl : ∀ t, R t t) (htrans : ∀ a b c, R a b → R b c → R a c)
    (hstep : ∀ t p1 p2, R t (KDTree_test_neighbors libc t p1 p2)) :
    ∀ (fuel : Nat) (t t' : KDTree α) (down : Node α)
    (down_region : Option (Region α)) (up : Node α) (up_region : Option (Region α))
    (depth : Nat),
    KDTree_neighbor_search_pairs.go libc fuel t down down_region up up_region depth =
      Except.ok t' → R t t' := by
  intro fuel
  induction fuel with
  | zero =>
    intro t t' down dr up ur depth h
    simp [KDTree_neighbor_search_pairs.go] at h
  | succ fuel ih =>
    intro t t' down dr up ur depth h
    unfold KDTree_neighbor_search_pairs.go at h
    split at h
    · simp only at h
      split_ifs at h
      · cases h; exact hrefl _
      · exact KDTree_search_neighbors_between_buckets_rel libc hrefl htrans hstep _ _ t t' h
      · refine bind_rel htrans (fun t1 h1 => ih _ _ _ _ _ _ _ h1) ?_ t' h
        intro t1 t2 h2
        refine bind_rel htrans (fun t1 h1 => ih _ _ _ _ _ _ _ h1) ?_ t2 h2
        intro t3 t4 h4
        refine bind_rel htrans (fun t1 h1 => ih _ _ _ _ _ _ _ h1) ?_ t4 h4
        intro t5 t6 h6
        exact ih _ _ _ _ _ _ _ h6
    · cases h; exact hrefl _

/-- The descent over one tree keeps every relation that is reflexive, transitive and kept
by `KDTree_test_neighbors`. -/
theorem neighbor_search_rel (libc : Libc α) {R : KDTree α → KDTree α → Prop}
    (hrefl : ∀ t, R t t) (htrans : ∀ a b c, R a b → R b c → R a c)
    (hstep : ∀ t p1 p2, R t (KDTree_test_neighbors libc t p1 p2)) (node : Node α) :
    ∀ (t t' : KDTree α) (region : Option (Region α)) (depth : Nat),
      KDTree__neighbor_search libc t node region depth = Except.ok t' → R t t' := by
  induction node with
  | NULL => intro t t' region depth h; simp [KDTree__neighbor_search] at h
  | mk l r v cd s e ihl ihr =>
    intro t t' region depth h
    cases region with
    | none => simp [KDTree__neighbor_search] at h
    | some Rg =>
      rw [KDTree__neighbor_search] at h
      simp only at h
      refine leaf_bind_rel ?_ t' h
      intro b t1 h1
      have hpairs : ∀ (t5 t6 : KDTree α) (dr ur : Option (Region α)),
          KDTree_neighbor_search_pairs libc t5 l dr r ur (depth + 1) = Except.ok t6 →
            R t5 t6 :=
        fun t5 t6 dr ur h6 => pairs_rel libc hrefl htrans hstep _ _ _ _ _ _ _ _ h6
      have hrest : ∀ (f : KDTree α → Run (KDTree α)) (t2 t3 : KDTree α)
          (hf : ∀ t5 t6, f t5 = Except.ok t6 → R t5 t6),
          (Node_is_leaf r >>= fun right_is_leaf =>
            if (!right_is_leaf) = true then
              KDTree__neighbor_search libc t2 r
                (right_child_region t.dim Rg v (depth % t.dim)) (depth + 1) >>= f
            else KDTree_search_neighbors_in_bucket libc t2 r >>= f) = Except.ok t3 →
            R t2 t3 := by
        intro f t2 t3 hf h3
        refine leaf_bind_rel ?_ t3 h3
        intro b2 t4 h4
        split_ifs at h4
        · exact bind_rel htrans (fun t5 h5 => ihr _ _ _ _ h5) hf t4 h4
        · exact bind_rel htrans
            (fun t5 h5 => KDTree_search_neighbors_in_bucket_rel libc hrefl htrans hstep _ _ _ h5)
            hf t4 h4
      split_ifs at h1
      · refine bind_rel htrans (fun t2 h2 => ihl _ _ _ _ h2) ?_ t1 h1
        intro t2 t3 h3
        exact hrest _ t2 t3 (fun t5 t6 h6 => hpairs t5 t6 _ _ h6) h3
      · refine bind_rel htrans
          (fun t2 h2 => KDTree_search_neighbors_in_bucket_rel libc hrefl htrans hstep _ _ _ h2)
          ?_ t1 h1
        intro t2 t3 h3
        exact hrest _ t2 t3 (fun t5 t6 h6 => hpairs t5 t6 _ _ h6) h3

/-- The inner loop of the sweep keeps every relation that is reflexive and transitive and
kept by `KDTree_test_neighbors`. -/
theorem sweep_inner_rel (libc : Libc α) {R : KDTree α → KDTree α → Prop}
    (hrefl : ∀ t, R t t) (htrans : ∀ a b c, R a b → R b c → R a c)
    (hstep : ∀ t p1 p2, R t (KDTree_test_neighbors libc t p1 p2)) (radius : α)
    (p1 : DataPoint α) (x1 : α) :
    ∀ (js : List Nat) (t t' : KDTree α),
      KDTree_neighbor_simple_search.inner libc radius p1 x1 js t = Except.ok t' → R t t' := by
  intro js
  induction js with
  | nil =>
    intro t t' h
    simp only [KDTree_neighbor_simple_search.inner] at h
    cases h
    exact hrefl _
  | cons j rest ih =>
    intro t t' h
    rw [KDTree_neighbor_simple_search.inner] at h
    refine point_bind_rel ?_ t' h
    intro p t3 h3
    simp only at h3
    split_ifs at h3
    · exact htrans _ _ _ (hstep t p1 p) (ih _ _ h3)
    · cases h3
      exact hrefl _

/-! ### The two result buffers are independent -/

theorem bind_pair_rel {β : Type} {R : KDTree α → KDTree α → Prop} {t : KDTree α}
    {r1 : Run (KDTree α)} {g : KDTree α → β}
    (h1 : ∀ t1, r1 = Except.ok t1 → R t t1) (res : KDTree α × β)
    (h : (r1 >>= fun y => pure (y, g y)) = Except.ok res) : R t res.1 ∧ res.2 = g res.1 := by
  cases hr : r1 with
  | error e => rw [hr] at h; cases h
  | ok t1 =>
    rw [hr] at h
    cases h
    exact ⟨h1 t1 hr, rfl⟩

/-- The pair query, from the tree `t0` with the neighbor buffer reset and the radius set:
what it returns is related to `t0` by every relation that is reflexive, transitive and kept
by `KDTree_test_neighbors`, and its list is the buffer it leaves, last entry first. -/
theorem KDTree_neighbor_search_rel (libc : Libc α) {R : KDTree α → KDTree α → Prop}
    (hrefl : ∀ t, R t t) (htrans : ∀ a b c, R a b → R b c → R a c)
    (hstep : ∀ t p1 p2, R t (KDTree_test_neighbors libc t p1 p2)) (t : KDTree α) (r : α)
    (res : KDTree α × List (Neighbor α))
    (h : KDTree_neighbor_search libc t r = Except.ok res) (t0 : KDTree α)
    (ht0 : { t with
             _neighbor_list := [],
             _neighbor_count := 0,
             _neighbor_radius := r,
             _neighbor_radius_sq := r * r } = t0) :
    R t0 res.1 ∧ res.2 = (res.1._neighbor_list.take res.1._neighbor_count).foldl
      (fun neighbors neighbor => neighbor :: neighbors) [] := by
  unfold KDTree_neighbor_search at h
  simp only [ht0] at h
  cases hl : Node_is_leaf t._root with
  | error e => rw [hl] at h; cases h
  | ok b =>
    rw [hl] at h
    simp only [ok_bind] at h
    split_ifs at h
    · exact bind_pair_rel
        (fun t1 h1 => KDTree_search_neighbors_in_bucket_rel libc hrefl htrans hstep _ _ _ h1)
        res h
    · exact bind_pair_rel
        (fun t1 h1 => neighbor_search_rel libc hrefl htrans hstep _ _ _ _ _ h1) res h

/-- The sweep, from the tree `t1` with the neighbor buffer reset, the radius set and the
store sorted on axis 0: what it returns is related to `t1` by every relation that is
reflexive, transitive and kept by `KDTree_test_neighbors`. -/
theorem KDTree_neighbor_simple_search_rel (libc : Libc α) {R : KDTree α → KDTree α → Prop}
    (hrefl : ∀ t, R t t) (htrans : ∀ a b c, R a b → R b c → R a c)
    (hstep : ∀ t p1 p2, R t (KDTree_test_neighbors libc t p1 p2)) (t : KDTree α) (r : α)
    (res : KDTree α × List (Neighbor α))
    (h : KDTree_neighbor_simple_search libc t r = Except.ok res) (t1 : KDTree α)
    (ht1 : { t with
             _neighbor_radius := r,
             _neighbor_radius_sq := r * r,
             _neighbor_count := 0,
             _neighbor_list := [],
             _data_point_list :=
               DataPoint_sort libc t._data_point_list t._data_point_list.length 0 } = t1) :
    R t1 res.1 ∧ res.2 = (res.1._neighbor_list.take res.1._neighbor_count).foldl
      (fun neighbors neighbor => neighbor :: neighbors) [] := by
  unfold KDTree_neighbor_simple_search at h
  simp only [ht1] at h
  refine bind_pair_rel ?_ res h
  intro t2 h2
  refine forRange_rel hrefl htrans _ ?_ _ _ 0 t1 t2 rfl h2
  intro i t3 t4
  apply point_bind_rel
  intro p t5 h5
  exact sweep_inner_rel libc hrefl htrans hstep _ _ _ _ _ _ h5

theorem KDTree_report_point_neighbors (libc : Libc α) (t : KDTree α) (i : Nat) (c : List α) :
    (KDTree_report_point libc t i c)._neighbor_list = t._neighbor_list ∧
      (KDTree_report_point libc t i c)._neighbor_count = t._neighbor_count := by
  unfold KDTree_report_point
  simp only
  split_ifs <;> exact ⟨rfl, rfl⟩

theorem KDTree_test_neighbors_radii (libc : Libc α) (t : KDTree α) (p1 p2 : DataPoint α) :
    (KDTree_test_neighbors libc t p1 p2)._radius_list = t._radius_list ∧
      (KDTree_test_neighbors libc t p1 p2)._count = t._count := by
  unfold KDTree_test_neighbors
  simp only
  split_ifs <;> exact ⟨rfl, rfl⟩

/-- A point query that returns, normally or with an exception, leaves `_neighbor_list` and
`_neighbor_count` as they were. -/
theorem PyTree_search_center_radius_neighbors (libc : Libc α) (t T : KDTree α)
    (view : Py_buffer α) (r : α)
    (h : (PyTree_search_center_radius libc t view r).state? = some T) :
    T._neighbor_list = t._neighbor_list ∧ T._neighbor_count = t._neighbor_count := by
  unfold PyTree_search_center_radius at h
  simp only at h
  split_ifs at h
  · cases h; exact ⟨rfl, rfl⟩
  · cases h; exact ⟨rfl, rfl⟩
  · cases h; exact ⟨rfl, rfl⟩
  · split at h
    · rename_i T1 hrun
      cases h
      have h2 := KDTree_search_rel libc
        (R := fun a b => b._neighbor_list = a._neighbor_list ∧
          b._neighbor_count = a._neighbor_count)
        (fun _ => ⟨rfl, rfl⟩) (fun a b c h1 h2 => ⟨h2.1.trans h1.1, h2.2.trans h1.2⟩)
        (fun t i c => KDTree_report_point_neighbors libc t i c) _ T _ _ _ hrun
      exact ⟨h2.1, h2.2⟩
    · cases h

/-- An `all_pairs` that returns, normally or with an exception, leaves `_radius_list` and
`_count` as they were. -/
theorem PyTree_neighbor_search_radii (libc : Libc α) (t T : KDTree α) (r : α)
    (h : (PyTree_neighbor_search libc t r).state? = some T) :
    T._radius_list = t._radius_list ∧ T._count = t._count := by
  unfold PyTree_neighbor_search at h
  split_ifs at h
  · cases h; exact ⟨rfl, rfl⟩
  · split at h
    · rename_i res hrun
      cases h
      have h2 := (KDTree_neighbor_search_rel libc
        (R := fun a b => b._radius_list = a._radius_list ∧ b._count = a._count)
        (fun _ => ⟨rfl, rfl⟩) (fun a b c h1 h2 => ⟨h2.1.trans h1.1, h2.2.trans h1.2⟩)
        (fun t p1 p2 => KDTree_test_neighbors_radii libc t p1 p2) t r res hrun _ rfl).1
      exact ⟨h2.1, h2.2⟩
    · cases h

/-- An `all_pairs_sweep` that returns, normally or with an exception, leaves `_radius_list`
and `_count` as they were. -/
theorem PyTree_neighbor_simple_search_radii (libc : Libc α) (t T : KDTree α) (r : α)
    (h : (PyTree_neighbor_simple_search libc t r).state? = some T) :
    T._radius_list = t._radius_list ∧ T._count = t._count := by
  unfold PyTree_neighbor_simple_search at h
  split_ifs at h
  · cases h; exact ⟨rfl, rfl⟩
  · split at h
    · rename_i res hrun
      cases h
      have h2 := (KDTree_neighbor_simple_search_rel libc
        (R := fun a b => b._radius_list = a._radius_list ∧ b._count = a._count)
        (fun _ => ⟨rfl, rfl⟩) (fun a b c h1 h2 => ⟨h2.1.trans h1.1, h2.2.trans h1.2⟩)
        (fun t p1 p2 => KDTree_test_neighbors_radii libc t p1 p2) t r res hrun _ rfl).1
      exact ⟨h2.1, h2.2⟩
    · cases h

/-! ### The same query twice -/

/-- A pair query depends on the tree only through what it does not reset: run on a tree
with more entries in the neighbor buffer, it is the same computation. -/
theorem KDTree_neighbor_search_reset (libc : Libc α) (t : KDTree α) (r : α)
    (hits : List (Neighbor α)) :
    KDTree_neighbor_search libc (KDTree.addNeighbors { t with
        _neighbor_list := [],
        _neighbor_count := 0,
        _neighbor_radius := r,
        _neighbor_radius_sq := r * r } hits) r = KDTree_neighbor_search libc t r := by
  rfl

/-- The pair query twice: the second call returns what the first returned, and the buffer
it leaves holds the entries of the list it returns and no others. -/
theorem PyTree_neighbor_search_twice (libc : Libc α) (t T1 : KDTree α) (r : α)
    (out1 : List (Neighbor α)) (h : PyTree_neighbor_search libc t r = PyRet.ok T1 out1) :
    PyTree_neighbor_search libc T1 r = PyRet.ok T1 out1 ∧
      T1._neighbor_list = out1.reverse ∧ T1._neighbor_count = out1.length := by
  have h0 := h
  unfold PyTree_neighbor_search at h
  split_ifs at h with hr
  split at h
  · rename_i res hrun
    cases h
    rcases KDTree_neighbor_search_rel libc
      (R := fun a b => ∃ hits, b = a.addNeighbors hits)
      (fun a => ⟨[], (addNeighbors_nil a).symm⟩)
      (fun a b c h1 h2 => by
        rcases h1 with ⟨x, rfl⟩
        rcases h2 with ⟨y, rfl⟩
        exact ⟨x ++ y, addNeighbors_addNeighbors a x y⟩)
      (fun a p1 p2 => ⟨_, KDTree_test_neighbors_eq libc a p1 p2⟩) t r res hrun _ rfl with
      ⟨⟨hits, hT⟩, hout⟩
    have hlist : res.2 = hits.reverse := by
      rw [hout, hT]
      exact take_count_addNeighbors _ hits rfl rfl
    refine ⟨?_, ?_, ?_⟩
    · have : PyTree_neighbor_search libc res.1 r = PyTree_neighbor_search libc t r := by
        unfold PyTree_neighbor_search
        rw [hT, KDTree_neighbor_search_reset, if_neg hr, if_neg hr]
      rw [this]
      exact h0
    · rw [hlist, List.reverse_reverse, hT]
      simp [KDTree.addNeighbors]
    · rw [hlist, List.length_reverse, hT]
      simp [KDTree.addNeighbors]
  · cases h

/-- The point query twice: the second call returns with the tree the first call left, so
`_radius_list` holds the entries of the second call and no others. -/
theorem PyTree_search_center_radius_twice (libc : Libc α) (t T1 : KDTree α)
    (center : Py_buffer α) (r : α)
    (h : PyTree_search_center_radius libc t center r = PyRet.ok T1 ()) :
    PyTree_search_center_radius libc T1 center r = PyRet.ok T1 () ∧
      T1._count = T1._radius_list.length := by
  have h0 := h
  unfold PyTree_search_center_radius at h
  simp only at h
  split_ifs at h with hr hnd hnum
  split at h
  · rename_i T hrun
    cases h
    rcases KDTree_search_rel libc
      (R := fun a b => ∃ hits, b = a.addRadii hits)
      (fun a => ⟨[], (addRadii_nil a).symm⟩)
      (fun a b c h1 h2 => by
        rcases h1 with ⟨x, rfl⟩
        rcases h2 with ⟨y, rfl⟩
        exact ⟨x ++ y, addRadii_addRadii a x y⟩)
      (fun a i c => ⟨_, KDTree_report_point_eq libc a ⟨i, c⟩⟩) _ T1 _ _ _ hrun with ⟨hits, hT⟩
    have hdrop : ∀ (f : Nat → α) (l : List α) (n : Nat),
        List.drop n ((List.range n).map f ++ List.drop n l) = List.drop n l := by
      intro f l n
      exact List.drop_left' (by simp)
    have : PyTree_search_center_radius libc T1 center r =
        PyTree_search_center_radius libc t center r := by
      unfold PyTree_search_center_radius
      simp only [if_neg hr, if_neg hnd, if_neg hnum]
      rw [hT]
      simp only [KDTree.addRadii, hdrop]
    refine ⟨by rw [this]; exact h0, ?_⟩
    rw [hT]
    simp [KDTree.addRadii]
  · cases h

/-- The sweep twice on a tree of positive dimension: both calls return, with the same
entries up to order, and the buffer the second call leaves holds the entries of the list
it returns and no others. -/
theorem PyTree_neighbor_simple_search_twice (libc : Libc α) (t : KDTree α) (r : α)
    (hr : 0 < r) (hdim : 0 < t.dim) :
    ∃ (T1 : KDTree α) (out1 : List (Neighbor α)) (T2 : KDTree α) (out2 : List (Neighbor α)),
      PyTree_neighbor_simple_search libc t r = PyRet.ok T1 out1 ∧
      PyTree_neighbor_simple_search libc T1 r = PyRet.ok T2 out2 ∧
      keys out1 = keys out2 ∧
      T2._neighbor_list = out2.reverse ∧ T2._neighbor_count = out2.length := by
  rcases sweep_loaded libc t r hr hdim _ rfl with ⟨T1, out1, h1, hk1, _, hst1, _⟩
  have hd1 : T1.dim = t.dim := by
    unfold PyTree_neighbor_simple_search at h1
    rw [if_neg (not_le.mpr hr),
      KDTree_neighbor_simple_search_spec libc t r (le_of_lt hr) hdim _ rfl] at h1
    cases h1
    rfl
  rcases sweep_loaded libc T1 r hr (by rw [hd1]; exact hdim) _ rfl with
    ⟨T2, out2, h2, hk2, hc2, _⟩
  refine ⟨T1, out1, T2, out2, h1, h2, ?_, ?_, hc2⟩
  · rw [hk1, hk2, hst1, keys_innerL_perm libc _ (libc.qsort_perm 0 t._data_point_list)]
    refine congrArg keys (innerL_congr libc ?_ ?_ _)
    · exact hd1.symm
    · rfl
  · unfold PyTree_neighbor_simple_search at h2
    rw [if_neg (not_le.mpr hr),
      KDTree_neighbor_simple_search_spec libc T1 r (le_of_lt hr) (by rw [hd1]; exact hdim) _
        rfl] at h2
    cases h2
    simp [KDTree.addNeighbors]

/-! ### The pair queries when allocations fail -/

theorem loopOk_rel {R : KDTree α → KDTree α → Prop} (hrefl : ∀ t, R t t)
    (htrans : ∀ a b c, R a b → R b c → R a c)
    (body : Nat → KDTree α × Heap → Run (Bool × KDTree α × Heap))
    (hbody : ∀ i s res, body i s = Except.ok res → R s.1 res.2.1) :
    ∀ (l : List Nat) (s : KDTree α × Heap) (res : Bool × KDTree α × Heap),
      loopOk body l s = Except.ok res → R s.1 res.2.1 := by
  intro l
  induction l with
  | nil =>
    intro s res h
    simp only [loopOk] at h
    cases h
    exact hrefl _
  | cons i rest ih =>
    intro s res h
    rw [loopOk] at h
    cases hb : body i s with
    | error e => rw [hb] at h; cases h
    | ok step =>
      rw [hb] at h
      simp only [ok_bind] at h
      split_ifs at h
      · exact htrans _ _ _ (hbody i s step hb) (ih _ _ h)
      · have hs : step.2 = res.2 := by cases h; rfl
        rw [← hs]
        exact hbody i s step hb

theorem point_bind_rel2 {β : Type} {P : β → Prop} {t : KDTree α} {i : Nat}
    {f : DataPoint α → Run β} (hf : ∀ p res, f p = Except.ok res → P res) :
    ∀ res, (t.point i >>= f) = Except.ok res → P res := by
  intro res h
  cases hp : t.point i with
  | error e => rw [hp] at h; cases h
  | ok p => rw [hp] at h; exact hf p res h

theorem Oom_row_rel (libc : Libc α) {R : KDTree α → KDTree α → Prop}
    (hrefl : ∀ t, R t t) (htrans : ∀ a b c, R a b → R b c → R a c)
    (hstep : ∀ t p1 p2 heap, R t (Oom.KDTree_test_neighbors libc t p1 p2 heap).2.1)
    (p1 : DataPoint α) (l : List Nat) (s : KDTree α × Heap) (res : Bool × KDTree α × Heap)
    (h : loopOk (fun j s => do
        let p2 ← s.1.point j
        pure (Oom.KDTree_test_neighbors libc s.1 p1 p2 s.2)) l s = Except.ok res) :
    R s.1 res.2.1 := by
  refine loopOk_rel hrefl htrans _ ?_ l s res h
  intro j s1 r1
  apply point_bind_rel2
  intro p r2 h2
  cases h2
  exact hstep _ _ _ _

theorem Oom_in_bucket_rel (libc : Libc α) {R : KDTree α → KDTree α → Prop}
    (hrefl : ∀ t, R t t) (htrans : ∀ a b c, R a b → R b c → R a c)
    (hstep : ∀ t p1 p2 heap, R t (Oom.KDTree_test_neighbors libc t p1 p2 heap).2.1)
    (node : Node α) (t : KDTree α) (heap : Heap) (res : Bool × KDTree α × Heap)
    (h : Oom.KDTree_search_neighbors_in_bucket libc t heap node = Except.ok res) :
    R t res.2.1 := by
  cases node with
  | NULL => cases h
  | mk l r v cd s e =>
    refine loopOk_rel hrefl htrans _ ?_ _ (t, heap) res h
    intro i s1 r1
    apply point_bind_rel2
    intro p r2 h2
    exact Oom_row_rel libc hrefl htrans hstep p _ s1 r2 h2

theorem Oom_between_buckets_rel (libc : Libc α) {R : KDTree α → KDTree α → Prop}
    (hrefl : ∀ t, R t t) (htrans : ∀ a b c, R a b → R b c → R a c)
    (hstep : ∀ t p1 p2 heap, R t (Oom.KDTree_test_neighbors libc t p1 p2 heap).2.1)
    (node1 node2 : Node α) (t : KDTree α) (heap : Heap) (res : Bool × KDTree α × Heap)
    (h : Oom.KDTree_search_neighbors_between_buckets libc t heap node1 node2 =
      Except.ok res) : R t res.2.1 := by
  cases node1 with
  | NULL => cases h
  | mk l r v cd s e =>
    cases node2 with
    | NULL => cases h
    | mk l2 r2 v2 cd2 s2 e2 =>
      refine loopOk_rel hrefl htrans _ ?_ _ (t, heap) res h
      intro i s1 r1
      apply point_bind_rel2
      intro p r3 h3
      exact Oom_row_rel libc hrefl htrans hstep p _ s1 r3 h3

/-- A step of the descents that is followed by another only while `ok` is 1. -/
theorem guarded_bind_rel {R : KDTree α → KDTree α → Prop}
    (htrans : ∀ a b c, R a b → R b c → R a c) {t : KDTree α}
    {r1 : Run (Bool × KDTree α × Heap)}
    {f : Bool × KDTree α × Heap → Run (Bool × KDTree α × Heap)}
    (h1 : ∀ s, r1 = Except.ok s → R t s.2.1)
    (h2 : ∀ s res, f s = Except.ok res → R s.2.1 res.2.1) :
    ∀ res, (r1 >>= fun s => if (!s.1) = true then pure s else f s) = Except.ok res →
      R t res.2.1 := by
  intro res h
  cases hr : r1 with
  | error e => rw [hr] at h; cases h
  | ok s =>
    rw [hr] at h
    simp only [ok_bind] at h
    split_ifs at h
    · have hs : s = res := by cases h; rfl
      rw [← hs]
      exact h1 s hr
    · exact htrans _ _ _ (h1 s hr) (h2 s res h)

/-- The dual descent with failing allocations keeps every relation that is reflexive,
transitive and kept by `KDTree_test_neighbors`, whatever it returns. -/
theorem Oom_pairs_rel (libc : Libc α) {R : KDTree α → KDTree α → Prop}
    (hrefl : ∀ t, R t t) (htrans : ∀ a b c, R a b → R b c → R a c)
    (hstep : ∀ t p1 p2 heap, R t (Oom.KDTree_test_neighbors libc t p1 p2 heap).2.1) :
    ∀ (fuel : Nat) (t : KDTree α) (heap : Heap) (down : Node α)
    (down_region : Option (Region α)) (up : Node α) (up_region : Option (Region α))
    (depth : Nat) (res : Bool × KDTree α × Heap),
    Oom.KDTree_neighbor_search_pairs.go libc fuel t heap down down_region up up_region depth =
      Except.ok res → R t res.2.1 := by
  intro fuel
  induction fuel with
  | zero =>
    intro t heap down dr up ur depth res h
    simp [Oom.KDTree_neighbor_search_pairs.go] at h
  | succ fuel ih =>
    intro t heap down dr up ur depth res h
    unfold Oom.KDTree_neighbor_search_pairs.go at h
    split at h
    · simp only at h
      split_ifs at h
      · cases h; exact hrefl _
      · exact Oom_between_buckets_rel libc hrefl htrans hstep _ _ t _ res h
      · cases h; exact hrefl _
      · refine guarded_bind_rel htrans (fun s h1 => ih _ _ _ _ _ _ _ _ h1) ?_ res h
        intro s1 r1 h1
        refine guarded_bind_rel htrans (fun s h2 => ih _ _ _ _ _ _ _ _ h2) ?_ r1 h1
        intro s2 r2 h2
        refine guarded_bind_rel htrans (fun s h3 => ih _ _ _ _ _ _ _ _ h3) ?_ r2 h2
        intro s3 r3 h3
        exact ih _ _ _ _ _ _ _ _ h3
    · cases h; exact hrefl _

theorem leaf_bind_rel2 {β : Type} {P : β → Prop} {node : Node α} {f : Bool → Run β}
    (hf : ∀ b res, f b = Except.ok res → P res) :
    ∀ res, (Node_is_leaf node >>= f) = Except.ok res → P res := by
  intro res h
  cases hp : Node_is_leaf node with
  | error e => rw [hp] at h; cases h
  | ok p => rw [hp] at h; exact hf p res h

/-- The descent over one tree with failing allocations keeps every relation that is
reflexive, transitive and kept by `KDTree_test_neighbors`, whatever it returns. -/
theorem Oom_neighbor_search_rel (libc : Libc α) {R : KDTree α → KDTree α → Prop}
    (hrefl : ∀ t, R t t) (htrans : ∀ a b c, R a b → R b c → R a c)
    (hstep : ∀ t p1 p2 heap, R t (Oom.KDTree_test_neighbors libc t p1 p2 heap).2.1)
    (node : Node α) :
    ∀ (t : KDTree α) (heap : Heap) (region : Option (Region α)) (depth : Nat)
      (res : Bool × KDTree α × Heap),
      Oom.KDTree__neighbor_search libc t heap node region depth = Except.ok res →
        R t res.2.1 := by
  induction node with
  | NULL => intro t heap region depth res h; simp [Oom.KDTree__neighbor_search] at h
  | mk l r v cd s e ihl ihr =>
    intro t heap region depth res h
    cases region with
    | none => simp [Oom.KDTree__neighbor_search] at h
    | some Rg =>
      rw [Oom.KDTree__neighbor_search] at h
      simp only at h
      split_ifs at h
      · cases h; exact hrefl _
      · refine leaf_bind_rel2 (P := fun res => R t res.2.1) ?_ res h
        intro b r1 h1
        have hrest : ∀ (s1 r2 : Bool × KDTree α × Heap) (f : Bool → Run (Bool × KDTree α × Heap)),
            (∀ b2 r3, f b2 = Except.ok r3 → R s1.2.1 r3.2.1) →
            (Node_is_leaf r >>= f) = Except.ok r2 → R s1.2.1 r2.2.1 := by
          intro s1 r2 f hf h2
          exact leaf_bind_rel2 (P := fun res => R s1.2.1 res.2.1) hf r2 h2
        have hright : ∀ (s1 r3 : Bool × KDTree α × Heap) (b2 : Bool) (dr ur : Option (Region α)),
            (if (!b2) = true then
              Oom.KDTree__neighbor_search libc s1.2.1 s1.2.2 r ur (depth + 1) >>= fun y =>
                if (!y.1) = true then pure y
                else Oom.KDTree_neighbor_search_pairs libc y.2.1 y.2.2 l dr r ur (depth + 1)
            else
              Oom.KDTree_search_neighbors_in_bucket libc s1.2.1 s1.2.2 r >>= fun y =>
                if (!y.1) = true then pure y
                else Oom.KDTree_neighbor_search_pairs libc y.2.1 y.2.2 l dr r ur (depth + 1)) =
              Except.ok r3 → R s1.2.1 r3.2.1 := by
          intro s1 r3 b2 dr ur h3
          split_ifs at h3
          · refine guarded_bind_rel htrans (fun s hs => ihr _ _ _ _ _ hs) ?_ r3 h3
            intro s2 r4 h4
            exact Oom_pairs_rel libc hrefl htrans hstep _ _ _ _ _ _ _ _ _ h4
          · refine guarded_bind_rel htrans
              (fun s hs => Oom_in_bucket_rel libc hrefl htrans hstep _ _ _ _ hs) ?_ r3 h3
            intro s2 r4 h4
            exact Oom_pairs_rel libc hrefl htrans hstep _ _ _ _ _ _ _ _ _ h4
        split_ifs at h1
        · refine guarded_bind_rel htrans (fun s hs => ihl _ _ _ _ _ hs) ?_ r1 h1
          intro s1 r2 h2
          exact hrest s1 r2 _ (fun b2 r3 h3 => hright s1 r3 b2 _ _ h3) h2
        · refine guarded_bind_rel htrans
            (fun s hs => Oom_in_bucket_rel libc hrefl htrans hstep _ _ _ _ hs) ?_ r1 h1
          intro s1 r2 h2
          exact hrest s1 r2 _ (fun b2 r3 h3 => hright s1 r3 b2 _ _ h3) h2

theorem Oom_sweep_inner_rel (libc : Libc α) {R : KDTree α → KDTree α → Prop}
    (hrefl : ∀ t, R t t) (htrans : ∀ a b c, R a b → R b c → R a c)
    (hstep : ∀ t p1 p2 heap, R t (Oom.KDTree_test_neighbors libc t p1 p2 heap).2.1)
    (radius : α) (p1 : DataPoint α) (x1 : α) :
    ∀ (js : List Nat) (s res : Bool × KDTree α × Heap),
      Oom.KDTree_neighbor_simple_search.inner libc radius p1 x1 js s = Except.ok res →
        R s.2.1 res.2.1 := by
  intro js
  induction js with
  | nil =>
    intro s res h
    simp only [Oom.KDTree_neighbor_simple_search.inner] at h
    cases h
    exact hrefl _
  | cons j rest ih =>
    intro s res h
    rw [Oom.KDTree_neighbor_simple_search.inner] at h
    refine point_bind_rel2 (P := fun res => R s.2.1 res.2.1) ?_ res h
    intro p r3 h3
    simp only at h3
    split_ifs at h3
    · have hs : Oom.KDTree_test_neighbors libc s.2.1 p1 p s.2.2 = r3 := by cases h3; rfl
      rw [← hs]
      exact hstep _ _ _ _
    · exact htrans _ _ _ (hstep s.2.1 p1 p s.2.2) (ih _ _ h3)
    · have hs : s = r3 := by cases h3; rfl
      rw [← hs]
      exact hrefl _

theorem forRange_rel2 {σ : Type} {R : σ → σ → Prop} (hrefl : ∀ t, R t t)
    (htrans : ∀ a b c, R a b → R b c → R a c) (body : Nat → σ → Run σ)
    (hbody : ∀ i t t', body i t = Except.ok t' → R t t') (hi : Nat) :
    ∀ (n lo : Nat) (t t' : σ), hi - lo = n →
      forRange lo hi body t = Except.ok t' → R t t' := by
  intro n
  induction n with
  | zero =>
    intro lo t t' h hr
    rw [forRange_done _ _ (by omega)] at hr
    cases hr
    exact hrefl _
  | succ n ih =>
    intro lo t t' h hr
    rw [forRange_step _ _ (by omega)] at hr
    cases hb : body lo t with
    | error e => rw [hb] at hr; cases hr
    | ok t1 =>
      rw [hb] at hr
      exact htrans _ _ _ (hbody lo t t1 hb) (ih (lo + 1) t1 t' (by omega) hr)

theorem Oom_test_neighbors_adds (libc : Libc α) (t : KDTree α) (p1 p2 : DataPoint α)
    (heap : Heap) :
    ∃ hits, (Oom.KDTree_test_neighbors libc t p1 p2 heap).2.1 = t.addNeighbors hits := by
  unfold Oom.KDTree_test_neighbors
  simp only
  split_ifs
  · exact ⟨[], (addNeighbors_nil t).symm⟩
  · exact ⟨[_], rfl⟩
  · exact ⟨[], (addNeighbors_nil t).symm⟩

theorem adds_refl (t : KDTree α) : ∃ hits, t = t.addNeighbors hits :=
  ⟨[], (addNeighbors_nil t).symm⟩

theorem adds_trans (a b c : KDTree α) (h1 : ∃ hits, b = a.addNeighbors hits)
    (h2 : ∃ hits, c = b.addNeighbors hits) : ∃ hits, c = a.addNeighbors hits := by
  rcases h1 with ⟨x, rfl⟩
  rcases h2 with ⟨y, rfl⟩
  exact ⟨x ++ y, addNeighbors_addNeighbors a x y⟩

theorem bind_inv {β γ : Type} {r1 : Run β} {f : β → Run γ} {P : β → γ → Prop}
    (hf : ∀ y res, f y = Except.ok res → P y res) :
    ∀ res, (r1 >>= f) = Except.ok res → ∃ y, r1 = Except.ok y ∧ P y res := by
  intro res h
  cases hr : r1 with
  | error e => rw [hr] at h; cases h
  | ok y =>
    rw [hr] at h
    exact ⟨y, rfl, hf y res h⟩

/-- The pair query with failing allocations: whatever flag it returns, the tree it leaves is
the tree `t0` it started from, with the neighbor buffer reset and the radius set, plus the
entries appended. -/
theorem Oom_KDTree_neighbor_search_adds (libc : Libc α) (t : KDTree α) (r : α) (heap : Heap)
    (res : Bool × KDTree α × List (Neighbor α) × Heap)
    (h : Oom.KDTree_neighbor_search libc t r heap = Except.ok res) (t0 : KDTree α)
    (ht0 : { t with
             _neighbor_list := [],
             _neighbor_count := 0,
             _neighbor_radius := r,
             _neighbor_radius_sq := r * r } = t0) :
    ∃ hits, res.2.1 = t0.addNeighbors hits := by
  unfold Oom.KDTree_neighbor_search at h
  simp only [ht0] at h
  cases hl : Node_is_leaf t._root with
  | error e => rw [hl] at h; cases h
  | ok b =>
    rw [hl] at h
    simp only [ok_bind] at h
    have htail : ∀ (y : Bool × KDTree α × Heap)
        (res : Bool × KDTree α × List (Neighbor α) × Heap),
        (if (!y.1) = true then (pure (false, y.2.1, [], y.2.2) :
            Run (Bool × KDTree α × List (Neighbor α) × Heap))
          else
            match (Oom.copyNeighbors (y.2.1._neighbor_list.take y.2.1._neighbor_count) []
                y.2.2).1 with
            | none => pure (false, y.2.1, [],
                (Oom.copyNeighbors (y.2.1._neighbor_list.take y.2.1._neighbor_count) []
                  y.2.2).2)
            | some list => pure (true, y.2.1, list,
                (Oom.copyNeighbors (y.2.1._neighbor_list.take y.2.1._neighbor_count) []
                  y.2.2).2)) = Except.ok res → res.2.1 = y.2.1 := by
      intro y res hy
      split_ifs at hy
      · cases hy; rfl
      · split at hy <;> (cases hy; rfl)
    split_ifs at h
    · rcases bind_inv htail res h with ⟨y, hy, hres⟩
      rw [hres]
      exact Oom_in_bucket_rel libc adds_refl adds_trans
        (fun t p1 p2 heap => Oom_test_neighbors_adds libc t p1 p2 heap) _ _ _ _ hy
    · split at h
      · rcases bind_inv htail res h with ⟨y, hy, hres⟩
        rw [hres]
        cases hy
        exact adds_refl _
      · rcases bind_inv htail res h with ⟨y, hy, hres⟩
        rw [hres]
        exact Oom_neighbor_search_rel libc adds_refl adds_trans
          (fun t p1 p2 heap => Oom_test_neighbors_adds libc t p1 p2 heap) _ _ _ _ _ _ hy

/-- The sweep with failing allocations: whatever flag it returns, the tree it leaves is the
tree `t1` it started from, with the neighbor buffer reset, the radius set and the store
sorted on axis 0, plus the entries appended. -/
theorem Oom_KDTree_neighbor_simple_search_adds (libc : Libc α) (t : KDTree α) (r : α)
    (heap : Heap) (res : Bool × KDTree α × List (Neighbor α) × Heap)
    (h : Oom.KDTree_neighbor_simple_search libc t r heap = Except.ok res) (t1 : KDTree α)
    (ht1 : { t with
             _neighbor_radius := r,
             _neighbor_radius_sq := r * r,
             _neighbor_count := 0,
             _neighbor_list := [],
             _data_point_list :=
               DataPoint_sort libc t._data_point_list t._data_point_list.length 0 } = t1) :
    ∃ hits, res.2.1 = t1.addNeighbors hits := by
  unfold Oom.KDTree_neighbor_simple_search at h
  simp only [ht1] at h
  have htail : ∀ (y : Bool × KDTree α × Heap)
      (res : Bool × KDTree α × List (Neighbor α) × Heap),
      (if (!y.1) = true then (pure (false, y.2.1, [], y.2.2) :
          Run (Bool × KDTree α × List (Neighbor α) × Heap))
        else
          match (Oom.copyNeighbors (y.2.1._neighbor_list.take y.2.1._neighbor_count) []
              y.2.2).1 with
          | none => pure (false, y.2.1, [],
              (Oom.copyNeighbors (y.2.1._neighbor_list.take y.2.1._neighbor_count) []
                y.2.2).2)
          | some list => pure (true, y.2.1, list,
              (Oom.copyNeighbors (y.2.1._neighbor_list.take y.2.1._neighbor_count) []
                y.2.2).2)) = Except.ok res → res.2.1 = y.2.1 := by
    intro y res hy
    split_ifs at hy
    · cases hy; rfl
    · split at hy <;> (cases hy; rfl)
  rcases bind_inv htail res h with ⟨y, hy, hres⟩
  rw [hres]
  refine forRange_rel2
    (R := fun (a b : Bool × KDTree α × Heap) => ∃ hits, b.2.1 = a.2.1.addNeighbors hits)
    (fun a => adds_refl _) (fun a b c h1 h2 => adds_trans _ _ _ h1 h2) _ ?_ _ _ 0
    (true, t1, heap) y rfl hy
  intro i s s' hs
  refine point_bind_rel2
    (P := fun (b : Bool × KDTree α × Heap) => ∃ hits, b.2.1 = s.2.1.addNeighbors hits)
    ?_ s' hs
  intro p r3 h3
  exact Oom_sweep_inner_rel libc adds_refl adds_trans
    (fun t p1 p2 heap => Oom_test_neighbors_adds libc t p1 p2 heap) _ _ _ _ _ _ h3

theorem returnNeighbors_state (s : Bool × KDTree α × List (Neighbor α) × Heap)
    (T : KDTree α) (h : (Oom.returnNeighbors s).state? = some T) : T = s.2.1 := by
  unfold Oom.returnNeighbors at h
  simp only at h
  split_ifs at h <;> (cases h; rfl)

/-- Whatever `all_pairs` returns when allocations fail, normally or with `MemoryError`,
the tree it leaves is the tree it started from with the neighbor buffer reset, plus the
entries appended. -/
theorem Oom_PyTree_neighbor_search_adds (libc : Libc α) (t T : KDTree α) (r : α)
    (heap : Heap) (hr : 0 < r)
    (h : (Oom.PyTree_neighbor_search libc t r heap).state? = some T) :
    ∃ hits, T = KDTree.addNeighbors { t with
      _neighbor_list := [],
      _neighbor_count := 0,
      _neighbor_radius := r,
      _neighbor_radius_sq := r * r } hits := by
  unfold Oom.PyTree_neighbor_search at h
  rw [if_neg (not_le.mpr hr)] at h
  split at h
  · rename_i s hrun
    rw [returnNeighbors_state s T h]
    exact Oom_KDTree_neighbor_search_adds libc t r heap s hrun _ rfl
  · cases h

/-- Whatever `all_pairs_sweep` returns when allocations fail, normally or with
`MemoryError`, the tree it leaves is the tree it started from with the neighbor buffer
reset and the store sorted on axis 0, plus the entries appended. -/
theorem Oom_PyTree_neighbor_simple_search_adds (libc : Libc α) (t T : KDTree α) (r : α)
    (heap : Heap) (hr : 0 < r)
    (h : (Oom.PyTree_neighbor_simple_search libc t r heap).state? = some T) :
    ∃ hits, T = KDTree.addNeighbors { t with
      _neighbor_radius := r,
      _neighbor_radius_sq := r * r,
      _neighbor_count := 0,
      _neighbor_list := [],
      _data_point_list :=
        DataPoint_sort libc t._data_point_list t._data_point_list.length 0 } hits := by
  unfold Oom.PyTree_neighbor_simple_search at h
  rw [if_neg (not_le.mpr hr)] at h
  split at h
  · rename_i s hrun
    rw [returnNeighbors_state s T h]
    exact Oom_KDTree_neighbor_simple_search_adds libc t r heap s hrun _ rfl
  · cases h

/-! ### When no allocation fails, the pair queries are those of the first model -/

theorem Oom_Region_create_nil (dim : Nat) (left right : Option (List α)) :
    Oom.Region_create dim left right [] = (some (Region_create dim left right), []) := rfl

theorem Oom_left_child_region_nil (dim : Nat) (region : Region α) (v : α) (d : Nat) :
    Oom.left_child_region dim region v d [] = (left_child_region dim region v d, true, []) := by
  unfold Oom.left_child_region left_child_region Oom.Region_create_intersect_left
    Region_create_intersect_left
  simp only [Oom_Region_create_nil]
  split_ifs <;> rfl

theorem Oom_right_child_region_nil (dim : Nat) (region : Region α) (v : α) (d : Nat) :
    Oom.right_child_region dim region v d [] =
      (right_child_region dim region v d, true, []) := by
  unfold Oom.right_child_region right_child_region Oom.Region_create_intersect_right
    Region_create_intersect_right
  simp only [Oom_Region_create_nil]
  split_ifs <;> rfl

theorem Oom_test_neighbors_nil (libc : Libc α) (t : KDTree α) (p1 p2 : DataPoint α) :
    Oom.KDTree_test_neighbors libc t p1 p2 [] = (true, KDTree_test_neighbors libc t p1 p2, []) := by
  unfold Oom.KDTree_test_neighbors KDTree_test_neighbors
  by_cases h : KDTree_dist p1._coord p2._coord t.dim ≤ t._neighbor_radius_sq
  · simp only [if_pos h]
    rfl
  · simp only [if_neg h]

theorem Oom_pairs_children_nil (dim : Nat) (node : Node α) (region : Region α) (d : Nat) :
    Oom.pairs_children dim node region d [] = (pairs_children dim node region d, true, []) := by
  unfold Oom.pairs_children pairs_children
  cases node with
  | NULL => rfl
  | mk l r v cd s e =>
    simp only [Oom_Region_create_nil, Oom_left_child_region_nil, Oom_right_child_region_nil]
    split_ifs <;> rfl

theorem loopOk_nil {σ : Type} (body : Nat → σ × Heap → Run (Bool × σ × Heap))
    (body0 : Nat → σ → Run σ)
    (hbody : ∀ i t, body i (t, []) = (fun t' => (true, t', ([] : Heap))) <$> body0 i t)
    (hi : Nat) : ∀ (n lo : Nat) (t : σ), hi - lo = n →
      loopOk body (List.range' lo (hi - lo)) (t, []) =
        (fun t' => (true, t', ([] : Heap))) <$> forRange lo hi body0 t := by
  intro n
  induction n with
  | zero =>
    intro lo t h
    rw [forRange_done _ _ (by omega), h]
    rfl
  | succ n ih =>
    intro lo t h
    have hn : hi - lo = (hi - (lo + 1)) + 1 := by omega
    rw [forRange_step _ _ (by omega), hn, List.range'_succ, loopOk, hbody]
    cases hb : body0 lo t with
    | error e => rfl
    | ok t1 =>
      show (if true = true then loopOk body (List.range' (lo + 1) (hi - (lo + 1))) (t1, [])
        else pure (false, t1, [])) = _
      rw [if_pos rfl, ih (lo + 1) t1 (by omega)]
      rfl

theorem map_point_bind {β γ : Type} (g : β → γ) (t : KDTree α) (i : Nat)
    (f : DataPoint α → Run β) (f' : DataPoint α → Run γ) (h : ∀ p, f' p = g <$> f p) :
    (t.point i >>= f') = g <$> (t.point i >>= f) := by
  cases t.point i with
  | error e => rfl
  | ok p => exact h p

theorem Oom_row_nil (libc : Libc α) (p1 : DataPoint α) (lo hi : Nat) (t : KDTree α) :
    loopOk (fun j (s : KDTree α × Heap) => do
        let p2 ← s.1.point j
        pure (Oom.KDTree_test_neighbors libc s.1 p1 p2 s.2)) (List.range' lo (hi - lo)) (t, []) =
      (fun t' => (true, t', ([] : Heap))) <$> forRange lo hi (fun j tree => do
        let p2 ← tree.point j
        pure (KDTree_test_neighbors libc tree p1 p2)) t := by
  refine loopOk_nil _ _ ?_ hi _ lo t rfl
  intro j t1
  refine map_point_bind _ t1 j _ _ ?_
  intro p
  simp only [Oom_test_neighbors_nil]
  rfl

theorem Oom_in_bucket_nil (libc : Libc α) (t : KDTree α) (node : Node α) :
    Oom.KDTree_search_neighbors_in_bucket libc t [] node =
      (fun t' => (true, t', ([] : Heap))) <$> KDTree_search_neighbors_in_bucket libc t node := by
  cases node with
  | NULL => rfl
  | mk l r v cd s e =>
    unfold Oom.KDTree_search_neighbors_in_bucket KDTree_search_neighbors_in_bucket
    refine loopOk_nil _ _ ?_ e _ s t rfl
    intro i t1
    refine map_point_bind _ t1 i _ _ ?_
    intro p
    exact Oom_row_nil libc p _ _ t1

theorem Oom_between_buckets_nil (libc : Libc α) (t : KDTree α) (node1 node2 : Node α) :
    Oom.KDTree_search_neighbors_between_buckets libc t [] node1 node2 =
      (fun t' => (true, t', ([] : Heap))) <$>
        KDTree_search_neighbors_between_buckets libc t node1 node2 := by
  cases node1 with
  | NULL => rfl
  | mk l r v cd s e =>
    cases node2 with
    | NULL => rfl
    | mk l2 r2 v2 cd2 s2 e2 =>
      unfold Oom.KDTree_search_neighbors_between_buckets
        KDTree_search_neighbors_between_buckets
      refine loopOk_nil _ _ ?_ e _ s t rfl
      intro i t1
      refine map_point_bind _ t1 i _ _ ?_
      intro p
      exact Oom_row_nil libc p _ _ t1

theorem guarded_nil {σ : Type} (x : Run σ) (f : σ → Run σ)
    (F : Bool × σ × Heap → Run (Bool × σ × Heap))
    (hF : ∀ t, F (true, t, []) = (fun t' => (true, t', ([] : Heap))) <$> f t) :
    (((fun t' => (true, t', ([] : Heap))) <$> x) >>= fun s => if !s.1 then pure s else F s) =
      (fun t' => (true, t', ([] : Heap))) <$> (x >>= f) := by
  cases x with
  | error e => rfl
  | ok t => exact hF t

theorem Oom_pairs_go_nil (libc : Libc α) : ∀ (fuel : Nat) (tree : KDTree α)
    (down : Node α) (down_region : Option (Region α)) (up : Node α)
    (up_region : Option (Region α)) (depth : Nat),
    Oom.KDTree_neighbor_search_pairs.go libc fuel tree [] down down_region up up_region depth =
      (fun t' => (true, t', ([] : Heap))) <$>
        KDTree_neighbor_search_pairs.go libc fuel tree down down_region up up_region depth := by
  intro fuel
  induction fuel with
  | zero => intros; rfl
  | succ fuel ih =>
    intro tree down down_region up up_region depth
    cases down with
    | NULL => rfl
    | mk dl dr dv dc ds de =>
      cases down_region with
      | none => rfl
      | some dreg =>
        cases up with
        | NULL => rfl
        | mk ul ur uv uc us ue =>
          cases up_region with
          | none => rfl
          | some ureg =>
            rw [Oom.KDTree_neighbor_search_pairs.go, KDTree_neighbor_search_pairs.go]
            by_cases h0 : Region_test_intersection tree.dim dreg ureg tree._neighbor_radius = 0
            · simp only [if_pos h0]
              rfl
            · simp only [if_neg h0]
              by_cases hl : (ul.isNull && ur.isNull && (dl.isNull && dr.isNull)) = true
              · simp only [if_pos hl]
                exact Oom_between_buckets_nil libc tree _ _
              · simp only [if_neg hl, Oom_pairs_children_nil, ih]
                refine guarded_nil _ _ _ ?_
                intro t1
                dsimp only
                rw [ih]
                refine guarded_nil _ _ _ ?_
                intro t2
                dsimp only
                rw [ih]
                refine guarded_nil _ _ _ ?_
                intro t3
                exact ih _ _ _ _ _ _

theorem Oom_pairs_nil (libc : Libc α) (tree : KDTree α)
    (down : Node α) (down_region : Option (Region α)) (up : Node α)
    (up_region : Option (Region α)) (depth : Nat) :
    Oom.KDTree_neighbor_search_pairs libc tree [] down down_region up up_region depth =
      (fun t' => (true, t', ([] : Heap))) <$>
        KDTree_neighbor_search_pairs libc tree down down_region up up_region depth :=
  Oom_pairs_go_nil libc _ tree down down_region up up_region depth

theorem map_bind_ok {β γ δ : Type} (g : γ → δ) (x : Run β) (f' : β → Run δ) (f : β → Run γ)
    (h : ∀ b, f' b = g <$> f b) : (x >>= f') = g <$> (x >>= f) := by
  cases x with
  | error e => rfl
  | ok b => exact h b

theorem Oom_neighbor_search_nil (libc : Libc α) : ∀ (node : Node α) (tree : KDTree α)
    (region : Option (Region α)) (depth : Nat),
    Oom.KDTree__neighbor_search libc tree [] node region depth =
      (fun t' => (true, t', ([] : Heap))) <$>
        KDTree__neighbor_search libc tree node region depth := by
  intro node
  induction node with
  | NULL => intros; rfl
  | mk l r v cd s e ihl ihr =>
    intro tree region depth
    cases region with
    | none => rfl
    | some reg =>
      rw [Oom.KDTree__neighbor_search, KDTree__neighbor_search]
      simp only [Oom_left_child_region_nil, Oom_right_child_region_nil]
      rw [if_neg (by decide)]
      have hright : ∀ (b : Bool) (t1 : KDTree α),
          (if (!b) = true then do
              let y ← Oom.KDTree__neighbor_search libc t1 [] r
                (right_child_region tree.dim reg v (depth % tree.dim)) (depth + 1)
              if (!y.1) = true then pure y
              else
                Oom.KDTree_neighbor_search_pairs libc y.2.1 y.2.2 l
                  (left_child_region tree.dim reg v (depth % tree.dim)) r
                  (right_child_region tree.dim reg v (depth % tree.dim)) (depth + 1)
            else do
              let y ← Oom.KDTree_search_neighbors_in_bucket libc t1 [] r
              if (!y.1) = true then pure y
              else
                Oom.KDTree_neighbor_search_pairs libc y.2.1 y.2.2 l
                  (left_child_region tree.dim reg v (depth % tree.dim)) r
                  (right_child_region tree.dim reg v (depth % tree.dim)) (depth + 1)) =
          (fun t' => (true, t', ([] : Heap))) <$>
            (if (!b) = true then do
              let y ← KDTree__neighbor_search libc t1 r
                (right_child_region tree.dim reg v (depth % tree.dim)) (depth + 1)
              KDTree_neighbor_search_pairs libc y l
                (left_child_region tree.dim reg v (depth % tree.dim)) r
                (right_child_region tree.dim reg v (depth % tree.dim)) (depth + 1)
            else do
              let y ← KDTree_search_neighbors_in_bucket libc t1 r
              KDTree_neighbor_search_pairs libc y l
                (left_child_region tree.dim reg v (depth % tree.dim)) r
                (right_child_region tree.dim reg v (depth % tree.dim)) (depth + 1)) := by
        intro b t1
        cases b
        · rw [if_pos (by decide : (!false) = true), if_pos (by decide : (!false) = true), ihr]
          refine guarded_nil _ _ _ ?_
          intro t2
          exact Oom_pairs_nil libc t2 _ _ _ _ _
        · rw [if_neg (by decide : ¬ (!true) = true), if_neg (by decide : ¬ (!true) = true), Oom_in_bucket_nil]
          refine guarded_nil _ _ _ ?_
          intro t2
          exact Oom_pairs_nil libc t2 _ _ _ _ _
      refine map_bind_ok _ _ _ _ ?_
      intro b
      cases b
      · rw [if_pos (by decide : (!false) = true), if_pos (by decide : (!false) = true), ihl]
        refine guarded_nil _ _ _ ?_
        intro t1
        refine map_bind_ok _ _ _ _ ?_
        intro b2
        exact hright b2 t1
      · rw [if_neg (by decide : ¬ (!true) = true), if_neg (by decide : ¬ (!true) = true), Oom_in_bucket_nil]
        refine guarded_nil _ _ _ ?_
        intro t1
        refine map_bind_ok _ _ _ _ ?_
        intro b2
        exact hright b2 t1

theorem copyNeighbors_nil : ∀ (l acc : List (Neighbor α)),
    Oom.copyNeighbors l acc [] =
      (some (l.foldl (fun neighbors neighbor => neighbor :: neighbors) acc), []) := by
  intro l
  induction l with
  | nil => intro acc; rfl
  | cons x rest ih =>
    intro acc
    rw [Oom.copyNeighbors]
    simp only [Heap.request]
    rw [if_neg (by decide), ih]
    rfl

theorem allocItems_nil : ∀ n : Nat, Oom.allocItems n [] = (true, []) := by
  intro n
  induction n with
  | zero => rfl
  | succ n ih =>
    rw [Oom.allocItems]
    simp only [Heap.request]
    rw [if_neg (by decide), ih]

theorem copy_tail_nil (x : Run (KDTree α)) :
    (((fun t' => (true, t', ([] : Heap))) <$> x) >>=
      fun (s : Bool × KDTree α × Heap) =>
        if (!s.1) = true then
          (pure (false, s.2.1, [], s.2.2) : Run (Bool × KDTree α × List (Neighbor α) × Heap))
        else
          match (Oom.copyNeighbors (List.take s.2.1._neighbor_count s.2.1._neighbor_list)
            [] s.2.2).1 with
          | none => pure (false, s.2.1, [],
              (Oom.copyNeighbors (List.take s.2.1._neighbor_count s.2.1._neighbor_list)
                [] s.2.2).2)
          | some list => pure (true, s.2.1, list,
              (Oom.copyNeighbors (List.take s.2.1._neighbor_count s.2.1._neighbor_list)
                [] s.2.2).2)) =
      (fun (p : KDTree α × List (Neighbor α)) => (true, p.1, p.2, ([] : Heap))) <$>
        (x >>= fun tree => pure (tree,
          List.foldl (fun neighbors neighbor => neighbor :: neighbors) []
            (List.take tree._neighbor_count tree._neighbor_list))) := by
  cases x with
  | error e => rfl
  | ok t1 =>
    have h : ∀ F : Bool × KDTree α × Heap → Run (Bool × KDTree α × List (Neighbor α) × Heap),
        (((fun t' => (true, t', ([] : Heap))) <$> (Except.ok t1 : Run (KDTree α))) >>= F) =
          F (true, t1, []) := fun _ => rfl
    rw [h]
    dsimp only
    rw [if_neg (by decide : ¬ (!true) = true), copyNeighbors_nil]
    rfl

theorem Oom_KDTree_neighbor_search_nil (libc : Libc α) (tree : KDTree α) (r : α) :
    Oom.KDTree_neighbor_search libc tree r [] =
      (fun p => (true, p.1, p.2, ([] : Heap))) <$> KDTree_neighbor_search libc tree r := by
  unfold Oom.KDTree_neighbor_search KDTree_neighbor_search
  dsimp only
  refine map_bind_ok _ _ _ _ ?_
  intro b
  cases b
  · rw [if_neg (by decide : ¬ false = true), if_neg (by decide : ¬ false = true)]
    simp only [Oom_Region_create_nil, Oom_neighbor_search_nil]
    exact copy_tail_nil _
  · rw [if_pos rfl, if_pos rfl, Oom_in_bucket_nil]
    exact copy_tail_nil _

theorem Oom_sweep_inner_nil (libc : Libc α) (radius : α) (p1 : DataPoint α) (x1 : α) :
    ∀ (js : List Nat) (t : KDTree α),
      Oom.KDTree_neighbor_simple_search.inner libc radius p1 x1 js (true, t, []) =
        (fun t' => (true, t', ([] : Heap))) <$>
          KDTree_neighbor_simple_search.inner libc radius p1 x1 js t := by
  intro js
  induction js with
  | nil => intro t; rfl
  | cons j rest ih =>
    intro t
    rw [Oom.KDTree_neighbor_simple_search.inner, KDTree_neighbor_simple_search.inner]
    refine map_point_bind _ t j _ _ ?_
    intro p2
    dsimp only
    by_cases h : Fabs.fabs (idx p2._coord 0 - x1) ≤ radius
    · rw [if_pos h, if_pos h, Oom_test_neighbors_nil, if_neg (by decide : ¬ (!true) = true)]
      exact ih _
    · rw [if_neg h, if_neg h]
      rfl

theorem forRange_flag_nil (body : Nat → Bool × KDTree α × Heap → Run (Bool × KDTree α × Heap))
    (body0 : Nat → KDTree α → Run (KDTree α))
    (hbody : ∀ i t, body i (true, t, []) = (fun t' => (true, t', ([] : Heap))) <$> body0 i t)
    (hi : Nat) : ∀ (n lo : Nat) (t : KDTree α), hi - lo = n →
      forRange lo hi body (true, t, []) =
        (fun t' => (true, t', ([] : Heap))) <$> forRange lo hi body0 t := by
  intro n
  induction n with
  | zero =>
    intro lo t h
    rw [forRange_done _ _ (by omega), forRange_done _ _ (by omega)]
    rfl
  | succ n ih =>
    intro lo t h
    rw [forRange_step _ _ (by omega), forRange_step body0 _ (by omega), hbody]
    cases hb : body0 lo t with
    | error e => rfl
    | ok t1 => exact ih (lo + 1) t1 (by omega)

theorem Oom_KDTree_neighbor_simple_search_nil (libc : Libc α) (tree : KDTree α) (r : α) :
    Oom.KDTree_neighbor_simple_search libc tree r [] =
      (fun p => (true, p.1, p.2, ([] : Heap))) <$>
        KDTree_neighbor_simple_search libc tree r := by
  unfold Oom.KDTree_neighbor_simple_search KDTree_neighbor_simple_search
  dsimp only
  rw [forRange_flag_nil _ (fun i (t1 : KDTree α) => do
    let p1 ← t1.point i
    let x1 := idx p1._coord 0
    KDTree_neighbor_simple_search.inner libc r p1 x1
      (List.range' (i + 1) ((DataPoint_sort libc tree._data_point_list
        tree._data_point_list.length 0).length - (i + 1))) t1) ?_ _ _ 0 _ rfl]
  · exact copy_tail_nil _
  · intro i t
    refine map_point_bind _ t i _ _ ?_
    intro p1
    exact Oom_sweep_inner_nil libc r p1 _ _ t

theorem returnNeighbors_nil (t : KDTree α) (l : List (Neighbor α)) :
    Oom.returnNeighbors (true, t, l, []) = PyRet.ok t l := by
  unfold Oom.returnNeighbors
  simp only [Heap.request, allocItems_nil]
  rfl

/-- With no failing allocation, `all_pairs` of the allocation-aware model is `all_pairs`
of the first model. -/
theorem Oom_PyTree_neighbor_search_nil (libc : Libc α) (tree : KDTree α) (r : α) :
    Oom.PyTree_neighbor_search libc tree r [] = PyTree_neighbor_search libc tree r := by
  unfold Oom.PyTree_neighbor_search PyTree_neighbor_search
  rw [Oom_KDTree_neighbor_search_nil]
  cases KDTree_neighbor_search libc tree r with
  | error e => rfl
  | ok p =>
    split_ifs
    · rfl
    · exact returnNeighbors_nil p.1 p.2

/-- With no failing allocation, `all_pairs_sweep` of the allocation-aware model is
`all_pairs_sweep` of the first model. -/
theorem Oom_PyTree_neighbor_simple_search_nil (libc : Libc α) (tree : KDTree α) (r : α) :
    Oom.PyTree_neighbor_simple_search libc tree r [] =
      PyTree_neighbor_simple_search libc tree r := by
  unfold Oom.PyTree_neighbor_simple_search PyTree_neighbor_simple_search
  rw [Oom_KDTree_neighbor_simple_search_nil]
  cases KDTree_neighbor_simple_search libc tree r with
  | error e => rfl
  | ok p =>
    split_ifs
    · rfl
    · exact returnNeighbors_nil p.1 p.2

/-! ### The same query twice -/

/-- C11: on every tree state of positive dimension and for every `r > 0`, the same query
twice in succession gives the same result set both times. A `search_center_radius` or an
`all_pairs` that returns is followed by a second call that returns with the very tree the
first call left (the same entries, and for `all_pairs` the same list); `all_pairs_sweep`
returns both times, with the same multiset of unordered pairs with their radii. After the
second call the buffer holds the entries of that call and no others: `count` is the length
of `radius_list`, and `neighbor_list` is the list returned, of length `neighbor_count`. The
first call of the two tree queries does return on every tree built by `init` and `set_data`
from points with coordinates in `[-INF, INF]`, and on no tree state does the model run out
of fuel. -/
theorem C11_same_query_twice (libc : Libc α) (t : KDTree α) (hdim : 0 < t.dim) (r : α)
    (hr : 0 < r) (center : Py_buffer α) :
    (∀ T1 : KDTree α, PyTree_search_center_radius libc t center r = PyRet.ok T1 () →
      PyTree_search_center_radius libc T1 center r = PyRet.ok T1 () ∧
      PyTree_get_count T1 = T1._radius_list.length) ∧
    (∀ (T1 : KDTree α) (out1 : List (Neighbor α)),
      PyTree_neighbor_search libc t r = PyRet.ok T1 out1 →
        PyTree_neighbor_search libc T1 r = PyRet.ok T1 out1 ∧
        T1._neighbor_list = out1.reverse ∧ PyTree_neighbor_get_count T1 = out1.length) ∧
    (∃ (T1 : KDTree α) (out1 : List (Neighbor α)) (T2 : KDTree α)
        (out2 : List (Neighbor α)),
      PyTree_neighbor_simple_search libc t r = PyRet.ok T1 out1 ∧
      PyTree_neighbor_simple_search libc T1 r = PyRet.ok T2 out2 ∧
      keys out1 = keys out2 ∧
      T2._neighbor_list = out2.reverse ∧ PyTree_neighbor_get_count T2 = out2.length) ∧
    (∀ (k B n : Nat) (points : Py_buffer α), 0 < k → 0 < B → points.IsMatrix n k →
      center.IsVector k → InBox k n (COPY2DARRAY points n k) →
        (∃ T1 : KDTree α,
          searchSession libc (k : Int) (B : Int) points center r = PyRet.ok T1 ()) ∧
        (∃ (T1 : KDTree α) (out1 : List (Neighbor α)),
          pairsSession libc (k : Int) (B : Int) points r = PyRet.ok T1 out1)) ∧
    PyTree_search_center_radius libc t center r ≠ PyRet.fault Fault.outOfFuel ∧
    PyTree_neighbor_search libc t r ≠ PyRet.fault Fault.outOfFuel := by
  refine ⟨fun T1 h => PyTree_search_center_radius_twice libc t T1 center r h,
    fun T1 out1 h => PyTree_neighbor_search_twice libc t T1 r out1 h,
    PyTree_neighbor_simple_search_twice libc t r hr hdim, ?_,
    PyTree_search_center_radius_fuel libc t center r, PyTree_neighbor_search_fuel libc t r⟩
  intro k B n points hk hB hpoints hcenter hbox
  rcases search_session libc k B n hk hB points hpoints center hcenter r hr hbox with
    ⟨T1, h1, _⟩
  rcases (pairs_session libc k B n hk hB points hpoints r hr).2 hbox with ⟨T2, out2, h2, _⟩
  exact ⟨⟨T1, h1⟩, T2, out2, h2⟩

/-- C11 at a concrete input: the tree of the corners of the unit square with bucket size
1, center `(0, 0)` and radius 1: the hypotheses hold; the point query finds 3 points both
times, `all_pairs` returns the same 4 pairs both times, and so does `all_pairs_sweep`. -/
theorem C11_witness_unit_square :
    ((0 : ℤ) < 1 ∧
      ((PyTree_search_center_radius libcInt
        (loadedTree libcInt 2 1 (longMatrix 4 2 [0, 0, 0, 1, 1, 0, 1, 1])).finalTree
        (longVector [0, 0]) 1).andThen
        (fun tree => PyTree_search_center_radius libcInt tree (longVector [0, 0]) 1)).tree?.map
        PyTree_get_count = some 3 ∧
      ((PyTree_neighbor_search libcInt
        (loadedTree libcInt 2 1 (longMatrix 4 2 [0, 0, 0, 1, 1, 0, 1, 1])).finalTree
        1).andThen (fun tree => PyTree_neighbor_search libcInt tree 1)).value?.map
        List.length = some 4 ∧
      ((PyTree_neighbor_simple_search libcInt
        (loadedTree libcInt 2 1 (longMatrix 4 2 [0, 0, 0, 1, 1, 0, 1, 1])).finalTree
        1).andThen (fun tree => PyTree_neighbor_simple_search libcInt tree 1)).value?.map
        List.length = some 4) ∧
    ((∀ T1 : KDTree ℤ,
      PyTree_search_center_radius libcInt
        (loadedTree libcInt 2 1 (longMatrix 4 2 [0, 0, 0, 1, 1, 0, 1, 1])).finalTree
        (longVector [0, 0]) 1 = PyRet.ok T1 () →
      PyTree_search_center_radius libcInt T1 (longVector [0, 0]) 1 = PyRet.ok T1 () ∧
      PyTree_get_count T1 = T1._radius_list.length) ∧
    (∀ (T1 : KDTree ℤ) (out1 : List (Neighbor ℤ)),
      PyTree_neighbor_search libcInt
        (loadedTree libcInt 2 1 (longMatrix 4 2 [0, 0, 0, 1, 1, 0, 1, 1])).finalTree 1 =
        PyRet.ok T1 out1 →
        PyTree_neighbor_search libcInt T1 1 = PyRet.ok T1 out1 ∧
        T1._neighbor_list = out1.reverse ∧ PyTree_neighbor_get_count T1 = out1.length) ∧
    (∃ (T1 : KDTree ℤ) (out1 : List (Neighbor ℤ)) (T2 : KDTree ℤ)
        (out2 : List (Neighbor ℤ)),
      PyTree_neighbor_simple_search libcInt
        (loadedTree libcInt 2 1 (longMatrix 4 2 [0, 0, 0, 1, 1, 0, 1, 1])).finalTree 1 =
        PyRet.ok T1 out1 ∧
      PyTree_neighbor_simple_search libcInt T1 1 = PyRet.ok T2 out2 ∧
      keys out1 = keys out2 ∧
      T2._neighbor_list = out2.reverse ∧ PyTree_neighbor_get_count T2 = out2.length)) :=
  ⟨by decide!,
    (C11_same_query_twice libcInt
      (loadedTree libcInt 2 1 (longMatrix 4 2 [0, 0, 0, 1, 1, 0, 1, 1])).finalTree
      (by decide!) 1 (by decide) (longVector [0, 0])).1,
    (C11_same_query_twice libcInt
      (loadedTree libcInt 2 1 (longMatrix 4 2 [0, 0, 0, 1, 1, 0, 1, 1])).finalTree
      (by decide!) 1 (by decide) (longVector [0, 0])).2.1,
    (C11_same_query_twice libcInt
      (loadedTree libcInt 2 1 (longMatrix 4 2 [0, 0, 0, 1, 1, 0, 1, 1])).finalTree
      (by decide!) 1 (by decide) (longVector [0, 0])).2.2.1⟩

/-! ### The tree that is built -/

/-- C13: for every tree state with `bucket_size >= 1` and a point store of `N` records,
`KDTree_build_tree(tree, 0, 0, 0)` returns; the store it leaves still has `N` records, the
`[start, end)` ranges of the leaves taken left before right lie end to end from 0 to `N`
(each starts where the one before ends), the root covers `[0, N)`, and the range of every
internal node is the range of its left child followed by the range of its right child. -/
theorem C13_build_partitions_store (libc : Libc α) (t : KDTree α) (hB : 0 < t._bucket_size) :
    ∃ (root : Node α) (store' : List (DataPoint α)),
      KDTree_build_tree libc t 0 0 0 = pure (root, { t with _data_point_list := store' }) ∧
      store'.length = t._data_point_list.length ∧
      Tiles root.leafRanges 0 t._data_point_list.length ∧
      root.start = 0 ∧ root.stop = t._data_point_list.length ∧ root.Splits := by
  rcases KDTree_build_tree_shape libc t hB with ⟨root, store', hrun, hperm, hinv, hs, he, _, _⟩
  have hlen := hperm.length_eq
  have htiles := Tiles_of_Inv store' t.dim root 0 hinv
  rw [hs, he, hlen] at htiles
  exact ⟨root, store', hrun, hlen, htiles, hs, by rw [he, hlen],
    Splits_of_Inv store' t.dim root 0 hinv⟩

/-- C13 at a concrete input: five points on a line with bucket size 2: the hypothesis
holds and the leaves cover `[0,2)`, `[2,3)`, `[3,5)`. -/
theorem C13_witness_five_points :
    (0 < (unbuilt 1 2 5 [4, 2, 0, 3, 1])._bucket_size ∧
      (KDTree_build_tree libcInt (unbuilt 1 2 5 [4, 2, 0, 3, 1]) 0 0 0).toOption.map
        (fun built => built.1.leafRanges) = some [(0, 2), (2, 3), (3, 5)]) ∧
    ∃ (root : Node ℤ) (store' : List (DataPoint ℤ)),
      KDTree_build_tree libcInt (unbuilt 1 2 5 [4, 2, 0, 3, 1]) 0 0 0 =
        pure (root, { unbuilt 1 2 5 [4, 2, 0, 3, 1] with _data_point_list := store' }) ∧
      store'.length = (unbuilt 1 2 5 [4, 2, 0, 3, 1])._data_point_list.length ∧
      Tiles root.leafRanges 0 (unbuilt 1 2 5 [4, 2, 0, 3, 1])._data_point_list.length ∧
      root.start = 0 ∧
      root.stop = (unbuilt 1 2 5 [4, 2, 0, 3, 1])._data_point_list.length ∧ root.Splits :=
  ⟨by decide!, C13_build_partitions_store libcInt (unbuilt 1 2 5 [4, 2, 0, 3, 1]) (by decide!)⟩

/-- C14: for every tree state with bucket size `B >= 1` and a point store of `N` records,
`KDTree_build_tree(tree, 0, 0, 0)` returns a tree in which every leaf has `end - start <= B`
and every internal node has `end - start > B`, so that a node is a leaf exactly when its
range has at most `B` points; in particular `Node_is_leaf(root)` is the truth of `N <= B`. -/
theorem C14_build_leaf_sizes (libc : Libc α) (t : KDTree α) (hB : 0 < t._bucket_size) :
    ∃ (root : Node α) (store' : List (DataPoint α)),
      KDTree_build_tree libc t 0 0 0 = pure (root, { t with _data_point_list := store' }) ∧
      root.Bucketed t._bucket_size ∧
      Node_is_leaf root = Except.ok (decide (t._data_point_list.length ≤ t._bucket_size)) := by
  rcases KDTree_build_tree_shape libc t hB with ⟨root, store', hrun, hperm, _, hs, he, _, hbk⟩
  refine ⟨root, store', hrun, hbk, ?_⟩
  have hlen := hperm.length_eq
  cases root with
  | NULL => exact absurd hbk (by simp [Node.Bucketed])
  | mk l r v d s e =>
    simp only [Node.start, Node.stop] at hs he
    subst hs
    rw [he, hlen] at hbk
    simp only [Node_is_leaf]
    simp only [Node.Bucketed] at hbk
    by_cases hleaf : (l.isNull && r.isNull) = true
    · rw [if_pos hleaf] at hbk
      rw [hleaf]
      simp only [Nat.sub_zero] at hbk
      simp [hbk]
    · rw [if_neg hleaf] at hbk
      have hlt : ¬ t._data_point_list.length ≤ t._bucket_size := by
        have := hbk.1
        omega
      simp only [Bool.not_eq_true] at hleaf
      rw [hleaf]
      simp [hlt]

/-- C14 at a concrete input: five points on a line with bucket size 2: the hypothesis
holds, the root is not a leaf, and the leaves hold 2, 1 and 2 points. -/
theorem C14_witness_five_points :
    (0 < (unbuilt 1 2 5 [9, 7, 5, 8, 6])._bucket_size ∧
      (KDTree_build_tree libcInt (unbuilt 1 2 5 [9, 7, 5, 8, 6]) 0 0 0).toOption.map
        (fun built => (Node_is_leaf built.1,
          built.1.leafRanges.map (fun range => range.2 - range.1))) =
        some (Except.ok false, [2, 1, 2])) ∧
    ∃ (root : Node ℤ) (store' : List (DataPoint ℤ)),
      KDTree_build_tree libcInt (unbuilt 1 2 5 [9, 7, 5, 8, 6]) 0 0 0 =
        pure (root, { unbuilt 1 2 5 [9, 7, 5, 8, 6] with _data_point_list := store' }) ∧
      root.Bucketed (unbuilt 1 2 5 [9, 7, 5, 8, 6])._bucket_size ∧
      Node_is_leaf root = Except.ok
        (decide ((unbuilt 1 2 5 [9, 7, 5, 8, 6])._data_point_list.length ≤
          (unbuilt 1 2 5 [9, 7, 5, 8, 6])._bucket_size)) :=
  ⟨by decide!, C14_build_leaf_sizes libcInt (unbuilt 1 2 5 [9, 7, 5, 8, 6]) (by decide!)⟩

/-! ### The sentinel `INF` -/

/-- C15: there are a point set with a coordinate outside `[-10^6, 10^6]`, a bucket size,
a center and a radius `r > 0` for which `search_center_radius` returns normally and its
`radius_list` has no entry for a point `i` within the radius: in two dimensions, the
points `(1500000, 0)` and `(1500001, 0)` with bucket size 1, center `(1500001, 0)` and
radius 1, where the point 1 is the center itself. -/
theorem C15_sentinel_drops_point :
    ∃ (k B n : Nat) (points center : Py_buffer ℤ) (r : ℤ) (i : Nat) (T : KDTree ℤ),
      0 < k ∧ 0 < B ∧ points.IsMatrix n k ∧ center.IsVector k ∧ 0 < r ∧
      ¬ InBox k n (COPY2DARRAY points n k) ∧
      searchSession libcInt (k : Int) (B : Int) points center r = PyRet.ok T () ∧
      i < n ∧ dist2To k (COPY2DARRAY points n k) (COPY1DARRAY center k) i ≤ r * r ∧
      ∀ entry ∈ T._radius_list, entry.index ≠ i :=
  ⟨2, 1, 2, longMatrix 2 2 [1500000, 0, 1500001, 0], longVector [1500001, 0], 1, 1,
    (searchSession libcInt 2 1 (longMatrix 2 2 [1500000, 0, 1500001, 0])
      (longVector [1500001, 0]) 1).finalTree, by decide!⟩

/-! ### Queries before `set_data` -/

/-- C16, for the query that does not touch the root: on a tree initialised with
`init(dim, bucket_size)` and not loaded, `all_pairs_sweep(r)` with `r > 0` returns normally
with an empty list, and `neighbor_count` is 0 (the module has no error for a query before
`set_data`). -/
theorem C16_sweep_before_set_data (libc : Libc α) (tree : KDTree α) (dim bucket_size : Int)
    (r : α) (hdim : 0 < dim) (hB : 0 < bucket_size) (hr : 0 < r) :
    ∃ T : KDTree α,
      (PyTree_init tree dim bucket_size).andThen
        (fun t => PyTree_neighbor_simple_search libc t r) = PyRet.ok T [] ∧
      PyTree_neighbor_get_count T = 0 ∧ T._neighbor_list = [] ∧ T._root = Node.NULL := by
  unfold PyTree_init
  rw [if_neg (by omega)]
  simp only [PyRet.andThen]
  unfold PyTree_neighbor_simple_search
  rw [if_neg (not_le.mpr hr),
    KDTree_neighbor_simple_search_spec libc _ r (le_of_lt hr) (by simp; omega) _ rfl]
  have hq : libc.qsort (compare 0) ([] : List (DataPoint α)) = [] :=
    List.Perm.eq_nil (libc.qsort_perm 0 [])
  simp only [hq, innerL, List.reverse_nil]
  exact ⟨_, rfl, rfl, rfl, rfl⟩

/-- C16 at a concrete input: `init(3, 1)` on a new object, then `all_pairs_sweep(1)`. -/
theorem C16_witness_new_object :
    ((0 : Int) < 3 ∧ (0 : Int) < 1 ∧ (0 : ℤ) < 1) ∧
    ∃ T : KDTree ℤ,
      (PyTree_init (KDTree.zero : KDTree ℤ) 3 1).andThen
        (fun t => PyTree_neighbor_simple_search libcInt t 1) = PyRet.ok T [] ∧
      PyTree_neighbor_get_count T = 0 ∧ T._neighbor_list = [] ∧ T._root = Node.NULL :=
  ⟨by decide,
    C16_sweep_before_set_data libcInt KDTree.zero 3 1 1 (by decide) (by decide) (by decide)⟩

/-- C16 fails as stated: after `init(3, 1)` on a new object and no `set_data`,
`all_pairs_sweep(1)` succeeds with an empty result, and `search_center_radius((0,0,0), 1)`
and `all_pairs(1)` dereference the null root. -/
theorem C16_counterexample_no_uninitialized_error :
    ((PyTree_init (KDTree.zero : KDTree ℤ) 3 1).andThen
        (fun t => PyTree_neighbor_simple_search libcInt t 1)).value? = some [] ∧
      (PyTree_init (KDTree.zero : KDTree ℤ) 3 1).andThen
        (fun t => PyTree_search_center_radius libcInt t (longVector [0, 0, 0]) 1) =
        PyRet.fault Fault.nullDeref ∧
      (PyTree_init (KDTree.zero : KDTree ℤ) 3 1).andThen
        (fun t => PyTree_neighbor_search libcInt t 1) = PyRet.fault Fault.nullDeref := by
  decide!

/-! ### Allocation failure during a pair query -/

/-- C17 fails as stated: on the tree of the points 0, 1, 2 (one leaf), when the second
`realloc` of the neighbor buffer fails, `all_pairs(1)` and `all_pairs_sweep(1)` raise
`MemoryError` and leave `neighbor_count = 1` with the pair `(0, 1)` in `neighbor_list`.
(When it is the first `realloc` that fails, `all_pairs(1)` raises `MemoryError` with an
empty buffer, and `all_pairs_sweep(1)` goes on with the next `i` and returns normally with
the pair `(1, 2)` alone.) -/
theorem C17_counterexample_no_rollback :
    (Oom.PyTree_neighbor_search libcInt
        (loadedTree libcInt 1 10 (longMatrix 3 1 [0, 1, 2])).finalTree 1
        [true, false]).raised?.map
      (fun e => (e.1, PyTree_neighbor_get_count e.2, e.2._neighbor_list)) =
      some (PyErr.MemoryError, 1, [⟨0, 1, 1⟩]) ∧
    (Oom.PyTree_neighbor_simple_search libcInt
        (loadedTree libcInt 1 10 (longMatrix 3 1 [0, 1, 2])).finalTree 1
        [true, false]).raised?.map
      (fun e => (e.1, PyTree_neighbor_get_count e.2, e.2._neighbor_list)) =
      some (PyErr.MemoryError, 1, [⟨0, 1, 1⟩]) ∧
    (Oom.PyTree_neighbor_search libcInt
        (loadedTree libcInt 1 10 (longMatrix 3 1 [0, 1, 2])).finalTree 1
        [false]).raised?.map
      (fun e => (e.1, PyTree_neighbor_get_count e.2, e.2._neighbor_list)) =
      some (PyErr.MemoryError, 0, []) ∧
    (Oom.PyTree_neighbor_simple_search libcInt
        (loadedTree libcInt 1 10 (longMatrix 3 1 [0, 1, 2])).finalTree 1
        [false]).value? = some [⟨1, 2, 1⟩] := by
  decide!

/-! ### `init` -/

/-- C18: `init(dim, bucket_size)` raises `ValueError`, leaving the object as it was, if and
only if `dim <= 0` or `bucket_size <= 0`; otherwise it returns normally and the tree is
fresh: it records `dim` and `bucket_size`, has no root, an empty point store, empty result
buffers, `count = 0` and `neighbor_count = 0` (the allocation of `_center_coord` is taken to
succeed). -/
theorem C18_init_validation (tree : KDTree α) (dim bucket_size : Int) :
    (PyTree_init tree dim bucket_size = PyRet.raise tree PyErr.ValueError ↔
      dim ≤ 0 ∨ bucket_size ≤ 0) ∧
    ((PyTree_init tree dim bucket_size).raised? = none ↔ 0 < dim ∧ 0 < bucket_size) ∧
    (0 < dim → 0 < bucket_size →
      ∃ T : KDTree α, PyTree_init tree dim bucket_size = PyRet.ok T () ∧
        (T.dim : Int) = dim ∧ (T._bucket_size : Int) = bucket_size ∧
        T._root = Node.NULL ∧ T._data_point_list = [] ∧
        T._radius_list = [] ∧ T._neighbor_list = [] ∧
        PyTree_get_count T = 0 ∧ PyTree_neighbor_get_count T = 0) := by
  unfold PyTree_init
  refine ⟨?_, ?_, ?_⟩
  · constructor
    · intro h
      by_contra hn
      rw [if_neg hn] at h
      cases h
    · intro h
      rw [if_pos h]
  · constructor
    · intro h
      by_contra hn
      rw [if_pos (by omega)] at h
      cases h
    · intro h
      rw [if_neg (by omega)]
      rfl
  · intro hd hb
    rw [if_neg (by omega)]
    exact ⟨_, rfl, Int.toNat_of_nonneg (le_of_lt hd), Int.toNat_of_nonneg (le_of_lt hb),
      rfl, rfl, rfl, rfl, rfl, rfl⟩

/-- C18 at concrete inputs: `init(3, 10)` on a new object succeeds, and `init(0, 10)` and
`init(3, -1)` raise `ValueError`. -/
theorem C18_witness_init :
    ((PyTree_init (KDTree.zero : KDTree ℤ) 3 10).tree?.map
        (fun T => (T.dim, T._bucket_size, T._root, T._data_point_list.length,
          PyTree_get_count T, PyTree_neighbor_get_count T)) =
        some (3, 10, Node.NULL, 0, 0, 0) ∧
      (PyTree_init (KDTree.zero : KDTree ℤ) 0 10).raised?.map Prod.fst =
        some PyErr.ValueError ∧
      (PyTree_init (KDTree.zero : KDTree ℤ) 3 (-1)).raised?.map Prod.fst =
        some PyErr.ValueError) ∧
    (PyTree_init (KDTree.zero : KDTree ℤ) 0 10 =
        PyRet.raise (KDTree.zero : KDTree ℤ) PyErr.ValueError ↔ (0 : Int) ≤ 0 ∨ (10 : Int) ≤ 0) :=
  ⟨by decide!, (C18_init_validation (KDTree.zero : KDTree ℤ) 0 10).1⟩

/-! ### Reading the radii -/

/-- C19 does not hold of the code: after a `search_center_radius` that found the two
points 0 and 3 around the center 0 (`count = 2`), `get_radii` on a one-dimensional array of
two C `float` raises `RuntimeError`, while on an array of two C `long` it returns normally,
having stored the radii 0 and 3 through its `float *`; `get_indices` on an array of C `long`
stores the indices 0 and 1. -/
theorem C19_get_radii_rejects_float :
    ((searchSession libcInt 1 10 (longMatrix 2 1 [0, 3]) (longVector [0]) 4).tree?.map
        PyTree_get_count = some 2) ∧
    ((searchSession libcInt 1 10 (longMatrix 2 1 [0, 3]) (longVector [0]) 4).andThen
        (fun tree => PyTree_get_radii tree (floatVector [0, 0]))).raised?.map Prod.fst =
      some PyErr.RuntimeError ∧
    ((searchSession libcInt 1 10 (longMatrix 2 1 [0, 3]) (longVector [0]) 4).andThen
        (fun tree => PyTree_get_radii tree (longVector [0, 0]))).value? = some [0, 3] ∧
    ((searchSession libcInt 1 10 (longMatrix 2 1 [0, 3]) (longVector [0]) 4).andThen
        (fun tree => PyTree_get_indices tree (longVector [7, 7, 7]))).value? =
      some [0, 1, 7] := by
  decide!

/-! ### The two result buffers -/

/-- C20: from every tree state, a `search_center_radius` that returns (normally or with an
exception) leaves `neighbor_list` and `neighbor_count` as they were, and an `all_pairs` or
an `all_pairs_sweep` that returns leaves `radius_list` and `count` as they were. A call
that does not return is a crash of the C code (a null dereference), never the model running
out of fuel. -/
theorem C20_result_buffers_independent (libc : Libc α) (t : KDTree α) :
    (∀ (center : Py_buffer α) (r : α) (T : KDTree α),
      (PyTree_search_center_radius libc t center r).state? = some T →
        T._neighbor_list = t._neighbor_list ∧
        PyTree_neighbor_get_count T = PyTree_neighbor_get_count t) ∧
    (∀ (r : α) (T : KDTree α), (PyTree_neighbor_search libc t r).state? = some T →
      T._radius_list = t._radius_list ∧ PyTree_get_count T = PyTree_get_count t) ∧
    (∀ (r : α) (T : KDTree α), (PyTree_neighbor_simple_search libc t r).state? = some T →
      T._radius_list = t._radius_list ∧ PyTree_get_count T = PyTree_get_count t) ∧
    (∀ (center : Py_buffer α) (r : α),
      PyTree_search_center_radius libc t center r ≠ PyRet.fault Fault.outOfFuel) ∧
    (∀ r : α, PyTree_neighbor_search libc t r ≠ PyRet.fault Fault.outOfFuel) :=
  ⟨fun center r T h => PyTree_search_center_radius_neighbors libc t T center r h,
    fun r T h => PyTree_neighbor_search_radii libc t T r h,
    fun r T h => PyTree_neighbor_simple_search_radii libc t T r h,
    fun center r => PyTree_search_center_radius_fuel libc t center r,
    fun r => PyTree_neighbor_search_fuel libc t r⟩

/-- C20 at a concrete input: on the tree of the corners of the unit square, after
`all_pairs(1)` found 4 pairs, `search_center_radius((0,0), 1)` finds 3 points and leaves
`neighbor_count = 4`; a following `all_pairs_sweep(2)` finds 6 pairs and leaves
`count = 3`. -/
theorem C20_witness_unit_square :
    (((pairsSession libcInt 2 1 (longMatrix 4 2 [0, 0, 0, 1, 1, 0, 1, 1]) 1).andThen
        (fun tree => PyTree_search_center_radius libcInt tree (longVector [0, 0]) 1)).tree?.map
        (fun T => (PyTree_get_count T, PyTree_neighbor_get_count T)) = some (3, 4) ∧
      (((pairsSession libcInt 2 1 (longMatrix 4 2 [0, 0, 0, 1, 1, 0, 1, 1]) 1).andThen
        (fun tree => PyTree_search_center_radius libcInt tree (longVector [0, 0]) 1)).andThen
        (fun tree => PyTree_neighbor_simple_search libcInt tree 2)).tree?.map
        (fun T => (PyTree_get_count T, PyTree_neighbor_get_count T)) = some (3, 6)) ∧
    (∀ (r : ℤ) (T : KDTree ℤ),
      (PyTree_neighbor_search libcInt
        (loadedTree libcInt 2 1 (longMatrix 4 2 [0, 0, 0, 1, 1, 0, 1, 1])).finalTree
        r).state? = some T →
      T._radius_list =
        (loadedTree libcInt 2 1 (longMatrix 4 2 [0, 0, 0, 1, 1, 0, 1, 1])).finalTree._radius_list ∧
      PyTree_get_count T = PyTree_get_count
        (loadedTree libcInt 2 1 (longMatrix 4 2 [0, 0, 0, 1, 1, 0, 1, 1])).finalTree) :=
  ⟨by decide!,
    (C20_result_buffers_independent libcInt
      (loadedTree libcInt 2 1 (longMatrix 4 2 [0, 0, 0, 1, 1, 0, 1, 1])).finalTree).2.1⟩

/-! ### The operations on regions -/

theorem map_idx_range (l : List α) : (List.range l.length).map (fun i => idx l i) = l := by
  apply List.ext_getElem
  · simp
  · intro i h1 h2
    simp only [List.length_map, List.length_range] at h1
    simp [idx, List.getD, List.getElem?_eq_getElem h1]

theorem Region_create_copy {dim : Nat} {R : Region α} (h : R.WF dim) :
    Region_create dim (some R._left) (some R._right) = R := by
  rcases h with ⟨hl, hr⟩
  cases R with
  | mk l r =>
    simp only at hl hr
    subst hl
    simp only [Region_create]
    rw [map_idx_range]
    have h2 := map_idx_range r
    rw [hr] at h2
    rw [h2]

theorem set_set_idx (l : List α) (d : Nat) (v : α) : (l.set d v).set d (idx l d) = l := by
  apply List.ext_getElem
  · simp
  · intro i h1 h2
    simp only [List.length_set] at h1
    by_cases hid : d = i
    · subst hid
      simp [idx, List.getD, List.getElem?_eq_getElem h1]
    · simp [List.getElem_set_ne hid]

theorem Region_create_intersect_left_snd (dim : Nat) (R : Region α) (v : α) (d : Nat) :
    (Region_create_intersect_left dim R v d).2 = R := by
  cases R with
  | mk l r =>
    simp only [Region_create_intersect_left]
    rw [set_set_idx]

theorem Region_create_intersect_right_snd (dim : Nat) (R : Region α) (v : α) (d : Nat) :
    (Region_create_intersect_right dim R v d).2 = R := by
  cases R with
  | mk l r =>
    simp only [Region_create_intersect_right]
    rw [set_set_idx]

theorem Region_create_intersect_left_fst {dim : Nat} {R : Region α} (h : R.WF dim) (v : α)
    (d : Nat) :
    (Region_create_intersect_left dim R v d).1 = { R with _right := R._right.set d v } := by
  have h2 : ({ R with _right := R._right.set d v } : Region α).WF dim := by
    rcases h with ⟨hl, hr⟩
    exact ⟨hl, by simp [hr]⟩
  exact Region_create_copy h2

theorem Region_create_intersect_right_fst {dim : Nat} {R : Region α} (h : R.WF dim) (v : α)
    (d : Nat) :
    (Region_create_intersect_right dim R v d).1 = { R with _left := R._left.set d v } := by
  have h2 : ({ R with _left := R._left.set d v } : Region α).WF dim := by
    rcases h with ⟨hl, hr⟩
    exact ⟨by simp [hl], hr⟩
  exact Region_create_copy h2

/-- The verdict of the loop of `Region_test_intersection` over any list of axes, started
with status 1 or 2. -/
theorem loop_char (A Q : Region α) (r : α) : ∀ (axes : List Nat) (s : Nat), s = 1 ∨ s = 2 →
    (Region_test_intersection.loop A Q r axes s = 0 ↔
      ∃ i ∈ axes, r < idx A._left i - idx Q._right i ∨ r < idx Q._left i - idx A._right i) ∧
    (Region_test_intersection.loop A Q r axes s = 2 ↔
      (¬ ∃ i ∈ axes, r < idx A._left i - idx Q._right i ∨ r < idx Q._left i - idx A._right i) ∧
      s = 2 ∧
      ∀ i ∈ axes, idx A._right i ≤ idx Q._right i ∧ idx Q._left i ≤ idx A._left i) ∧
    (Region_test_intersection.loop A Q r axes s = 0 ∨
      Region_test_intersection.loop A Q r axes s = 1 ∨
      Region_test_intersection.loop A Q r axes s = 2) := by
  intro axes
  induction axes with
  | nil =>
    intro s hs
    simp only [Region_test_intersection.loop]
    rcases hs with rfl | rfl <;> simp
  | cons i rest ih =>
    intro s hs
    have hs2 : (if s > 2 then 2 else s) = s := by
      rcases hs with rfl | rfl <;> simp
    simp only [Region_test_intersection.loop, hs2]
    by_cases h1 : idx A._left i - idx Q._right i > r
    · simp only [if_pos h1]
      refine ⟨⟨fun _ => ⟨i, List.mem_cons_self _ _, Or.inl h1⟩, fun _ => trivial⟩, ?_, Or.inl trivial⟩
      constructor
      · intro h; cases h
      · rintro ⟨hno, _⟩
        exact absurd ⟨i, List.mem_cons_self _ _, Or.inl h1⟩ hno
    · simp only [if_neg h1]
      by_cases h2 : idx Q._left i - idx A._right i > r
      · simp only [if_pos h2]
        refine ⟨⟨fun _ => ⟨i, List.mem_cons_self _ _, Or.inr h2⟩, fun _ => trivial⟩, ?_, Or.inl trivial⟩
        constructor
        · intro h; cases h
        · rintro ⟨hno, _⟩
          exact absurd ⟨i, List.mem_cons_self _ _, Or.inr h2⟩ hno
      · simp only [if_neg h2]
        have hgap : (∃ j ∈ i :: rest,
            r < idx A._left j - idx Q._right j ∨ r < idx Q._left j - idx A._right j) ↔
            ∃ j ∈ rest,
              r < idx A._left j - idx Q._right j ∨ r < idx Q._left j - idx A._right j := by
          constructor
          · rintro ⟨j, hj, hh⟩
            rcases List.mem_cons.mp hj with rfl | hj
            · rcases hh with hh | hh
              · exact absurd hh h1
              · exact absurd hh h2
            · exact ⟨j, hj, hh⟩
          · rintro ⟨j, hj, hh⟩
            exact ⟨j, List.mem_cons_of_mem _ hj, hh⟩
        by_cases h3 : idx A._right i ≤ idx Q._right i ∧ idx A._left i ≥ idx Q._left i
        · simp only [if_pos h3]
          rcases ih s hs with ⟨i0, i2, i3⟩
          refine ⟨by rw [i0, hgap], ?_, i3⟩
          rw [i2, hgap]
          constructor
          · rintro ⟨a, b, c⟩
            refine ⟨a, b, ?_⟩
            intro j hj
            rcases List.mem_cons.mp hj with rfl | hj
            · exact ⟨h3.1, h3.2⟩
            · exact c j hj
          · rintro ⟨a, b, c⟩
            exact ⟨a, b, fun j hj => c j (List.mem_cons_of_mem _ hj)⟩
        · simp only [if_neg h3]
          rcases ih 1 (Or.inl rfl) with ⟨i0, i2, i3⟩
          refine ⟨by rw [i0, hgap], ?_, i3⟩
          rw [i2]
          constructor
          · rintro ⟨_, b, _⟩
            cases b
          · rintro ⟨_, _, c⟩
            exact absurd (c i (List.mem_cons_self _ _)) (by
              intro hc
              exact h3 ⟨hc.1, hc.2⟩)

/-! ### The point query on any coordinates -/

theorem flatMap_sublist {β γ : Type} (l : List β) {f g : β → List γ}
    (h : ∀ x, (f x).Sublist (g x)) : (l.flatMap f).Sublist (l.flatMap g) := by
  induction l with
  | nil => exact List.Sublist.refl _
  | cons a rest ih =>
    simp only [List.flatMap_cons]
    exact List.Sublist.append (h a) ih

/-- Below a node that satisfies the invariant, whatever the coordinates and the region:
with enough fuel `KDTree_search` and `KDTree_test_region` return, and the entries they have
appended are entries owed for points of the subtree, in store order. -/
theorem search_sound (libc : Libc α) (Q : Region α) : ∀ fuel : Nat,
    (∀ (t : KDTree α) (region : Option (Region α)) (node : Node α) (depth : Nat)
        (node' : Node α) (R : Region α),
        (if depth = 0 then t._root else node) = node' →
        (if depth = 0 then some (Region_create t.dim none none) else region) = some R →
        2 * node'.height ≤ fuel + 1 →
        node'.Inv t._data_point_list t.dim depth → t._query_region = some Q →
        ∃ hits : List (Radius α),
          KDTree_search.go libc fuel t region node depth = pure (t.addRadii hits) ∧
          hits.Sublist ((node'.pts t._data_point_list).flatMap (fun p => rhit libc t p))) ∧
    (∀ (t : KDTree α) (node : Node α) (R : Region α) (depth : Nat),
        2 * node.height ≤ fuel →
        node.Inv t._data_point_list t.dim (depth + 1) → t._query_region = some Q →
        ∃ hits : List (Radius α),
          KDTree_test_region.go libc fuel t node R depth = pure (t.addRadii hits) ∧
          hits.Sublist ((node.pts t._data_point_list).flatMap (fun p => rhit libc t p))) := by
  intro fuel
  induction fuel with
  | zero =>
    constructor
    · intro t region node depth node' R _ _ hh hinv
      cases node' with
      | NULL => exact absurd hinv (by simp [Node.Inv])
      | mk l r v cd s e => simp only [Node.height] at hh; omega
    · intro t node R depth hh hinv
      cases node with
      | NULL => exact absurd hinv (by simp [Node.Inv])
      | mk l r v cd s e => simp only [Node.height] at hh; omega
  | succ fuel ih =>
    constructor
    · intro t region node depth node' R hnode hreg hh hinv hq
      rw [KDTree_search.go]
      simp only [hnode, hreg]
      cases node' with
      | NULL => exact absurd hinv (by simp [Node.Inv])
      | mk l r v cd s e =>
        simp only [Node.Inv] at hinv
        rcases hinv with ⟨hse, he, hleaf | hint⟩
        · rcases hleaf with ⟨rfl, rfl⟩
          simp only [Node.isNull, Bool.and_self, if_true, Node.pts]
          rw [loop_search_leaf libc e Q _ s t rfl he hq]
          refine ⟨_, rfl, flatMap_sublist _ ?_⟩
          intro p
          split_ifs
          · exact List.Sublist.refl _
          · exact List.nil_sublist _
        · rcases hint with ⟨hl, hr, h1, h2, h3, h4, h5, _, _⟩
          have hln := Inv_not_null hl
          simp only [hln, Bool.false_and, Bool.false_eq_true, if_false, deref_some, ok_bind,
            Node.pts]
          have hhl : 2 * l.height ≤ fuel := by simp only [Node.height] at hh; omega
          have hhr : 2 * r.height ≤ fuel := by simp only [Node.height] at hh; omega
          have hfin : ∀ hitsL hitsR : List (Radius α),
              hitsL.Sublist ((l.pts t._data_point_list).flatMap (fun p => rhit libc t p)) →
              hitsR.Sublist ((r.pts t._data_point_list).flatMap (fun p => rhit libc t p)) →
              (hitsL ++ hitsR).Sublist ((l.pts t._data_point_list ++
                r.pts t._data_point_list).flatMap (fun p => rhit libc t p)) := by
            intro hitsL hitsR hsubL hsubR
            rw [List.flatMap_append]
            exact List.Sublist.append hsubL hsubR
          cases hLc : left_child_region t.dim R v (depth % t.dim) with
          | none =>
            simp only [pure_bind]
            cases hRc : right_child_region t.dim R v (depth % t.dim) with
            | none =>
              simp only
              exact ⟨[], by simp, List.nil_sublist _⟩
            | some RR =>
              simp only
              rcases ih.2 t r RR depth hhr hr hq with ⟨hitsR, hR, hsubR⟩
              exact ⟨hitsR, hR, by simpa using hfin [] hitsR (List.nil_sublist _) hsubR⟩
          | some RL =>
            simp only
            rcases ih.2 t l RL depth hhl hl hq with ⟨hitsL, hL, hsubL⟩
            rw [hL]
            simp only [pure_bind, addRadii_dim]
            cases hRc : right_child_region t.dim R v (depth % t.dim) with
            | none =>
              simp only
              exact ⟨hitsL, rfl, by simpa using hfin hitsL [] hsubL (List.nil_sublist _)⟩
            | some RR =>
              simp only
              rcases ih.2 (t.addRadii hitsL) r RR depth hhr hr hq with ⟨hitsR, hR, hsubR⟩
              refine ⟨hitsL ++ hitsR, ?_, hfin hitsL hitsR hsubL hsubR⟩
              rw [hR, addRadii_addRadii]
    · intro t node R depth hh hinv hq
      rw [KDTree_test_region.go]
      rw [hq, deref_some]
      simp only [ok_bind]
      rcases Region_test_intersection_cases t.dim R Q 0 with h0 | h1 | h2
      · simp only [h0]
        exact ⟨[], by simp, List.nil_sublist _⟩
      · simp only [h1]
        simp only [OfNat.ofNat_ne_one, if_false, if_true]
        exact ih.1 t (some R) node (depth + 1) node R (by simp) (by simp) (by omega) hinv hq
      · simp only [h2, if_true]
        exact ⟨_, KDTree_report_subtree_eq libc node _ t hinv, List.Sublist.refl _⟩

/-- On a tree that satisfies the invariant, whatever its coordinates, the point query
returns, and its entries are entries owed for points of the store, in store order. -/
theorem search_loaded_sound (libc : Libc α) (T : KDTree α)
    (hinv : T._root.Inv T._data_point_list T.dim 0)
    (cview : Py_buffer α) (hnd : cview.ndim = 1) (hnum : numerical cview.datatype = true)
    (r : α) (hr : 0 < r) :
    ∃ T' : KDTree α, PyTree_search_center_radius libc T cview r = PyRet.ok T' () ∧
      T'._radius_list.Sublist ((T._root.pts T._data_point_list).flatMap (fun p =>
        if KDTree_dist (COPY1DARRAY cview (cview.shape.getD 0 0)) p._coord T.dim ≤ r * r then
          [{ index := p._index,
             value := libc.sqrt
               (KDTree_dist (COPY1DARRAY cview (cview.shape.getD 0 0)) p._coord T.dim) }]
        else [])) ∧
      T'._count = T'._radius_list.length := by
  unfold PyTree_search_center_radius
  rw [if_neg (not_le.mpr hr)]
  simp only [hnd, ne_eq, not_true_eq_false, if_false, hnum, Bool.not_true, Bool.false_eq_true]
  generalize hc : COPY1DARRAY cview (cview.shape.getD 0 0) = c
  generalize ht2 : ({ T with
      _radius_list := [],
      _count := 0,
      _radius := r,
      _radius_sq := r * r,
      _center_coord := (List.range T.dim).map (fun i => idx c i) ++ T._center_coord.drop T.dim,
      _query_region := some (Region_create T.dim
        (some ((List.range T.dim).map (fun i => idx c i - r)))
        (some ((List.range T.dim).map (fun i => idx c i + r)))) } : KDTree α) = t2
  have hst : t2._data_point_list = T._data_point_list := by rw [← ht2]
  have hd : t2.dim = T.dim := by rw [← ht2]
  have hrt : t2._root = T._root := by rw [← ht2]
  have hcen : ∀ i, i < T.dim → idx t2._center_coord i = idx c i := by
    intro i hi
    rw [← ht2]
    simp only
    rw [idx_append_left _ _ (by simpa using hi), idx_map_range _ hi]
  rcases (search_sound libc _ (2 * T._root.height + 2)).1 t2 none Node.NULL 0 T._root
    (Region_create T.dim none none) (by simp [hrt]) (by simp [hd]) (by omega)
    (by rw [hst, hd]; exact hinv) (by rw [← ht2]) with ⟨hits, hgo, hsub⟩
  unfold KDTree_search
  simp only [if_true, hrt]
  rw [hgo]
  have h1 : t2._radius_list = [] := by rw [← ht2]
  have h2 : t2._count = 0 := by rw [← ht2]
  refine ⟨_, rfl, ?_, ?_⟩
  · simp only [KDTree.addRadii, h1, List.nil_append]
    have heq : (T._root.pts T._data_point_list).flatMap (fun p =>
        if KDTree_dist c p._coord T.dim ≤ r * r then
          [{ index := p._index, value := libc.sqrt (KDTree_dist c p._coord T.dim) }]
        else []) =
        (T._root.pts t2._data_point_list).flatMap (fun p => rhit libc t2 p) := by
      rw [hst]
      apply flatMap_congr_mem
      intro p _
      unfold rhit
      have hdist : KDTree_dist t2._center_coord p._coord t2.dim =
          KDTree_dist c p._coord T.dim := by
        rw [hd]
        exact KDTree_dist_congr hcen (fun _ _ => rfl)
      have hsq : t2._radius_sq = r * r := by rw [← ht2]
      rw [hdist, hsq]
    rw [heq]
    exact hsub
  · simp [KDTree.addRadii, h1, h2]

theorem map_index_bruteRadii (libc : Libc α) (dim n : Nat) (coords c : List α) (r : α) :
    (bruteRadii libc dim n coords c r).map (fun e => e.index) =
      (List.range n).filter (fun i => decide (dist2To dim coords c i ≤ r * r)) := by
  unfold bruteRadii
  induction List.range n with
  | nil => rfl
  | cons a rest ih =>
    simp only [List.flatMap_cons, List.map_append, ih, List.filter_cons]
    by_cases h : dist2To dim coords c a ≤ r * r
    · simp [h]
    · simp [h]

theorem mem_bruteRadii (libc : Libc α) (dim n : Nat) (coords c : List α) (r : α)
    (e : Radius α) :
    e ∈ bruteRadii libc dim n coords c r ↔
      e.index < n ∧ dist2To dim coords c e.index ≤ r * r ∧
        e.value = libc.sqrt (dist2To dim coords c e.index) := by
  unfold bruteRadii
  rw [List.mem_flatMap]
  constructor
  · rintro ⟨i, hi, he⟩
    by_cases h : dist2To dim coords c i ≤ r * r
    · rw [if_pos h, List.mem_singleton] at he
      subst he
      exact ⟨List.mem_range.mp hi, h, rfl⟩
    · rw [if_neg h] at he
      cases he
  · rintro ⟨hi, hd, hv⟩
    refine ⟨e.index, List.mem_range.mpr hi, ?_⟩
    rw [if_pos hd, List.mem_singleton]
    cases e
    simp only at hv
    rw [hv]

/-- The point-query session on any coordinates returns, and its entries are among those of
the brute-force list. -/
theorem search_session_sound (libc : Libc α) (k B n : Nat) (hk : 0 < k) (hB : 0 < B)
    (points : Py_buffer α) (hpoints : points.IsMatrix n k)
    (center : Py_buffer α) (hcenter : center.IsVector k) (r : α) (hr : 0 < r) :
    ∃ T : KDTree α,
      searchSession libc (k : Int) (B : Int) points center r = PyRet.ok T () ∧
      T._radius_list.Subperm
        (bruteRadii libc k n (COPY2DARRAY points n k) (COPY1DARRAY center k) r) ∧
      T._count = T._radius_list.length := by
  rcases loadedTree_spec libc k B hk hB points hpoints.1 hpoints.2.2.1 with
    ⟨T, hT, hdim, _, hperm, hinv, hpts, _⟩
  unfold searchSession
  rw [hT]
  simp only [PyRet.andThen]
  rcases search_loaded_sound libc T (by rw [hdim]; exact hinv) center hcenter.1
    hcenter.2.2.1 r hr with ⟨T', hT', hsub, hcount⟩
  refine ⟨T', hT', ?_, hcount⟩
  rw [IsMatrix.rows hpoints, IsMatrix.cols hpoints] at hperm
  rw [IsVector.size hcenter, hpts, hdim] at hsub
  refine hsub.subperm.trans (List.Perm.subperm ?_)
  unfold bruteRadii dist2To
  refine (hperm.flatMap_right _).trans ?_
  rw [flatMap_loaded]

/-- Every entry of a list that is among the entries owed for the loaded points is a
qualifying pair with the square root of its squared distance. -/
theorem sound_of_keys_le (libc : Libc α) (t : KDTree α) (coords : List α) (n : Nat) (r : α)
    (hr : t._neighbor_radius_sq = r * r) {out : List (Neighbor α)}
    (h : keys out ≤ keys (innerL libc t (loaded t.dim n coords))) :
    ∀ x ∈ out, Qualifies t.dim n coords r x.index1 x.index2 ∧
      x.radius = libc.sqrt (dist2 t.dim coords x.index1 x.index2) := by
  intro x hx
  have h1 : nkey x ∈ keys out := by
    unfold keys
    exact Multiset.mem_coe.mpr (List.mem_map.mpr ⟨x, hx, rfl⟩)
  rcases (mem_keys_brute libc t coords n _).mp (Multiset.mem_of_le h h1) with
    ⟨i, j, hij, hj, hd, he⟩
  have h2 : s(x.index1, x.index2) = s(i, j) := congrArg Prod.fst he
  have h3 : x.radius = libc.sqrt (dist2 t.dim coords i j) := congrArg Prod.snd he
  rw [hr] at hd
  rcases Sym2.eq_iff.mp h2 with ⟨h4, h5⟩ | ⟨h4, h5⟩
  · rw [h4, h5]
    exact ⟨⟨by omega, hj, by omega, hd⟩, h3⟩
  · rw [h4, h5]
    refine ⟨⟨hj, by omega, by omega, by rw [dist2_comm]; exact hd⟩, ?_⟩
    rw [dist2_comm]
    exact h3

/-! ### The child regions -/

theorem left_child_region_eq {dim : Nat} {R : Region α} (hR : R.WF dim) (v : α) (d : Nat) :
    left_child_region dim R v d =
      if v < idx R._left d then none
      else if v < idx R._right d then some { R with _right := R._right.set d v }
      else some R := by
  unfold left_child_region Region_test_intersect_left
  simp only
  by_cases h1 : v < idx R._left d
  · simp [h1]
  · by_cases h2 : v < idx R._right d
    · simp [h1, h2, Region_create_intersect_left_fst hR]
    · simp [h1, h2, Region_create_copy hR]

theorem right_child_region_eq {dim : Nat} {R : Region α} (hR : R.WF dim) (v : α) (d : Nat) :
    right_child_region dim R v d =
      if v ≤ idx R._left d then some R
      else if v ≤ idx R._right d then some { R with _left := R._left.set d v }
      else none := by
  unfold right_child_region Region_test_intersect_right
  simp only
  by_cases h1 : v ≤ idx R._left d
  · simp [h1, Region_create_copy hR]
  · by_cases h2 : v ≤ idx R._right d
    · simp [h1, h2, Region_create_intersect_right_fst hR]
    · simp [h1, h2]

theorem Encloses_left_bound {dim : Nat} {R : Region α}
    (h : ∀ i, i < dim → idx R._left i ≤ idx R._right i) : Encloses dim R R._left :=
  fun i hi => ⟨le_refl _, h i hi⟩

theorem Encloses_right_bound {dim : Nat} {R : Region α}
    (h : ∀ i, i < dim → idx R._left i ≤ idx R._right i) : Encloses dim R R._right :=
  fun i hi => ⟨h i hi, le_refl _⟩

theorem Qualifies.symm {dim n : Nat} {coords : List α} {r : α} {i j : Nat}
    (h : Qualifies dim n coords r i j) : Qualifies dim n coords r j i :=
  ⟨h.2.1, h.1, fun e => h.2.2.1 e.symm, by rw [dist2_comm]; exact h.2.2.2⟩

/-- The verdict of the loop of `Region_test_intersection` depends only on which axes are
examined, not on their order. -/
theorem loop_congr_mem (A Q : Region α) (r : α) {a b : List Nat}
    (h : ∀ i, i ∈ a ↔ i ∈ b) :
    Region_test_intersection.loop A Q r a 2 = Region_test_intersection.loop A Q r b 2 := by
  rcases loop_char A Q r a 2 (Or.inr rfl) with ⟨a0, a2, a3⟩
  rcases loop_char A Q r b 2 (Or.inr rfl) with ⟨b0, b2, b3⟩
  have h0 : Region_test_intersection.loop A Q r a 2 = 0 ↔
      Region_test_intersection.loop A Q r b 2 = 0 := by
    rw [a0, b0]
    constructor
    · rintro ⟨i, hi, hh⟩
      exact ⟨i, (h i).mp hi, hh⟩
    · rintro ⟨i, hi, hh⟩
      exact ⟨i, (h i).mpr hi, hh⟩
  have h2 : Region_test_intersection.loop A Q r a 2 = 2 ↔
      Region_test_intersection.loop A Q r b 2 = 2 := by
    rw [a2, b2]
    constructor
    · rintro ⟨hno, _, hall⟩
      refine ⟨?_, rfl, fun i hi => hall i ((h i).mpr hi)⟩
      rintro ⟨i, hi, hh⟩
      exact hno ⟨i, (h i).mpr hi, hh⟩
    · rintro ⟨hno, _, hall⟩
      refine ⟨?_, rfl, fun i hi => hall i ((h i).mp hi)⟩
      rintro ⟨i, hi, hh⟩
      exact hno ⟨i, (h i).mp hi, hh⟩
  rcases a3 with ha | ha | ha
  · rw [ha, h0.mp ha]
  · rcases b3 with hb | hb | hb
    · rw [h0.mpr hb] at ha
      cases ha
    · rw [ha, hb]
    · rw [h2.mpr hb] at ha
      cases ha
  · rw [ha, h2.mp ha]

/-! ### Regions -/

/-- C22: for every region, dimension `k` and point, `Region_encloses` returns 1 if and only
if `lo[i] <= p[i] <= ri[i]` on every axis `i < k`, both bounds inclusive; it returns 0 if
and only if on some axis the coordinate is below the left bound or above the right one. -/
theorem C22_encloses_iff_within_bounds (k : Nat) (region : Region α) (coord : List α) :
    (Region_encloses k region coord = true ↔
      ∀ i, i < k → idx region._left i ≤ idx coord i ∧ idx coord i ≤ idx region._right i) ∧
    (Region_encloses k region coord = false ↔
      ∃ i, i < k ∧ (idx coord i < idx region._left i ∨ idx region._right i < idx coord i)) := by
  have h := Region_encloses_iff k region coord
  unfold Encloses at h
  refine ⟨h, ?_⟩
  rw [← Bool.not_eq_true, h]
  constructor
  · intro hn
    by_contra hex
    apply hn
    intro i hi
    constructor
    · by_contra hlt
      exact hex ⟨i, hi, Or.inl (not_le.mp hlt)⟩
    · by_contra hlt
      exact hex ⟨i, hi, Or.inr (not_le.mp hlt)⟩
  · rintro ⟨i, hi, hh⟩ hall
    rcases hh with hh | hh
    · exact absurd (hall i hi).1 (not_le.mpr hh)
    · exact absurd (hall i hi).2 (not_le.mpr hh)

/-- C23: for every region, axis `d` and value `v`, `Region_test_intersect_left` is -1 exactly
when `v < lo[d]`, 0 exactly when `lo[d] <= v < ri[d]`, and +1 exactly otherwise (when
`lo[d] <= v` and `ri[d] <= v`); `Region_test_intersect_right` is -1 exactly when
`v <= lo[d]`, 0 exactly when `lo[d] < v <= ri[d]`, and +1 exactly otherwise (when
`lo[d] < v` and `ri[d] < v`). -/
theorem C23_classify_left_right (region : Region α) (v : α) (d : Nat) :
    (Region_test_intersect_left region v d = -1 ↔ v < idx region._left d) ∧
    (Region_test_intersect_left region v d = 0 ↔
      idx region._left d ≤ v ∧ v < idx region._right d) ∧
    (Region_test_intersect_left region v d = 1 ↔
      idx region._left d ≤ v ∧ idx region._right d ≤ v) ∧
    (Region_test_intersect_right region v d = -1 ↔ v ≤ idx region._left d) ∧
    (Region_test_intersect_right region v d = 0 ↔
      idx region._left d < v ∧ v ≤ idx region._right d) ∧
    (Region_test_intersect_right region v d = 1 ↔
      idx region._left d < v ∧ idx region._right d < v) := by
  unfold Region_test_intersect_left Region_test_intersect_right
  simp only
  refine ⟨?_, ?_, ?_, ?_, ?_, ?_⟩
  · by_cases h1 : v < idx region._left d
    · simp [h1]
    · by_cases h2 : v < idx region._right d
      · simp [h1, h2]
      · simp [h1, h2]
  · by_cases h1 : v < idx region._left d
    · simp [h1]
    · by_cases h2 : v < idx region._right d
      · simp [h1, h2, not_lt.mp h1]
      · simp [h1, h2]
  · by_cases h1 : v < idx region._left d
    · simp [h1]
    · by_cases h2 : v < idx region._right d
      · simp [h1, h2]
      · simp [h1, h2, not_lt.mp h1, not_lt.mp h2]
  · by_cases h1 : v ≤ idx region._left d
    · simp [h1]
    · by_cases h2 : v ≤ idx region._right d
      · simp [h1, h2]
      · simp [h1, h2]
  · by_cases h1 : v ≤ idx region._left d
    · simp [h1]
    · by_cases h2 : v ≤ idx region._right d
      · simp [h1, h2, not_le.mp h1]
      · simp [h1, h2]
  · by_cases h1 : v ≤ idx region._left d
    · simp [h1]
    · by_cases h2 : v ≤ idx region._right d
      · simp [h1, h2]
      · simp [h1, h2, not_le.mp h1, not_le.mp h2]

/-- C24: for every two regions, dimension `k` and margin `r`, `Region_test_intersection`
returns 0 if and only if on some axis `i < k` the gap
`max(lo_this[i] - ri_query[i], lo_query[i] - ri_this[i])` exceeds `r`; it returns 2 if and
only if no axis has such a gap and on every axis `ri_this[i] <= ri_query[i]` and
`lo_this[i] >= lo_query[i]`; it returns 1 if and only if no axis has such a gap and some
axis is not contained. The loop of the function run over the axes in any other order gives
the same verdict. -/
theorem C24_intersect_with_margin (k : Nat) (this_region query_region : Region α) (r : α) :
    (Region_test_intersection k this_region query_region r = 0 ↔
      ∃ i, i < k ∧ r < max (idx this_region._left i - idx query_region._right i)
        (idx query_region._left i - idx this_region._right i)) ∧
    (Region_test_intersection k this_region query_region r = 2 ↔
      (¬ ∃ i, i < k ∧ r < max (idx this_region._left i - idx query_region._right i)
        (idx query_region._left i - idx this_region._right i)) ∧
      ∀ i, i < k → idx this_region._right i ≤ idx query_region._right i ∧
        idx this_region._left i ≥ idx query_region._left i) ∧
    (Region_test_intersection k this_region query_region r = 1 ↔
      (¬ ∃ i, i < k ∧ r < max (idx this_region._left i - idx query_region._right i)
        (idx query_region._left i - idx this_region._right i)) ∧
      ¬ ∀ i, i < k → idx this_region._right i ≤ idx query_region._right i ∧
        idx this_region._left i ≥ idx query_region._left i) ∧
    (∀ axes : List Nat, axes.Perm (List.range k) →
      Region_test_intersection.loop this_region query_region r axes 2 =
        Region_test_intersection k this_region query_region r) := by
  rcases loop_char this_region query_region r (List.range k) 2 (Or.inr rfl) with ⟨h0, h2, h3⟩
  have hgap : (∃ i ∈ List.range k, r < idx this_region._left i - idx query_region._right i ∨
        r < idx query_region._left i - idx this_region._right i) ↔
      ∃ i, i < k ∧ r < max (idx this_region._left i - idx query_region._right i)
        (idx query_region._left i - idx this_region._right i) := by
    constructor
    · rintro ⟨i, hi, hh⟩
      exact ⟨i, List.mem_range.mp hi, lt_max_iff.mpr hh⟩
    · rintro ⟨i, hi, hh⟩
      exact ⟨i, List.mem_range.mpr hi, lt_max_iff.mp hh⟩
  have hin : (∀ i ∈ List.range k, idx this_region._right i ≤ idx query_region._right i ∧
        idx query_region._left i ≤ idx this_region._left i) ↔
      ∀ i, i < k → idx this_region._right i ≤ idx query_region._right i ∧
        idx this_region._left i ≥ idx query_region._left i := by
    constructor
    · intro h i hi
      exact h i (List.mem_range.mpr hi)
    · intro h i hi
      exact h i (List.mem_range.mp hi)
  rw [hgap] at h0 h2
  rw [hin] at h2
  have h2' : Region_test_intersection k this_region query_region r = 2 ↔
      (¬ ∃ i, i < k ∧ r < max (idx this_region._left i - idx query_region._right i)
        (idx query_region._left i - idx this_region._right i)) ∧
      ∀ i, i < k → idx this_region._right i ≤ idx query_region._right i ∧
        idx this_region._left i ≥ idx query_region._left i := by
    unfold Region_test_intersection
    rw [h2]
    constructor
    · rintro ⟨a, _, c⟩
      exact ⟨a, c⟩
    · rintro ⟨a, c⟩
      exact ⟨a, rfl, c⟩
  refine ⟨h0, h2', ?_, ?_⟩
  · constructor
    · intro h1
      constructor
      · intro hex
        have := h0.mpr hex
        unfold Region_test_intersection at h1
        rw [h1] at this
        cases this
      · intro hall
        by_cases hex : ∃ i, i < k ∧ r < max (idx this_region._left i - idx query_region._right i)
            (idx query_region._left i - idx this_region._right i)
        · have := h0.mpr hex
          unfold Region_test_intersection at h1
          rw [h1] at this
          cases this
        · have := h2'.mpr ⟨hex, hall⟩
          rw [h1] at this
          cases this
    · rintro ⟨hno, hnall⟩
      rcases h3 with h | h | h
      · exact absurd (h0.mp h) hno
      · exact h
      · exact absurd (h2'.mp h).2 hnall
  · intro axes hperm
    exact loop_congr_mem this_region query_region r (fun i => hperm.mem_iff)

/-- C25: for every region `R` of dimension `k`, axis `d < k` and value `v`,
`Region_create_intersect_left` returns a new region of dimension `k` with the left bounds of
`R` and the right bounds of `R` except `ri[d] = v`, `Region_create_intersect_right` returns a
new region with the right bounds of `R` and the left bounds of `R` except `lo[d] = v`, and
after either call `R` has exactly the bounds it had before (the bound written for the copy
is written back). -/
theorem C25_split_is_pure (k : Nat) (R : Region α) (hR : R.WF k) (d : Nat) (hd : d < k)
    (v : α) :
    ((Region_create_intersect_left k R v d).1.WF k ∧
      (Region_create_intersect_left k R v d).1._left = R._left ∧
      idx (Region_create_intersect_left k R v d).1._right d = v ∧
      (∀ i, i ≠ d → idx (Region_create_intersect_left k R v d).1._right i = idx R._right i) ∧
      (Region_create_intersect_left k R v d).2 = R) ∧
    ((Region_create_intersect_right k R v d).1.WF k ∧
      (Region_create_intersect_right k R v d).1._right = R._right ∧
      idx (Region_create_intersect_right k R v d).1._left d = v ∧
      (∀ i, i ≠ d → idx (Region_create_intersect_right k R v d).1._left i = idx R._left i) ∧
      (Region_create_intersect_right k R v d).2 = R) := by
  rw [Region_create_intersect_left_fst hR, Region_create_intersect_right_fst hR,
    Region_create_intersect_left_snd, Region_create_intersect_right_snd]
  rcases hR with ⟨hl, hr⟩
  refine ⟨⟨⟨hl, by simp [hr]⟩, rfl, ?_, ?_, rfl⟩, ⟨by simp [hl], hr⟩, rfl, ?_, ?_, rfl⟩
  · exact idx_set_self _ _ _ (by rw [hr]; exact hd)
  · intro i hi
    exact idx_set_ne _ _ (fun e => hi e.symm)
  · exact idx_set_self _ _ _ (by rw [hl]; exact hd)
  · intro i hi
    exact idx_set_ne _ _ (fun e => hi e.symm)

/-- C25 at a concrete input: the square from `(0, 0)` to `(4, 4)`, axis 0 and value 2: the
hypotheses hold, the left split is the box from `(0, 0)` to `(2, 4)`, the right split the
box from `(2, 0)` to `(4, 4)`, and the square is unchanged. -/
theorem C25_witness_square :
    ((({ _left := [0, 0], _right := [4, 4] } : Region ℤ).WF 2 ∧ 0 < 2) ∧
      Region_create_intersect_left 2 ({ _left := [0, 0], _right := [4, 4] } : Region ℤ) 2 0 =
        ({ _left := [0, 0], _right := [2, 4] }, { _left := [0, 0], _right := [4, 4] }) ∧
      Region_create_intersect_right 2 ({ _left := [0, 0], _right := [4, 4] } : Region ℤ) 2 0 =
        ({ _left := [2, 0], _right := [4, 4] }, { _left := [0, 0], _right := [4, 4] })) ∧
    (Region_create_intersect_left 2 ({ _left := [0, 0], _right := [4, 4] } : Region ℤ)
        2 0).2 = { _left := [0, 0], _right := [4, 4] } ∧
    (Region_create_intersect_right 2 ({ _left := [0, 0], _right := [4, 4] } : Region ℤ)
        2 0).2 = { _left := [0, 0], _right := [4, 4] } :=
  ⟨⟨⟨⟨rfl, rfl⟩, by decide⟩, by decide, by decide⟩,
    (C25_split_is_pure 2 ({ _left := [0, 0], _right := [4, 4] } : Region ℤ) ⟨rfl, rfl⟩ 0
      (by decide) 2).1.2.2.2.2,
    (C25_split_is_pure 2 ({ _left := [0, 0], _right := [4, 4] } : Region ℤ) ⟨rfl, rfl⟩ 0
      (by decide) 2).2.2.2.2.2⟩

/-- C29: for every two regions, dimension `k` and margin `r >= 0`: if a point enclosed by
the first region and a point enclosed by the second are at squared distance at most `r*r`
(Euclidean distance at most `r`), `Region_test_intersection` does not return 0; and if it
returns 2, every point enclosed by the first region is enclosed by the second. -/
theorem C29_margin_pruning_sound (k : Nat) (this_region query_region : Region α) (r : α)
    (hr : 0 ≤ r) :
    (∀ p q : List α, Region_encloses k this_region p = true →
      Region_encloses k query_region q = true →
      ((List.range k).map (fun i => (idx p i - idx q i) * (idx p i - idx q i))).sum ≤ r * r →
      Region_test_intersection k this_region query_region r ≠ 0) ∧
    (Region_test_intersection k this_region query_region r = 2 →
      ∀ p : List α, Region_encloses k this_region p = true →
        Region_encloses k query_region p = true) := by
  constructor
  · intro p q hp hq hdist h0
    rw [Region_encloses_iff] at hp hq
    rw [← KDTree_dist_eq_sum] at hdist
    rcases Region_test_intersection_zero h0 with ⟨i, hi, hh | hh⟩
    · refine KDTree_dist_far p q hi hr (Or.inl ?_) hdist
      have h1 := (hp i hi).1
      have h2 := (hq i hi).2
      linarith
    · refine KDTree_dist_far p q hi hr (Or.inr ?_) hdist
      have h1 := (hp i hi).2
      have h2 := (hq i hi).1
      linarith
  · intro h2 p hp
    rw [Region_encloses_iff] at hp ⊢
    unfold Region_test_intersection at h2
    have hall := ((loop_char this_region query_region r (List.range k) 2
      (Or.inr rfl)).2.1.mp h2).2.2
    intro i hi
    have h := hall i (List.mem_range.mpr hi)
    exact ⟨le_trans h.2 (hp i hi).1, le_trans (hp i hi).2 h.1⟩

/-- C29 at a concrete input: on a line, the intervals `[0, 1]` and `[2, 3]` with margin 1:
the hypothesis holds, the points 1 and 2 are at distance 1, and the verdict is 1, not 0;
with margin 0 the verdict is 0. -/
theorem C29_witness_two_intervals :
    ((0 : ℤ) ≤ 1 ∧
      Region_test_intersection 1 ({ _left := [0], _right := [1] } : Region ℤ)
        { _left := [2], _right := [3] } 1 = 1 ∧
      Region_test_intersection 1 ({ _left := [0], _right := [1] } : Region ℤ)
        { _left := [2], _right := [3] } 0 = 0) ∧
    Region_test_intersection 1 ({ _left := [0], _right := [1] } : Region ℤ)
      { _left := [2], _right := [3] } 1 ≠ 0 :=
  ⟨by decide,
    (C29_margin_pruning_sound 1 ({ _left := [0], _right := [1] } : Region ℤ)
      { _left := [2], _right := [3] } 1 (by decide)).1 [1] [2] (by decide) (by decide)
      (by decide)⟩

/-- C21: for every dimension `k >= 1`, bucket size `B >= 1` and `0 x k` point array,
`init(k, B); set_data(points)` returns and builds a tree whose root is a single leaf with
range `[0, 0)` over an empty point store; on it, for every `r > 0` and center, `all_pairs(r)`
returns the empty list with `neighbor_count = 0`, a following `search_center_radius`
returns with `count = 0` and an empty `radius_list`, and so does `search_center_radius`
right after `set_data`. No exception is raised. -/
theorem C21_empty_point_set (libc : Libc α) (k B : Nat) (hk : 0 < k) (hB : 0 < B)
    (points : Py_buffer α) (hpoints : points.IsMatrix 0 k)
    (center : Py_buffer α) (hcenter : center.IsVector k) (r : α) (hr : 0 < r) :
    ∃ T : KDTree α,
      loadedTree libc (k : Int) (B : Int) points = PyRet.ok T () ∧
      T._root = Node.mk Node.NULL Node.NULL (-1) 0 0 0 ∧ T._data_point_list = [] ∧
      (∃ T1 : KDTree α, PyTree_neighbor_search libc T r = PyRet.ok T1 [] ∧
        PyTree_neighbor_get_count T1 = 0 ∧ T1._neighbor_list = [] ∧
        ∃ T2 : KDTree α, PyTree_search_center_radius libc T1 center r = PyRet.ok T2 () ∧
          PyTree_get_count T2 = 0 ∧ T2._radius_list = [] ∧
          PyTree_neighbor_get_count T2 = 0) ∧
      (∃ T2 : KDTree α, PyTree_search_center_radius libc T center r = PyRet.ok T2 () ∧
        PyTree_get_count T2 = 0 ∧ T2._radius_list = [] ∧
        PyTree_neighbor_get_count T2 = 0) := by
  rcases hpoints with ⟨hnd, hshape, hnum, hlen⟩
  rcases hcenter with ⟨hcnd, hcshape, hcnum, hclen⟩
  unfold loadedTree
  rw [PyTree_init_ok _ k B hk hB]
  simp only [PyRet.andThen]
  unfold PyTree_set_data
  simp only [hnd, ne_eq, not_true_eq_false, if_false, hnum, Bool.not_true, Bool.false_eq_true,
    hshape, List.getD_cons_zero, List.range_zero, List.foldl_nil]
  unfold KDTree_build_tree
  simp only [KDTree.zero, List.length_nil, Nat.zero_add, KDTree_build_tree.go, if_true,
    Nat.sub_self, Nat.zero_le, Node_create]
  have hpairs : ∀ T : KDTree α, T._root = Node.mk Node.NULL Node.NULL (-1) 0 0 0 →
      PyTree_neighbor_search libc T r = PyRet.ok
        { T with
          _neighbor_list := [],
          _neighbor_count := 0,
          _neighbor_radius := r,
          _neighbor_radius_sq := r * r } [] := by
    intro T hroot
    unfold PyTree_neighbor_search
    rw [if_neg (not_le.mpr hr)]
    unfold KDTree_neighbor_search
    simp only [hroot]
    rfl
  have hsearch : ∀ T : KDTree α, T._root = Node.mk Node.NULL Node.NULL (-1) 0 0 0 →
      ∃ T2 : KDTree α, PyTree_search_center_radius libc T center r = PyRet.ok T2 () ∧
        PyTree_get_count T2 = 0 ∧ T2._radius_list = [] ∧
        PyTree_neighbor_get_count T2 = PyTree_neighbor_get_count T := by
    intro T hroot
    unfold PyTree_search_center_radius
    rw [if_neg (not_le.mpr hr)]
    simp only [hcnd, ne_eq, not_true_eq_false, if_false, hcnum, Bool.not_true,
      Bool.false_eq_true]
    unfold KDTree_search
    simp only [hroot, if_true]
    exact ⟨_, rfl, rfl, rfl, rfl⟩
  refine ⟨_, rfl, rfl, rfl, ⟨_, hpairs _ rfl, rfl, rfl, ?_⟩, ?_⟩
  · exact hsearch _ rfl
  · exact hsearch _ rfl

/-- C21 at a concrete input: `init(3, 10)`, `set_data` of a `0 x 3` array, then
`all_pairs(1)` and `search_center_radius((0, 0, 0), 1)`: the hypotheses hold, the root is the
leaf `[0, 0)`, and both queries return empty results. -/
theorem C21_witness_no_points :
    ((0 < 3 ∧ 0 < 10 ∧ (longMatrix 0 3 []).IsMatrix 0 3 ∧ (longVector [0, 0, 0]).IsVector 3 ∧
        (0 : ℤ) < 1) ∧
      (loadedTree libcInt 3 10 (longMatrix 0 3 [])).tree?.map (fun T => T._root) =
        some (Node.mk Node.NULL Node.NULL (-1) 0 0 0) ∧
      (pairsSession libcInt 3 10 (longMatrix 0 3 []) 1).value? = some [] ∧
      (searchSession libcInt 3 10 (longMatrix 0 3 []) (longVector [0, 0, 0]) 1).tree?.map
        (fun T => (PyTree_get_count T, T._radius_list)) = some (0, [])) ∧
    ∃ T : KDTree ℤ,
      loadedTree libcInt ((3 : Nat) : Int) ((10 : Nat) : Int) (longMatrix 0 3 []) =
        PyRet.ok T () ∧
      T._root = Node.mk Node.NULL Node.NULL (-1) 0 0 0 ∧ T._data_point_list = [] ∧
      (∃ T1 : KDTree ℤ, PyTree_neighbor_search libcInt T 1 = PyRet.ok T1 [] ∧
        PyTree_neighbor_get_count T1 = 0 ∧ T1._neighbor_list = [] ∧
        ∃ T2 : KDTree ℤ,
          PyTree_search_center_radius libcInt T1 (longVector [0, 0, 0]) 1 = PyRet.ok T2 () ∧
          PyTree_get_count T2 = 0 ∧ T2._radius_list = [] ∧
          PyTree_neighbor_get_count T2 = 0) ∧
      (∃ T2 : KDTree ℤ,
        PyTree_search_center_radius libcInt T (longVector [0, 0, 0]) 1 = PyRet.ok T2 () ∧
        PyTree_get_count T2 = 0 ∧ T2._radius_list = [] ∧
        PyTree_neighbor_get_count T2 = 0) :=
  ⟨by decide!,
    C21_empty_point_set libcInt 3 10 (by decide) (by decide) (longMatrix 0 3 []) (by decide!)
      (longVector [0, 0, 0]) (by decide!) 1 (by decide)⟩

/-! ### The median rule of the build -/

/-- One step of `KDTree_build_tree` on a range of more than `_bucket_size` records: the range
is sorted on the axis `depth % dim` and nothing else moves, the cut value is read at position
`m - 1` of the sorted range with `m = d/2 + d%2`, and the two recursive calls are on
`[b, b+m)` and `[b+m, e)`. -/
theorem build_go_step (libc : Libc α) (fuel : Nat) (t : KDTree α) (b e depth : Nat)
    (hd0 : depth = 0 → b = 0 ∧ e = t._data_point_list.length)
    (hbig : t._bucket_size < e - b) (he : e ≤ t._data_point_list.length) :
    ∃ (sorted : List (DataPoint α)) (q : DataPoint α),
      sorted = libc.qsort (compare (depth % t.dim)) (slice t._data_point_list b e) ∧
      sorted.get? ((e - b) / 2 + (e - b) % 2 - 1) = some q ∧
      KDTree_build_tree.go libc (fuel + 1) t b e depth =
        (KDTree_build_tree.go libc fuel
          { t with _data_point_list :=
            t._data_point_list.take b ++ sorted ++ t._data_point_list.drop e }
          b (b + ((e - b) / 2 + (e - b) % 2)) (depth + 1) >>= fun left =>
        KDTree_build_tree.go libc fuel left.2 (b + ((e - b) / 2 + (e - b) % 2)) e
          (depth + 1) >>= fun right =>
        pure (Node.mk left.1 right.1 (idx q._coord (depth % t.dim)) (depth % t.dim) b e,
          right.2)) := by
  have eb : (if depth = 0 then 0 else b) = b := by
    by_cases h : depth = 0
    · simp [h, (hd0 h).1]
    · simp [h]
  have ee : (if depth = 0 then t._data_point_list.length else e) = e := by
    by_cases h : depth = 0
    · simp [h, (hd0 h).2]
    · simp [h]
  have ed : (if depth = 0 then 0 else depth % t.dim) = depth % t.dim := by
    by_cases h : depth = 0
    · simp [h]
    · simp [h]
  rw [KDTree_build_tree.go]
  simp only [eb, ee, ed]
  rw [if_neg (by omega)]
  generalize hS : slice t._data_point_list b e = S
  generalize hsorted : libc.qsort (compare (depth % t.dim)) S = sorted
  have hperm : sorted.Perm S := by rw [← hsorted]; exact libc.qsort_perm _ _
  have hSlen : S.length = e - b := by rw [← hS]; exact slice_length _ he
  have hsl : sorted.length = e - b := by rw [hperm.length_eq, hSlen]
  have hstore1 : t._data_point_list.take b ++
      DataPoint_sort libc (t._data_point_list.drop b) (e - b) (depth % t.dim) =
      t._data_point_list.take b ++ sorted ++ t._data_point_list.drop e := by
    unfold DataPoint_sort
    rw [← slice_eq_drop_take, hS, hsorted, List.drop_drop, List.append_assoc]
    congr 3
    omega
  rw [hstore1]
  generalize hst1 : t._data_point_list.take b ++ sorted ++ t._data_point_list.drop e = store1
  have htb : (t._data_point_list.take b).length = b := by
    rw [List.length_take]; omega
  have h1slice : slice store1 b e = sorted := by
    rw [slice_eq_drop_take, ← hst1, List.append_assoc, List.drop_left' htb,
      List.take_left' hsl]
  generalize hm : (e - b) / 2 + (e - b) % 2 = m
  have hm1 : 1 ≤ m := by omega
  have hm2 : m ≤ e - b := by omega
  have hidx : b + m - 1 = b + (m - 1) := by omega
  have hlt : m - 1 < sorted.length := by omega
  have hq1 : store1.get? (b + m - 1) = some sorted[m - 1] := by
    have hb1 : m - 1 < e - b := by omega
    rw [hidx, ← slice_get? store1 hb1, h1slice,
      List.get?_eq_getElem?, List.getElem?_eq_getElem hlt]
  refine ⟨sorted, sorted[m - 1], rfl, ?_, ?_⟩
  · rw [List.get?_eq_getElem?, List.getElem?_eq_getElem hlt]
  · have hpoint : KDTree.point { t with _data_point_list := store1 } (b + m - 1) =
        Except.ok sorted[m - 1] := by
      simp only [KDTree.point, hq1]
    rw [hpoint, ← hst1]
    rfl

theorem Median_congr {dim : Nat} {store store' : List (DataPoint α)} (node : Node α) :
    ∀ depth, node.Inv store dim depth → node.Median store dim depth →
      slice store' node.start node.stop = slice store node.start node.stop →
      node.Median store' dim depth := by
  induction node with
  | NULL => intro depth h; exact absurd h (by simp [Node.Inv])
  | mk l r v cd s e ihl ihr =>
    intro depth h hm hs
    simp only [Node.start, Node.stop] at hs
    simp only [Node.Median] at hm ⊢
    rcases hm with hleaf | ⟨hcd, m1, m2, m3, m4, matt, mle, mL, mR⟩
    · exact Or.inl hleaf
    · simp only [Node.Inv] at h
      rcases h with ⟨hse, he, hleaf | hint⟩
      · rcases hleaf with ⟨rfl, _⟩
        exact absurd mL (by simp [Node.Median])
      · rcases hint with ⟨hl, hr, h1, h2, h3, h4, h5, _, _⟩
        have hsl : slice store' s l.stop = slice store s l.stop := by
          rw [slice_sub_left store' (by omega : l.stop ≤ e),
            slice_sub_left store (by omega : l.stop ≤ e), hs]
        have hsr : slice store' l.stop e = slice store l.stop e := by
          rw [slice_sub_right store' (by omega : s ≤ l.stop),
            slice_sub_right store (by omega : s ≤ l.stop), hs]
        refine Or.inr ⟨hcd, m1, m2, m3, m4, ?_, ?_, ?_, ?_⟩
        · rw [h1, hsl, ← h1]; exact matt
        · rw [h1, hsl, ← h1]; exact mle
        · exact ihl _ hl mL (by rw [h1]; exact hsl)
        · exact ihr _ hr mR (by rw [← h3, h5]; exact hsr)

/-- With one unit of fuel per point and one more, `KDTree_build_tree` returns a node that
satisfies the invariant and the median rule over the store it leaves; it permutes the store
within `[b, e)` only. -/
theorem build_go_median (libc : Libc α) : ∀ (fuel : Nat) (t : KDTree α) (b e depth : Nat),
    0 < t._bucket_size → (depth = 0 → b = 0 ∧ e = t._data_point_list.length) →
    b ≤ e → e ≤ t._data_point_list.length → e - b < fuel →
    ∃ (node : Node α) (store' : List (DataPoint α)),
      KDTree_build_tree.go libc fuel t b e depth =
        pure (node, { t with _data_point_list := store' }) ∧
      store'.length = t._data_point_list.length ∧
      store'.take b = t._data_point_list.take b ∧
      store'.drop e = t._data_point_list.drop e ∧
      (slice store' b e).Perm (slice t._data_point_list b e) ∧
      node.start = b ∧ node.stop = e ∧ node.Inv store' t.dim depth ∧
      node.Median store' t.dim depth := by
  intro fuel
  induction fuel with
  | zero => intro t b e depth _ _ _ _ h; omega
  | succ fuel ih =>
    intro t b e depth hbucket hd0 hbe he hfuel
    rcases build_go_spec libc (fuel + 1) t b e depth hbucket hd0 hbe he hfuel with
      ⟨node, store', hgo, hlen, htake, hdrop, hperm, hns, hne, hinv⟩
    refine ⟨node, store', hgo, hlen, htake, hdrop, hperm, hns, hne, hinv, ?_⟩
    by_cases hleaf : e - b ≤ t._bucket_size
    · have hgo2 : KDTree_build_tree.go libc (fuel + 1) t b e depth =
          pure (Node_create (-1) (if depth = 0 then 0 else depth % t.dim) b e, t) := by
        have eb : (if depth = 0 then 0 else b) = b := by
          by_cases h : depth = 0
          · simp [h, (hd0 h).1]
          · simp [h]
        have ee : (if depth = 0 then t._data_point_list.length else e) = e := by
          by_cases h : depth = 0
          · simp [h, (hd0 h).2]
          · simp [h]
        rw [KDTree_build_tree.go]
        simp only [eb, ee]
        rw [if_pos hleaf]
      rw [hgo2] at hgo
      have hnode := congrArg (fun x => x.toOption.map Prod.fst) hgo
      simp only [pure, Except.pure, Except.toOption, Option.map_some'] at hnode
      have hnode2 : Node_create (-1) (if depth = 0 then 0 else depth % t.dim) b e = node :=
        Option.some.inj hnode
      rw [← hnode2]
      exact Or.inl ⟨rfl, rfl⟩
    · rcases build_go_step libc fuel t b e depth hd0 (by omega) he with
        ⟨sorted, q, hsorted, hq, hstep⟩
      have hpermS : sorted.Perm (slice t._data_point_list b e) := by
        rw [hsorted]; exact libc.qsort_perm _ _
      have hpw : sorted.Pairwise (fun p q => compare (depth % t.dim) p q ≤ 0) := by
        rw [hsorted]; exact libc.qsort_sorted _ _
      have hsl : sorted.length = e - b := by
        rw [hpermS.length_eq]; exact slice_length _ he
      generalize hst1 : t._data_point_list.take b ++ sorted ++ t._data_point_list.drop e =
        store1 at hstep
      have htb : (t._data_point_list.take b).length = b := by
        rw [List.length_take]; omega
      have h1len : store1.length = t._data_point_list.length := by
        rw [← hst1]
        simp only [List.length_append, htb, hsl, List.length_drop]
        omega
      have h1slice : slice store1 b e = sorted := by
        rw [slice_eq_drop_take, ← hst1, List.append_assoc, List.drop_left' htb,
          List.take_left' hsl]
      generalize hm : (e - b) / 2 + (e - b) % 2 = m at hstep hq
      have hm1 : 1 ≤ m := by omega
      have hm2 : m < e - b := by omega
      have hsplit := sorted_split hpw hm1 hq
      rcases ih { t with _data_point_list := store1 } b (b + m) (depth + 1) hbucket
        (by simp) (by omega) (by simp only [h1len]; omega) (by omega) with
        ⟨L, store2, hgoL, h2len, h2take, h2drop, h2perm, hLs, hLe, hLinv, hLmed⟩
      simp only at h2len h2take h2drop h2perm hLinv hgoL hLmed
      rcases ih { t with _data_point_list := store2 } (b + m) e (depth + 1) hbucket
        (by simp) (by omega) (by simp only [h2len, h1len]; omega) (by omega) with
        ⟨R, store3, hgoR, h3len, h3take, h3drop, h3perm, hRs, hRe, hRinv, hRmed⟩
      simp only at h3len h3take h3drop h3perm hRinv hgoR hRmed
      rw [hgoL] at hstep
      simp only [pure_bind] at hstep
      rw [hgoR] at hstep
      simp only [pure_bind] at hstep
      rw [hstep] at hgo
      have hpair := congrArg (fun x => x.toOption) hgo
      simp only [pure, Except.pure, Except.toOption] at hpair
      have hpair2 := Option.some.inj hpair
      have hnode : Node.mk L R (idx q._coord (depth % t.dim)) (depth % t.dim) b e = node :=
        congrArg Prod.fst hpair2
      have hstore : store3 = store' := by
        have := congrArg (fun x => x.2._data_point_list) hpair2
        exact this
      rw [← hnode, ← hstore]
      have hA : slice store3 b (b + m) = slice store2 b (b + m) := slice_of_take_eq h3take
      have hC : slice store1 b (b + m) = sorted.take m := by
        rw [slice_sub_left store1 (by omega : b + m ≤ e), h1slice]
        congr 1
        omega
      simp only [Node.Median]
      refine Or.inr ⟨trivial, hLs, by rw [hLe, hm], by rw [hRs, hm], hRe, ?_, ?_, ?_, hRmed⟩
      · refine ⟨q, ?_, rfl⟩
        rw [hLs, hLe, hA]
        apply h2perm.symm.subset
        rw [hC]
        rw [List.get?_eq_getElem?] at hq
        have hlt : m - 1 < sorted.length := (List.getElem?_eq_some_iff.mp hq).1
        have hq' : sorted[m - 1] = q := (List.getElem?_eq_some_iff.mp hq).2
        rw [← hq']
        have hlt2 : m - 1 < (sorted.take m).length := by
          rw [List.length_take]; omega
        have : (sorted.take m)[m - 1] = sorted[m - 1] := by
          rw [List.getElem_take]
        rw [← this]
        exact List.getElem_mem hlt2
      · intro p hp
        rw [hLs, hLe, hA] at hp
        exact hsplit.1 p (by rw [← hC]; exact h2perm.subset hp)
      · apply Median_congr L _ (by
          apply Inv_congr (by rw [h2len]) L _ hLinv
          rfl) hLmed
        rw [hLs, hLe]
        exact hA

theorem Halved_of_Inv {store : List (DataPoint α)} {dim : Nat} (node : Node α) :
    ∀ depth, node.Inv store dim depth → node.Halved := by
  induction node with
  | NULL => intro depth h; exact absurd h (by simp [Node.Inv])
  | mk l r v cd s e ihl ihr =>
    intro depth h
    simp only [Node.Inv] at h
    simp only [Node.Halved]
    rcases h with ⟨_, _, hleaf | ⟨hl, hr, h1, h2, h3, h4, h5, _, _⟩⟩
    · exact Or.inl hleaf
    · exact Or.inr ⟨ihl _ hl, ihr _ hr, h1, h2, h3, h4, h5⟩

/-- `KDTree_build_tree(tree, 0, 0, 0)` returns a root that satisfies the invariant and the
median rule over the store it leaves. -/
theorem KDTree_build_tree_median (libc : Libc α) (t : KDTree α) (hb : 0 < t._bucket_size) :
    ∃ (root : Node α) (store' : List (DataPoint α)),
      KDTree_build_tree libc t 0 0 0 = pure (root, { t with _data_point_list := store' }) ∧
      store'.Perm t._data_point_list ∧ root.Inv store' t.dim 0 ∧
      root.start = 0 ∧ root.stop = store'.length ∧ root.Median store' t.dim 0 := by
  rcases build_go_median libc (t._data_point_list.length + 1) t 0 t._data_point_list.length 0 hb
    (fun _ => ⟨rfl, rfl⟩) (Nat.zero_le _) (le_refl _) (by omega) with
    ⟨root, store', hgo, hlen, _, _, hperm, hs, he, hinv, hmed⟩
  refine ⟨root, store', ?_, ?_, hinv, hs, by rw [he, hlen], hmed⟩
  · unfold KDTree_build_tree
    rw [build_go_root, hgo]
  · have h1 := slice_full store'
    rw [hlen] at h1
    rw [h1, slice_full] at hperm
    exact hperm

/-! ### Ties on the cut plane -/

theorem cutInLeft_of_Median {store : List (DataPoint α)} {dim : Nat} (node : Node α) :
    ∀ depth, node.Median store dim depth → node.cutInLeft store = true := by
  induction node with
  | NULL => intro depth h; exact absurd h (by simp [Node.Median])
  | mk l r v cd s e ihl ihr =>
    intro depth h
    simp only [Node.Median] at h
    simp only [Node.cutInLeft]
    rcases h with ⟨rfl, rfl⟩ | ⟨_, _, _, _, _, ⟨p, hp, hpv⟩, _, mL, mR⟩
    · simp [Node.isNull]
    · have hl : l.isNull = false := by
        cases l with
        | NULL => exact absurd mL (by simp [Node.Median])
        | mk => rfl
      simp only [hl, Bool.false_and, Bool.false_eq_true, if_false, Bool.and_eq_true,
        List.any_eq_true, decide_eq_true_eq]
      exact ⟨⟨⟨p, hp, hpv⟩, ihl _ mL⟩, ihr _ mR⟩

theorem tiesLeft_of_cutOnce {store : List (DataPoint α)} {dim : Nat} (node : Node α) :
    ∀ depth, node.Inv store dim depth → node.Median store dim depth →
      node.cutOnce store = true → node.tiesLeft store = true := by
  induction node with
  | NULL => intro depth h; exact absurd h (by simp [Node.Inv])
  | mk l r v cd s e ihl ihr =>
    intro depth h hm hc
    simp only [Node.Median] at hm
    simp only [Node.tiesLeft]
    rcases hm with ⟨rfl, rfl⟩ | ⟨_, _, _, _, _, ⟨p, hp, hpv⟩, _, mL, mR⟩
    · simp [Node.isNull]
    · simp only [Node.Inv] at h
      rcases h with ⟨hse, he, hleaf | hint⟩
      · rcases hleaf with ⟨rfl, _⟩
        exact absurd mL (by simp [Node.Median])
      · rcases hint with ⟨hl, hr, h1, h2, h3, h4, h5, _, _⟩
        have hln := Inv_not_null hl
        simp only [Node.cutOnce, hln, Bool.false_and, Bool.false_eq_true, if_false,
          Bool.and_eq_true, decide_eq_true_eq] at hc
        rcases hc with ⟨⟨hcount, hcl⟩, hcr⟩
        simp only [hln, Bool.false_and, Bool.false_eq_true, if_false, Bool.and_eq_true,
          List.all_eq_true, decide_eq_true_eq]
        refine ⟨⟨?_, ihl _ hl mL hcl⟩, ihr _ hr mR hcr⟩
        intro q hq hqv
        rw [← slice_append store (le_of_lt h2) (by rw [h3]; exact le_of_lt h4),
          List.map_append, List.count_append] at hcount
        have c1 : 0 < ((slice store s l.stop).map (fun p => idx p._coord cd)).count v := by
          apply List.count_pos_iff.mpr
          rw [h1] at hp
          exact List.mem_map.mpr ⟨p, hp, hpv⟩
        have c2 : 0 < ((slice store l.stop e).map (fun p => idx p._coord cd)).count v := by
          apply List.count_pos_iff.mpr
          rw [← h3, h5] at hq
          exact List.mem_map.mpr ⟨q, hq, hqv⟩
        omega

/-! ### The calls made by `all_pairs` -/

theorem mem_atDepth_self (l r : Node α) (v : α) (d s e : Nat) :
    Node.mk l r v d s e ∈ (Node.mk l r v d s e).atDepth 0 := by
  simp [Node.atDepth]

/-- The children of a node at depth `D` are at depth `D + 1`. -/
theorem mem_atDepth_child (root : Node α) : ∀ (D : Nat) (l r : Node α) (v : α) (d s e : Nat),
    Node.mk l r v d s e ∈ root.atDepth D →
    (l.isNull = false → l ∈ root.atDepth (D + 1)) ∧
    (r.isNull = false → r ∈ root.atDepth (D + 1)) := by
  induction root with
  | NULL =>
    intro D l r v d s e h
    simp [Node.atDepth] at h
  | mk rl rr rv rd rs re ihl ihr =>
    intro D l r v d s e h
    cases D with
    | zero =>
      simp only [Node.atDepth, List.mem_singleton, Node.mk.injEq] at h
      rcases h with ⟨rfl, rfl, -, -, -, -⟩
      constructor
      · intro hl
        cases l with
        | NULL => simp [Node.isNull] at hl
        | mk a b c d2 e2 f =>
          simp [Node.atDepth]
      · intro hr
        cases r with
        | NULL => simp [Node.isNull] at hr
        | mk a b c d2 e2 f =>
          simp [Node.atDepth]
    | succ D =>
      simp only [Node.atDepth, List.mem_append] at h ⊢
      rcases h with h | h
      · have := ihl D l r v d s e h
        exact ⟨fun hl => Or.inl (this.1 hl), fun hr => Or.inl (this.2 hr)⟩
      · have := ihr D l r v d s e h
        exact ⟨fun hl => Or.inr (this.1 hl), fun hr => Or.inr (this.2 hr)⟩

/-- In a tree whose cut dimensions follow the depth, a node at depth `D` has cut dimension
`D % dim`. -/
theorem cutDim_of_atDepth {dim : Nat} (root : Node α) : ∀ (d0 D : Nat) (node : Node α),
    root.CutDims dim d0 → node ∈ root.atDepth D → node.cutDim = (d0 + D) % dim := by
  induction root with
  | NULL =>
    intro d0 D node _ h
    simp [Node.atDepth] at h
  | mk rl rr rv rd rs re ihl ihr =>
    intro d0 D node hc h
    simp only [Node.CutDims] at hc
    cases D with
    | zero =>
      simp only [Node.atDepth, List.mem_singleton] at h
      subst h
      simp only [Node.cutDim, Nat.add_zero]
      exact hc.1
    | succ D =>
      simp only [Node.atDepth, List.mem_append] at h
      have e1 : d0 + (D + 1) = d0 + 1 + D := by omega
      rw [e1]
      rcases h with h | h
      · exact ihl (d0 + 1) D node hc.2.1 h
      · exact ihr (d0 + 1) D node hc.2.2 h

theorem isInternal_not_null {node : Node α} (h : node.isInternal = true) :
    node.isNull = false := by
  cases node with
  | NULL => simp [Node.isInternal] at h
  | mk => rfl

/-- The two sides `pairs_children` prepares from a node that, if internal, is at depth `D`
are, if internal, at depth `D + 1`. -/
theorem pairs_children_atDepth (root : Node α) (dim : Nat) (X : Node α) (R : Region α)
    (localdim D : Nat) (hX : X.isInternal = true → X ∈ root.atDepth D) :
    ((pairs_children dim X R localdim).1.isInternal = true →
      (pairs_children dim X R localdim).1 ∈ root.atDepth (D + 1)) ∧
    ((pairs_children dim X R localdim).2.2.1.isInternal = true →
      (pairs_children dim X R localdim).2.2.1 ∈ root.atDepth (D + 1)) := by
  cases X with
  | NULL =>
    simp [pairs_children, Node.isInternal]
  | mk l r v cd s e =>
    unfold pairs_children
    by_cases hleaf : (l.isNull && r.isNull) = true
    · simp only [hleaf, if_true]
      constructor
      · intro h
        simp [Node.isInternal, hleaf] at h
      · intro h
        simp [Node.isInternal] at h
    · simp only [hleaf, if_false, Bool.false_eq_true]
      have hin : (Node.mk l r v cd s e).isInternal = true := by
        simp only [Node.isInternal]
        cases hh : (l.isNull && r.isNull)
        · rfl
        · exact absurd hh hleaf
      have hc := mem_atDepth_child root D l r v cd s e (hX hin)
      exact ⟨fun h => hc.1 (isInternal_not_null h), fun h => hc.2 (isInternal_not_null h)⟩

/-- Axis agreement at every call of the dual descent, with fuel above the two heights. -/
theorem pairs_calls_axis (root : Node α) (dim : Nat) (hcut : root.CutDims dim 0)
    (tree : KDTree α) : ∀ (fuel : Nat) (down : Node α) (down_region : Option (Region α))
    (up : Node α) (up_region : Option (Region α)) (D : Nat),
    down.height + up.height < fuel →
    (down.isInternal = true → down ∈ root.atDepth D) →
    (up.isInternal = true → up ∈ root.atDepth D) →
    ∀ c ∈ KDTree_neighbor_search_pairs.calls tree fuel down down_region up up_region D,
      c.AxisAgrees root dim := by
  intro fuel
  induction fuel with
  | zero =>
    intro down dr up ur D h
    omega
  | succ fuel ih =>
    intro down dr up ur D hf hd hu c hc
    have hdim : ∀ node : Node α, node ∈ root.atDepth D → node.cutDim = D % dim := by
      intro node hn
      have := cutDim_of_atDepth root 0 D node hcut hn
      rwa [Nat.zero_add] at this
    unfold KDTree_neighbor_search_pairs.calls at hc
    rcases List.mem_cons.mp hc with rfl | htail
    · exact ⟨fun h => ⟨hd h, hdim _ (hd h)⟩, fun h => ⟨hu h, hdim _ (hu h)⟩⟩
    · split at htail
      swap
      · cases htail
      rename_i dl drr dv dcd ds de dreg ul urr uv ucd us ue ureg
      · simp only at htail
        split_ifs at htail with h0 hleaf
        · cases htail
        · cases htail
        · have hdh := pairs_children_height tree.dim (Node.mk dl drr dv dcd ds de) dreg
            (D % tree.dim)
          have huh := pairs_children_height tree.dim (Node.mk ul urr uv ucd us ue) ureg
            (D % tree.dim)
          have hda := pairs_children_atDepth root tree.dim (Node.mk dl drr dv dcd ds de) dreg
            (D % tree.dim) D hd
          have hua := pairs_children_atDepth root tree.dim (Node.mk ul urr uv ucd us ue) ureg
            (D % tree.dim) D hu
          have hlt : ∀ (a b : Nat),
              (a ≤ (Node.mk ul urr uv ucd us ue).height) →
              (b ≤ (Node.mk dl drr dv dcd ds de).height) →
              ((ul.isNull && urr.isNull) = false → a < (Node.mk ul urr uv ucd us ue).height) →
              ((dl.isNull && drr.isNull) = false → b < (Node.mk dl drr dv dcd ds de).height) →
              a + b < fuel := by
            intro a b ha hb ha2 hb2
            by_cases hul : (ul.isNull && urr.isNull) = true
            · by_cases hdl : (dl.isNull && drr.isNull) = true
              · exact absurd (by rw [hul, hdl]; rfl) hleaf
              · have := hb2 (by simpa using hdl)
                omega
            · have := ha2 (by simpa using hul)
              omega
          have c11 := hlt _ _ huh.1 hdh.1 (fun h => (huh.2.2 _ _ _ _ _ _ rfl h).1)
            (fun h => (hdh.2.2 _ _ _ _ _ _ rfl h).1)
          have c12 := hlt _ _ huh.1 hdh.2.1 (fun h => (huh.2.2 _ _ _ _ _ _ rfl h).1)
            (fun h => (hdh.2.2 _ _ _ _ _ _ rfl h).2)
          have c21 := hlt _ _ huh.2.1 hdh.1 (fun h => (huh.2.2 _ _ _ _ _ _ rfl h).2)
            (fun h => (hdh.2.2 _ _ _ _ _ _ rfl h).1)
          have c22 := hlt _ _ huh.2.1 hdh.2.1 (fun h => (huh.2.2 _ _ _ _ _ _ rfl h).2)
            (fun h => (hdh.2.2 _ _ _ _ _ _ rfl h).2)
          simp only [List.mem_append] at htail
          rcases htail with ((hc | hc) | hc) | hc
          · exact ih _ _ _ _ _ c11 hua.1 hda.1 c hc
          · exact ih _ _ _ _ _ c12 hua.1 hda.2 c hc
          · exact ih _ _ _ _ _ c21 hua.2 hda.1 c hc
          · exact ih _ _ _ _ _ c22 hua.2 hda.2 c hc

theorem Node_is_leaf_false {node : Node α} (h : Node_is_leaf node = Except.ok false) :
    node.isInternal = true := by
  cases node with
  | NULL => simp [Node_is_leaf] at h
  | mk l r v d s e =>
    simp only [Node_is_leaf, Except.ok.injEq] at h
    simp [Node.isInternal, h]

/-- Axis agreement at every call made by the single-tree descent from a node that, if
internal, is at depth `D`. -/
theorem descent_calls_axis (root : Node α) (dim : Nat) (hcut : root.CutDims dim 0)
    (tree : KDTree α) (node : Node α) : ∀ (region : Option (Region α)) (D : Nat),
    (node.isInternal = true → node ∈ root.atDepth D) →
    ∀ c ∈ KDTree__neighbor_search.calls tree node region D, c.AxisAgrees root dim := by
  induction node with
  | NULL =>
    intro region D _ c hc
    simp only [KDTree__neighbor_search.calls, List.mem_singleton] at hc
    subst hc
    intro h
    simp [Node.isInternal] at h
  | mk l r v cd s e ihl ihr =>
    intro region D hn c hc
    have hhead : (Call.descent (Node.mk l r v cd s e) region D).AxisAgrees root dim := by
      intro h
      refine ⟨hn h, ?_⟩
      have := cutDim_of_atDepth root 0 D _ hcut (hn h)
      rwa [Nat.zero_add] at this
    cases region with
    | none =>
      simp only [KDTree__neighbor_search.calls, List.mem_singleton] at hc
      subst hc
      exact hhead
    | some R =>
      rw [KDTree__neighbor_search.calls] at hc
      simp only [List.mem_cons, List.mem_append] at hc
      rcases hc with rfl | (hc | hc) | hc
      · exact hhead
      · split at hc
        · rename_i hleaf
          have hin := Node_is_leaf_false hleaf
          have hmem : (Node.mk l r v cd s e) ∈ root.atDepth D := by
            apply hn
            simp only [Node.isInternal]
            have := isInternal_not_null hin
            simp [this]
          exact ihl _ (D + 1)
            (fun _ => (mem_atDepth_child root D l r v cd s e hmem).1 (isInternal_not_null hin))
            c hc
        · cases hc
      · split at hc
        · rename_i hleaf
          have hin := Node_is_leaf_false hleaf
          have hmem : (Node.mk l r v cd s e) ∈ root.atDepth D := by
            apply hn
            simp only [Node.isInternal]
            have := isInternal_not_null hin
            simp [this]
          exact ihr _ (D + 1)
            (fun _ => (mem_atDepth_child root D l r v cd s e hmem).2 (isInternal_not_null hin))
            c hc
        · cases hc
      · refine pairs_calls_axis root dim hcut tree _ l _ r _ (D + 1) (Nat.lt_succ_self _)
          ?_ ?_ c hc
        · intro hin
          have hmem : (Node.mk l r v cd s e) ∈ root.atDepth D := by
            apply hn
            simp only [Node.isInternal]
            have := isInternal_not_null hin
            simp [this]
          exact (mem_atDepth_child root D l r v cd s e hmem).1 (isInternal_not_null hin)
        · intro hin
          have hmem : (Node.mk l r v cd s e) ∈ root.atDepth D := by
            apply hn
            simp only [Node.isInternal]
            have := isInternal_not_null hin
            simp [this]
          exact (mem_atDepth_child root D l r v cd s e hmem).2 (isInternal_not_null hin)

/-- Axis agreement at every call made by `KDTree_neighbor_search` on a tree whose cut
dimensions follow the depth. -/
theorem KDTree_neighbor_search_calls_axis (T : KDTree α) (hcut : T._root.CutDims T.dim 0)
    (r : α) : ∀ c ∈ KDTree_neighbor_search.calls T r, c.AxisAgrees T._root T.dim := by
  intro c hc
  unfold KDTree_neighbor_search.calls at hc
  simp only at hc
  split at hc
  · refine descent_calls_axis T._root T.dim hcut _ T._root _ 0 ?_ c hc
    intro hin
    cases hroot : T._root with
    | NULL =>
      rw [hroot] at hin
      simp [Node.isInternal] at hin
    | mk l rr v cd s e => exact mem_atDepth_self _ _ _ _ _ _
  · cases hc

theorem pairs_calls_regionPresent (tree : KDTree α) : ∀ (fuel : Nat) (down : Node α)
    (down_region : Option (Region α)) (up : Node α) (up_region : Option (Region α)) (D : Nat),
    ∀ c ∈ KDTree_neighbor_search_pairs.calls tree fuel down down_region up up_region D,
      c.regionPresent = true := by
  intro fuel
  induction fuel with
  | zero =>
    intro down dr up ur D c hc
    simp only [KDTree_neighbor_search_pairs.calls, List.mem_singleton] at hc
    subst hc
    rfl
  | succ fuel ih =>
    intro down dr up ur D c hc
    unfold KDTree_neighbor_search_pairs.calls at hc
    rcases List.mem_cons.mp hc with rfl | htail
    · rfl
    · split at htail
      swap
      · cases htail
      · simp only at htail
        split_ifs at htail
        · cases htail
        · cases htail
        · simp only [List.mem_append] at htail
          rcases htail with ((hc | hc) | hc) | hc
          · exact ih _ _ _ _ _ c hc
          · exact ih _ _ _ _ _ c hc
          · exact ih _ _ _ _ _ c hc
          · exact ih _ _ _ _ _ c hc

theorem Inv_isInternal_pts {store : List (DataPoint α)} {dim : Nat} {node : Node α}
    {depth : Nat} (h : node.Inv store dim depth) (hin : node.isInternal = true) :
    node.pts store ≠ [] := by
  cases node with
  | NULL => simp [Node.isInternal] at hin
  | mk l r v cd s e =>
    apply Inv_internal_pts h
    simp only [Node.isInternal] at hin
    cases hh : (l.isNull && r.isNull)
    · rfl
    · rw [hh] at hin
      cases hin

/-- In the single-tree descent from a node that satisfies the invariant, with a region that
encloses its points, every call of `KDTree__neighbor_search` receives a region. -/
theorem descent_calls_regionPresent (tree : KDTree α) (hdim : 0 < tree.dim)
    (node : Node α) : ∀ (R : Region α) (D : Nat),
    node.Inv tree._data_point_list tree.dim D → R.WF tree.dim →
    (∀ p ∈ node.pts tree._data_point_list, Encloses tree.dim R p._coord) →
    ∀ c ∈ KDTree__neighbor_search.calls tree node (some R) D, c.regionPresent = true := by
  induction node with
  | NULL =>
    intro R D h
    exact absurd h (by simp [Node.Inv])
  | mk l r v cd s e ihl ihr =>
    intro R D hinv hwf henc c hc
    rw [KDTree__neighbor_search.calls] at hc
    simp only [List.mem_cons, List.mem_append] at hc
    have hchild : ∀ x : Node α, x.isInternal = true → (x = l ∨ x = r) →
        (l.isNull && r.isNull) = false ∧ l.Inv tree._data_point_list tree.dim (D + 1) ∧
          r.Inv tree._data_point_list tree.dim (D + 1) := by
      intro x hx hxl
      have hinv' := hinv
      simp only [Node.Inv] at hinv'
      rcases hinv' with ⟨_, _, hleaf | hi⟩
      · rcases hleaf with ⟨rfl, rfl⟩
        rcases hxl with rfl | rfl <;> simp [Node.isInternal] at hx
      · rcases hi with ⟨hl, hr, _⟩
        exact ⟨by simp [Inv_not_null hl], hl, hr⟩
    rcases hc with rfl | (hc | hc) | hc
    · rfl
    · split at hc
      · rename_i hleaf
        have hin := Node_is_leaf_false hleaf
        rcases hchild l hin (Or.inl rfl) with ⟨hint, hl, _⟩
        have cX := pairs_children_spec hinv R
        simp only [pairs_children, hint, Bool.false_eq_true, if_false] at cX
        have hE := (cX.2.2.2.1 hdim hwf henc).1
        cases hL : left_child_region tree.dim R v (D % tree.dim) with
        | none =>
          rw [hL] at hE
          exact absurd hE (Inv_isInternal_pts hl hin)
        | some RL =>
          rw [hL] at hE hc
          exact ihl RL (D + 1) hl hE.1 hE.2 c hc
      · cases hc
    · split at hc
      · rename_i hleaf
        have hin := Node_is_leaf_false hleaf
        rcases hchild r hin (Or.inr rfl) with ⟨hint, _, hr⟩
        have cX := pairs_children_spec hinv R
        simp only [pairs_children, hint, Bool.false_eq_true, if_false] at cX
        have hE := (cX.2.2.2.1 hdim hwf henc).2
        cases hRr : right_child_region tree.dim R v (D % tree.dim) with
        | none =>
          rw [hRr] at hE
          exact absurd hE (Inv_isInternal_pts hr hin)
        | some RR =>
          rw [hRr] at hE hc
          exact ihr RR (D + 1) hr hE.1 hE.2 c hc
      · cases hc
    · exact pairs_calls_regionPresent tree _ _ _ _ _ _ c hc

/-- On a tree that satisfies the invariant and whose points lie in the root region, every
call of `KDTree__neighbor_search` made by `KDTree_neighbor_search` receives a region. -/
theorem KDTree_neighbor_search_calls_regionPresent (T : KDTree α) (hdim : 0 < T.dim)
    (hinv : T._root.Inv T._data_point_list T.dim 0)
    (hbox : ∀ p ∈ T._root.pts T._data_point_list,
      Encloses T.dim (Region_create T.dim none none) p._coord) (r : α) :
    ∀ c ∈ KDTree_neighbor_search.calls T r, c.regionPresent = true := by
  intro c hc
  unfold KDTree_neighbor_search.calls at hc
  simp only at hc
  split at hc
  · exact descent_calls_regionPresent
      { T with
        _neighbor_list := [],
        _neighbor_count := 0,
        _neighbor_radius := r,
        _neighbor_radius_sq := r * r } hdim T._root _ 0 hinv (Region_create_WF _ _ _) hbox
      c hc
  · cases hc

/-- The root `set_data` installs has cut dimensions that follow the depth. -/
theorem PyTree_set_data_CutDims (libc : Libc α) (t : KDTree α) (view : Py_buffer α)
    (T : KDTree α) (h : PyTree_set_data libc t view = PyRet.ok T ()) :
    T.dim = t.dim ∧ T._root.CutDims t.dim 0 := by
  unfold PyTree_set_data at h
  split_ifs at h
  simp only at h
  rw [add_loop] at h
  split at h
  · rename_i built hbuild
    have hsh := build_go_shape libc _ _ 0 0 0 built.1 built.2 hbuild
    simp only at hsh
    injection h with hT
    subst hT
    exact ⟨hsh.1, hsh.2.2.1⟩
  · cases h

/-- A tree initialised and loaded once: its root has cut dimensions that follow the depth,
besides what `loadedTree_spec` says. -/
theorem loadedTree_CutDims (libc : Libc α) (k B : Nat) (hk : 0 < k) (hB : 0 < B)
    (view : Py_buffer α) (hnd : view.ndim = 2) (hnum : numerical view.datatype = true) :
    ∃ T : KDTree α, loadedTree libc (k : Int) (B : Int) view = PyRet.ok T () ∧
      T.dim = k ∧
      T._data_point_list.Perm (loaded k (view.shape.getD 0 0)
        (COPY2DARRAY view (view.shape.getD 0 0) (view.shape.getD 1 0))) ∧
      T._root.Inv T._data_point_list k 0 ∧
      T._root.pts T._data_point_list = T._data_point_list ∧
      T._root.CutDims k 0 := by
  rcases loadedTree_spec libc k B hk hB view hnd hnum with
    ⟨T, hT, hdim, _, hperm, hinv, hpts, _⟩
  refine ⟨T, hT, hdim, hperm, hinv, hpts, ?_⟩
  unfold loadedTree at hT
  rw [PyTree_init_ok _ k B hk hB] at hT
  simp only [PyRet.andThen] at hT
  exact (PyTree_set_data_CutDims libc _ view T hT).2

/-! ### The median split of the build -/

/-- C33: for every tree state with `bucket_size >= 1`: a call of `KDTree_build_tree` on a
range `[b, e)` of more than `bucket_size` records splits it at `b + m` with
`m = d/2 + d%2`, `d = e - b`, where `0 < m < d`, so both child ranges `[b, b+m)` and
`[b+m, e)` are non-empty and shorter than `[b, e)`, and it recurses on these two ranges;
every call on a range `[b, e)` of the store returns a node when it is given more steps than
the range has records, and in the node it returns every internal node has a non-empty left
and a non-empty right range that meet inside the node's range; so does the whole build. -/
theorem C33_build_terminates (libc : Libc α) (t : KDTree α) (hB : 0 < t._bucket_size) :
    (∀ (fuel b e depth : Nat), (depth = 0 → b = 0 ∧ e = t._data_point_list.length) →
      t._bucket_size < e - b → e ≤ t._data_point_list.length →
      (b < b + ((e - b) / 2 + (e - b) % 2) ∧ b + ((e - b) / 2 + (e - b) % 2) < e ∧
        (b + ((e - b) / 2 + (e - b) % 2)) - b < e - b ∧
        e - (b + ((e - b) / 2 + (e - b) % 2)) < e - b) ∧
      ∃ (sorted : List (DataPoint α)) (v : α),
        KDTree_build_tree.go libc (fuel + 1) t b e depth =
          (KDTree_build_tree.go libc fuel
            { t with _data_point_list :=
              t._data_point_list.take b ++ sorted ++ t._data_point_list.drop e }
            b (b + ((e - b) / 2 + (e - b) % 2)) (depth + 1) >>= fun left =>
          KDTree_build_tree.go libc fuel left.2 (b + ((e - b) / 2 + (e - b) % 2)) e
            (depth + 1) >>= fun right =>
          pure (Node.mk left.1 right.1 v (depth % t.dim) b e, right.2))) ∧
    (∀ (fuel b e depth : Nat), (depth = 0 → b = 0 ∧ e = t._data_point_list.length) →
      b ≤ e → e ≤ t._data_point_list.length → e - b < fuel →
      ∃ (node : Node α) (store' : List (DataPoint α)),
        KDTree_build_tree.go libc fuel t b e depth =
          pure (node, { t with _data_point_list := store' }) ∧
        node.start = b ∧ node.stop = e ∧ node.Halved) ∧
    ∃ (root : Node α) (store' : List (DataPoint α)),
      KDTree_build_tree libc t 0 0 0 = pure (root, { t with _data_point_list := store' }) ∧
      root.start = 0 ∧ root.stop = t._data_point_list.length ∧ root.Halved := by
  refine ⟨?_, ?_, ?_⟩
  · intro fuel b e depth hd0 hbig he
    refine ⟨by omega, ?_⟩
    rcases build_go_step libc fuel t b e depth hd0 hbig he with ⟨sorted, q, _, _, hstep⟩
    exact ⟨sorted, _, hstep⟩
  · intro fuel b e depth hd0 hbe he hfuel
    rcases build_go_spec libc fuel t b e depth hB hd0 hbe he hfuel with
      ⟨node, store', hgo, _, _, _, _, hs, hne, hinv⟩
    exact ⟨node, store', hgo, hs, hne, Halved_of_Inv node depth hinv⟩
  · rcases KDTree_build_tree_median libc t hB with
      ⟨root, store', hrun, hperm, hinv, hs, he, _⟩
    exact ⟨root, store', hrun, hs, by rw [he, hperm.length_eq], Halved_of_Inv root 0 hinv⟩

/-- C33 at a concrete input: four points on a line with bucket size 1: the hypothesis
holds, and the build returns a root on `[0, 4)` with children on `[0, 2)` and `[2, 4)`, each
with two leaves of one record. -/
theorem C33_witness_four_points :
    (0 < (unbuilt 1 1 4 [3, 1, 2, 0])._bucket_size ∧
      (KDTree_build_tree libcInt (unbuilt 1 1 4 [3, 1, 2, 0]) 0 0 0).toOption.map
        (fun built => built.1) =
        some (Node.mk
          (Node.mk (Node.mk Node.NULL Node.NULL (-1) 0 0 1)
            (Node.mk Node.NULL Node.NULL (-1) 0 1 2) 0 0 0 2)
          (Node.mk (Node.mk Node.NULL Node.NULL (-1) 0 2 3)
            (Node.mk Node.NULL Node.NULL (-1) 0 3 4) 2 0 2 4)
          1 0 0 4)) ∧
    ∃ (root : Node ℤ) (store' : List (DataPoint ℤ)),
      KDTree_build_tree libcInt (unbuilt 1 1 4 [3, 1, 2, 0]) 0 0 0 =
        pure (root, { unbuilt 1 1 4 [3, 1, 2, 0] with _data_point_list := store' }) ∧
      root.start = 0 ∧ root.stop = (unbuilt 1 1 4 [3, 1, 2, 0])._data_point_list.length ∧
      root.Halved :=
  ⟨by decide!,
    (C33_build_terminates libcInt (unbuilt 1 1 4 [3, 1, 2, 0]) (by decide!)).2.2⟩

/-! ### The calls of the all-pairs descent -/

/-- C34: for every `k >= 1`, bucket size `B >= 1` and every `n x k` matrix of points, the
tree that `init(k, B); set_data(points)` builds has in every node the cut dimension
`depth % k` of the node's depth, and for every radius every call that `all_pairs` makes of
`KDTree__neighbor_search(node, region, depth)` and of
`KDTree_neighbor_search_pairs(down, down_region, up, up_region, depth)` is in the call log
`KDTree_neighbor_search.calls` with each of its nodes that is internal lying at depth
`depth` of the tree, so that the stored cut dimension of that node is `depth % k`, the axis
the call splits it on; this holds for each side by itself, whichever side is a leaf and in
whichever order the two sides are passed. The log is complete (it nowhere stops for want of
steps). -/
theorem C34_axis_agreement (libc : Libc α) (k B n : Nat) (hk : 0 < k) (hB : 0 < B)
    (points : Py_buffer α) (hpoints : points.IsMatrix n k) :
    ∃ T0 : KDTree α, loadedTree libc (k : Int) (B : Int) points = PyRet.ok T0 () ∧
      T0.dim = k ∧ T0._root.CutDims k 0 ∧
      ∀ (r : α) (c : Call α), c ∈ KDTree_neighbor_search.calls T0 r →
        c.AxisAgrees T0._root k ∧ c ≠ Call.outOfFuel := by
  rcases loadedTree_CutDims libc k B hk hB points hpoints.1 hpoints.2.2.1 with
    ⟨T0, hT0, hdim, _, _, _, hcut⟩
  refine ⟨T0, hT0, hdim, hcut, ?_⟩
  intro r c hc
  have h := KDTree_neighbor_search_calls_axis T0 (by rw [hdim]; exact hcut) r c hc
  rw [hdim] at h
  refine ⟨h, ?_⟩
  rintro rfl
  exact h

/-- C34 at a concrete input: five points in the plane with bucket size 1 and radius 1: the
hypotheses hold; `all_pairs` makes 24 calls, at depths 0 to 3, and in each of them every
internal node has the cut dimension `depth % 2`. -/
theorem C34_witness_five_points :
    ((0 < 2 ∧ 0 < 1 ∧ (longMatrix 5 2 [4, 0, 2, 5, 0, 1, 3, 3, 1, 2]).IsMatrix 5 2) ∧
      (KDTree_neighbor_search.calls
        (loadedTree libcInt 2 1
          (longMatrix 5 2 [4, 0, 2, 5, 0, 1, 3, 3, 1, 2])).finalTree (1 : ℤ)).map
        (fun c => match c with
          | Call.descent node _ depth =>
            (depth, !node.isInternal || node.cutDim == depth % 2, true)
          | Call.pairs down _ up _ depth =>
            (depth, !down.isInternal || down.cutDim == depth % 2,
              !up.isInternal || up.cutDim == depth % 2)
          | Call.outOfFuel => (0, false, false)) =
        [(0, true, true), (1, true, true), (2, true, true), (3, true, true),
          (2, true, true), (3, true, true), (3, true, true), (3, true, true),
          (3, true, true), (1, true, true), (2, true, true), (1, true, true),
          (2, true, true), (3, true, true), (3, true, true), (3, true, true),
          (3, true, true), (2, true, true), (2, true, true), (3, true, true),
          (3, true, true), (3, true, true), (3, true, true), (2, true, true)]) ∧
    ∃ T0 : KDTree ℤ,
      loadedTree libcInt ((2 : Nat) : Int) ((1 : Nat) : Int)
        (longMatrix 5 2 [4, 0, 2, 5, 0, 1, 3, 3, 1, 2]) = PyRet.ok T0 () ∧
      T0.dim = 2 ∧ T0._root.CutDims 2 0 ∧
      ∀ (r : ℤ) (c : Call ℤ), c ∈ KDTree_neighbor_search.calls T0 r →
        c.AxisAgrees T0._root 2 ∧ c ≠ Call.outOfFuel :=
  ⟨by decide!,
    C34_axis_agreement libcInt 2 1 5 (by decide) (by decide)
      (longMatrix 5 2 [4, 0, 2, 5, 0, 1, 3, 3, 1, 2]) (by decide!)⟩

/-- C35: for every `k >= 1`, bucket size `B >= 1`, radius `r > 0` and every `n x k` matrix
of points whose coordinates all lie in `[-INF, INF]` (`INF` is `10^6`), in the session
`init(k, B); set_data(points); all_pairs(r)` every call of `KDTree__neighbor_search` that
`all_pairs` makes (every entry of the call log `KDTree_neighbor_search.calls`, which is
complete) receives a present region, and `all_pairs` returns a list without a fault. Without
the bound there is a point set for which it does not: for the four points -2000000,
-2000001, -2000002, -2000003 on a line with bucket size 1 and radius 1, the second call of
the descent, on the left child of the root at depth 1, receives an absent region and the
session ends in a null dereference. -/
theorem C35_regions_present (libc : Libc α) (k B n : Nat) (hk : 0 < k) (hB : 0 < B)
    (points : Py_buffer α) (hpoints : points.IsMatrix n k) (r : α) (hr : 0 < r)
    (hbox : InBox k n (COPY2DARRAY points n k)) :
    (∃ T0 : KDTree α, loadedTree libc (k : Int) (B : Int) points = PyRet.ok T0 () ∧
      (∀ c ∈ KDTree_neighbor_search.calls T0 r,
        c.regionPresent = true ∧ c ≠ Call.outOfFuel) ∧
      ∃ T out, PyTree_neighbor_search libc T0 r = PyRet.ok T out) ∧
    (∃ T out, pairsSession libc (k : Int) (B : Int) points r = PyRet.ok T out) ∧
    ((longMatrix 4 1 [-2000000, -2000001, -2000002, -2000003]).IsMatrix 4 1 ∧
      ¬ InBox 1 4
        (COPY2DARRAY (longMatrix 4 1 [-2000000, -2000001, -2000002, -2000003]) 4 1) ∧
      (KDTree_neighbor_search.calls
        (loadedTree libcInt 1 1
          (longMatrix 4 1 [-2000000, -2000001, -2000002, -2000003])).finalTree
        (1 : ℤ)).get? 1 =
        some (Call.descent
          (Node.mk (Node.mk Node.NULL Node.NULL (-1) 0 0 1)
            (Node.mk Node.NULL Node.NULL (-1) 0 1 2) (-2000003) 0 0 2) none 1) ∧
      pairsSession libcInt 1 1 (longMatrix 4 1 [-2000000, -2000001, -2000002, -2000003]) 1 =
        PyRet.fault Fault.nullDeref) := by
  refine ⟨?_, ?_, by decide!⟩
  · rcases loadedTree_CutDims libc k B hk hB points hpoints.1 hpoints.2.2.1 with
      ⟨T0, hT0, hdim, hperm, hinv, hpts, hcut⟩
    rw [IsMatrix.rows hpoints, IsMatrix.cols hpoints] at hperm
    have hsess := (pairs_session libc k B n hk hB points hpoints r hr).2 hbox
    rcases hsess with ⟨T, out, hrun, _⟩
    unfold pairsSession at hrun
    rw [hT0] at hrun
    simp only [PyRet.andThen] at hrun
    refine ⟨T0, hT0, ?_, T, out, hrun⟩
    intro c hc
    refine ⟨?_, ?_⟩
    · refine KDTree_neighbor_search_calls_regionPresent T0 (by rw [hdim]; exact hk)
        (by rw [hdim]; exact hinv) ?_ r c hc
      intro p hp
      rw [hpts] at hp
      rw [hdim]
      exact root_region_encloses hbox (hperm.mem_iff.mp hp)
    · have h := KDTree_neighbor_search_calls_axis T0 (by rw [hdim]; exact hcut) r c hc
      rintro rfl
      exact h
  · rcases (pairs_session libc k B n hk hB points hpoints r hr).2 hbox with ⟨T, out, hrun, _⟩
    exact ⟨T, out, hrun⟩

/-- C35 at a concrete input: the four points 0, 1, 2, 3 on a line with bucket size 1 and
radius 1: the hypotheses hold; `all_pairs` makes 10 calls, three of them of the descent,
each with a present region, and returns three pairs. -/
theorem C35_witness_four_points :
    ((0 < 1 ∧ (longMatrix 4 1 [0, 1, 2, 3]).IsMatrix 4 1 ∧ (0 : ℤ) < 1 ∧
        InBox 1 4 (COPY2DARRAY (longMatrix 4 1 [0, 1, 2, 3]) 4 1)) ∧
      (KDTree_neighbor_search.calls
        (loadedTree libcInt 1 1 (longMatrix 4 1 [0, 1, 2, 3])).finalTree (1 : ℤ)).map
        (fun c => match c with
          | Call.descent _ region depth => (0, depth, region.isSome)
          | Call.pairs _ _ _ _ depth => (1, depth, true)
          | Call.outOfFuel => (2, 0, false)) =
        [(0, 0, true), (0, 1, true), (1, 2, true), (0, 1, true), (1, 2, true),
          (1, 1, true), (1, 2, true), (1, 2, true), (1, 2, true), (1, 2, true)]) ∧
    ∃ T out, pairsSession libcInt ((1 : Nat) : Int) ((1 : Nat) : Int)
      (longMatrix 4 1 [0, 1, 2, 3]) 1 = PyRet.ok T out :=
  ⟨by decide!,
    (C35_regions_present libcInt 1 1 4 (by decide) (by decide) (longMatrix 4 1 [0, 1, 2, 3])
      (by decide!) 1 (by decide) (by decide!)).2.1⟩

set_option exponentiation.threshold 1000

/-! ### Arithmetic of `F32` on integers -/

theorem F32.bitLen_le : ∀ (fuel a b : Nat), a < 2 ^ b → F32.bitLen fuel a ≤ b := by
  intro fuel
  induction fuel with
  | zero => intro a b _; simp [F32.bitLen]
  | succ fuel ih =>
    intro a b h
    rw [F32.bitLen]
    split_ifs with h0
    · omega
    · cases b with
      | zero => simp at h; omega
      | succ b =>
        have : a / 2 < 2 ^ b := by
          rw [Nat.div_lt_iff_lt_mul (by norm_num)]
          rw [pow_succ] at h
          exact h
        have := ih (a / 2) b this
        omega

theorem F32.roundMag_of_dvd (a sh q : Nat) (hq : q = max sh (F32.bitLen (sh + 300) a - 24))
    (hdvd : 2 ^ q ∣ a) (hlt : a / 2 ^ sh < 2 ^ 277) :
    F32.roundMag a sh = some (a / 2 ^ sh) := by
  have hsh : sh ≤ q := by rw [hq]; exact le_max_left _ _
  have ha : a < 2 ^ (sh + 300) := by
    have h1 : a < 2 ^ 277 * 2 ^ sh := (Nat.div_lt_iff_lt_mul (by positivity)).mp hlt
    calc a < 2 ^ 277 * 2 ^ sh := h1
      _ ≤ 2 ^ 300 * 2 ^ sh := Nat.mul_le_mul_right _ (Nat.pow_le_pow_right (by norm_num) (by norm_num))
      _ = 2 ^ (sh + 300) := by rw [pow_add, mul_comm]
  unfold F32.roundMag
  rw [if_neg (not_le.mpr ha)]
  simp only [← hq]
  have hrem : a % 2 ^ q = 0 := Nat.mod_eq_zero_of_dvd hdvd
  rw [hrem]
  have hpos : 0 < 2 ^ q := by positivity
  have hcond : ¬ (2 ^ q < 2 * 0 ∨ (2 * 0 = 2 ^ q ∧ a / 2 ^ q % 2 = 1)) := by
    rintro (h | ⟨h, _⟩) <;> omega
  rw [if_neg hcond]
  have hn : a / 2 ^ q * 2 ^ (q - sh) = a / 2 ^ sh := by
    rcases hdvd with ⟨c, rfl⟩
    rw [Nat.mul_div_cancel_left _ hpos]
    have : 2 ^ q = 2 ^ sh * 2 ^ (q - sh) := by rw [← pow_add]; congr 1; omega
    rw [this, mul_assoc, Nat.mul_div_cancel_left _ (Nat.two_pow_pos sh), mul_comm]
  rw [hn, if_pos hlt]

theorem F32.roundMag_exact (c sh e : Nat) (hc : c ≤ 2 ^ 24) (hlt : c * 2 ^ e < 2 ^ 277) :
    F32.roundMag (c * 2 ^ (sh + e)) sh = some (c * 2 ^ e) := by
  have hdiv : c * 2 ^ (sh + e) / 2 ^ sh = c * 2 ^ e := by
    rw [pow_add, ← mul_assoc, mul_comm c, mul_assoc, Nat.mul_div_cancel_left _ (Nat.two_pow_pos sh)]
  have key := F32.roundMag_of_dvd (c * 2 ^ (sh + e)) sh _ rfl ?_ (by rw [hdiv]; exact hlt)
  · rw [key, hdiv]
  · rcases Nat.lt_or_eq_of_le hc with hc | hc
    · have h1 : c * 2 ^ (sh + e) < 2 ^ (24 + (sh + e)) :=
        calc c * 2 ^ (sh + e) < 2 ^ 24 * 2 ^ (sh + e) :=
              Nat.mul_lt_mul_of_pos_right hc (Nat.two_pow_pos _)
          _ = 2 ^ (24 + (sh + e)) := (pow_add 2 24 (sh + e)).symm
      have h2 := F32.bitLen_le (sh + 300) _ _ h1
      have h3 : max sh (F32.bitLen (sh + 300) (c * 2 ^ (sh + e)) - 24) ≤ sh + e := by
        apply max_le <;> omega
      exact Dvd.dvd.mul_left (Nat.pow_dvd_pow 2 h3) c
    · subst hc
      have h1 : 2 ^ 24 * 2 ^ (sh + e) < 2 ^ (25 + (sh + e)) := by
        rw [← pow_add]
        exact Nat.pow_lt_pow_right (by norm_num) (by omega)
      have h2 := F32.bitLen_le (sh + 300) _ _ h1
      have h3 : max sh (F32.bitLen (sh + 300) (2 ^ 24 * 2 ^ (sh + e)) - 24) ≤ 24 + (sh + e) := by
        apply max_le <;> omega
      have h4 := Nat.pow_dvd_pow 2 h3
      rw [pow_add 2 24] at h4
      exact h4

theorem F32.round_exact (k : ℤ) (sh : Nat) (hk : |k| ≤ 2 ^ 24) :
    F32.round (k * 2 ^ (sh + 149)) sh = F32.fin (k * 2 ^ 149) := by
  have hnat : (k * 2 ^ (sh + 149)).natAbs = k.natAbs * 2 ^ (sh + 149) := by
    rw [Int.natAbs_mul, Int.natAbs_pow]
    rfl
  have hc : k.natAbs ≤ 2 ^ 24 := by
    have : (k.natAbs : ℤ) ≤ 2 ^ 24 := by rw [Int.natCast_natAbs]; exact hk
    exact_mod_cast this
  have hlt : k.natAbs * 2 ^ 149 < 2 ^ 277 :=
    calc k.natAbs * 2 ^ 149 ≤ 2 ^ 24 * 2 ^ 149 := Nat.mul_le_mul_right _ hc
      _ < 2 ^ 277 := by norm_num
  unfold F32.round
  rw [hnat, F32.roundMag_exact _ sh 149 hc hlt]
  simp only
  congr 1
  have hpos : (0 : ℤ) < 2 ^ (sh + 149) := by positivity
  split_ifs with hneg
  · have hk0 : k < 0 := by
      by_contra h
      exact absurd hneg (not_lt.mpr (mul_nonneg (not_lt.mp h) hpos.le))
    push_cast
    rw [abs_of_neg hk0]
    ring
  · have hk0 : 0 ≤ k := by
      by_contra h
      exact hneg (mul_neg_of_neg_of_pos (not_le.mp h) hpos)
    push_cast
    rw [abs_of_nonneg hk0]

theorem F32.ofInt_eq_int (n : ℤ) (h : |n| ≤ 2 ^ 24) : F32.ofInt n = F32.int n := by
  exact F32.round_exact n 0 h

theorem F32.int_add (a b : ℤ) (h : |a + b| ≤ 2 ^ 24) :
    F32.int a + F32.int b = F32.int (a + b) := by
  show F32.add (F32.fin (a * 2 ^ 149)) (F32.fin (b * 2 ^ 149)) = F32.fin ((a + b) * 2 ^ 149)
  rw [F32.add, ← add_mul]
  exact F32.round_exact (a + b) 0 h

theorem F32.int_neg (a : ℤ) : -F32.int a = F32.int (-a) := by
  show F32.neg (F32.fin (a * 2 ^ 149)) = F32.fin (-a * 2 ^ 149)
  rw [F32.neg, neg_mul]

theorem F32.int_sub (a b : ℤ) (h : |a - b| ≤ 2 ^ 24) :
    F32.int a - F32.int b = F32.int (a - b) := by
  show F32.int a + -F32.int b = F32.int (a - b)
  rw [F32.int_neg, F32.int_add _ _ (by rw [← sub_eq_add_neg]; exact h), sub_eq_add_neg]

theorem F32.int_mul (a b : ℤ) (h : |a * b| ≤ 2 ^ 24) :
    F32.int a * F32.int b = F32.int (a * b) := by
  show F32.mul (F32.fin (a * 2 ^ 149)) (F32.fin (b * 2 ^ 149)) = F32.fin (a * b * 2 ^ 149)
  have := F32.round_exact (a * b) 149 h
  rw [F32.mul]
  rw [show a * 2 ^ 149 * (b * 2 ^ 149) = a * b * 2 ^ (149 + 149) by ring]
  exact this

theorem F32.int_fabs (a : ℤ) : Fabs.fabs (F32.int a) = F32.int |a| := by
  show F32.fabs (F32.fin (a * 2 ^ 149)) = F32.fin (|a| * 2 ^ 149)
  rw [F32.fabs, abs_mul, abs_of_pos (by positivity : (0 : ℤ) < 2 ^ 149)]

theorem F32.int_lt (a b : ℤ) : F32.int a < F32.int b ↔ a < b := by
  show F32.blt (F32.fin (a * 2 ^ 149)) (F32.fin (b * 2 ^ 149)) = true ↔ a < b
  rw [F32.blt, decide_eq_true_eq]
  exact mul_lt_mul_right (by positivity)

theorem F32.int_le (a b : ℤ) : F32.int a ≤ F32.int b ↔ a ≤ b := by
  show F32.ble (F32.fin (a * 2 ^ 149)) (F32.fin (b * 2 ^ 149)) = true ↔ a ≤ b
  rw [F32.ble, decide_eq_true_eq]
  exact mul_le_mul_right (by positivity)

theorem F32.int_inj (a b : ℤ) : F32.int a = F32.int b ↔ a = b := by
  unfold F32.int
  rw [F32.fin.injEq]
  exact mul_left_inj' (by positivity)

theorem F32.int_zero : F32.int 0 = 0 := by
  show F32.fin (0 * 2 ^ 149) = F32.fin 0
  rw [zero_mul]

theorem F32.int_one : F32.int 1 = 1 := by
  show F32.fin (1 * 2 ^ 149) = F32.fin (2 ^ 149)
  rw [one_mul]

theorem F32.int_INF : F32.int INF = INF := rfl

theorem F32.toInt_int (n : ℤ) : F32.toInt (F32.int n) = n := by
  show n * 2 ^ 149 / 2 ^ 149 = n
  exact Int.mul_ediv_cancel _ (by positivity)

/-! ### The model in `float` on integer inputs: the functions without arithmetic -/

theorem idx_map_int (l : List ℤ) (i : Nat) : idx (l.map F32.int) i = F32.int (idx l i) := by
  unfold idx
  rw [← F32.int_zero, List.getD_map]

theorem idx_drop_map_int (l : List ℤ) (n i : Nat) :
    idx ((l.map F32.int).drop n) i = F32.int (idx (l.drop n) i) := by
  rw [← List.map_drop, idx_map_int]

theorem compare_map_int (d : Nat) (p q : DataPoint ℤ) :
    compare d (p.map F32.int) (q.map F32.int) = compare d p q := by
  unfold compare DataPoint.map
  simp only [idx_map_int, gt_iff_lt, F32.int_lt]

theorem DataPoint.map_int_injective : Function.Injective (DataPoint.map F32.int) := by
  intro p q h
  cases p with
  | mk pi pc =>
    cases q with
    | mk qi qc =>
      simp only [DataPoint.map, DataPoint.mk.injEq] at h ⊢
      refine ⟨h.1, ?_⟩
      exact List.map_injective_iff.mpr (fun a b hab => (F32.int_inj a b).mp hab) h.2

theorem DataPoint.unmap_map (p : DataPoint ℤ) :
    DataPoint.map F32.toInt (DataPoint.map F32.int p) = p := by
  cases p with
  | mk i c =>
    simp only [DataPoint.map, List.map_map, DataPoint.mk.injEq, true_and]
    conv_rhs => rw [← List.map_id c]
    apply List.map_congr_left
    intro a _
    exact F32.toInt_int a

theorem compare_injective (d e : Nat)
    (h : (compare d : DataPoint ℤ → DataPoint ℤ → Int) = compare e) : d = e := by
  by_contra hne
  have h1 := congrFun (congrFun h ⟨0, List.replicate d 0 ++ [1]⟩) ⟨0, []⟩
  unfold compare idx at h1
  simp only [List.getD_nil] at h1
  have hd : (List.replicate d (0 : ℤ) ++ [1]).getD d 0 = 1 := by
    rw [List.getD_append_right _ _ _ _ (by simp)]
    simp
  have he : (List.replicate d (0 : ℤ) ++ [1]).getD e 0 = 0 := by
    rcases Nat.lt_or_gt_of_ne hne with hlt | hgt
    · rw [List.getD_eq_default _ _ (by simp; omega)]
    · rw [List.getD_append _ _ _ _ (by simp; omega)]
      rw [List.getD_eq_getElem _ _ (by simp; omega)]
      simp
  rw [hd, he] at h1
  simp at h1

/-- For every C library on `float` there is one on the integers whose `qsort` sorts integer
records as the first sorts them as `float` records, and whose `sqrt` returns its argument. -/
theorem exists_libcZ (libcF : Libc F32) :
    ∃ libcZ : Libc ℤ, (∀ x, libcZ.sqrt x = x) ∧
      ∀ (d : Nat) (l : List (DataPoint ℤ)),
        (libcZ.qsort (compare d) l).map (DataPoint.map F32.int) =
          libcF.qsort (compare d) (l.map (DataPoint.map F32.int)) := by
  classical
  have hround : ∀ (d : Nat) (l : List (DataPoint ℤ)),
      ((libcF.qsort (compare d) (l.map (DataPoint.map F32.int))).map
          (DataPoint.map F32.toInt)).map (DataPoint.map F32.int) =
        libcF.qsort (compare d) (l.map (DataPoint.map F32.int)) := by
    intro d l
    rw [List.map_map]
    conv_rhs => rw [← List.map_id (libcF.qsort (compare d) (l.map (DataPoint.map F32.int)))]
    apply List.map_congr_left
    intro x hx
    have hx' := (libcF.qsort_perm d _).mem_iff.mp hx
    rcases List.mem_map.mp hx' with ⟨p, _, rfl⟩
    simp only [Function.comp, DataPoint.unmap_map, id]
  refine ⟨{ sqrt := fun x => x,
            qsort := fun cmp l =>
              if h : ∃ d, cmp = compare d then
                (libcF.qsort (compare (Classical.choose h)) (l.map (DataPoint.map F32.int))).map
                  (DataPoint.map F32.toInt)
              else l,
            qsort_perm := ?_,
            qsort_sorted := ?_ }, fun _ => rfl, ?_⟩
  · intro d l
    have h : ∃ e, (compare d : DataPoint ℤ → DataPoint ℤ → Int) = compare e := ⟨d, rfl⟩
    simp only [dif_pos h]
    have hd : Classical.choose h = d := (compare_injective _ _ (Classical.choose_spec h)).symm
    rw [hd]
    have := (libcF.qsort_perm d (l.map (DataPoint.map F32.int))).map (DataPoint.map F32.toInt)
    refine this.trans ?_
    rw [List.map_map]
    have : (DataPoint.map F32.toInt ∘ DataPoint.map F32.int) = id := by
      funext p
      exact DataPoint.unmap_map p
    rw [this, List.map_id]
  · intro d l
    have h : ∃ e, (compare d : DataPoint ℤ → DataPoint ℤ → Int) = compare e := ⟨d, rfl⟩
    simp only [dif_pos h]
    have hd : Classical.choose h = d := (compare_injective _ _ (Classical.choose_spec h)).symm
    rw [hd]
    have hs := libcF.qsort_sorted d (l.map (DataPoint.map F32.int))
    rw [← hround d l, List.pairwise_map] at hs
    exact hs.imp (fun hab => by rw [compare_map_int] at hab; exact hab)
  · intro d l
    have h : ∃ e, (compare d : DataPoint ℤ → DataPoint ℤ → Int) = compare e := ⟨d, rfl⟩
    simp only [dif_pos h]
    have hd : Classical.choose h = d := (compare_injective _ _ (Classical.choose_spec h)).symm
    rw [hd]
    exact hround d l

/-! ### The model in `float` on integer inputs: regions and distances -/

theorem Node.isNull_map (node : Node ℤ) : (node.map F32.int).isNull = node.isNull := by
  cases node <;> rfl

theorem Node.height_map (node : Node ℤ) : (node.map F32.int).height = node.height := by
  induction node with
  | NULL => rfl
  | mk l r v d s e ihl ihr => simp only [Node.map, Node.height, ihl, ihr]

theorem Node_is_leaf_map (node : Node ℤ) : Node_is_leaf (node.map F32.int) = Node_is_leaf node := by
  cases node with
  | NULL => rfl
  | mk l r v d s e => simp only [Node.map, Node_is_leaf, Node.isNull_map]

theorem neg_INF_int : (-INF : F32) = F32.int (-INF) := by
  rw [← F32.int_INF, F32.int_neg]

theorem Region_create_none_map (dim : Nat) :
    (Region_create dim none none : Region F32) =
      (Region_create dim none none : Region ℤ).map F32.int := by
  simp only [Region_create, Region.map, List.map_map, Function.comp, neg_INF_int, F32.int_INF]
  rfl

theorem Region_create_some_map (dim : Nat) (left right : List ℤ) :
    Region_create dim (some (left.map F32.int)) (some (right.map F32.int)) =
      (Region_create dim (some left) (some right)).map F32.int := by
  simp only [Region_create, Region.map, List.map_map, Function.comp, idx_map_int]
  rfl

theorem Region_create_copy_map (dim : Nat) (R : Region ℤ) :
    Region_create dim (some (R.map F32.int)._left) (some (R.map F32.int)._right) =
      (Region_create dim (some R._left) (some R._right)).map F32.int :=
  Region_create_some_map dim R._left R._right

theorem Region_encloses_map (dim : Nat) (R : Region ℤ) (c : List ℤ) :
    Region_encloses dim (R.map F32.int) (c.map F32.int) = Region_encloses dim R c := by
  simp only [Region_encloses, Region.map, idx_map_int, ge_iff_le, F32.int_le]

theorem Region_test_intersect_left_map (R : Region ℤ) (v : ℤ) (d : Nat) :
    Region_test_intersect_left (R.map F32.int) (F32.int v) d = Region_test_intersect_left R v d := by
  simp only [Region_test_intersect_left, Region.map, idx_map_int, F32.int_lt]

theorem Region_test_intersect_right_map (R : Region ℤ) (v : ℤ) (d : Nat) :
    Region_test_intersect_right (R.map F32.int) (F32.int v) d =
      Region_test_intersect_right R v d := by
  simp only [Region_test_intersect_right, Region.map, idx_map_int, F32.int_le]

theorem Region_test_intersection_loop_map (R Q : Region ℤ) (r L : ℤ) (hR : R.Within L)
    (hQ : Q.Within L) (hL : 2 * L ≤ 2 ^ 24) : ∀ (l : List Nat) (status : Nat),
    Region_test_intersection.loop (R.map F32.int) (Q.map F32.int) (F32.int r) l status =
      Region_test_intersection.loop R Q r l status := by
  intro l
  induction l with
  | nil => intro status; rfl
  | cons i rest ih =>
    intro status
    have h1 := hR i
    have h2 := hQ i
    have e1 : |idx R._left i - idx Q._right i| ≤ 2 ^ 24 := by
      have := abs_sub (idx R._left i) (idx Q._right i)
      linarith [h1.1, h2.2]
    have e2 : |idx Q._left i - idx R._right i| ≤ 2 ^ 24 := by
      have := abs_sub (idx Q._left i) (idx R._right i)
      linarith [h1.2, h2.1]
    simp only [Region_test_intersection.loop, Region.map, idx_map_int, F32.int_sub _ _ e1,
      F32.int_sub _ _ e2, gt_iff_lt, ge_iff_le, F32.int_lt, F32.int_le]
    simp only [Region.map] at ih
    simp only [ih]

theorem Region_test_intersection_map (dim : Nat) (R Q : Region ℤ) (r L : ℤ) (hR : R.Within L)
    (hQ : Q.Within L) (hL : 2 * L ≤ 2 ^ 24) :
    Region_test_intersection dim (R.map F32.int) (Q.map F32.int) (F32.int r) =
      Region_test_intersection dim R Q r :=
  Region_test_intersection_loop_map R Q r L hR hQ hL _ _

theorem Region_create_intersect_left_map (dim : Nat) (R : Region ℤ) (v : ℤ) (d : Nat) :
    (Region_create_intersect_left dim (R.map F32.int) (F32.int v) d).1 =
      (Region_create_intersect_left dim R v d).1.map F32.int := by
  simp only [Region_create_intersect_left, Region.map]
  rw [← List.map_set]
  exact Region_create_some_map dim _ _

theorem Region_create_intersect_right_map (dim : Nat) (R : Region ℤ) (v : ℤ) (d : Nat) :
    (Region_create_intersect_right dim (R.map F32.int) (F32.int v) d).1 =
      (Region_create_intersect_right dim R v d).1.map F32.int := by
  simp only [Region_create_intersect_right, Region.map]
  rw [← List.map_set]
  exact Region_create_some_map dim _ _

theorem left_child_region_map (dim : Nat) (R : Region ℤ) (v : ℤ) (d : Nat) :
    left_child_region dim (R.map F32.int) (F32.int v) d =
      (left_child_region dim R v d).map (Region.map F32.int) := by
  unfold left_child_region
  simp only [Region_test_intersect_left_map]
  split_ifs
  · rw [Option.map_some', ← Region_create_copy_map]
  · rw [Option.map_some', Region_create_intersect_left_map]
  · rfl

theorem right_child_region_map (dim : Nat) (R : Region ℤ) (v : ℤ) (d : Nat) :
    right_child_region dim (R.map F32.int) (F32.int v) d =
      (right_child_region dim R v d).map (Region.map F32.int) := by
  unfold right_child_region
  simp only [Region_test_intersect_right_map]
  split_ifs
  · rw [Option.map_some', ← Region_create_copy_map]
  · rw [Option.map_some', Region_create_intersect_right_map]
  · rfl

theorem pairs_children_map (dim : Nat) (node : Node ℤ) (R : Region ℤ) (d : Nat) :
    pairs_children dim (node.map F32.int) (R.map F32.int) d =
      ((pairs_children dim node R d).1.map F32.int,
        (pairs_children dim node R d).2.1.map (Region.map F32.int),
        (pairs_children dim node R d).2.2.1.map F32.int,
        (pairs_children dim node R d).2.2.2.map (Region.map F32.int)) := by
  cases node with
  | NULL => rfl
  | mk l r v cd s e =>
    simp only [Node.map, pairs_children, Node.isNull_map]
    split_ifs
    · simp only [Option.map_some', Node.map, Option.map_none']
      rw [← Region_create_copy_map]
    · simp only [left_child_region_map, right_child_region_map]

/-! ### The model in `float` on integer inputs: `KDTree_dist` and the two tests -/

theorem SmallInts.idx {M : ℤ} {l : List ℤ} (h : SmallInts M l) (hM : 0 ≤ M) (i : Nat) :
    |idx l i| ≤ M := by
  unfold KDTrees.idx
  by_cases hi : i < l.length
  · rw [List.getD_eq_getElem _ _ hi]
    exact h _ (List.getElem_mem _)
  · rw [List.getD_eq_default _ _ (not_lt.mp hi), abs_zero]
    exact hM

theorem SmallInts.drop {M : ℤ} {l : List ℤ} (h : SmallInts M l) (n : Nat) :
    SmallInts M (l.drop n) :=
  fun x hx => h x (List.mem_of_mem_drop hx)

theorem KDTree_dist_fold_map (a b o : List ℤ) (dim : Nat) (M : ℤ) (hM : 0 ≤ M)
    (ha : Near o dim M a) (hb : Near o dim M b) : ∀ (l : List Nat) (S : ℤ),
    (∀ i ∈ l, i < dim) → 0 ≤ S →
    S + (l.length : ℤ) * (2 * M) ^ 2 ≤ 2 ^ 24 →
    l.foldl (fun sum i => sum + (idx (a.map F32.int) i - idx (b.map F32.int) i) *
        (idx (a.map F32.int) i - idx (b.map F32.int) i)) (F32.int S) =
      F32.int (l.foldl (fun sum i => sum + (idx a i - idx b i) * (idx a i - idx b i)) S) := by
  intro l
  induction l with
  | nil => intro S _ _ _; rfl
  | cons i rest ih =>
    intro S hl hS hbound
    simp only [List.length_cons, Nat.cast_add, Nat.cast_one] at hbound
    have hrest : (0 : ℤ) ≤ (rest.length : ℤ) * (2 * M) ^ 2 := by positivity
    have hsq : (2 * M) ^ 2 ≤ 2 ^ 24 := by nlinarith
    have h2M : 2 * M ≤ 2 ^ 24 := by nlinarith
    have hai := ha i (hl i (List.mem_cons_self _ _))
    have hbi := hb i (hl i (List.mem_cons_self _ _))
    have hd : |idx a i - idx b i| ≤ 2 * M := by
      have h3 : idx a i - idx b i = (idx a i - idx o i) - (idx b i - idx o i) := by ring
      rw [h3]
      have := abs_sub (idx a i - idx o i) (idx b i - idx o i)
      linarith
    have hdd : (idx a i - idx b i) * (idx a i - idx b i) ≤ (2 * M) ^ 2 := by
      rw [← abs_mul_abs_self (idx a i - idx b i), sq]
      exact mul_le_mul hd hd (abs_nonneg _) (by linarith)
    have hdd0 : 0 ≤ (idx a i - idx b i) * (idx a i - idx b i) := mul_self_nonneg _
    simp only [List.foldl_cons, idx_map_int]
    rw [F32.int_sub _ _ (by linarith), F32.int_mul _ _ (by rw [abs_of_nonneg hdd0]; linarith),
      F32.int_add _ _ (by rw [abs_of_nonneg (by linarith)]; nlinarith)]
    have := ih (S + (idx a i - idx b i) * (idx a i - idx b i))
      (fun j hj => hl j (List.mem_cons_of_mem _ hj)) (by linarith) (by nlinarith)
    simp only [idx_map_int] at this
    exact this

theorem KDTree_dist_map (a b o : List ℤ) (dim : Nat) (M : ℤ) (hM : 0 ≤ M)
    (hdim : (dim : ℤ) * (2 * M) ^ 2 ≤ 2 ^ 24) (ha : Near o dim M a) (hb : Near o dim M b) :
    KDTree_dist (a.map F32.int) (b.map F32.int) dim = F32.int (KDTree_dist a b dim) := by
  unfold KDTree_dist
  rw [← F32.int_zero]
  exact KDTree_dist_fold_map a b o dim M hM ha hb (List.range dim) 0
    (fun i hi => List.mem_range.mp hi) (le_refl _) (by rw [List.length_range]; linarith)

theorem KDTree_report_point_map (libcF : Libc F32) (libcZ : Libc ℤ) (g : ℤ → F32)
    (hsqrt : ∀ d, g (libcZ.sqrt d) = libcF.sqrt (F32.int d)) (t : KDTree ℤ) (o : List ℤ)
    (M L : ℤ) (ht : t.Small o M L) (hcen : Near o t.dim M t._center_coord) (index : Nat)
    (coord : List ℤ) (hc : SmallPoint o t.dim M L coord) :
    KDTree_report_point libcF (t.map F32.int g) index (coord.map F32.int) =
      (KDTree_report_point libcZ t index coord).map F32.int g := by
  unfold KDTree_report_point
  simp only [KDTree.map]
  rw [KDTree_dist_map _ _ o _ M ht.1 ht.2.1 hcen hc.2]
  by_cases h : KDTree_dist t._center_coord coord t.dim ≤ t._radius_sq
  · rw [if_pos ((F32.int_le _ _).mpr h), if_pos h]
    simp only [KDTree.map, List.map_append, List.map_cons, List.map_nil, Radius.map, hsqrt]
  · rw [if_neg (fun h' => h ((F32.int_le _ _).mp h')), if_neg h]

theorem KDTree_test_neighbors_map (libcF : Libc F32) (libcZ : Libc ℤ) (g : ℤ → F32)
    (hsqrt : ∀ d, g (libcZ.sqrt d) = libcF.sqrt (F32.int d)) (t : KDTree ℤ) (o : List ℤ)
    (M L : ℤ) (ht : t.Small o M L) (p1 p2 : DataPoint ℤ)
    (h1 : SmallPoint o t.dim M L p1._coord) (h2 : SmallPoint o t.dim M L p2._coord) :
    KDTree_test_neighbors libcF (t.map F32.int g) (p1.map F32.int) (p2.map F32.int) =
      (KDTree_test_neighbors libcZ t p1 p2).map F32.int g := by
  unfold KDTree_test_neighbors
  simp only [KDTree.map, DataPoint.map]
  rw [KDTree_dist_map _ _ o _ M ht.1 ht.2.1 h1.2 h2.2]
  by_cases h : KDTree_dist p1._coord p2._coord t.dim ≤ t._neighbor_radius_sq
  · rw [if_pos ((F32.int_le _ _).mpr h), if_pos h]
    simp only [KDTree.map, List.map_append, List.map_cons, List.map_nil, Neighbor.map, hsqrt,
      DataPoint.map]
  · rw [if_neg (fun h' => h ((F32.int_le _ _).mp h')), if_neg h]

theorem KDTree.point_map (t : KDTree ℤ) (g : ℤ → F32) (i : Nat) :
    (t.map F32.int g).point i = (t.point i).map (DataPoint.map F32.int) := by
  unfold KDTree.point
  simp only [KDTree.map, List.get?_eq_getElem?, List.getElem?_map]
  cases t._data_point_list[i]? <;> rfl

/-! ### The model in `float` on integer inputs: the loops of the pair search -/

theorem KDTree.SameQuery.same_refl (t : KDTree ℤ) : t.SameQuery t :=
  ⟨rfl, rfl, rfl, rfl, rfl, rfl, rfl, rfl, rfl, rfl, rfl⟩

theorem KDTree.SameQuery.same_trans {t t' t'' : KDTree ℤ} (h1 : t.SameQuery t')
    (h2 : t'.SameQuery t'') : t.SameQuery t'' := by
  unfold KDTree.SameQuery at *
  rcases h1 with ⟨a1, a2, a3, a4, a5, a6, a7, a8, a9, a10, a11⟩
  rcases h2 with ⟨b1, b2, b3, b4, b5, b6, b7, b8, b9, b10, b11⟩
  exact ⟨b1.trans a1, b2.trans a2, b3.trans a3, b4.trans a4, b5.trans a5, b6.trans a6,
    b7.trans a7, b8.trans a8, b9.trans a9, b10.trans a10, b11.trans a11⟩

theorem KDTree.Small.small_of_same {o : List ℤ} {M L : ℤ} {t t' : KDTree ℤ} (h : t.Small o M L) (hs : t.SameQuery t') :
    t'.Small o M L := by
  unfold KDTree.Small at *
  rw [hs.1, hs.2.2.2.2.2.2.2.2.2.2]
  exact h

theorem SmallPoint.point_of_same {o : List ℤ} {M L : ℤ} {t t' : KDTree ℤ} {c : List ℤ}
    (h : SmallPoint o t.dim M L c) (hs : t.SameQuery t') : SmallPoint o t'.dim M L c := by
  rw [hs.2.2.2.2.2.2.2.2.2.2]
  exact h

theorem SimRun.mono_same {g : ℤ → F32} {t0 t : KDTree ℤ} {x : Run (KDTree ℤ)}
    {y : Run (KDTree F32)} (h0 : t0.SameQuery t) (h : SimRun g t x y) : SimRun g t0 x y :=
  ⟨h.1, fun t' ht' => h0.same_trans (h.2 t' ht')⟩

theorem SimRun.pure_same (g : ℤ → F32) {t t' : KDTree ℤ} (h : t.SameQuery t') :
    SimRun g t (pure t') (pure (t'.map F32.int g)) :=
  ⟨rfl, fun t'' ht'' => by cases ht''; exact h⟩

theorem SimRun.error (g : ℤ → F32) (t : KDTree ℤ) (e : Fault) :
    SimRun g t (Except.error e) (Except.error e) :=
  ⟨rfl, fun _ h => by cases h⟩

theorem SimRun.bind_sims {g : ℤ → F32} {t : KDTree ℤ} {x : Run (KDTree ℤ)} {y : Run (KDTree F32)}
    {f : KDTree ℤ → Run (KDTree ℤ)} {f' : KDTree F32 → Run (KDTree F32)}
    (h : SimRun g t x y)
    (hf : ∀ t', t.SameQuery t' → SimRun g t' (f t') (f' (t'.map F32.int g))) :
    SimRun g t (x >>= f) (y >>= f') := by
  rcases h with ⟨rfl, hx⟩
  cases x with
  | error e => exact SimRun.error g t e
  | ok t' => exact SimRun.mono_same (hx t' rfl) (hf t' (hx t' rfl))

theorem forRange_sim (g : ℤ → F32) (body : Nat → KDTree ℤ → Run (KDTree ℤ))
    (body' : Nat → KDTree F32 → Run (KDTree F32)) (t0 : KDTree ℤ)
    (h : ∀ i t', t0.SameQuery t' → SimRun g t' (body i t') (body' i (t'.map F32.int g)))
    (lo hi : Nat) (t : KDTree ℤ) (ht : t0.SameQuery t) :
    SimRun g t (forRange lo hi body t) (forRange lo hi body' (t.map F32.int g)) := by
  unfold forRange
  generalize List.range' lo (hi - lo) = l
  induction l generalizing t with
  | nil => exact SimRun.pure_same g (KDTree.SameQuery.same_refl t)
  | cons i rest ih =>
    rw [List.foldlM_cons, List.foldlM_cons]
    exact SimRun.bind_sims (h i t ht) (fun t' ht' => ih t' (ht.same_trans ht'))

theorem point_bind_sim (g : ℤ → F32) (t : KDTree ℤ) (i : Nat)
    (k : DataPoint ℤ → Run (KDTree ℤ)) (k' : DataPoint F32 → Run (KDTree F32))
    (h : ∀ p ∈ t._data_point_list, SimRun g t (k p) (k' (p.map F32.int))) :
    SimRun g t (t.point i >>= k) ((t.map F32.int g).point i >>= k') := by
  rw [KDTree.point_map]
  unfold KDTree.point
  rw [List.get?_eq_getElem?]
  cases hp : t._data_point_list[i]? with
  | none => exact SimRun.error g t _
  | some p => exact h p (List.getElem?_mem hp)

theorem test_neighbors_sim (libcF : Libc F32) (libcZ : Libc ℤ) (g : ℤ → F32)
    (hL : LibcAgree libcF libcZ g) (o : List ℤ) (M L : ℤ) (t : KDTree ℤ) (ht : t.Small o M L)
    (p1 p2 : DataPoint ℤ) (h1 : SmallPoint o t.dim M L p1._coord)
    (h2 : SmallPoint o t.dim M L p2._coord) :
    SimRun g t (pure (KDTree_test_neighbors libcZ t p1 p2))
      (pure (KDTree_test_neighbors libcF (t.map F32.int g) (p1.map F32.int)
        (p2.map F32.int))) := by
  rw [KDTree_test_neighbors_map libcF libcZ g hL.1 t o M L ht p1 p2 h1 h2]
  refine SimRun.pure_same g ?_
  unfold KDTree_test_neighbors
  simp only
  split_ifs
  · exact ⟨rfl, rfl, rfl, rfl, rfl, rfl, rfl, rfl, rfl, rfl, rfl⟩
  · exact KDTree.SameQuery.same_refl t

theorem row_sim (libcF : Libc F32) (libcZ : Libc ℤ) (g : ℤ → F32)
    (hL : LibcAgree libcF libcZ g) (o : List ℤ) (M L : ℤ) (t0 : KDTree ℤ) (h0 : t0.Small o M L)
    (p1 : DataPoint ℤ) (h1 : SmallPoint o t0.dim M L p1._coord) (lo hi : Nat) (t : KDTree ℤ)
    (ht : t0.SameQuery t) :
    SimRun g t
      (forRange lo hi (fun j tree => do
        let p2 ← tree.point j
        pure (KDTree_test_neighbors libcZ tree p1 p2)) t)
      (forRange lo hi (fun j tree => do
        let p2 ← tree.point j
        pure (KDTree_test_neighbors libcF tree (p1.map F32.int) p2)) (t.map F32.int g)) := by
  refine forRange_sim g _ _ t0 ?_ lo hi t ht
  intro j t' ht'
  refine point_bind_sim g t' j _ _ ?_
  intro p2 hp2
  have hs := h0.small_of_same ht'
  exact test_neighbors_sim libcF libcZ g hL o M L t' hs p1 p2 (h1.point_of_same ht')
    (hs.2.2 p2 hp2)

theorem in_bucket_sim (libcF : Libc F32) (libcZ : Libc ℤ) (g : ℤ → F32)
    (hL : LibcAgree libcF libcZ g) (o : List ℤ) (M L : ℤ) (t : KDTree ℤ) (ht : t.Small o M L) (node : Node ℤ) :
    SimRun g t (KDTree_search_neighbors_in_bucket libcZ t node)
      (KDTree_search_neighbors_in_bucket libcF (t.map F32.int g) (node.map F32.int)) := by
  cases node with
  | NULL => exact SimRun.error g t _
  | mk l r v d s e =>
    simp only [Node.map, KDTree_search_neighbors_in_bucket]
    refine forRange_sim g _ _ t ?_ s e t (KDTree.SameQuery.same_refl t)
    intro i t' ht'
    refine point_bind_sim g t' i _ _ ?_
    intro p1 hp1
    have hs := ht.small_of_same ht'
    exact row_sim libcF libcZ g hL o M L t' hs p1 (hs.2.2 p1 hp1) _ _ t'
      (KDTree.SameQuery.same_refl t')

theorem between_buckets_sim (libcF : Libc F32) (libcZ : Libc ℤ) (g : ℤ → F32)
    (hL : LibcAgree libcF libcZ g) (o : List ℤ) (M L : ℤ) (t : KDTree ℤ) (ht : t.Small o M L)
    (node1 node2 : Node ℤ) :
    SimRun g t (KDTree_search_neighbors_between_buckets libcZ t node1 node2)
      (KDTree_search_neighbors_between_buckets libcF (t.map F32.int g) (node1.map F32.int)
        (node2.map F32.int)) := by
  cases node1 with
  | NULL => exact SimRun.error g t _
  | mk l1 r1 v1 d1 s1 e1 =>
    cases node2 with
    | NULL => exact SimRun.error g t _
    | mk l2 r2 v2 d2 s2 e2 =>
      simp only [Node.map, KDTree_search_neighbors_between_buckets]
      refine forRange_sim g _ _ t ?_ s1 e1 t (KDTree.SameQuery.same_refl t)
      intro i t' ht'
      refine point_bind_sim g t' i _ _ ?_
      intro p1 hp1
      have hs := ht.small_of_same ht'
      exact row_sim libcF libcZ g hL o M L t' hs p1 (hs.2.2 p1 hp1) _ _ t'
        (KDTree.SameQuery.same_refl t')

/-! ### The model in `float` on integer inputs: the pair search -/

theorem smallInts_of_idx {L : ℤ} {l : List ℤ} (h : ∀ i, |idx l i| ≤ L) : SmallInts L l := by
  intro x hx
  rcases List.getElem_of_mem hx with ⟨i, hi, rfl⟩
  have := h i
  unfold idx at this
  rw [List.getD_eq_getElem _ _ hi] at this
  exact this

theorem Region.within_of_small {L : ℤ} {R : Region ℤ} (hL : 0 ≤ L) (hl : SmallInts L R._left)
    (hr : SmallInts L R._right) : R.Within L :=
  fun i => ⟨hl.idx hL i, hr.idx hL i⟩

theorem Region_create_none_within {L : ℤ} (hL : 1000000 ≤ L) (dim : Nat) :
    (Region_create dim none none : Region ℤ).Within L := by
  refine Region.within_of_small (by linarith) ?_ ?_
  · intro x hx
    simp only [Region_create, List.mem_map] at hx
    rcases hx with ⟨_, _, rfl⟩
    rw [abs_neg]
    show |(1000000 : ℤ)| ≤ L
    rw [abs_of_nonneg (by norm_num)]
    exact hL
  · intro x hx
    simp only [Region_create, List.mem_map] at hx
    rcases hx with ⟨_, _, rfl⟩
    show |(1000000 : ℤ)| ≤ L
    rw [abs_of_nonneg (by norm_num)]
    exact hL

theorem Region_create_some_within {L : ℤ} (hL : 0 ≤ L) (dim : Nat) (l r : List ℤ)
    (hl : SmallInts L l) (hr : SmallInts L r) :
    (Region_create dim (some l) (some r)).Within L := by
  refine Region.within_of_small hL ?_ ?_
  · intro x hx
    simp only [Region_create, List.mem_map] at hx
    rcases hx with ⟨i, _, rfl⟩
    exact hl.idx hL i
  · intro x hx
    simp only [Region_create, List.mem_map] at hx
    rcases hx with ⟨i, _, rfl⟩
    exact hr.idx hL i

theorem Region.Within.left {L : ℤ} {R : Region ℤ} (h : R.Within L) : SmallInts L R._left :=
  smallInts_of_idx (fun i => (h i).1)

theorem Region.Within.right {L : ℤ} {R : Region ℤ} (h : R.Within L) : SmallInts L R._right :=
  smallInts_of_idx (fun i => (h i).2)

theorem SmallInts.set {L : ℤ} {l : List ℤ} (h : SmallInts L l) (d : Nat) (v : ℤ)
    (hv : |v| ≤ L) : SmallInts L (l.set d v) := by
  intro x hx
  rcases List.mem_or_eq_of_mem_set hx with hx | rfl
  · exact h x hx
  · exact hv

/-- An optional region is within `L` when it is absent or within `L`. -/
theorem left_child_region_within {L : ℤ} (hL : 0 ≤ L) (dim : Nat) (R : Region ℤ) (v : ℤ)
    (d : Nat) (hR : R.Within L) (hv : |v| ≤ L) :
    ∀ R', left_child_region dim R v d = some R' → R'.Within L := by
  intro R' h
  unfold left_child_region at h
  simp only at h
  split_ifs at h
  · cases h
    exact Region_create_some_within hL dim _ _ hR.left hR.right
  · cases h
    exact Region_create_some_within hL dim _ _ hR.left (hR.right.set d v hv)

theorem right_child_region_within {L : ℤ} (hL : 0 ≤ L) (dim : Nat) (R : Region ℤ) (v : ℤ)
    (d : Nat) (hR : R.Within L) (hv : |v| ≤ L) :
    ∀ R', right_child_region dim R v d = some R' → R'.Within L := by
  intro R' h
  unfold right_child_region at h
  simp only at h
  split_ifs at h
  · cases h
    exact Region_create_some_within hL dim _ _ hR.left hR.right
  · cases h
    exact Region_create_some_within hL dim _ _ (hR.left.set d v hv) hR.right

theorem pairs_children_within {L : ℤ} (hL : 0 ≤ L) (dim : Nat) (node : Node ℤ)
    (R : Region ℤ) (d : Nat) (hn : node.Within L) (hR : R.Within L) :
    (pairs_children dim node R d).1.Within L ∧
      (∀ R', (pairs_children dim node R d).2.1 = some R' → R'.Within L) ∧
      (pairs_children dim node R d).2.2.1.Within L ∧
      (∀ R', (pairs_children dim node R d).2.2.2 = some R' → R'.Within L) := by
  cases node with
  | NULL => simp [pairs_children, Node.Within]
  | mk l r v cd s e =>
    simp only [pairs_children]
    split_ifs
    · refine ⟨hn, ?_, trivial, fun _ h => by cases h⟩
      intro R' h
      cases h
      exact Region_create_some_within hL dim _ _ hR.left hR.right
    · exact ⟨hn.2.1, left_child_region_within hL dim R v d hR hn.1, hn.2.2,
        right_child_region_within hL dim R v d hR hn.1⟩

theorem pairs_children_mk_map (dim : Nat) (l r : Node ℤ) (v : ℤ) (cd s e : Nat)
    (R : Region ℤ) (d : Nat) :
    pairs_children dim (Node.mk (l.map F32.int) (r.map F32.int) (F32.int v) cd s e)
        (R.map F32.int) d =
      ((pairs_children dim (Node.mk l r v cd s e) R d).1.map F32.int,
        (pairs_children dim (Node.mk l r v cd s e) R d).2.1.map (Region.map F32.int),
        (pairs_children dim (Node.mk l r v cd s e) R d).2.2.1.map F32.int,
        (pairs_children dim (Node.mk l r v cd s e) R d).2.2.2.map (Region.map F32.int)) :=
  pairs_children_map dim (Node.mk l r v cd s e) R d

theorem pairs_go_sim (libcF : Libc F32) (libcZ : Libc ℤ) (g : ℤ → F32)
    (hL : LibcAgree libcF libcZ g) (o : List ℤ) (M L : ℤ) (hL0 : 0 ≤ L) (hL2 : 2 * L ≤ 2 ^ 24) :
    ∀ (fuel : Nat) (t : KDTree ℤ) (down : Node ℤ) (dr : Option (Region ℤ)) (up : Node ℤ)
      (ur : Option (Region ℤ)) (depth : Nat), t.Small o M L → down.Within L → up.Within L →
      (∀ R, dr = some R → R.Within L) → (∀ R, ur = some R → R.Within L) →
      SimRun g t (KDTree_neighbor_search_pairs.go libcZ fuel t down dr up ur depth)
        (KDTree_neighbor_search_pairs.go libcF fuel (t.map F32.int g) (down.map F32.int)
          (dr.map (Region.map F32.int)) (up.map F32.int) (ur.map (Region.map F32.int))
          depth) := by
  intro fuel
  induction fuel with
  | zero =>
    intro t down dr up ur depth _ _ _ _ _
    exact SimRun.error g t _
  | succ fuel ih =>
    intro t down dr up ur depth ht hd hu hdr hur
    cases down with
    | NULL => exact SimRun.pure_same g (KDTree.SameQuery.same_refl t)
    | mk dl drr dv dd ds de =>
      cases dr with
      | none => exact SimRun.pure_same g (KDTree.SameQuery.same_refl t)
      | some dreg =>
        cases up with
        | NULL => exact SimRun.pure_same g (KDTree.SameQuery.same_refl t)
        | mk ul ur' uv ud us ue =>
          cases ur with
          | none => exact SimRun.pure_same g (KDTree.SameQuery.same_refl t)
          | some ureg =>
            have hdreg := hdr dreg rfl
            have hureg := hur ureg rfl
            rw [KDTree_neighbor_search_pairs.go]
            simp only [Node.map, Option.map_some']
            rw [KDTree_neighbor_search_pairs.go]
            simp only
            have hdim : (t.map F32.int g).dim = t.dim := rfl
            have hrad : (t.map F32.int g)._neighbor_radius = F32.int t._neighbor_radius := rfl
            rw [hdim, hrad, Region_test_intersection_map t.dim dreg ureg _ L hdreg hureg hL2]
            simp only [Node.isNull_map]
            split_ifs with h0 hleaf
            · exact SimRun.pure_same g (KDTree.SameQuery.same_refl t)
            · exact between_buckets_sim libcF libcZ g hL o M L t ht (Node.mk dl drr dv dd ds de)
                (Node.mk ul ur' uv ud us ue)
            · simp only [pairs_children_mk_map]
              have hcd := pairs_children_within hL0 t.dim (Node.mk dl drr dv dd ds de) dreg
                (depth % t.dim) hd hdreg
              have hcu := pairs_children_within hL0 t.dim (Node.mk ul ur' uv ud us ue) ureg
                (depth % t.dim) hu hureg
              refine SimRun.bind_sims (ih t _ _ _ _ _ ht hcu.1 hcd.1 hcu.2.1 hcd.2.1) ?_
              intro t1 h1
              have ht1 := ht.small_of_same h1
              refine SimRun.bind_sims (ih t1 _ _ _ _ _ ht1 hcu.1 hcd.2.2.1 hcu.2.1 hcd.2.2.2) ?_
              intro t2 h2
              have ht2 := ht1.small_of_same h2
              refine SimRun.bind_sims (ih t2 _ _ _ _ _ ht2 hcu.2.2.1 hcd.1 hcu.2.2.2 hcd.2.1) ?_
              intro t3 h3
              have ht3 := ht2.small_of_same h3
              exact ih t3 _ _ _ _ _ ht3 hcu.2.2.1 hcd.2.2.1 hcu.2.2.2 hcd.2.2.2

theorem pairs_sim (libcF : Libc F32) (libcZ : Libc ℤ) (g : ℤ → F32)
    (hL : LibcAgree libcF libcZ g) (o : List ℤ) (M L : ℤ) (hL0 : 0 ≤ L) (hL2 : 2 * L ≤ 2 ^ 24)
    (t : KDTree ℤ) (down : Node ℤ) (dr : Option (Region ℤ)) (up : Node ℤ)
    (ur : Option (Region ℤ)) (depth : Nat) (ht : t.Small o M L) (hd : down.Within L)
    (hu : up.Within L) (hdr : ∀ R, dr = some R → R.Within L)
    (hur : ∀ R, ur = some R → R.Within L) :
    SimRun g t (KDTree_neighbor_search_pairs libcZ t down dr up ur depth)
      (KDTree_neighbor_search_pairs libcF (t.map F32.int g) (down.map F32.int)
        (dr.map (Region.map F32.int)) (up.map F32.int) (ur.map (Region.map F32.int))
        depth) := by
  unfold KDTree_neighbor_search_pairs
  rw [Node.height_map, Node.height_map]
  exact pairs_go_sim libcF libcZ g hL o M L hL0 hL2 _ t down dr up ur depth ht hd hu hdr hur

/-! ### The model in `float` on integer inputs: `all_pairs` and `all_pairs_sweep` -/

theorem leaf_bind_sim (g : ℤ → F32) (t : KDTree ℤ) (node : Node ℤ)
    (k : Bool → Run (KDTree ℤ)) (k' : Bool → Run (KDTree F32))
    (h : ∀ b, SimRun g t (k b) (k' b)) :
    SimRun g t (Node_is_leaf node >>= k) (Node_is_leaf (node.map F32.int) >>= k') := by
  rw [Node_is_leaf_map]
  cases Node_is_leaf node with
  | error e => exact SimRun.error g t e
  | ok b => exact h b

theorem descent_sim (libcF : Libc F32) (libcZ : Libc ℤ) (g : ℤ → F32)
    (hL : LibcAgree libcF libcZ g) (o : List ℤ) (M L : ℤ) (hL0 : 0 ≤ L) (hL2 : 2 * L ≤ 2 ^ 24) :
    ∀ (node : Node ℤ) (t : KDTree ℤ) (reg : Option (Region ℤ)) (depth : Nat),
      t.Small o M L → node.Within L → (∀ R, reg = some R → R.Within L) →
      SimRun g t (KDTree__neighbor_search libcZ t node reg depth)
        (KDTree__neighbor_search libcF (t.map F32.int g) (node.map F32.int)
          (reg.map (Region.map F32.int)) depth) := by
  intro node
  induction node with
  | NULL =>
    intro t reg depth _ _ _
    exact SimRun.error g t _
  | mk left right v cd s e ihl ihr =>
    intro t reg depth ht hn hreg
    cases reg with
    | none => exact SimRun.error g t _
    | some R =>
      have hR := hreg R rfl
      rw [KDTree__neighbor_search]
      simp only [Node.map, Option.map_some']
      rw [KDTree__neighbor_search]
      have hdim : (t.map F32.int g).dim = t.dim := rfl
      simp only [hdim, left_child_region_map, right_child_region_map]
      have hlr := left_child_region_within hL0 t.dim R v (depth % t.dim) hR hn.1
      have hrr := right_child_region_within hL0 t.dim R v (depth % t.dim) hR hn.1
      have hright : ∀ t1 : KDTree ℤ, t1.Small o M L →
          SimRun g t1
            (Node_is_leaf right >>= fun right_is_leaf =>
              if (!right_is_leaf) = true then
                KDTree__neighbor_search libcZ t1 right
                  (right_child_region t.dim R v (depth % t.dim)) (depth + 1) >>= fun y =>
                KDTree_neighbor_search_pairs libcZ y left
                  (left_child_region t.dim R v (depth % t.dim)) right
                  (right_child_region t.dim R v (depth % t.dim)) (depth + 1)
              else
                KDTree_search_neighbors_in_bucket libcZ t1 right >>= fun y =>
                KDTree_neighbor_search_pairs libcZ y left
                  (left_child_region t.dim R v (depth % t.dim)) right
                  (right_child_region t.dim R v (depth % t.dim)) (depth + 1))
            (Node_is_leaf (right.map F32.int) >>= fun right_is_leaf =>
              if (!right_is_leaf) = true then
                KDTree__neighbor_search libcF (t1.map F32.int g) (right.map F32.int)
                  ((right_child_region t.dim R v (depth % t.dim)).map (Region.map F32.int))
                  (depth + 1) >>= fun y =>
                KDTree_neighbor_search_pairs libcF y (left.map F32.int)
                  ((left_child_region t.dim R v (depth % t.dim)).map (Region.map F32.int))
                  (right.map F32.int)
                  ((right_child_region t.dim R v (depth % t.dim)).map (Region.map F32.int))
                  (depth + 1)
              else
                KDTree_search_neighbors_in_bucket libcF (t1.map F32.int g)
                  (right.map F32.int) >>= fun y =>
                KDTree_neighbor_search_pairs libcF y (left.map F32.int)
                  ((left_child_region t.dim R v (depth % t.dim)).map (Region.map F32.int))
                  (right.map F32.int)
                  ((right_child_region t.dim R v (depth % t.dim)).map (Region.map F32.int))
                  (depth + 1)) := by
        intro t1 ht1
        refine leaf_bind_sim g t1 right _ _ ?_
        intro b2
        cases b2
        · rw [if_pos (by decide), if_pos (by decide)]
          refine SimRun.bind_sims (ihr t1 _ (depth + 1) ht1 hn.2.2 hrr) ?_
          intro t2 h2
          exact pairs_sim libcF libcZ g hL o M L hL0 hL2 t2 left _ right _ _ (ht1.small_of_same h2)
            hn.2.1 hn.2.2 hlr hrr
        · rw [if_neg (by decide), if_neg (by decide)]
          refine SimRun.bind_sims (in_bucket_sim libcF libcZ g hL o M L t1 ht1 right) ?_
          intro t2 h2
          exact pairs_sim libcF libcZ g hL o M L hL0 hL2 t2 left _ right _ _ (ht1.small_of_same h2)
            hn.2.1 hn.2.2 hlr hrr
      refine leaf_bind_sim g t left _ _ ?_
      intro b1
      cases b1
      · rw [if_pos (by decide), if_pos (by decide)]
        refine SimRun.bind_sims (ihl t _ (depth + 1) ht hn.2.1 hlr) ?_
        intro t1 h1
        exact hright t1 (ht.small_of_same h1)
      · rw [if_neg (by decide), if_neg (by decide)]
        refine SimRun.bind_sims (in_bucket_sim libcF libcZ g hL o M L t ht left) ?_
        intro t1 h1
        exact hright t1 (ht.small_of_same h1)

/-! ### The model in `float` on integer inputs: the two pair queries -/

theorem neighbors_map (g : ℤ → F32) (l : List (Neighbor ℤ)) (n : Nat) :
    ((l.map (Neighbor.map g)).take n).foldl (fun neighbors neighbor => neighbor :: neighbors) [] =
      ((l.take n).foldl (fun neighbors neighbor => neighbor :: neighbors) []).map
        (Neighbor.map g) := by
  rw [foldl_push, foldl_push, ← List.map_take, List.append_nil, List.append_nil,
    List.map_reverse]

theorem KDTree_neighbor_search_map (libcF : Libc F32) (libcZ : Libc ℤ) (g : ℤ → F32)
    (hL : LibcAgree libcF libcZ g) (o : List ℤ) (M L : ℤ) (hL1 : 1000000 ≤ L) (hL2 : 2 * L ≤ 2 ^ 24)
    (t : KDTree ℤ) (r : ℤ) (ht : t.Small o M L) (hroot : t._root.Within L)
    (hr : |r * r| ≤ 2 ^ 24) :
    KDTree_neighbor_search libcF (t.map F32.int g) (F32.int r) =
      (KDTree_neighbor_search libcZ t r).map
        (fun p => (p.1.map F32.int g, p.2.map (Neighbor.map g))) := by
  have hL0 : (0 : ℤ) ≤ L := by linarith
  unfold KDTree_neighbor_search
  have hstart :
      ({ t.map F32.int g with
          _neighbor_list := [],
          _neighbor_count := 0,
          _neighbor_radius := F32.int r,
          _neighbor_radius_sq := F32.int r * F32.int r } : KDTree F32) =
        ({ t with
          _neighbor_list := [],
          _neighbor_count := 0,
          _neighbor_radius := r,
          _neighbor_radius_sq := r * r } : KDTree ℤ).map F32.int g := by
    rw [F32.int_mul r r hr]
    rfl
  simp only [hstart]
  generalize hT : ({ t with
          _neighbor_list := [],
          _neighbor_count := 0,
          _neighbor_radius := r,
          _neighbor_radius_sq := r * r } : KDTree ℤ) = T
  have hTs : T.Small o M L := by
    rw [← hT]
    exact ht
  have hTroot : T._root.Within L := by
    rw [← hT]
    exact hroot
  have hTr : T._root = t._root := by rw [← hT]
  have hTd : T.dim = t.dim := by rw [← hT]
  have hroot' : (t.map F32.int g)._root = T._root.map F32.int := by rw [hTr]; rfl
  have hdim : (t.map F32.int g).dim = T.dim := by rw [hTd]; rfl
  rw [hroot', Node_is_leaf_map, hdim, ← hTr, ← hTd]
  have hfin : ∀ (x : Run (KDTree ℤ)) (y : Run (KDTree F32)), SimRun g T x y →
      (y >>= fun y => pure (y, List.foldl (fun neighbors neighbor => neighbor :: neighbors) []
          (List.take y._neighbor_count y._neighbor_list))) =
        Except.map (fun p => (KDTree.map F32.int g p.1, List.map (Neighbor.map g) p.2))
          (x >>= fun y => pure (y, List.foldl (fun neighbors neighbor => neighbor :: neighbors) []
            (List.take y._neighbor_count y._neighbor_list))) := by
    intro x y h
    rw [h.1]
    cases x with
    | error e => rfl
    | ok T' =>
      show Except.ok _ = Except.ok _
      have h1 : (T'.map F32.int g)._neighbor_list = T'._neighbor_list.map (Neighbor.map g) :=
        rfl
      have hc : (T'.map F32.int g)._neighbor_count = T'._neighbor_count := rfl
      simp only [h1, hc, neighbors_map]
  cases hleaf : Node_is_leaf T._root with
  | error e => rfl
  | ok b =>
    simp only [ok_bind]
    cases b
    · rw [if_neg (by decide), if_neg (by decide), Region_create_none_map]
      exact hfin _ _ (descent_sim libcF libcZ g hL o M L hL0 hL2 T._root T
          (some (Region_create T.dim none none)) 0 hTs hTroot
          (fun R hR => by cases hR; exact Region_create_none_within hL1 T.dim))
    · rw [if_pos rfl, if_pos rfl]
      exact hfin _ _ (in_bucket_sim libcF libcZ g hL o M L T hTs T._root)

theorem int_le_zero (r : ℤ) : F32.int r ≤ 0 ↔ r ≤ 0 := by
  rw [← F32.int_zero, F32.int_le]

theorem PyTree_neighbor_search_map (libcF : Libc F32) (libcZ : Libc ℤ) (g : ℤ → F32)
    (hL : LibcAgree libcF libcZ g) (o : List ℤ) (M L : ℤ) (hL1 : 1000000 ≤ L) (hL2 : 2 * L ≤ 2 ^ 24)
    (t : KDTree ℤ) (r : ℤ) (ht : t.Small o M L) (hroot : t._root.Within L)
    (hr : |r * r| ≤ 2 ^ 24) :
    PyTree_neighbor_search libcF (t.map F32.int g) (F32.int r) =
      (PyTree_neighbor_search libcZ t r).map F32.int g (List.map (Neighbor.map g)) := by
  unfold PyTree_neighbor_search
  by_cases h : r ≤ 0
  · rw [if_pos ((int_le_zero r).mpr h), if_pos h]
    rfl
  · rw [if_neg (fun h' => h ((int_le_zero r).mp h')), if_neg h,
      KDTree_neighbor_search_map libcF libcZ g hL o M L hL1 hL2 t r ht hroot hr]
    cases KDTree_neighbor_search libcZ t r <;> rfl

theorem DataPoint_sort_map (libcF : Libc F32) (libcZ : Libc ℤ) (g : ℤ → F32)
    (hL : LibcAgree libcF libcZ g) (l : List (DataPoint ℤ)) (n i : Nat) :
    DataPoint_sort libcF (l.map (DataPoint.map F32.int)) n i =
      (DataPoint_sort libcZ l n i).map (DataPoint.map F32.int) := by
  unfold DataPoint_sort
  rw [List.map_append, hL.2, List.map_take, List.map_drop]

theorem sweep_inner_sim (libcF : Libc F32) (libcZ : Libc ℤ) (g : ℤ → F32)
    (hL : LibcAgree libcF libcZ g) (o : List ℤ) (M L : ℤ) (hL0 : 0 ≤ L)
    (hL2 : 2 * L ≤ 2 ^ 24) (t0 : KDTree ℤ)
    (h0 : t0.Small o M L) (r : ℤ) (p1 : DataPoint ℤ) (h1 : SmallPoint o t0.dim M L p1._coord) :
    ∀ (js : List Nat) (t : KDTree ℤ), t0.SameQuery t →
      SimRun g t
        (KDTree_neighbor_simple_search.inner libcZ r p1 (idx p1._coord 0) js t)
        (KDTree_neighbor_simple_search.inner libcF (F32.int r) (p1.map F32.int)
          (F32.int (idx p1._coord 0)) js (t.map F32.int g)) := by
  intro js
  induction js with
  | nil => intro t _; exact SimRun.pure_same g (KDTree.SameQuery.same_refl t)
  | cons j rest ih =>
    intro t ht
    have hs := h0.small_of_same ht
    rw [KDTree_neighbor_simple_search.inner, KDTree_neighbor_simple_search.inner]
    refine point_bind_sim g t j _ _ ?_
    intro p2 hp2
    have h2 := hs.2.2 p2 hp2
    have hx1 := h1.1.idx hL0 0
    have hx2 := h2.1.idx hL0 0
    have hd : |idx p2._coord 0 - idx p1._coord 0| ≤ 2 ^ 24 := by
      have := abs_sub (idx p2._coord 0) (idx p1._coord 0)
      linarith
    have hfab : Fabs.fabs (idx (p2.map F32.int)._coord 0 - F32.int (idx p1._coord 0)) =
        F32.int |idx p2._coord 0 - idx p1._coord 0| := by
      simp only [DataPoint.map, idx_map_int]
      rw [F32.int_sub _ _ hd, F32.int_fabs]
    simp only [hfab]
    by_cases hc : |idx p2._coord 0 - idx p1._coord 0| ≤ r
    · rw [if_pos ((F32.int_le _ _).mpr hc), if_pos (show Fabs.fabs _ ≤ _ from hc),
        KDTree_test_neighbors_map libcF libcZ g hL.1 t o M L hs p1 p2 (h1.point_of_same ht) h2]
      have hsame : t.SameQuery (KDTree_test_neighbors libcZ t p1 p2) := by
        unfold KDTree_test_neighbors
        simp only
        split_ifs
        · exact ⟨rfl, rfl, rfl, rfl, rfl, rfl, rfl, rfl, rfl, rfl, rfl⟩
        · exact KDTree.SameQuery.same_refl t
      exact SimRun.mono_same hsame (ih _ (ht.same_trans hsame))
    · rw [if_neg (fun h' => hc ((F32.int_le _ _).mp h')),
        if_neg (show ¬ Fabs.fabs _ ≤ _ from hc)]
      exact SimRun.pure_same g (KDTree.SameQuery.same_refl t)

theorem neighbors_fin (g : ℤ → F32) (T : KDTree ℤ) (x : Run (KDTree ℤ))
    (y : Run (KDTree F32)) (h : SimRun g T x y) :
    (y >>= fun y => pure (y, List.foldl (fun neighbors neighbor => neighbor :: neighbors) []
        (List.take y._neighbor_count y._neighbor_list))) =
      Except.map (fun p => (KDTree.map F32.int g p.1, List.map (Neighbor.map g) p.2))
        (x >>= fun y => pure (y, List.foldl (fun neighbors neighbor => neighbor :: neighbors) []
          (List.take y._neighbor_count y._neighbor_list))) := by
  rw [h.1]
  cases x with
  | error e => rfl
  | ok T' =>
    show Except.ok _ = Except.ok _
    have h1 : (T'.map F32.int g)._neighbor_list = T'._neighbor_list.map (Neighbor.map g) :=
      rfl
    have hc : (T'.map F32.int g)._neighbor_count = T'._neighbor_count := rfl
    simp only [h1, hc, neighbors_map]

theorem KDTree_neighbor_simple_search_map (libcF : Libc F32) (libcZ : Libc ℤ) (g : ℤ → F32)
    (hL : LibcAgree libcF libcZ g) (o : List ℤ) (M L : ℤ) (hL0 : 0 ≤ L)
    (hL2 : 2 * L ≤ 2 ^ 24) (t : KDTree ℤ) (r : ℤ)
    (ht : t.Small o M L) (hr : |r * r| ≤ 2 ^ 24) :
    KDTree_neighbor_simple_search libcF (t.map F32.int g) (F32.int r) =
      (KDTree_neighbor_simple_search libcZ t r).map
        (fun p => (p.1.map F32.int g, p.2.map (Neighbor.map g))) := by
  unfold KDTree_neighbor_simple_search
  have hstart :
      ({ t.map F32.int g with
          _neighbor_radius := F32.int r,
          _neighbor_radius_sq := F32.int r * F32.int r,
          _neighbor_count := 0,
          _neighbor_list := [],
          _data_point_list :=
            DataPoint_sort libcF (t.map F32.int g)._data_point_list
              (t.map F32.int g)._data_point_list.length 0 } : KDTree F32) =
        ({ t with
          _neighbor_radius := r,
          _neighbor_radius_sq := r * r,
          _neighbor_count := 0,
          _neighbor_list := [],
          _data_point_list :=
            DataPoint_sort libcZ t._data_point_list t._data_point_list.length 0 } :
            KDTree ℤ).map F32.int g := by
    have h1 : (t.map F32.int g)._data_point_list =
        t._data_point_list.map (DataPoint.map F32.int) := rfl
    rw [F32.int_mul r r hr, h1, List.length_map, DataPoint_sort_map libcF libcZ g hL]
    rfl
  simp only
  simp only [hstart]
  generalize hT : ({ t with
          _neighbor_radius := r,
          _neighbor_radius_sq := r * r,
          _neighbor_count := 0,
          _neighbor_list := [],
          _data_point_list :=
            DataPoint_sort libcZ t._data_point_list t._data_point_list.length 0 } :
            KDTree ℤ) = T
  have hTs : T.Small o M L := by
    rw [← hT]
    refine ⟨ht.1, ht.2.1, ?_⟩
    intro p hp
    have hp' : p ∈ DataPoint_sort libcZ t._data_point_list t._data_point_list.length 0 := hp
    unfold DataPoint_sort at hp'
    rw [List.take_length, List.drop_length, List.append_nil] at hp'
    exact ht.2.2 p ((libcZ.qsort_perm 0 _).mem_iff.mp hp')
  have hlen : (DataPoint_sort libcF (t.map F32.int g)._data_point_list
      (t.map F32.int g)._data_point_list.length 0).length =
      (DataPoint_sort libcZ t._data_point_list t._data_point_list.length 0).length := by
    have h1 : (t.map F32.int g)._data_point_list =
        t._data_point_list.map (DataPoint.map F32.int) := rfl
    rw [h1, List.length_map, DataPoint_sort_map libcF libcZ g hL, List.length_map]
  rw [hlen]
  refine neighbors_fin g T _ _ ?_
  refine forRange_sim g _ _ T ?_ _ _ T (KDTree.SameQuery.same_refl T)
  intro i t' ht'
  refine point_bind_sim g t' i _ _ ?_
  intro p1 hp1
  have hs := hTs.small_of_same ht'
  have hidx : idx (p1.map F32.int)._coord 0 = F32.int (idx p1._coord 0) := idx_map_int _ _
  rw [hidx]
  exact sweep_inner_sim libcF libcZ g hL o M L hL0 hL2 t' hs r p1 (hs.2.2 p1 hp1) _ t'
    (KDTree.SameQuery.same_refl t')

theorem PyTree_neighbor_simple_search_map (libcF : Libc F32) (libcZ : Libc ℤ) (g : ℤ → F32)
    (hL : LibcAgree libcF libcZ g) (o : List ℤ) (M L : ℤ) (hL0 : 0 ≤ L)
    (hL2 : 2 * L ≤ 2 ^ 24) (t : KDTree ℤ) (r : ℤ)
    (ht : t.Small o M L) (hr : |r * r| ≤ 2 ^ 24) :
    PyTree_neighbor_simple_search libcF (t.map F32.int g) (F32.int r) =
      (PyTree_neighbor_simple_search libcZ t r).map F32.int g (List.map (Neighbor.map g)) := by
  unfold PyTree_neighbor_simple_search
  by_cases h : r ≤ 0
  · rw [if_pos ((int_le_zero r).mpr h), if_pos h]
    rfl
  · rw [if_neg (fun h' => h ((int_le_zero r).mp h')), if_neg h,
      KDTree_neighbor_simple_search_map libcF libcZ g hL o M L hL0 hL2 t r ht hr]
    cases KDTree_neighbor_simple_search libcZ t r <;> rfl

/-! ### The model in `float` on integer inputs: `init` and `set_data` -/

theorem neg_one_int : (-1 : F32) = F32.int (-1) := by
  rw [← F32.int_one, F32.int_neg]

theorem build_go_map (libcF : Libc F32) (libcZ : Libc ℤ) (g : ℤ → F32)
    (hL : LibcAgree libcF libcZ g) :
    ∀ (fuel : Nat) (t : KDTree ℤ) (b e depth : Nat),
      KDTree_build_tree.go libcF fuel (t.map F32.int g) b e depth =
        (KDTree_build_tree.go libcZ fuel t b e depth).map
          (fun p => (p.1.map F32.int, p.2.map F32.int g)) := by
  intro fuel
  induction fuel with
  | zero => intro t b e depth; rfl
  | succ fuel ih =>
    intro t b e depth
    rw [KDTree_build_tree.go, KDTree_build_tree.go]
    have hstore : (t.map F32.int g)._data_point_list =
        t._data_point_list.map (DataPoint.map F32.int) := rfl
    have hB : (t.map F32.int g)._bucket_size = t._bucket_size := rfl
    have hdim : (t.map F32.int g).dim = t.dim := rfl
    simp only [hstore, hB, hdim, List.length_map]
    generalize (if depth = 0 then 0 else b) = b'
    generalize (if depth = 0 then t._data_point_list.length else e) = e'
    generalize (if depth = 0 then 0 else depth % t.dim) = ld
    split_ifs with hleaf
    · simp only [Node_create, pure, Except.pure, Except.map, Node.map, neg_one_int]
    · have hT :
          ({ _data_point_list :=
                List.take b' (List.map (DataPoint.map F32.int) t._data_point_list) ++
                  DataPoint_sort libcF
                    (List.drop b' (List.map (DataPoint.map F32.int) t._data_point_list))
                    (e' - b') ld,
              _radius_list := (t.map F32.int g)._radius_list,
              _neighbor_list := (t.map F32.int g)._neighbor_list,
              _root := (t.map F32.int g)._root,
              _query_region := (t.map F32.int g)._query_region,
              _count := (t.map F32.int g)._count,
              _neighbor_count := (t.map F32.int g)._neighbor_count,
              _radius := (t.map F32.int g)._radius,
              _radius_sq := (t.map F32.int g)._radius_sq,
              _neighbor_radius := (t.map F32.int g)._neighbor_radius,
              _neighbor_radius_sq := (t.map F32.int g)._neighbor_radius_sq,
              _center_coord := (t.map F32.int g)._center_coord,
              _coords := (t.map F32.int g)._coords,
              _bucket_size := t._bucket_size,
              dim := t.dim } : KDTree F32) =
            ({ t with
              _data_point_list :=
                List.take b' t._data_point_list ++
                  DataPoint_sort libcZ (List.drop b' t._data_point_list) (e' - b') ld } :
                KDTree ℤ).map F32.int g := by
        rw [← List.map_take, ← List.map_drop, DataPoint_sort_map libcF libcZ g hL,
          ← List.map_append]
        rfl
      simp only [hT]
      generalize ({ t with
              _data_point_list :=
                List.take b' t._data_point_list ++
                  DataPoint_sort libcZ (List.drop b' t._data_point_list) (e' - b') ld } :
                KDTree ℤ) = T
      rw [KDTree.point_map]
      cases T.point (b' + ((e' - b') / 2 + (e' - b') % 2) - 1) with
      | error x => rfl
      | ok p =>
        simp only [Except.map, ok_bind]
        rw [ih]
        cases KDTree_build_tree.go libcZ fuel T b' (b' + ((e' - b') / 2 + (e' - b') % 2))
            (depth + 1) with
        | error x => rfl
        | ok left =>
          simp only [Except.map, ok_bind]
          rw [ih]
          cases KDTree_build_tree.go libcZ fuel left.2 (b' + ((e' - b') / 2 + (e' - b') % 2)) e'
              (depth + 1) with
          | error x => rfl
          | ok right =>
            simp only [Except.map, ok_bind, pure, Except.pure, Node.map, DataPoint.map,
              idx_map_int]

theorem KDTree_build_tree_map (libcF : Libc F32) (libcZ : Libc ℤ) (g : ℤ → F32)
    (hL : LibcAgree libcF libcZ g) (t : KDTree ℤ) (b e depth : Nat) :
    KDTree_build_tree libcF (t.map F32.int g) b e depth =
      (KDTree_build_tree libcZ t b e depth).map
        (fun p => (p.1.map F32.int, p.2.map F32.int g)) := by
  unfold KDTree_build_tree
  have hstore : (t.map F32.int g)._data_point_list =
      t._data_point_list.map (DataPoint.map F32.int) := rfl
  rw [hstore, List.length_map]
  exact build_go_map libcF libcZ g hL _ t b e depth

theorem COPY2DARRAY_map (view : Py_buffer ℤ) (n m : Nat) :
    COPY2DARRAY (view.map F32.int) n m = (COPY2DARRAY view n m).map F32.int := by
  simp only [COPY2DARRAY, Py_buffer.map, List.map_map, Function.comp, idx_map_int]
  rfl

theorem COPY1DARRAY_map (view : Py_buffer ℤ) (n : Nat) :
    COPY1DARRAY (view.map F32.int) n = (COPY1DARRAY view n).map F32.int := by
  simp only [COPY1DARRAY, Py_buffer.map, List.map_map, Function.comp, idx_map_int]
  rfl

theorem add_points_map (g : ℤ → F32) (coords : List ℤ) : ∀ (l : List Nat) (t : KDTree ℤ),
    l.foldl (fun tree i => KDTree_add_point tree i ((coords.map F32.int).drop (i * tree.dim)))
        (t.map F32.int g) =
      (l.foldl (fun tree i => KDTree_add_point tree i (coords.drop (i * tree.dim))) t).map
        F32.int g := by
  intro l
  induction l with
  | nil => intro t; rfl
  | cons i rest ih =>
    intro t
    simp only [List.foldl_cons]
    have : KDTree_add_point (t.map F32.int g) i
        ((coords.map F32.int).drop (i * (t.map F32.int g).dim)) =
        (KDTree_add_point t i (coords.drop (i * t.dim))).map F32.int g := by
      simp only [KDTree_add_point, KDTree.map, List.map_append, List.map_cons, List.map_nil,
        DataPoint.map, List.map_drop]
    rw [this]
    exact ih _

theorem PyTree_set_data_map (libcF : Libc F32) (libcZ : Libc ℤ) (g : ℤ → F32)
    (hL : LibcAgree libcF libcZ g) (t : KDTree ℤ) (view : Py_buffer ℤ) :
    PyTree_set_data libcF (t.map F32.int g) (view.map F32.int) =
      (PyTree_set_data libcZ t view).map F32.int g id := by
  unfold PyTree_set_data
  have hnd : (view.map F32.int).ndim = view.ndim := rfl
  have hsh : (view.map F32.int).shape = view.shape := rfl
  have hdt : (view.map F32.int).datatype = view.datatype := rfl
  simp only [hnd, hsh, hdt, COPY2DARRAY_map]
  split_ifs
  · rfl
  · rfl
  · have hT : ({ t.map F32.int g with
          _radius_list := [],
          _count := 0,
          _coords := (COPY2DARRAY view (view.shape.getD 0 0) (view.shape.getD 1 0)).map
            F32.int } : KDTree F32) =
        ({ t with
          _radius_list := [],
          _count := 0,
          _coords := COPY2DARRAY view (view.shape.getD 0 0) (view.shape.getD 1 0) } :
            KDTree ℤ).map F32.int g := rfl
    simp only [hT, add_points_map, KDTree_build_tree_map libcF libcZ g hL]
    cases KDTree_build_tree libcZ _ 0 0 0 with
    | error x => rfl
    | ok built => rfl

theorem KDTree_zero_map (g : ℤ → F32) : (KDTree.zero : KDTree ℤ).map F32.int g = KDTree.zero := by
  simp only [KDTree.zero, KDTree.map, List.map_nil, Node.map, Option.map_none', F32.int_zero]

theorem PyTree_init_map (g : ℤ → F32) (t : KDTree ℤ) (dim bucket_size : Int) :
    PyTree_init (t.map F32.int g) dim bucket_size =
      (PyTree_init t dim bucket_size).map F32.int g id := by
  unfold PyTree_init
  split_ifs
  · rfl
  · simp only [PyRet.map, KDTree.map, List.map_nil, Node.map, Option.map_none',
      List.map_replicate, F32.int_zero, id]

theorem PyRet.andThen_map {ρ σ ρ' σ' : Type} (g : ℤ → F32) (h : ρ → ρ') (h' : σ → σ')
    (x : PyRet ℤ ρ) (f : KDTree ℤ → PyRet ℤ σ) (f' : KDTree F32 → PyRet F32 σ')
    (hf : ∀ t, x.tree? = some t → f' (t.map F32.int g) = (f t).map F32.int g h') :
    (x.map F32.int g h).andThen f' = (x.andThen f).map F32.int g h' := by
  cases x with
  | ok t v => exact hf t rfl
  | raise t e => rfl
  | fault e => rfl

theorem loadedTree_map (libcF : Libc F32) (libcZ : Libc ℤ) (g : ℤ → F32)
    (hL : LibcAgree libcF libcZ g) (dim bucket_size : Int) (points : Py_buffer ℤ) :
    loadedTree libcF dim bucket_size (points.map F32.int) =
      (loadedTree libcZ dim bucket_size points).map F32.int g id := by
  unfold loadedTree
  rw [← KDTree_zero_map g, PyTree_init_map]
  exact PyRet.andThen_map g id id _ _ _ (fun t _ => PyTree_set_data_map libcF libcZ g hL t points)

/-! ### The model in `float` on integer inputs: the point query -/

theorem deref_bind_sim (g : ℤ → F32) (t : KDTree ℤ) (o : Option (Region ℤ))
    (k : Region ℤ → Run (KDTree ℤ)) (k' : Region F32 → Run (KDTree F32))
    (h : ∀ R, o = some R → SimRun g t (k R) (k' (R.map F32.int))) :
    SimRun g t (Region.deref o >>= k) (Region.deref (o.map (Region.map F32.int)) >>= k') := by
  cases o with
  | none => exact SimRun.error g t _
  | some R => exact h R rfl

theorem KDTree.SmallQuery.query_of_same {o : List ℤ} {M L : ℤ} {t t' : KDTree ℤ}
    (h : t.SmallQuery o M L) (hs : t.SameQuery t') : t'.SmallQuery o M L := by
  refine ⟨h.1.small_of_same hs, ?_⟩
  rw [hs.2.2.2.2.2.2.2.1, hs.2.2.2.2.2.2.2.2.2.2]
  exact h.2

theorem report_point_sim (libcF : Libc F32) (libcZ : Libc ℤ) (g : ℤ → F32)
    (hL : LibcAgree libcF libcZ g) (o : List ℤ) (M L : ℤ) (t : KDTree ℤ)
    (ht : t.SmallQuery o M L) (index : Nat) (coord : List ℤ)
    (hc : SmallPoint o t.dim M L coord) :
    SimRun g t (pure (KDTree_report_point libcZ t index coord))
      (pure (KDTree_report_point libcF (t.map F32.int g) index (coord.map F32.int))) := by
  rw [KDTree_report_point_map libcF libcZ g hL.1 t o M L ht.1 ht.2 index coord hc]
  refine SimRun.pure_same g ?_
  unfold KDTree_report_point
  simp only
  split_ifs
  · exact ⟨rfl, rfl, rfl, rfl, rfl, rfl, rfl, rfl, rfl, rfl, rfl⟩
  · exact KDTree.SameQuery.same_refl t

theorem report_subtree_sim (libcF : Libc F32) (libcZ : Libc ℤ) (g : ℤ → F32)
    (hL : LibcAgree libcF libcZ g) (o : List ℤ) (M L : ℤ) :
    ∀ (node : Node ℤ) (t : KDTree ℤ), t.SmallQuery o M L →
      SimRun g t (KDTree_report_subtree libcZ t node)
        (KDTree_report_subtree libcF (t.map F32.int g) (node.map F32.int)) := by
  intro node
  induction node with
  | NULL => intro t _; exact SimRun.error g t _
  | mk l r v d s e ihl ihr =>
    intro t ht
    rw [KDTree_report_subtree]
    simp only [Node.map]
    rw [KDTree_report_subtree]
    simp only [Node.isNull_map]
    split_ifs
    · refine forRange_sim g _ _ t ?_ s e t (KDTree.SameQuery.same_refl t)
      intro i t' ht'
      refine point_bind_sim g t' i _ _ ?_
      intro p hp
      have hs := ht.query_of_same ht'
      exact report_point_sim libcF libcZ g hL o M L t' hs p._index p._coord (hs.1.2.2 p hp)
    · refine SimRun.bind_sims (ihl t ht) ?_
      intro t' ht'
      exact ihr t' (ht.query_of_same ht')

theorem search_go_sim (libcF : Libc F32) (libcZ : Libc ℤ) (g : ℤ → F32)
    (hL : LibcAgree libcF libcZ g) (o : List ℤ) (M L : ℤ) (hL1 : 1000000 ≤ L) (hL2 : 2 * L ≤ 2 ^ 24) :
    ∀ (fuel : Nat),
      (∀ (t : KDTree ℤ) (node : Node ℤ) (region : Region ℤ) (depth : Nat), t.SmallQuery o M L →
        t._root.Within L → (∀ Q, t._query_region = some Q → Q.Within L) →
        node.Within L → region.Within L →
        SimRun g t (KDTree_test_region.go libcZ fuel t node region depth)
          (KDTree_test_region.go libcF fuel (t.map F32.int g) (node.map F32.int)
            (region.map F32.int) depth)) ∧
      (∀ (t : KDTree ℤ) (region : Option (Region ℤ)) (node : Node ℤ) (depth : Nat),
        t.SmallQuery o M L → t._root.Within L → (∀ Q, t._query_region = some Q → Q.Within L) →
        node.Within L → (∀ R, region = some R → R.Within L) →
        SimRun g t (KDTree_search.go libcZ fuel t region node depth)
          (KDTree_search.go libcF fuel (t.map F32.int g) (region.map (Region.map F32.int))
            (node.map F32.int) depth)) := by
  have hL0 : (0 : ℤ) ≤ L := by linarith
  intro fuel
  induction fuel with
  | zero =>
    exact ⟨fun t _ _ _ _ _ _ _ _ => SimRun.error g t _,
      fun t _ _ _ _ _ _ _ _ => SimRun.error g t _⟩
  | succ fuel ih =>
    refine ⟨?_, ?_⟩
    · intro t node region depth ht hroot hq hn hreg
      rw [KDTree_test_region.go, KDTree_test_region.go]
      have hqr : (t.map F32.int g)._query_region =
          t._query_region.map (Region.map F32.int) := rfl
      have hdim : (t.map F32.int g).dim = t.dim := rfl
      rw [hqr]
      refine deref_bind_sim g t _ _ _ ?_
      intro Q hQ
      rw [hdim, ← F32.int_zero, Region_test_intersection_map t.dim region Q 0 L hreg (hq Q hQ) hL2]
      simp only []
      split_ifs
      · exact report_subtree_sim libcF libcZ g hL o M L node t ht
      · exact ih.2 t (some region) node (depth + 1) ht hroot hq hn
          (fun R hR => by cases hR; exact hreg)
      · exact SimRun.pure_same g (KDTree.SameQuery.same_refl t)
    · intro t region node depth ht hroot hq hn hreg
      rw [KDTree_search.go, KDTree_search.go]
      have hdim : (t.map F32.int g).dim = t.dim := rfl
      have hrt : (t.map F32.int g)._root = t._root.map F32.int := rfl
      simp only [hdim, hrt]
      by_cases hd : depth = 0
      · simp only [if_pos hd]
        rw [Region_create_none_map t.dim,
          show (some (Region.map F32.int (Region_create t.dim none none)) : Option (Region F32)) =
            Option.map (Region.map F32.int) (some (Region_create t.dim none none)) from rfl]
        have hn' := hroot
        have hreg' : ∀ R, some (Region_create t.dim (none : Option (List ℤ)) none) = some R →
            R.Within L := by
          intro R hR
          cases hR
          exact Region_create_none_within hL1 t.dim
        revert hn' hreg'
        generalize (some (Region_create t.dim (none : Option (List ℤ)) none)) = region'
        generalize t._root = node'
        intro hn' hreg'
        cases node' with
        | NULL => exact SimRun.error g t _
        | mk l r v cd s e =>
          obtain ⟨hv, hl, hr⟩ := hn'
          simp only [Node.map, Node.isNull_map]
          split_ifs
          · refine forRange_sim g _ _ t ?_ s e t (KDTree.SameQuery.same_refl t)
            intro i t' ht'
            have hs := ht.query_of_same ht'
            refine point_bind_sim g t' i _ _ ?_
            intro p hp
            have hqr : (t'.map F32.int g)._query_region =
                t'._query_region.map (Region.map F32.int) := rfl
            have hdim' : (t'.map F32.int g).dim = t'.dim := rfl
            simp only [DataPoint.map]
            rw [hqr]
            refine deref_bind_sim g t' _ _ _ ?_
            intro Q _
            rw [hdim', Region_encloses_map]
            split_ifs
            · exact report_point_sim libcF libcZ g hL o M L t' hs p._index p._coord (hs.1.2.2 p hp)
            · exact SimRun.pure_same g (KDTree.SameQuery.same_refl t')
          · refine deref_bind_sim g t _ _ _ ?_
            intro R hR
            have hRw := hreg' R hR
            simp only [left_child_region_map, right_child_region_map]
            have hlr := left_child_region_within hL0 t.dim R v (depth % t.dim) hRw hv
            have hrr := right_child_region_within hL0 t.dim R v (depth % t.dim) hRw hv
            cases hlc : left_child_region t.dim R v (depth % t.dim) with
            | none =>
              simp only [Option.map_none', pure_bind]
              have hd1 : (t.map F32.int g).dim = t.dim := rfl
              rw [hd1]
              cases hrc : right_child_region t.dim R v (depth % t.dim) with
              | none => exact SimRun.pure_same g (KDTree.SameQuery.same_refl t)
              | some R2 => exact ih.1 t r R2 depth ht hroot hq hr (hrr R2 hrc)
            | some R' =>
              simp only [Option.map_some']
              refine SimRun.bind_sims (ih.1 t l R' depth ht hroot hq hl (hlr R' hlc)) ?_
              intro t1 h1
              have hd1 : (t1.map F32.int g).dim = t.dim := h1.2.2.2.2.2.2.2.2.2.2
              have hd2 : t1.dim = t.dim := h1.2.2.2.2.2.2.2.2.2.2
              rw [hd1, hd2]
              cases hrc : right_child_region t.dim R v (depth % t.dim) with
              | none => exact SimRun.pure_same g (KDTree.SameQuery.same_refl t1)
              | some R2 =>
                exact ih.1 t1 r R2 depth (ht.query_of_same h1) (h1.2.1 ▸ hroot)
                  (fun Q hQ => hq Q (h1.2.2.1 ▸ hQ)) hr (hrr R2 hrc)
      · simp only [if_neg hd]
        have hn' := hn
        have hreg' := hreg
        revert hn' hreg'
        generalize region = region'
        generalize node = node'
        intro hn' hreg'
        cases node' with
        | NULL => exact SimRun.error g t _
        | mk l r v cd s e =>
          obtain ⟨hv, hl, hr⟩ := hn'
          simp only [Node.map, Node.isNull_map]
          split_ifs
          · refine forRange_sim g _ _ t ?_ s e t (KDTree.SameQuery.same_refl t)
            intro i t' ht'
            have hs := ht.query_of_same ht'
            refine point_bind_sim g t' i _ _ ?_
            intro p hp
            have hqr : (t'.map F32.int g)._query_region =
                t'._query_region.map (Region.map F32.int) := rfl
            have hdim' : (t'.map F32.int g).dim = t'.dim := rfl
            simp only [DataPoint.map]
            rw [hqr]
            refine deref_bind_sim g t' _ _ _ ?_
            intro Q _
            rw [hdim', Region_encloses_map]
            split_ifs
            · exact report_point_sim libcF libcZ g hL o M L t' hs p._index p._coord (hs.1.2.2 p hp)
            · exact SimRun.pure_same g (KDTree.SameQuery.same_refl t')
          · refine deref_bind_sim g t _ _ _ ?_
            intro R hR
            have hRw := hreg' R hR
            simp only [left_child_region_map, right_child_region_map]
            have hlr := left_child_region_within hL0 t.dim R v (depth % t.dim) hRw hv
            have hrr := right_child_region_within hL0 t.dim R v (depth % t.dim) hRw hv
            cases hlc : left_child_region t.dim R v (depth % t.dim) with
            | none =>
              simp only [Option.map_none', pure_bind]
              have hd1 : (t.map F32.int g).dim = t.dim := rfl
              rw [hd1]
              cases hrc : right_child_region t.dim R v (depth % t.dim) with
              | none => exact SimRun.pure_same g (KDTree.SameQuery.same_refl t)
              | some R2 => exact ih.1 t r R2 depth ht hroot hq hr (hrr R2 hrc)
            | some R' =>
              simp only [Option.map_some']
              refine SimRun.bind_sims (ih.1 t l R' depth ht hroot hq hl (hlr R' hlc)) ?_
              intro t1 h1
              have hd1 : (t1.map F32.int g).dim = t.dim := h1.2.2.2.2.2.2.2.2.2.2
              have hd2 : t1.dim = t.dim := h1.2.2.2.2.2.2.2.2.2.2
              rw [hd1, hd2]
              cases hrc : right_child_region t.dim R v (depth % t.dim) with
              | none => exact SimRun.pure_same g (KDTree.SameQuery.same_refl t1)
              | some R2 =>
                exact ih.1 t1 r R2 depth (ht.query_of_same h1) (h1.2.1 ▸ hroot)
                  (fun Q hQ => hq Q (h1.2.2.1 ▸ hQ)) hr (hrr R2 hrc)

theorem KDTree_search_map (libcF : Libc F32) (libcZ : Libc ℤ) (g : ℤ → F32)
    (hL : LibcAgree libcF libcZ g) (o : List ℤ) (M L : ℤ) (hL1 : 1000000 ≤ L) (hL2 : 2 * L ≤ 2 ^ 24)
    (t : KDTree ℤ) (ht : t.SmallQuery o M L) (hroot : t._root.Within L)
    (hq : ∀ Q, t._query_region = some Q → Q.Within L) :
    KDTree_search libcF (t.map F32.int g) none Node.NULL 0 =
      (KDTree_search libcZ t none Node.NULL 0).map (KDTree.map F32.int g) := by
  unfold KDTree_search
  have hrt : (t.map F32.int g)._root = t._root.map F32.int := rfl
  simp only [if_true, hrt, Node.height_map]
  exact ((search_go_sim libcF libcZ g hL o M L hL1 hL2 _).2 t none Node.NULL 0 ht hroot hq
    trivial (fun R hR => by cases hR)).1

theorem PyTree_search_center_radius_map (libcF : Libc F32) (libcZ : Libc ℤ) (g : ℤ → F32)
    (hL : LibcAgree libcF libcZ g) (o : List ℤ) (M L : ℤ) (hL1 : 1000000 ≤ L) (hL2 : 2 * L ≤ 2 ^ 24)
    (t : KDTree ℤ) (view : Py_buffer ℤ) (r : ℤ) (ht : t.Small o M L) (hroot : t._root.Within L)
    (hview : Near o t.dim M (COPY1DARRAY view (view.shape.getD 0 0)))
    (hcs : ∀ i, |idx (COPY1DARRAY view (view.shape.getD 0 0)) i| + |r| ≤ L)
    (hr : |r * r| ≤ 2 ^ 24) :
    PyTree_search_center_radius libcF (t.map F32.int g) (view.map F32.int) (F32.int r) =
      (PyTree_search_center_radius libcZ t view r).map F32.int g id := by
  unfold PyTree_search_center_radius
  by_cases h : r ≤ 0
  · rw [if_pos ((int_le_zero r).mpr h), if_pos h]
    rfl
  rw [if_neg (fun h' => h ((int_le_zero r).mp h')), if_neg h]
  have hnd : (view.map F32.int).ndim = view.ndim := rfl
  have hsh : (view.map F32.int).shape = view.shape := rfl
  have hdt : (view.map F32.int).datatype = view.datatype := rfl
  rw [hnd, hsh, hdt]
  by_cases h1 : view.ndim ≠ 1
  · rw [if_pos h1, if_pos h1]
    rfl
  rw [if_neg h1, if_neg h1]
  by_cases h2 : (!numerical view.datatype) = true
  · simp only [if_pos h2]
    rfl
  simp only [if_neg h2]
  have hM0 : 0 ≤ M := ht.1
  have hF : ({ (t.map F32.int g) with
        _radius_list := [],
        _count := 0,
        _radius := F32.int r,
        _radius_sq := F32.int r * F32.int r,
        _center_coord := (List.range (t.map F32.int g).dim).map (fun i =>
            idx (COPY1DARRAY (view.map F32.int) (view.shape.getD 0 0)) i) ++
          (t.map F32.int g)._center_coord.drop (t.map F32.int g).dim,
        _query_region := some (Region_create (t.map F32.int g).dim
          (some ((List.range (t.map F32.int g).dim).map (fun i =>
            idx (COPY1DARRAY (view.map F32.int) (view.shape.getD 0 0)) i - F32.int r)))
          (some ((List.range (t.map F32.int g).dim).map (fun i =>
            idx (COPY1DARRAY (view.map F32.int) (view.shape.getD 0 0)) i + F32.int r)))) } :
        KDTree F32) =
      KDTree.map F32.int g { t with
        _radius_list := [],
        _count := 0,
        _radius := r,
        _radius_sq := r * r,
        _center_coord := (List.range t.dim).map (fun i =>
            idx (COPY1DARRAY view (view.shape.getD 0 0)) i) ++ t._center_coord.drop t.dim,
        _query_region := some (Region_create t.dim
          (some ((List.range t.dim).map (fun i =>
            idx (COPY1DARRAY view (view.shape.getD 0 0)) i - r)))
          (some ((List.range t.dim).map (fun i =>
            idx (COPY1DARRAY view (view.shape.getD 0 0)) i + r)))) } := by
    have hsub : ∀ i, F32.int (idx (COPY1DARRAY view (view.shape.getD 0 0)) i) - F32.int r =
        F32.int (idx (COPY1DARRAY view (view.shape.getD 0 0)) i - r) := by
      intro i
      rw [F32.int_sub]
      have := hcs i
      have h3 := abs_sub (idx (COPY1DARRAY view (view.shape.getD 0 0)) i) r
      linarith
    have hadd : ∀ i, F32.int (idx (COPY1DARRAY view (view.shape.getD 0 0)) i) + F32.int r =
        F32.int (idx (COPY1DARRAY view (view.shape.getD 0 0)) i + r) := by
      intro i
      rw [F32.int_add]
      have := hcs i
      have h3 := abs_add (idx (COPY1DARRAY view (view.shape.getD 0 0)) i) r
      linarith
    have hid : ∀ i, idx (COPY1DARRAY (view.map F32.int) (view.shape.getD 0 0)) i =
        F32.int (idx (COPY1DARRAY view (view.shape.getD 0 0)) i) := by
      intro i
      rw [COPY1DARRAY_map, idx_map_int]
    simp only [KDTree.map, hid, hsub, hadd, F32.int_mul r r hr, List.map_nil, Option.map_some',
      ← Region_create_some_map, List.map_append, List.map_map, List.map_drop, Function.comp_def]
  rw [hF]
  have hroot' : Node.Within L ({ t with
        _radius_list := [],
        _count := 0,
        _radius := r,
        _radius_sq := r * r,
        _center_coord := (List.range t.dim).map (fun i =>
            idx (COPY1DARRAY view (view.shape.getD 0 0)) i) ++ t._center_coord.drop t.dim,
        _query_region := some (Region_create t.dim
          (some ((List.range t.dim).map (fun i =>
            idx (COPY1DARRAY view (view.shape.getD 0 0)) i - r)))
          (some ((List.range t.dim).map (fun i =>
            idx (COPY1DARRAY view (view.shape.getD 0 0)) i + r)))) } : KDTree ℤ)._root := hroot
  rw [KDTree_search_map libcF libcZ g hL o M L hL1 hL2 _ ?_ hroot' ?_]
  · cases KDTree_search libcZ _ none Node.NULL 0 <;> rfl
  · refine ⟨⟨hM0, ht.2.1, ht.2.2⟩, ?_⟩
    intro i hi
    have h3 : idx ((List.range t.dim).map (fun i =>
        idx (COPY1DARRAY view (view.shape.getD 0 0)) i) ++ t._center_coord.drop t.dim) i =
        idx (COPY1DARRAY view (view.shape.getD 0 0)) i := by
      unfold KDTrees.idx
      rw [List.getD_append _ _ _ _ (by simpa using hi)]
      rw [List.getD_eq_getElem _ _ (by simpa using hi)]
      simp
    show |idx ((List.range t.dim).map (fun i =>
        idx (COPY1DARRAY view (view.shape.getD 0 0)) i) ++ t._center_coord.drop t.dim) i -
        idx o i| ≤ M
    rw [h3]
    exact hview i hi
  · intro Q hQ
    simp only [Option.some.injEq] at hQ
    subst hQ
    have hL0 : (0 : ℤ) ≤ L := by linarith
    refine Region_create_some_within hL0 t.dim _ _ ?_ ?_
    · intro x hx
      simp only [List.mem_map, List.mem_range] at hx
      rcases hx with ⟨i, _, rfl⟩
      have := hcs i
      have h3 := abs_sub (idx (COPY1DARRAY view (view.shape.getD 0 0)) i) r
      linarith
    · intro x hx
      simp only [List.mem_map, List.mem_range] at hx
      rcases hx with ⟨i, _, rfl⟩
      have := hcs i
      have h3 := abs_add (idx (COPY1DARRAY view (view.shape.getD 0 0)) i) r
      linarith

/-! ### Small integer inputs give a small tree -/

theorem sort_mem (libc : Libc ℤ) (l : List (DataPoint ℤ)) (n i : Nat) (p : DataPoint ℤ)
    (hp : p ∈ DataPoint_sort libc l n i) : p ∈ l := by
  unfold DataPoint_sort at hp
  rcases List.mem_append.mp hp with h | h
  · exact List.mem_of_mem_take ((libc.qsort_perm i _).mem_iff.mp h)
  · exact List.mem_of_mem_drop h

/-- The nodes `KDTree_build_tree` makes have the cut value `-1` (the leaves) or a coordinate
of a point of the store. -/
theorem build_go_within (libc : Libc ℤ) (M L : ℤ) (hM : 0 ≤ M) (hML : M ≤ L) (hL : 1 ≤ L) :
    ∀ (fuel : Nat) (t : KDTree ℤ) (b e depth : Nat) (node : Node ℤ) (t' : KDTree ℤ),
    (∀ p ∈ t._data_point_list, SmallInts M p._coord) →
    KDTree_build_tree.go libc fuel t b e depth = Except.ok (node, t') →
    node.Within L ∧ ∀ p ∈ t'._data_point_list, SmallInts M p._coord := by
  intro fuel
  induction fuel with
  | zero =>
    intro t b e depth node t' _ h
    simp [KDTree_build_tree.go] at h
  | succ fuel ih =>
    intro t b e depth node t' hs h
    rw [KDTree_build_tree.go] at h
    generalize (if depth = 0 then 0 else depth % t.dim) = ld at h
    generalize (if depth = 0 then 0 else b) = b' at h
    generalize (if depth = 0 then t._data_point_list.length else e) = e' at h
    by_cases hleaf : e' - b' ≤ t._bucket_size
    · rw [if_pos hleaf] at h
      cases h
      refine ⟨?_, hs⟩
      simp only [Node_create, Node.Within, abs_neg, abs_one, and_true]
      exact hL
    · rw [if_neg hleaf] at h
      generalize hst : ({ t with
        _data_point_list := t._data_point_list.take b' ++
          DataPoint_sort libc (t._data_point_list.drop b') (e' - b') ld } :
          KDTree ℤ) = t1 at h
      have hs1 : ∀ p ∈ t1._data_point_list, SmallInts M p._coord := by
        intro p hp
        rw [← hst] at hp
        rcases List.mem_append.mp hp with h1 | h1
        · exact hs p (List.mem_of_mem_take h1)
        · exact hs p (List.mem_of_mem_drop (sort_mem libc _ _ _ p h1))
      simp only at h
      cases hp : t1.point (b' + ((e' - b') / 2 + (e' - b') % 2) - 1) with
      | error x => rw [hp] at h; cases h
      | ok q =>
        rw [hp] at h
        simp only [ok_bind] at h
        have hq : q ∈ t1._data_point_list := by
          unfold KDTree.point at hp
          rw [List.get?_eq_getElem?] at hp
          cases hg : t1._data_point_list[b' + ((e' - b') / 2 + (e' - b') % 2) - 1]? with
          | none => rw [hg] at hp; cases hp
          | some q' =>
            rw [hg] at hp
            cases hp
            exact List.getElem?_mem hg
        cases hl : KDTree_build_tree.go libc fuel t1 b'
            (b' + ((e' - b') / 2 + (e' - b') % 2)) (depth + 1) with
        | error x => rw [hl] at h; cases h
        | ok left =>
          rw [hl] at h
          simp only [ok_bind] at h
          cases hr : KDTree_build_tree.go libc fuel left.2
              (b' + ((e' - b') / 2 + (e' - b') % 2)) e' (depth + 1) with
          | error x => rw [hr] at h; cases h
          | ok right =>
            rw [hr] at h
            cases h
            rcases ih _ _ _ _ _ _ hs1 hl with ⟨hlw, hls⟩
            rcases ih _ _ _ _ _ _ hls hr with ⟨hrw, hrs⟩
            refine ⟨⟨?_, hlw, hrw⟩, hrs⟩
            exact le_trans ((hs1 q hq).idx hM ld) hML

/-- The tree loaded from a buffer of small integers is small, and so are the cut values
of its nodes. -/
theorem loadedTree_small (libc : Libc ℤ) (k B n : Nat) (hk : 0 < k) (hB : 0 < B)
    (view : Py_buffer ℤ) (hview : view.IsMatrix n k) (o : List ℤ) (M L : ℤ) (hM : 0 ≤ M)
    (hL : 1 ≤ L) (hk2 : (k : ℤ) * (2 * M) ^ 2 ≤ 2 ^ 24) (hsmall : SmallInts L view.buf)
    (hnear : ∀ i, i < n → Near o k M ((COPY2DARRAY view n k).drop (i * k)))
    (T : KDTree ℤ) (v : Unit)
    (hT : loadedTree libc (k : Int) (B : Int) view = PyRet.ok T v) :
    T.Small o M L ∧ T._root.Within L ∧ T.dim = k ∧
      T._center_coord = List.replicate k 0 := by
  have hL0 : (0 : ℤ) ≤ L := by linarith
  have hnd := hview.1
  have hnum := hview.2.2.1
  have hn : view.shape.getD 0 0 = n := by rw [hview.2.1]; rfl
  have hm : view.shape.getD 1 0 = k := by rw [hview.2.1]; rfl
  unfold loadedTree at hT
  rw [PyTree_init_ok _ k B hk hB] at hT
  simp only [PyRet.andThen] at hT
  generalize hT0 : ({ (KDTree.zero : KDTree ℤ) with
      dim := k,
      _query_region := none,
      _root := Node.NULL,
      _coords := [],
      _radius_list := [],
      _count := 0,
      _neighbor_count := 0,
      _neighbor_list := [],
      _bucket_size := B,
      _data_point_list := [],
      _center_coord := List.replicate k 0 } : KDTree ℤ) = T0 at hT
  have h0d : T0.dim = k := by rw [← hT0]
  have h0b : T0._bucket_size = B := by rw [← hT0]
  have h0s : T0._data_point_list = [] := by rw [← hT0]
  have h0c : T0._center_coord = List.replicate k 0 := by rw [← hT0]
  unfold PyTree_set_data at hT
  simp only [hnd, ne_eq, not_true_eq_false, if_false, hnum, Bool.not_true,
    Bool.false_eq_true] at hT
  rw [add_loop, hn, hm] at hT
  generalize hT1 : ({ T0 with
      _radius_list := [],
      _count := 0,
      _coords := COPY2DARRAY view n k,
      _data_point_list := T0._data_point_list ++ loaded T0.dim n (COPY2DARRAY view n k) } :
      KDTree ℤ) = T1 at hT
  have h1d : T1.dim = k := by rw [← hT1]; exact h0d
  have h1b : T1._bucket_size = B := by rw [← hT1]; exact h0b
  have h1c : T1._center_coord = List.replicate k 0 := by rw [← hT1]; exact h0c
  have h1s : ∀ p ∈ T1._data_point_list, SmallPoint o k M L p._coord := by
    intro p hp
    rw [← hT1] at hp
    simp only [h0s, h0d, List.nil_append, loaded, List.mem_map, List.mem_range] at hp
    rcases hp with ⟨i, hi, rfl⟩
    refine ⟨SmallInts.drop ?_ _, hnear i hi⟩
    intro x hx
    unfold COPY2DARRAY at hx
    simp only [List.mem_map, List.mem_range] at hx
    rcases hx with ⟨j, _, rfl⟩
    exact hsmall.idx hL0 j
  rcases KDTree_build_tree_spec libc T1 (by rw [h1b]; exact hB) with
    ⟨root, store', hgo, hperm, _, _, _⟩
  rw [hgo] at hT
  have hw := build_go_within libc L L hL0 (le_refl _) hL _ _ _ _ _ _ _
    (fun p hp => (h1s p hp).1) hgo
  cases hT
  refine ⟨⟨hM, ?_, ?_⟩, hw.1, h1d, h1c⟩
  · show (T1.dim : ℤ) * (2 * M) ^ 2 ≤ 2 ^ 24
    rw [h1d]
    exact hk2
  · intro p hp
    show SmallPoint o T1.dim M L p._coord
    rw [h1d]
    exact h1s p (hperm.mem_iff.mp hp)

/-! ### The sessions in `float` on integer inputs -/

theorem list_map_ofInt_eq (l : List ℤ) (h : SmallInts (2 ^ 24) l) :
    l.map F32.ofInt = l.map F32.int := by
  refine List.map_congr_left ?_
  intro x hx
  exact F32.ofInt_eq_int x (h x hx)

theorem SmallInts.mono_bound {M M' : ℤ} {l : List ℤ} (h : SmallInts M l) (hM : M ≤ M') :
    SmallInts M' l :=
  fun x hx => le_trans (h x hx) hM

theorem Py_buffer.map_ofInt_eq (view : Py_buffer ℤ) (h : SmallInts (2 ^ 24) view.buf) :
    view.map F32.ofInt = view.map F32.int := by
  unfold Py_buffer.map
  rw [list_map_ofInt_eq _ h]

/-- For every C library on `float` there is one on the integers that sorts alike and whose
`sqrt` is the identity. -/
theorem exists_agree (libc : Libc F32) :
    ∃ libcZ : Libc ℤ, (∀ x, libcZ.sqrt x = x) ∧
      LibcAgree libc libcZ (fun d => libc.sqrt (F32.int d)) := by
  rcases exists_libcZ libc with ⟨libcZ, hs, hq⟩
  exact ⟨libcZ, hs, fun d => by rw [hs], hq⟩

theorem radius_bounds {r : ℤ} (hr : 0 < r) (hr2 : r * r ≤ 2 ^ 24) :
    r ≤ 2 ^ 12 ∧ |r * r| ≤ 2 ^ 24 ∧ |r| ≤ 2 ^ 24 := by
  have h1 : r ≤ 2 ^ 12 := by nlinarith
  refine ⟨h1, ?_, ?_⟩
  · rw [abs_of_nonneg (by positivity)]
    exact hr2
  · rw [abs_of_pos hr]
    linarith

theorem pairsSession_map (libc : Libc F32) (libcZ : Libc ℤ)
    (hL : LibcAgree libc libcZ (fun d => libc.sqrt (F32.int d)))
    (k B n : Nat) (hk : 0 < k) (hB : 0 < B) (points : Py_buffer ℤ)
    (hpoints : points.IsMatrix n k) (o : List ℤ) (M : ℤ) (hex : ExactPoints k n o M points)
    (r : ℤ) (hr : 0 < r) (hr2 : r * r ≤ 2 ^ 24) :
    pairsSession libc (k : Int) (B : Int) (points.map F32.ofInt) (F32.ofInt r) =
      (pairsSession libcZ (k : Int) (B : Int) points r).map F32.int
        (fun d => libc.sqrt (F32.int d))
        (List.map (Neighbor.map (fun d => libc.sqrt (F32.int d)))) := by
  have hrb := radius_bounds hr hr2
  rw [Py_buffer.map_ofInt_eq _ (hex.1.mono_bound (by norm_num)), F32.ofInt_eq_int r hrb.2.2]
  unfold pairsSession
  rw [loadedTree_map libc libcZ _ hL]
  refine PyRet.andThen_map _ id _ _ _ _ ?_
  intro t ht
  cases hlt : loadedTree libcZ (k : Int) (B : Int) points with
  | ok T v =>
    rw [hlt] at ht
    cases ht
    have hs := loadedTree_small libcZ k B n hk hB points hpoints o M (2 ^ 23) hex.2.1
      (by norm_num) hex.2.2.1 hex.1 hex.2.2.2 _ _ hlt
    exact PyTree_neighbor_search_map libc libcZ _ hL o M (2 ^ 23) (by norm_num) (by norm_num)
      _ r hs.1 hs.2.1 hrb.2.1
  | raise T e => rw [hlt] at ht; cases ht
  | fault x => rw [hlt] at ht; cases ht

theorem sweepSession_map (libc : Libc F32) (libcZ : Libc ℤ)
    (hL : LibcAgree libc libcZ (fun d => libc.sqrt (F32.int d)))
    (k B n : Nat) (hk : 0 < k) (hB : 0 < B) (points : Py_buffer ℤ)
    (hpoints : points.IsMatrix n k) (o : List ℤ) (M : ℤ) (hex : ExactPoints k n o M points)
    (r : ℤ) (hr : 0 < r) (hr2 : r * r ≤ 2 ^ 24) :
    sweepSession libc (k : Int) (B : Int) (points.map F32.ofInt) (F32.ofInt r) =
      (sweepSession libcZ (k : Int) (B : Int) points r).map F32.int
        (fun d => libc.sqrt (F32.int d))
        (List.map (Neighbor.map (fun d => libc.sqrt (F32.int d)))) := by
  have hrb := radius_bounds hr hr2
  rw [Py_buffer.map_ofInt_eq _ (hex.1.mono_bound (by norm_num)), F32.ofInt_eq_int r hrb.2.2]
  unfold sweepSession
  rw [loadedTree_map libc libcZ _ hL]
  refine PyRet.andThen_map _ id _ _ _ _ ?_
  intro t ht
  cases hlt : loadedTree libcZ (k : Int) (B : Int) points with
  | ok T v =>
    rw [hlt] at ht
    cases ht
    have hs := loadedTree_small libcZ k B n hk hB points hpoints o M (2 ^ 23) hex.2.1
      (by norm_num) hex.2.2.1 hex.1 hex.2.2.2 _ _ hlt
    exact PyTree_neighbor_simple_search_map libc libcZ _ hL o M (2 ^ 23) (by norm_num)
      (by norm_num) _ r hs.1 hrb.2.1
  | raise T e => rw [hlt] at ht; cases ht
  | fault x => rw [hlt] at ht; cases ht

theorem searchSession_map (libc : Libc F32) (libcZ : Libc ℤ)
    (hL : LibcAgree libc libcZ (fun d => libc.sqrt (F32.int d)))
    (k B n : Nat) (hk : 0 < k) (hB : 0 < B) (points : Py_buffer ℤ)
    (hpoints : points.IsMatrix n k) (o : List ℤ) (M : ℤ) (hex : ExactPoints k n o M points)
    (center : Py_buffer ℤ) (hcenter : center.IsVector k)
    (r : ℤ) (hr : 0 < r) (hr2 : r * r ≤ 2 ^ 24) (hc : ExactCenter k o M center r) :
    searchSession libc (k : Int) (B : Int) (points.map F32.ofInt) (center.map F32.ofInt)
        (F32.ofInt r) =
      (searchSession libcZ (k : Int) (B : Int) points center r).map F32.int
        (fun d => libc.sqrt (F32.int d)) id := by
  have hrb := radius_bounds hr hr2
  rw [Py_buffer.map_ofInt_eq _ (hex.1.mono_bound (by norm_num)),
    Py_buffer.map_ofInt_eq _ (hc.1.mono_bound (by linarith)), F32.ofInt_eq_int r hrb.2.2]
  unfold searchSession
  rw [loadedTree_map libc libcZ _ hL]
  refine PyRet.andThen_map _ id _ _ _ _ ?_
  intro t ht
  cases hlt : loadedTree libcZ (k : Int) (B : Int) points with
  | ok T v =>
    rw [hlt] at ht
    cases ht
    have hs := loadedTree_small libcZ k B n hk hB points hpoints o M (2 ^ 23) hex.2.1
      (by norm_num) hex.2.2.1 hex.1 hex.2.2.2 _ _ hlt
    have hsize := IsVector.size hcenter
    refine PyTree_search_center_radius_map libc libcZ _ hL o M (2 ^ 23) (by norm_num)
      (by norm_num) _ center r hs.1 hs.2.1 ?_ ?_ hrb.2.1
    · rw [hsize, hs.2.2.1]
      exact hc.2
    · intro i
      rw [hsize]
      have h0 : (0 : ℤ) ≤ 2 ^ 23 - r := by linarith [hrb.1]
      have h1 : SmallInts (2 ^ 23 - r) (COPY1DARRAY center k) := by
        intro x hx
        unfold COPY1DARRAY at hx
        simp only [List.mem_map, List.mem_range] at hx
        rcases hx with ⟨j, _, rfl⟩
        exact hc.1.idx h0 j
      have h2 := h1.idx h0 i
      rw [abs_of_pos hr]
      linarith
  | raise T e => rw [hlt] at ht; cases ht
  | fault x => rw [hlt] at ht; cases ht

/-! ### From the exact run to the run in `float` -/

theorem KDTree_dist_nonneg (a b : List ℤ) (dim : Nat) : 0 ≤ KDTree_dist a b dim := by
  rw [KDTree_dist_eq_sum]
  apply List.sum_nonneg
  intro x hx
  rcases List.mem_map.mp hx with ⟨j, _, rfl⟩
  exact mul_self_nonneg _

theorem ofInt_dist {d r : ℤ} (h0 : 0 ≤ d) (h : d ≤ r * r) (hr2 : r * r ≤ 2 ^ 24) :
    F32.ofInt d = F32.int d :=
  F32.ofInt_eq_int d (by rw [abs_of_nonneg h0]; linarith)

theorem bruteRadii_map (libc : Libc F32) (libcZ : Libc ℤ) (hs : ∀ x, libcZ.sqrt x = x)
    (dim n : Nat) (coords c : List ℤ) (r : ℤ) (hr2 : r * r ≤ 2 ^ 24) :
    (bruteRadii libcZ dim n coords c r).map (Radius.map (fun d => libc.sqrt (F32.int d))) =
      exactRadii libc.sqrt dim n coords c r := by
  unfold bruteRadii exactRadii
  induction List.range n with
  | nil => rfl
  | cons i rest ih =>
    simp only [List.flatMap_cons, List.map_append, ih]
    by_cases h : dist2To dim coords c i ≤ r * r
    · have h0 : 0 ≤ dist2To dim coords c i := KDTree_dist_nonneg _ _ _
      rw [if_pos h, if_pos h, ofInt_dist h0 h hr2]
      simp only [List.map_cons, List.map_nil, Radius.map, hs]
    · rw [if_neg h, if_neg h]
      rfl

theorem mem_exactRadii (sqrt : F32 → F32) (dim n : Nat) (coords c : List ℤ) (r : ℤ)
    (e : Radius F32) :
    e ∈ exactRadii sqrt dim n coords c r ↔
      e.index < n ∧ dist2To dim coords c e.index ≤ r * r ∧
        e.value = sqrt (F32.ofInt (dist2To dim coords c e.index)) := by
  unfold exactRadii
  rw [List.mem_flatMap]
  constructor
  · rintro ⟨i, hi, he⟩
    by_cases h : dist2To dim coords c i ≤ r * r
    · rw [if_pos h, List.mem_singleton] at he
      subst he
      exact ⟨List.mem_range.mp hi, h, rfl⟩
    · rw [if_neg h] at he
      cases he
  · rintro ⟨hi, h, hv⟩
    refine ⟨e.index, List.mem_range.mpr hi, ?_⟩
    rw [if_pos h, List.mem_singleton]
    cases e
    simp only at hv
    rw [hv]

theorem map_index_exactRadii (sqrt : F32 → F32) (dim n : Nat) (coords c : List ℤ) (r : ℤ) :
    (exactRadii sqrt dim n coords c r).map (fun e => e.index) =
      (List.range n).filter (fun i => decide (dist2To dim coords c i ≤ r * r)) := by
  unfold exactRadii
  induction List.range n with
  | nil => rfl
  | cons a rest ih =>
    simp only [List.flatMap_cons, List.map_append, ih, List.filter_cons]
    by_cases h : dist2To dim coords c a ≤ r * r
    · simp [h]
    · simp [h]

theorem pairOf_map (g : ℤ → F32) (out : List (Neighbor ℤ)) :
    (out.map (Neighbor.map g)).map pairOf = out.map pairOf := by
  rw [List.map_map]
  rfl

theorem keys_map (g : ℤ → F32) (out : List (Neighbor ℤ)) :
    keys (out.map (Neighbor.map g)) = (keys out).map (Prod.map id g) := by
  unfold keys
  rw [Multiset.map_coe, List.map_map, List.map_map]
  rfl

theorem exactPairs_of_same (libc : Libc F32) (libcZ : Libc ℤ) (hs : ∀ x, libcZ.sqrt x = x)
    (dim n : Nat) (coords : List ℤ) (r : ℤ) (hr2 : r * r ≤ 2 ^ 24) (out : List (Neighbor ℤ))
    (h : SamePairs libcZ dim n coords r out) :
    ExactPairs libc.sqrt dim n coords r
      (out.map (Neighbor.map (fun d => libc.sqrt (F32.int d)))) := by
  refine ⟨?_, ?_⟩
  · intro i j hq
    rw [pairOf_map]
    exact h.1 i j hq
  · intro x hx
    rcases List.mem_map.mp hx with ⟨y, hy, rfl⟩
    have hy' := h.2 y hy
    refine ⟨hy'.1, ?_⟩
    have h0 : 0 ≤ dist2 dim coords y.index1 y.index2 := KDTree_dist_nonneg _ _ _
    show libc.sqrt (F32.int y.radius) =
      libc.sqrt (F32.ofInt (dist2 dim coords y.index1 y.index2))
    rw [hy'.2, hs, ofInt_dist h0 hy'.1.2.2.2 hr2]

/-- The outcome of a session in `float` that is the image of a session on the integers
which returned. -/
theorem PyRet.map_ok {ρ σ : Type} (f g : ℤ → F32) (h : ρ → σ) (x : PyRet ℤ ρ)
    (T : KDTree F32) (v : σ) (hx : x.map f g h = PyRet.ok T v) :
    ∃ T' v', x = PyRet.ok T' v' ∧ T = T'.map f g ∧ v = h v' := by
  cases x with
  | ok T' v' =>
    simp only [PyRet.map, PyRet.ok.injEq] at hx
    exact ⟨T', v', rfl, hx.1.symm, hx.2.symm⟩
  | raise T' e => simp [PyRet.map] at hx
  | fault e => simp [PyRet.map] at hx

/-! ### The queries in `float` against brute force in exact arithmetic -/

/-- The point query in `float` on exact inputs inside the box: the session returns, and
`radius_list` is a rearrangement of the exact brute-force list. -/
theorem search_exact (libc : Libc F32) (k B n : Nat) (hk : 0 < k) (hB : 0 < B)
    (points : Py_buffer ℤ) (hpoints : points.IsMatrix n k)
    (center : Py_buffer ℤ) (hcenter : center.IsVector k) (r : ℤ) (hr : 0 < r)
    (hr2 : r * r ≤ 2 ^ 24) (hbox : InBox k n (COPY2DARRAY points n k))
    (o : List ℤ) (M : ℤ) (hex : ExactPoints k n o M points)
    (hc : ExactCenter k o M center r) :
    ∃ T : KDTree F32,
      searchSession libc (k : Int) (B : Int) (points.map F32.ofInt) (center.map F32.ofInt)
        (F32.ofInt r) = PyRet.ok T () ∧
      T._radius_list.Perm
        (exactRadii libc.sqrt k n (COPY2DARRAY points n k) (COPY1DARRAY center k) r) ∧
      T._count = T._radius_list.length := by
  rcases exists_agree libc with ⟨libcZ, hs, hL⟩
  rw [searchSession_map libc libcZ hL k B n hk hB points hpoints o M hex center hcenter r hr
    hr2 hc]
  rcases search_session libcZ k B n hk hB points hpoints center hcenter r hr hbox with
    ⟨T, hT, hperm, hcount⟩
  rw [hT]
  refine ⟨_, rfl, ?_, ?_⟩
  · rw [← bruteRadii_map libc libcZ hs k n _ _ r hr2]
    exact hperm.map _
  · show T._count = (T._radius_list.map _).length
    rw [List.length_map]
    exact hcount

/-- The point query in `float` on exact inputs, in the box or not: the session returns, and
`radius_list` is a rearrangement of a part of the exact brute-force list. -/
theorem search_exact_sound (libc : Libc F32) (k B n : Nat) (hk : 0 < k) (hB : 0 < B)
    (points : Py_buffer ℤ) (hpoints : points.IsMatrix n k)
    (center : Py_buffer ℤ) (hcenter : center.IsVector k) (r : ℤ) (hr : 0 < r)
    (hr2 : r * r ≤ 2 ^ 24)
    (o : List ℤ) (M : ℤ) (hex : ExactPoints k n o M points)
    (hc : ExactCenter k o M center r) :
    ∃ T : KDTree F32,
      searchSession libc (k : Int) (B : Int) (points.map F32.ofInt) (center.map F32.ofInt)
        (F32.ofInt r) = PyRet.ok T () ∧
      T._radius_list.Subperm
        (exactRadii libc.sqrt k n (COPY2DARRAY points n k) (COPY1DARRAY center k) r) ∧
      T._count = T._radius_list.length := by
  rcases exists_agree libc with ⟨libcZ, hs, hL⟩
  rw [searchSession_map libc libcZ hL k B n hk hB points hpoints o M hex center hcenter r hr
    hr2 hc]
  rcases search_session_sound libcZ k B n hk hB points hpoints center hcenter r hr with
    ⟨T, hT, hsub, hcount⟩
  rw [hT]
  refine ⟨_, rfl, ?_, ?_⟩
  · rw [← bruteRadii_map libc libcZ hs k n _ _ r hr2]
    rcases hsub with ⟨l, hp, hsl⟩
    exact ⟨l.map _, hp.map _, hsl.map _⟩
  · show T._count = (T._radius_list.map _).length
    rw [List.length_map]
    exact hcount

/-- The session `all_pairs` in `float` on exact inputs is the image of the session on the
integers. -/
theorem pairs_exact (libc : Libc F32) (libcZ : Libc ℤ)
    (hL : LibcAgree libc libcZ (fun d => libc.sqrt (F32.int d)))
    (k B n : Nat) (hk : 0 < k) (hB : 0 < B)
    (points : Py_buffer ℤ) (hpoints : points.IsMatrix n k) (r : ℤ) (hr : 0 < r)
    (hr2 : r * r ≤ 2 ^ 24) (hbox : InBox k n (COPY2DARRAY points n k))
    (o : List ℤ) (M : ℤ) (hex : ExactPoints k n o M points) :
    ∃ (T : KDTree ℤ) (out : List (Neighbor ℤ)),
      pairsSession libc (k : Int) (B : Int) (points.map F32.ofInt) (F32.ofInt r) =
        PyRet.ok (T.map F32.int (fun d => libc.sqrt (F32.int d)))
          (out.map (Neighbor.map (fun d => libc.sqrt (F32.int d)))) ∧
      keys out = keys (innerL libcZ (pairQuery k r) (loaded k n (COPY2DARRAY points n k))) ∧
      PyTree_neighbor_get_count T = out.length := by
  rw [pairsSession_map libc libcZ hL k B n hk hB points hpoints o M hex r hr hr2]
  have hps := pairs_session libcZ k B n hk hB points hpoints r hr
  rcases hps.2 hbox with ⟨T, out, hres, hkeys⟩
  rw [hres]
  exact ⟨T, out, rfl, hkeys, (hps.1 T out hres).2⟩

/-- The session `all_pairs_sweep` in `float` on exact inputs, in the box or not, is the
image of the session on the integers. -/
theorem sweep_exact (libc : Libc F32) (libcZ : Libc ℤ)
    (hL : LibcAgree libc libcZ (fun d => libc.sqrt (F32.int d)))
    (k B n : Nat) (hk : 0 < k) (hB : 0 < B)
    (points : Py_buffer ℤ) (hpoints : points.IsMatrix n k) (r : ℤ) (hr : 0 < r)
    (hr2 : r * r ≤ 2 ^ 24) (o : List ℤ) (M : ℤ) (hex : ExactPoints k n o M points) :
    ∃ (T : KDTree ℤ) (out : List (Neighbor ℤ)),
      sweepSession libc (k : Int) (B : Int) (points.map F32.ofInt) (F32.ofInt r) =
        PyRet.ok (T.map F32.int (fun d => libc.sqrt (F32.int d)))
          (out.map (Neighbor.map (fun d => libc.sqrt (F32.int d)))) ∧
      keys out = keys (innerL libcZ (pairQuery k r) (loaded k n (COPY2DARRAY points n k))) ∧
      PyTree_neighbor_get_count T = out.length := by
  rw [sweepSession_map libc libcZ hL k B n hk hB points hpoints o M hex r hr hr2]
  rcases sweep_session libcZ k B n hk hB points hpoints r hr with ⟨T, out, hres, hkeys, hcount⟩
  rw [hres]
  exact ⟨T, out, rfl, hkeys, hcount⟩

/-! ### The point query against brute force -/

/-- The answers of the point query are not those of the test `KDTree_dist <= radius * radius`
as `float` arithmetic evaluates it, either: in one dimension, for the point `1`, center
`c = -3 * 2^-26` and radius 1, the test holds of the point (`1 - c` rounds to 1), yet the
query reports nothing, because the query region ends at `c + 1`, which rounds to
`1 - 2^-24`. The statements that follow are therefore about inputs on which the arithmetic
of the code is exact. -/
theorem point_query_differs_from_rounded_test :
    (searchSession libcF32 1 1 (f32Matrix 1 1 [1]) (f32Vector [F32.fin (-(3 * 2 ^ 123))])
        1).tree?.map (fun T => T._radius_list) = some [] ∧
      KDTree_dist [F32.fin (-(3 * 2 ^ 123))] [(1 : F32)] 1 ≤ (1 : F32) * 1 ∧
      (1 : F32) - F32.fin (-(3 * 2 ^ 123)) = 1 ∧
      F32.fin (-(3 * 2 ^ 123)) + 1 = F32.fin (2 ^ 149 - 2 ^ 125) := by
  decide!

theorem keep_append {β : Type} (A B : List β) : ∀ (heap : Heap),
    keep (A ++ B) heap =
      if (keep A heap).1 then
        ((keep B (keep A heap).2.2).1, (keep A heap).2.1 ++ (keep B (keep A heap).2.2).2.1,
          (keep B (keep A heap).2.2).2.2)
      else keep A heap := by
  induction A with
  | nil => intro heap; simp [keep]
  | cons x rest ih =>
    intro heap
    rw [List.cons_append, keep, keep]
    by_cases h : (!heap.request.1) = true
    · rw [if_pos h, if_pos h]
      simp
    · rw [if_neg h, if_neg h, ih]
      by_cases h2 : (keep rest heap.request.2).1 = true
      · simp [h2]
      · simp [h2]

theorem request_replicate (j : Nat) (rest : Heap) :
    Heap.request (List.replicate (j + 1) true ++ rest) = (true, List.replicate j true ++ rest) :=
  rfl

theorem keep_replicate_fail {β : Type} : ∀ (L : List β) (j : Nat) (post : Heap),
    j < L.length →
    keep L (List.replicate j true ++ false :: post) = (false, L.take j, post) := by
  intro L
  induction L with
  | nil => intro j post h; simp at h
  | cons x rest ih =>
    intro j post h
    cases j with
    | zero => rfl
    | succ j =>
      rw [keep, request_replicate]
      simp only [Bool.not_true, Bool.false_eq_true, if_false]
      rw [ih j post (by simpa using h)]
      rfl

theorem Oom_test_neighbors_keep (libc : Libc α) (t : KDTree α) (p1 p2 : DataPoint α)
    (heap : Heap) :
    Oom.KDTree_test_neighbors libc t p1 p2 heap =
      ((keep (nhit libc t p1 p2) heap).1, t.addNeighbors (keep (nhit libc t p1 p2) heap).2.1,
        (keep (nhit libc t p1 p2) heap).2.2) := by
  unfold Oom.KDTree_test_neighbors nhit
  by_cases h : KDTree_dist p1._coord p2._coord t.dim ≤ t._neighbor_radius_sq
  · simp only [if_pos h, keep]
    by_cases h2 : (!heap.request.1) = true
    · simp only [if_pos h2]
      rw [addNeighbors_nil]
    · simp only [if_neg h2]
      rfl
  · simp only [if_neg h, keep]
    rw [addNeighbors_nil]

theorem Oom_row_keep (libc : Libc α) (p1 : DataPoint α) (e : Nat) :
    ∀ (n a : Nat) (t : KDTree α) (heap : Heap), e - a = n → e ≤ t._data_point_list.length →
      loopOk (fun j (s : KDTree α × Heap) => do
        let p2 ← s.1.point j
        pure (Oom.KDTree_test_neighbors libc s.1 p1 p2 s.2)) (List.range' a (e - a)) (t, heap) =
      pure ((keep ((slice t._data_point_list a e).flatMap (fun b => nhit libc t p1 b)) heap).1,
        t.addNeighbors
          (keep ((slice t._data_point_list a e).flatMap (fun b => nhit libc t p1 b)) heap).2.1,
        (keep ((slice t._data_point_list a e).flatMap (fun b => nhit libc t p1 b)) heap).2.2) := by
  intro n
  induction n with
  | zero =>
    intro a t heap h he
    rw [h, slice_nil _ (by omega)]
    simp [loopOk, keep]
  | succ n ih =>
    intro a t heap h he
    have hr : e - a = (e - (a + 1)) + 1 := by omega
    rw [hr, List.range'_succ, loopOk, slice_cons _ (by omega) he, List.flatMap_cons,
      keep_append]
    simp only [point_eq t (show a < t._data_point_list.length by omega), ok_bind, pure_bind]
    rw [Oom_test_neighbors_keep libc t p1 t._data_point_list[a] heap]
    by_cases hk : (keep (nhit libc t p1 t._data_point_list[a]) heap).1 = true
    · rw [if_pos hk, if_pos hk]
      have := ih (a + 1)
        (t.addNeighbors (keep (nhit libc t p1 t._data_point_list[a]) heap).2.1)
        (keep (nhit libc t p1 t._data_point_list[a]) heap).2.2 (by omega)
        (by simpa using he)
      simp only [addNeighbors_store, nhit_addNeighbors, addNeighbors_addNeighbors] at this
      exact this
    · rw [if_neg hk, if_neg hk]
      have hf : (keep (nhit libc t p1 t._data_point_list[a]) heap).1 = false := by
        simpa using hk
      show pure _ = pure _
      rw [← hf]

theorem Oom_in_bucket_loop_keep (libc : Libc α) (e : Nat) :
    ∀ (n s : Nat) (t : KDTree α) (heap : Heap), e - s = n → e ≤ t._data_point_list.length →
      loopOk (fun i (st : KDTree α × Heap) => do
        let p1 ← st.1.point i
        loopOk (fun j (st : KDTree α × Heap) => do
          let p2 ← st.1.point j
          pure (Oom.KDTree_test_neighbors libc st.1 p1 p2 st.2))
          (List.range' (i + 1) (e - (i + 1))) st) (List.range' s (e - s)) (t, heap) =
      pure ((keep (innerL libc t (slice t._data_point_list s e)) heap).1,
        t.addNeighbors (keep (innerL libc t (slice t._data_point_list s e)) heap).2.1,
        (keep (innerL libc t (slice t._data_point_list s e)) heap).2.2) := by
  intro n
  induction n with
  | zero =>
    intro s t heap h he
    rw [h, slice_nil _ (by omega)]
    simp [loopOk, keep, innerL]
  | succ n ih =>
    intro s t heap h he
    have hr : e - s = (e - (s + 1)) + 1 := by omega
    rw [hr, List.range'_succ, loopOk, slice_cons _ (by omega) he, innerL, keep_append]
    simp only [point_eq t (show s < t._data_point_list.length by omega), ok_bind]
    rw [Oom_row_keep libc t._data_point_list[s] e _ (s + 1) t heap rfl he]
    simp only [pure_bind]
    by_cases hk : (keep ((slice t._data_point_list (s + 1) e).flatMap
        (fun b => nhit libc t t._data_point_list[s] b)) heap).1 = true
    · rw [if_pos hk, if_pos hk]
      have := ih (s + 1)
        (t.addNeighbors (keep ((slice t._data_point_list (s + 1) e).flatMap
          (fun b => nhit libc t t._data_point_list[s] b)) heap).2.1)
        (keep ((slice t._data_point_list (s + 1) e).flatMap
          (fun b => nhit libc t t._data_point_list[s] b)) heap).2.2 (by omega)
        (by simpa using he)
      simp only [addNeighbors_store, innerL_addNeighbors, addNeighbors_addNeighbors] at this
      exact this
    · rw [if_neg hk, if_neg hk]
      have hf : (keep ((slice t._data_point_list (s + 1) e).flatMap
          (fun b => nhit libc t t._data_point_list[s] b)) heap).1 = false := by
        simpa using hk
      show pure _ = pure _
      rw [← hf]

/-- The scan of a bucket when allocations fail: the entries appended are those of the scan
without failure that come before the first failing request. -/
theorem Oom_in_bucket_keep (libc : Libc α) (l r : Node α) (v : α) (cd s e : Nat)
    (t : KDTree α) (heap : Heap) (he : e ≤ t._data_point_list.length) :
    Oom.KDTree_search_neighbors_in_bucket libc t heap (Node.mk l r v cd s e) =
      pure ((keep (innerL libc t (slice t._data_point_list s e)) heap).1,
        t.addNeighbors (keep (innerL libc t (slice t._data_point_list s e)) heap).2.1,
        (keep (innerL libc t (slice t._data_point_list s e)) heap).2.2) :=
  Oom_in_bucket_loop_keep libc e _ s t heap rfl he

/-- On a tree of one bucket, when the request number `j + 1` is the first to fail and the
scan without failure appends more than `j` entries, `all_pairs` raises `MemoryError` and
leaves the first `j` of these entries in the buffer. -/
theorem Oom_single_bucket (libc : Libc α) (t : KDTree α) (r : α) (hr : 0 < r)
    (v : α) (cd s e : Nat) (hroot : t._root = Node.mk Node.NULL Node.NULL v cd s e)
    (he : e ≤ t._data_point_list.length) (t0 : KDTree α)
    (ht0 : { t with
             _neighbor_list := [],
             _neighbor_count := 0,
             _neighbor_radius := r,
             _neighbor_radius_sq := r * r } = t0)
    (j : Nat) (post : Heap)
    (hj : j < (innerL libc t0 (slice t._data_point_list s e)).length) :
    Oom.PyTree_neighbor_search libc t r (List.replicate j true ++ false :: post) =
      PyRet.raise (t0.addNeighbors ((innerL libc t0 (slice t._data_point_list s e)).take j))
        PyErr.MemoryError := by
  unfold Oom.PyTree_neighbor_search
  rw [if_neg (not_le.mpr hr)]
  unfold Oom.KDTree_neighbor_search
  simp only [ht0]
  have h0r : t0._root = Node.mk Node.NULL Node.NULL v cd s e := by rw [← ht0]; exact hroot
  have h0s : t0._data_point_list = t._data_point_list := by rw [← ht0]
  rw [hroot]
  simp only [Node_is_leaf, Node.isNull, Bool.and_self, ok_bind, if_true, pure_bind]
  rw [Oom_in_bucket_keep libc _ _ v cd s e t0 _ (by rw [h0s]; exact he), h0s,
    keep_replicate_fail _ j post hj]
  rfl

/-- On a tree of one bucket `all_pairs` without failure leaves the entries of the scan. -/
theorem single_bucket_model (libc : Libc α) (t : KDTree α) (r : α) (hr : 0 < r)
    (v : α) (cd s e : Nat) (hroot : t._root = Node.mk Node.NULL Node.NULL v cd s e)
    (he : e ≤ t._data_point_list.length) (t0 : KDTree α)
    (ht0 : { t with
             _neighbor_list := [],
             _neighbor_count := 0,
             _neighbor_radius := r,
             _neighbor_radius_sq := r * r } = t0) :
    PyTree_neighbor_search libc t r =
      PyRet.ok (t0.addNeighbors (innerL libc t0 (slice t._data_point_list s e)))
        (innerL libc t0 (slice t._data_point_list s e)).reverse := by
  unfold PyTree_neighbor_search
  rw [if_neg (not_le.mpr hr)]
  unfold KDTree_neighbor_search
  simp only [ht0]
  have h0s : t0._data_point_list = t._data_point_list := by rw [← ht0]
  have h0l : t0._neighbor_list = [] := by rw [← ht0]
  have h0c : t0._neighbor_count = 0 := by rw [← ht0]
  rw [hroot]
  simp only [Node_is_leaf, Node.isNull, Bool.and_self, ok_bind, if_true, pure_bind]
  rw [KDTree_search_neighbors_in_bucket_eq libc _ _ v cd s e t0 (by rw [h0s]; exact he), h0s]
  simp only [pure_bind]
  rw [take_count_addNeighbors _ _ h0l h0c]
  rfl

/-! ### The requests of `all_pairs`, and what a failure leaves -/

theorem keep_true {β : Type} : ∀ (L : List β) (h : Heap), (keep L h).1 = true →
    (keep L h).2.1 = L := by
  intro L
  induction L with
  | nil => intro h _; rfl
  | cons x rest ih =>
    intro h hk
    rw [keep] at hk ⊢
    by_cases hq : (!h.request.1) = true
    · rw [if_pos hq] at hk
      cases hk
    · rw [if_neg hq] at hk ⊢
      simp only at hk ⊢
      rw [ih _ hk]

theorem keep_map {β γ : Type} (f : β → γ) : ∀ (L : List β) (h : Heap),
    keep (L.map f) h = ((keep L h).1, (keep L h).2.1.map f, (keep L h).2.2) := by
  intro L
  induction L with
  | nil => intro h; rfl
  | cons x rest ih =>
    intro h
    rw [List.map_cons, keep, keep]
    by_cases hq : (!h.request.1) = true
    · rw [if_pos hq, if_pos hq]
      rfl
    · rw [if_neg hq, if_neg hq, ih]
      rfl

theorem filterMap_map_some {β : Type} (L : List β) : (L.map some).filterMap id = L := by
  induction L with
  | nil => rfl
  | cons x rest ih => simp [List.filterMap_cons, ih]

theorem filterMap_replicate_none {β : Type} (c : Nat) :
    (List.replicate c (none : Option β)).filterMap id = [] := by
  induction c with
  | zero => rfl
  | succ c ih => simp [List.replicate_succ, List.filterMap_cons, ih]

theorem filterMap_keep_replicate_none {β : Type} (c : Nat) (h : Heap) :
    (keep (List.replicate c (none : Option β)) h).2.1.filterMap id = [] := by
  induction c generalizing h with
  | zero => rfl
  | succ c ih =>
    rw [List.replicate_succ, keep]
    by_cases hq : (!h.request.1) = true
    · rw [if_pos hq]
      rfl
    · rw [if_neg hq]
      simp only [List.filterMap_cons, id]
      exact ih _

/-- A step that makes no request. -/
theorem Follows.of_pure (u : KDTree α) (h : Heap) :
    Follows u [] h (pure (true, u, h)) :=
  ⟨h, by simp [keep, addNeighbors_nil]; rfl, fun _ => rfl⟩

/-- Two steps in a row, the second made only when the first returned 1. -/
theorem Follows.bind_step {u : KDTree α} {tr1 tr2 : List (Option (Neighbor α))} {h : Heap}
    {r1 : Run (Bool × KDTree α × Heap)}
    {G : Bool × KDTree α × Heap → Run (Bool × KDTree α × Heap)}
    (h1 : Follows u tr1 h r1)
    (hfail : ∀ T h', G (false, T, h') = pure (false, T, h'))
    (h2 : ∀ h2, Follows (u.addNeighbors (tr1.filterMap id)) tr2 h2
      (G (true, u.addNeighbors (tr1.filterMap id), h2))) :
    Follows u (tr1 ++ tr2) h (r1 >>= G) := by
  rcases h1 with ⟨h', hr1, hh'⟩
  rw [hr1, ok_bind]
  unfold Follows
  rw [keep_append]
  by_cases hk : (keep tr1 h).1 = true
  · have hh := hh' hk
    subst hh
    simp only [if_pos hk]
    rcases h2 (keep tr1 h).2.2 with ⟨h'', hG, hh''⟩
    refine ⟨h'', ?_, hh''⟩
    rw [hk, keep_true tr1 h hk, hG, List.filterMap_append, ← addNeighbors_addNeighbors]
  · have hf : (keep tr1 h).1 = false := by simpa using hk
    simp only [if_neg hk]
    rw [hf, hfail]
    exact ⟨h', rfl, fun hc => by cases hc⟩

theorem bind_ok_inv {β γ : Type} {x : Run β} {f : β → Run γ} {y : γ}
    (h : (x >>= f) = Except.ok y) : ∃ b, x = Except.ok b ∧ f b = Except.ok y := by
  cases x with
  | error e => cases h
  | ok b => exact ⟨b, rfl, h⟩

/-- One call of `KDTree_test_neighbors`: one request when the pair is within the radius. -/
theorem Follows.test_neighbors (libc : Libc α) (t : KDTree α) (p1 p2 : DataPoint α)
    (h : Heap) :
    Follows t ((nhit libc t p1 p2).map some) h
      (pure (Oom.KDTree_test_neighbors libc t p1 p2 h)) := by
  refine ⟨(keep (nhit libc t p1 p2) h).2.2, ?_, fun _ => ?_⟩
  · rw [Oom_test_neighbors_keep, keep_map, filterMap_map_some]
    rfl
  · rw [keep_map]

/-- A loop that returns 0 at the first step that does. -/
theorem loopOk_traced (bodyM : Nat → KDTree α → Run (KDTree α))
    (bodyO : Nat → KDTree α × Heap → Run (Bool × KDTree α × Heap))
    (hbody : ∀ i t, Traced (bodyM i t) t (fun h => bodyO i (t, h))) :
    ∀ (l : List Nat) (t : KDTree α),
      Traced (l.foldlM (fun s i => bodyM i s) t) t (fun h => loopOk bodyO l (t, h)) := by
  intro l
  induction l with
  | nil =>
    intro t X hX
    cases hX
    exact ⟨[], (addNeighbors_nil t).symm, fun h => Follows.of_pure t h⟩
  | cons i rest ih =>
    intro t X hX
    rw [List.foldlM_cons] at hX
    rcases bind_ok_inv hX with ⟨X1, h1, h2⟩
    rcases hbody i t X1 h1 with ⟨tr1, hX1, hF1⟩
    subst hX1
    rcases ih _ X h2 with ⟨tr2, hX2, hF2⟩
    refine ⟨tr1 ++ tr2, ?_, fun h => ?_⟩
    · rw [hX2, List.filterMap_append, addNeighbors_addNeighbors]
    · show Follows _ _ _ (loopOk bodyO (i :: rest) (t, h))
      rw [loopOk]
      refine Follows.bind_step (hF1 h) (fun T h' => rfl) (fun h2 => ?_)
      exact hF2 h2

/-- The inner loop of the two bucket scans. -/
theorem row_traced (libc : Libc α) (p1 : DataPoint α) (lo hi : Nat) (t : KDTree α) :
    Traced (forRange lo hi (fun j tree => do
        let p2 ← tree.point j
        pure (KDTree_test_neighbors libc tree p1 p2)) t) t
      (fun h => loopOk (fun j (s : KDTree α × Heap) => do
        let p2 ← s.1.point j
        pure (Oom.KDTree_test_neighbors libc s.1 p1 p2 s.2)) (List.range' lo (hi - lo)) (t, h)) := by
  refine loopOk_traced _ _ ?_ _ t
  intro j u X hX
  rcases bind_ok_inv hX with ⟨p2, hp, hX2⟩
  cases hX2
  refine ⟨(nhit libc u p1 p2).map some, ?_, fun h => ?_⟩
  · rw [filterMap_map_some, KDTree_test_neighbors_eq]
  · simp only [hp, ok_bind]
    exact Follows.test_neighbors libc u p1 p2 h

/-- `KDTree_search_neighbors_in_bucket`. -/
theorem in_bucket_traced (libc : Libc α) (t : KDTree α) (node : Node α) :
    Traced (KDTree_search_neighbors_in_bucket libc t node) t
      (fun h => Oom.KDTree_search_neighbors_in_bucket libc t h node) := by
  cases node with
  | NULL => intro X hX; cases hX
  | mk l r v cd s e =>
    unfold KDTree_search_neighbors_in_bucket Oom.KDTree_search_neighbors_in_bucket
    refine loopOk_traced _ _ ?_ _ t
    intro i u X hX
    rcases bind_ok_inv hX with ⟨p1, hp, hX2⟩
    rcases row_traced libc p1 (i + 1) e u X hX2 with ⟨tr, hXe, hF⟩
    refine ⟨tr, hXe, fun h => ?_⟩
    simp only [hp, ok_bind]
    exact hF h

/-- `KDTree_search_neighbors_between_buckets`. -/
theorem between_buckets_traced (libc : Libc α) (t : KDTree α) (node1 node2 : Node α) :
    Traced (KDTree_search_neighbors_between_buckets libc t node1 node2) t
      (fun h => Oom.KDTree_search_neighbors_between_buckets libc t h node1 node2) := by
  cases node1 with
  | NULL => intro X hX; cases hX
  | mk l r v cd s e =>
    cases node2 with
    | NULL => intro X hX; cases hX
    | mk l2 r2 v2 cd2 s2 e2 =>
      unfold KDTree_search_neighbors_between_buckets
        Oom.KDTree_search_neighbors_between_buckets
      refine loopOk_traced _ _ ?_ _ t
      intro i u X hX
      rcases bind_ok_inv hX with ⟨p1, hp, hX2⟩
      rcases row_traced libc p1 s2 e2 u X hX2 with ⟨tr, hXe, hF⟩
      refine ⟨tr, hXe, fun h => ?_⟩
      simp only [hp, ok_bind]
      exact hF h

/-- The three requests of `Region_create`: the struct, then the two arrays of bounds. -/
theorem Region_create_requests (dim : Nat) (l r : Option (List α)) :
    Requests α 3 (some (Region_create dim l r))
      (fun h => ((Oom.Region_create dim l r h).1, (Oom.Region_create dim l r h).1.isSome,
        (Oom.Region_create dim l r h).2)) := by
  intro h
  rcases h with _ | ⟨a, _ | ⟨b, _ | ⟨c, rest⟩⟩⟩ <;> (try cases a) <;> (try cases b) <;>
    (try cases c) <;> simp [Oom.Region_create, keep, Heap.request, List.replicate]

theorem Requests.of_none {β : Type} (v : β) : Requests α 0 v (fun h => (v, true, h)) := by
  intro h
  exact ⟨rfl, fun _ => rfl⟩

theorem left_child_region_requests (dim : Nat) (reg : Region α) (v : α) (d : Nat) :
    ∃ c, Requests α c (left_child_region dim reg v d) (Oom.left_child_region dim reg v d) := by
  unfold left_child_region Oom.left_child_region Oom.Region_create_intersect_left
    Region_create_intersect_left
  by_cases h1 : Region_test_intersect_left reg v d = 1
  · simp only [if_pos h1]
    exact ⟨3, Region_create_requests dim _ _⟩
  · simp only [if_neg h1]
    by_cases h0 : Region_test_intersect_left reg v d = 0
    · simp only [if_pos h0]
      exact ⟨3, Region_create_requests dim _ _⟩
    · simp only [if_neg h0]
      exact ⟨0, Requests.of_none _⟩

theorem right_child_region_requests (dim : Nat) (reg : Region α) (v : α) (d : Nat) :
    ∃ c, Requests α c (right_child_region dim reg v d) (Oom.right_child_region dim reg v d) := by
  unfold right_child_region Oom.right_child_region Oom.Region_create_intersect_right
    Region_create_intersect_right
  by_cases h1 : Region_test_intersect_right reg v d = -1
  · simp only [if_pos h1]
    exact ⟨3, Region_create_requests dim _ _⟩
  · simp only [if_neg h1]
    by_cases h0 : Region_test_intersect_right reg v d = 0
    · simp only [if_pos h0]
      exact ⟨3, Region_create_requests dim _ _⟩
    · simp only [if_neg h0]
      exact ⟨0, Requests.of_none _⟩

/-- Two blocks of requests in a row, the second made also when the first failed. -/
theorem Requests.both {β1 β2 γ : Type} {c1 c2 : Nat} {v1 : β1} {v2 : β2}
    {A : Heap → β1 × Bool × Heap} {B : Heap → β2 × Bool × Heap}
    (hA : Requests α c1 v1 A) (hB : Requests α c2 v2 B) (f : β1 → β2 → γ) :
    Requests α (c1 + c2) (f v1 v2)
      (fun h => (f (A h).1 (B (A h).2.2).1, (A h).2.1 && (B (A h).2.2).2.1,
        (B (A h).2.2).2.2)) := by
  intro h
  rw [List.replicate_add, keep_append]
  rcases hA h with ⟨ha1, ha2⟩
  by_cases hk : (keep (List.replicate c1 (none : Option (Neighbor α))) h).1 = true
  · have ha := ha2 hk
    rcases hB (keep (List.replicate c1 (none : Option (Neighbor α))) h).2.2 with ⟨hb1, hb2⟩
    simp only [if_pos hk, ha]
    refine ⟨by simpa using hb1, fun hk2 => ?_⟩
    rw [hb2 hk2]
    rfl
  · have hf : (keep (List.replicate c1 (none : Option (Neighbor α))) h).1 = false := by
      simpa using hk
    simp only [if_neg hk]
    rw [hf] at ha1 ⊢
    simp only [ha1, Bool.false_and]
    exact ⟨trivial, fun hc => by cases hc⟩

theorem pairs_children_requests (dim : Nat) (node : Node α) (reg : Region α) (d : Nat) :
    ∃ c, Requests α c (pairs_children dim node reg d) (Oom.pairs_children dim node reg d) := by
  cases node with
  | NULL => exact ⟨0, Requests.of_none _⟩
  | mk l r v cd s e =>
    unfold pairs_children Oom.pairs_children
    by_cases hl : (l.isNull && r.isNull) = true
    · simp only [if_pos hl]
      refine ⟨3, fun h => ?_⟩
      have := Region_create_requests dim (some reg._left) (some reg._right) h
      refine ⟨this.1, fun hk => ?_⟩
      have h2 := this.2 hk
      simp only [Prod.mk.injEq] at h2
      simp only [h2.1, h2.2.2, Option.isSome_some]
    · simp only [if_neg hl]
      rcases left_child_region_requests dim reg v d with ⟨c1, h1⟩
      rcases right_child_region_requests dim reg v d with ⟨c2, h2⟩
      exact ⟨c1 + c2, Requests.both h1 h2 (fun a b => (l, a, r, b))⟩

/-- Requests that succeed, made before a step. -/
theorem Follows.after_requests {u : KDTree α} {tr : List (Option (Neighbor α))} {h : Heap}
    {r : Run (Bool × KDTree α × Heap)} (c : Nat)
    (hk : (keep (List.replicate c (none : Option (Neighbor α))) h).1 = true)
    (hr : Follows u tr (keep (List.replicate c (none : Option (Neighbor α))) h).2.2 r) :
    Follows u (List.replicate c none ++ tr) h r := by
  unfold Follows at hr ⊢
  rw [keep_append]
  simp only [if_pos hk, keep_true _ h hk, List.filterMap_append, filterMap_replicate_none,
    List.nil_append]
  exact hr

/-- Requests of which one fails: the step returns 0 with the tree as it is. -/
theorem Follows.failed_requests {u : KDTree α} {tr : List (Option (Neighbor α))} {h : Heap}
    (h'' : Heap) (c : Nat)
    (hk : (keep (List.replicate c (none : Option (Neighbor α))) h).1 = false) :
    Follows u (List.replicate c none ++ tr) h (pure (false, u, h'')) := by
  unfold Follows
  rw [keep_append]
  simp only [hk, Bool.false_eq_true, if_false, filterMap_keep_replicate_none, addNeighbors_nil]
  exact ⟨h'', rfl, fun hc => by cases hc⟩

/-! ### The requests of the two descents -/

/-- `KDTree_neighbor_search_pairs`, with fuel. -/
theorem pairs_go_traced (libc : Libc α) : ∀ (fuel : Nat) (tree : KDTree α)
    (down : Node α) (down_region : Option (Region α)) (up : Node α)
    (up_region : Option (Region α)) (depth : Nat),
    Traced
      (KDTree_neighbor_search_pairs.go libc fuel tree down down_region up up_region depth) tree
      (fun h => Oom.KDTree_neighbor_search_pairs.go libc fuel tree h down down_region up
        up_region depth) := by
  intro fuel
  induction fuel with
  | zero => intro tree down dr up ur depth X hX; cases hX
  | succ fuel ih =>
    intro tree down down_region up up_region depth
    have hskip : ∀ (x : Run (KDTree α)) (F : Heap → Run (Bool × KDTree α × Heap)),
        x = pure tree → (∀ h, F h = pure (true, tree, h)) → Traced x tree F := by
      intro x F hx hF X hX
      rw [hx] at hX
      cases hX
      refine ⟨[], (addNeighbors_nil _).symm, fun h => ?_⟩
      rw [hF]
      exact Follows.of_pure tree h
    cases down with
    | NULL => exact hskip _ _ rfl (fun h => rfl)
    | mk dl dr dv dc ds de =>
      cases down_region with
      | none => exact hskip _ _ rfl (fun h => rfl)
      | some dreg =>
        cases up with
        | NULL => exact hskip _ _ rfl (fun h => rfl)
        | mk ul ur uv uc us ue =>
          cases up_region with
          | none => exact hskip _ _ rfl (fun h => rfl)
          | some ureg =>
            by_cases h0 : Region_test_intersection tree.dim dreg ureg tree._neighbor_radius = 0
            · refine hskip _ _ ?_ (fun h => ?_)
              · rw [KDTree_neighbor_search_pairs.go]
                simp only [if_pos h0]
              · rw [Oom.KDTree_neighbor_search_pairs.go]
                simp only [if_pos h0]
            · by_cases hl : (ul.isNull && ur.isNull && (dl.isNull && dr.isNull)) = true
              · intro X hX
                rw [KDTree_neighbor_search_pairs.go] at hX
                simp only [if_neg h0, if_pos hl] at hX
                rcases between_buckets_traced libc tree _ _ X hX with ⟨tr, hXe, hF⟩
                refine ⟨tr, hXe, fun h => ?_⟩
                show Follows _ _ _ (Oom.KDTree_neighbor_search_pairs.go libc (fuel + 1) tree h
                  (Node.mk dl dr dv dc ds de) (some dreg) (Node.mk ul ur uv uc us ue)
                  (some ureg) depth)
                rw [Oom.KDTree_neighbor_search_pairs.go]
                simp only [if_neg h0, if_pos hl]
                exact hF h
              · intro X hX
                rw [KDTree_neighbor_search_pairs.go] at hX
                simp only [if_neg h0, if_neg hl] at hX
                rcases bind_ok_inv hX with ⟨X1, hx1, hX⟩
                rcases bind_ok_inv hX with ⟨X2, hx2, hX⟩
                rcases bind_ok_inv hX with ⟨X3, hx3, hx4⟩
                rcases ih _ _ _ _ _ _ X1 hx1 with ⟨tr1, e1, F1⟩
                subst e1
                rcases ih _ _ _ _ _ _ X2 hx2 with ⟨tr2, e2, F2⟩
                subst e2
                rcases ih _ _ _ _ _ _ X3 hx3 with ⟨tr3, e3, F3⟩
                subst e3
                rcases ih _ _ _ _ _ _ X hx4 with ⟨tr4, e4, F4⟩
                rcases pairs_children_requests tree.dim (Node.mk dl dr dv dc ds de) dreg
                  (depth % tree.dim) with ⟨cd, hcd⟩
                rcases pairs_children_requests tree.dim (Node.mk ul ur uv uc us ue) ureg
                  (depth % tree.dim) with ⟨cu, hcu⟩
                refine ⟨List.replicate (cd + cu) none ++ (tr1 ++ (tr2 ++ (tr3 ++ tr4))), ?_,
                  fun h => ?_⟩
                · rw [e4]
                  simp only [List.filterMap_append, filterMap_replicate_none, List.nil_append,
                    addNeighbors_addNeighbors, List.append_assoc]
                · show Follows _ _ _ (Oom.KDTree_neighbor_search_pairs.go libc (fuel + 1) tree h
                    (Node.mk dl dr dv dc ds de) (some dreg) (Node.mk ul ur uv uc us ue)
                    (some ureg) depth)
                  rw [Oom.KDTree_neighbor_search_pairs.go]
                  simp only [if_neg h0, if_neg hl]
                  have hb := Requests.both hcd hcu Prod.mk h
                  simp only at hb
                  by_cases hk : (keep (List.replicate (cd + cu) (none : Option (Neighbor α))) h).1
                      = true
                  · have hv := hb.2 hk
                    simp only [Prod.mk.injEq] at hv
                    rcases hv with ⟨⟨hD, hU⟩, hflag, hrest⟩
                    rw [hflag]
                    simp only [Bool.not_true, Bool.false_eq_true, if_false]
                    rw [hrest, hU, hD]
                    refine Follows.after_requests (cd + cu) hk ?_
                    refine Follows.bind_step (F1 _) (fun T h' => rfl) (fun h2 => ?_)
                    simp only [Bool.not_true, Bool.false_eq_true, if_false]
                    refine Follows.bind_step (F2 _) (fun T h' => rfl) (fun h3 => ?_)
                    simp only [Bool.not_true, Bool.false_eq_true, if_false]
                    refine Follows.bind_step (F3 _) (fun T h' => rfl) (fun h4 => ?_)
                    simp only [Bool.not_true, Bool.false_eq_true, if_false]
                    exact F4 _
                  · have hf : (keep (List.replicate (cd + cu) (none : Option (Neighbor α))) h).1
                        = false := by simpa using hk
                    rw [hb.1, hf]
                    simp only [Bool.not_false, if_true]
                    exact Follows.failed_requests _ (cd + cu) hf

/-- `KDTree_neighbor_search_pairs`. -/
theorem pairs_traced (libc : Libc α) (tree : KDTree α) (down : Node α)
    (down_region : Option (Region α)) (up : Node α) (up_region : Option (Region α))
    (depth : Nat) :
    Traced (KDTree_neighbor_search_pairs libc tree down down_region up up_region depth) tree
      (fun h => Oom.KDTree_neighbor_search_pairs libc tree h down down_region up up_region
        depth) :=
  pairs_go_traced libc _ tree down down_region up up_region depth

/-- `KDTree__neighbor_search`. -/
theorem neighbor_search_traced (libc : Libc α) : ∀ (node : Node α) (tree : KDTree α)
    (region : Option (Region α)) (depth : Nat),
    Traced (KDTree__neighbor_search libc tree node region depth) tree
      (fun h => Oom.KDTree__neighbor_search libc tree h node region depth) := by
  intro node
  induction node with
  | NULL => intro tree region depth X hX; cases hX
  | mk l r v cd s e ihl ihr =>
    intro tree region depth
    cases region with
    | none => intro X hX; cases hX
    | some reg =>
      have step : ∀ (node : Node α) (b : Bool) (reg1 : Option (Region α)),
          (∀ (tree : KDTree α) (region : Option (Region α)) (depth : Nat),
            Traced (KDTree__neighbor_search libc tree node region depth) tree
              (fun h => Oom.KDTree__neighbor_search libc tree h node region depth)) →
          ∀ u : KDTree α,
            Traced (if (!b) = true then KDTree__neighbor_search libc u node reg1 (depth + 1)
                else KDTree_search_neighbors_in_bucket libc u node) u
              (fun h => if (!b) = true then
                  Oom.KDTree__neighbor_search libc u h node reg1 (depth + 1)
                else Oom.KDTree_search_neighbors_in_bucket libc u h node) := by
        intro node b reg1 ihn u
        cases b
        · simp only [Bool.not_false, if_true]
          exact ihn u reg1 (depth + 1)
        · simp only [Bool.not_true, Bool.false_eq_true, if_false]
          exact in_bucket_traced libc u node
      intro X hX
      rw [KDTree__neighbor_search] at hX
      simp only at hX
      rcases bind_ok_inv hX with ⟨b1, hb1, hX⟩
      rw [ite_bind_run] at hX
      rcases bind_ok_inv hX with ⟨X1, hx1, hX⟩
      rcases bind_ok_inv hX with ⟨b2, hb2, hX⟩
      rw [ite_bind_run] at hX
      rcases bind_ok_inv hX with ⟨X2, hx2, hx3⟩
      rcases step l b1 _ ihl tree X1 hx1 with ⟨tr1, e1, F1⟩
      subst e1
      rcases step r b2 _ ihr _ X2 hx2 with ⟨tr2, e2, F2⟩
      subst e2
      rcases pairs_traced libc _ _ _ _ _ _ X hx3 with ⟨tr3, e3, F3⟩
      rcases left_child_region_requests tree.dim reg v (depth % tree.dim) with ⟨cl, hcl⟩
      rcases right_child_region_requests tree.dim reg v (depth % tree.dim) with ⟨cr, hcr⟩
      refine ⟨List.replicate (cl + cr) none ++ (tr1 ++ (tr2 ++ tr3)), ?_, fun h => ?_⟩
      · rw [e3]
        simp only [List.filterMap_append, filterMap_replicate_none, List.nil_append,
          addNeighbors_addNeighbors, List.append_assoc]
      · show Follows _ _ _ (Oom.KDTree__neighbor_search libc tree h (Node.mk l r v cd s e)
          (some reg) depth)
        rw [Oom.KDTree__neighbor_search]
        simp only
        have hb := Requests.both hcl hcr Prod.mk h
        simp only at hb
        by_cases hk : (keep (List.replicate (cl + cr) (none : Option (Neighbor α))) h).1 = true
        · have hv := hb.2 hk
          simp only [Prod.mk.injEq] at hv
          rcases hv with ⟨⟨hL, hR⟩, hflag, hrest⟩
          rw [hflag]
          simp only [Bool.not_true, Bool.false_eq_true, if_false]
          rw [hrest, hR, hL]
          refine Follows.after_requests (cl + cr) hk ?_
          simp only [hb1, ok_bind]
          rw [ite_bind_run]
          refine Follows.bind_step (F1 _) (fun T h' => rfl) (fun h2 => ?_)
          simp only [Bool.not_true, Bool.false_eq_true, if_false, hb2, ok_bind]
          rw [ite_bind_run]
          refine Follows.bind_step (F2 _) (fun T h' => rfl) (fun h3 => ?_)
          simp only [Bool.not_true, Bool.false_eq_true, if_false]
          exact F3 _
        · have hf : (keep (List.replicate (cl + cr) (none : Option (Neighbor α))) h).1
              = false := by simpa using hk
          rw [hb.1, hf]
          simp only [Bool.not_false, if_true]
          exact Follows.failed_requests _ (cl + cr) hf

theorem copyNeighbors_some : ∀ (l acc : List (Neighbor α)) (h : Heap)
    (list : List (Neighbor α)), (Oom.copyNeighbors l acc h).1 = some list →
      list = l.foldl (fun neighbors neighbor => neighbor :: neighbors) acc := by
  intro l
  induction l with
  | nil =>
    intro acc h list hl
    rw [Oom.copyNeighbors] at hl
    cases hl
    rfl
  | cons x rest ih =>
    intro acc h list hl
    rw [Oom.copyNeighbors] at hl
    by_cases hq : (!h.request.1) = true
    · simp only [if_pos hq] at hl
      cases hl
    · simp only [if_neg hq] at hl
      exact ih _ _ _ hl

/-- The end of `KDTree_neighbor_search`: the entries are copied only when the search
returned 1, and the tree is left as the search left it. -/
theorem copy_tail_follows (t0 : KDTree α) (tr : List (Option (Neighbor α))) (h : Heap)
    (s : Run (Bool × KDTree α × Heap)) (hs : Follows t0 tr h s) :
    ∃ res : Bool × KDTree α × List (Neighbor α) × Heap,
      (s >>= fun (s : Bool × KDTree α × Heap) =>
        if (!s.1) = true then
          (pure (false, s.2.1, [], s.2.2) : Run (Bool × KDTree α × List (Neighbor α) × Heap))
        else
          match (Oom.copyNeighbors (List.take s.2.1._neighbor_count s.2.1._neighbor_list)
            [] s.2.2).1 with
          | none => pure (false, s.2.1, [],
              (Oom.copyNeighbors (List.take s.2.1._neighbor_count s.2.1._neighbor_list)
                [] s.2.2).2)
          | some list => pure (true, s.2.1, list,
              (Oom.copyNeighbors (List.take s.2.1._neighbor_count s.2.1._neighbor_list)
                [] s.2.2).2)) = Except.ok res ∧
      res.2.1 = t0.addNeighbors ((keep tr h).2.1.filterMap id) ∧
      ((keep tr h).1 = false → res.1 = false) ∧
      (res.1 = true → res.2.1 = t0.addNeighbors (tr.filterMap id) ∧
        res.2.2.1 = List.foldl (fun neighbors neighbor => neighbor :: neighbors) []
          (List.take (t0.addNeighbors (tr.filterMap id))._neighbor_count
            (t0.addNeighbors (tr.filterMap id))._neighbor_list)) := by
  rcases hs with ⟨h', hs, _⟩
  rw [hs, ok_bind]
  by_cases hk : (keep tr h).1 = true
  · simp only [hk, Bool.not_true, Bool.false_eq_true, if_false, keep_true tr h hk]
    cases hcp : (Oom.copyNeighbors
        (List.take (t0.addNeighbors (tr.filterMap id))._neighbor_count
          (t0.addNeighbors (tr.filterMap id))._neighbor_list) [] h').1 with
    | none =>
      exact ⟨_, rfl, rfl, (fun hc => by cases hc), (fun hc => by cases hc)⟩
    | some list =>
      exact ⟨_, rfl, rfl, (fun hc => by cases hc),
        fun _ => ⟨rfl, copyNeighbors_some _ _ _ _ hcp⟩⟩
  · have hf : (keep tr h).1 = false := by simpa using hk
    simp only [hf, Bool.not_false, if_true]
    exact ⟨_, rfl, rfl, (fun _ => rfl), (fun hc => by cases hc)⟩

/-- `KDTree_neighbor_search` when allocations fail, on a tree on which it returns when none
does: there is a list of the requests of the search, whose entries are the entries of
`_neighbor_list` without failure, such that on every list of outcomes the function returns
with exactly the entries in `_neighbor_list` whose request came before the first failing
request; it returns 0 when a request of the search failed, and when it returns 1 the tree
and the linked list are those without failure. -/
theorem Oom_KDTree_neighbor_search_trace (libc : Libc α) (t : KDTree α) (r : α)
    (X : KDTree α × List (Neighbor α)) (hX : KDTree_neighbor_search libc t r = Except.ok X) :
    ∃ tr : List (Option (Neighbor α)), tr.filterMap id = X.1._neighbor_list ∧
      ∀ h : Heap, ∃ res : Bool × KDTree α × List (Neighbor α) × Heap,
        Oom.KDTree_neighbor_search libc t r h = Except.ok res ∧
        res.2.1._neighbor_list = (keep tr h).2.1.filterMap id ∧
        res.2.1._neighbor_count = res.2.1._neighbor_list.length ∧
        ((keep tr h).1 = false → res.1 = false) ∧
        (res.1 = true → res.2.1 = X.1 ∧ res.2.2.1 = X.2) := by
  unfold KDTree_neighbor_search at hX
  simp only at hX
  rcases bind_ok_inv hX with ⟨b, hb, hX⟩
  rw [ite_bind_run] at hX
  rcases bind_ok_inv hX with ⟨X1, hx1, hX⟩
  cases hX
  have hfin : ∀ (t0 : KDTree α) (tr : List (Option (Neighbor α))) (h : Heap),
      t0._neighbor_list = [] → t0._neighbor_count = 0 →
      ∀ (R : Run (Bool × KDTree α × List (Neighbor α) × Heap)),
      (∃ res : Bool × KDTree α × List (Neighbor α) × Heap, R = Except.ok res ∧
        res.2.1 = t0.addNeighbors ((keep tr h).2.1.filterMap id) ∧
        ((keep tr h).1 = false → res.1 = false) ∧
        (res.1 = true → res.2.1 = t0.addNeighbors (tr.filterMap id) ∧
          res.2.2.1 = List.foldl (fun neighbors neighbor => neighbor :: neighbors) []
            (List.take (t0.addNeighbors (tr.filterMap id))._neighbor_count
              (t0.addNeighbors (tr.filterMap id))._neighbor_list))) →
      ∃ res : Bool × KDTree α × List (Neighbor α) × Heap, R = Except.ok res ∧
        res.2.1._neighbor_list = (keep tr h).2.1.filterMap id ∧
        res.2.1._neighbor_count = res.2.1._neighbor_list.length ∧
        ((keep tr h).1 = false → res.1 = false) ∧
        (res.1 = true → res.2.1 = t0.addNeighbors (tr.filterMap id) ∧
          res.2.2.1 = List.foldl (fun neighbors neighbor => neighbor :: neighbors) []
            (List.take (t0.addNeighbors (tr.filterMap id))._neighbor_count
              (t0.addNeighbors (tr.filterMap id))._neighbor_list)) := by
    intro t0 tr h hl hc R hR
    rcases hR with ⟨res, hres, h1, h2, h3⟩
    refine ⟨res, hres, ?_, ?_, h2, h3⟩
    · rw [h1]
      simp [KDTree.addNeighbors, hl]
    · rw [h1]
      simp [KDTree.addNeighbors, hl, hc]
  cases b with
  | true =>
    simp only [if_true] at hx1
    rcases in_bucket_traced libc _ _ X1 hx1 with ⟨tr, e, F⟩
    refine ⟨tr, ?_, fun h => ?_⟩
    · rw [e]
      simp [KDTree.addNeighbors]
    · subst e
      refine hfin _ tr h rfl rfl _ ?_
      unfold Oom.KDTree_neighbor_search
      simp only [hb, ok_bind, if_true]
      exact copy_tail_follows _ tr h _ (F h)
  | false =>
    simp only [Bool.false_eq_true, if_false] at hx1
    rcases neighbor_search_traced libc _ _ _ _ X1 hx1 with ⟨tr, e, F⟩
    refine ⟨List.replicate 3 none ++ tr, ?_, fun h => ?_⟩
    · rw [e]
      simp [KDTree.addNeighbors, filterMap_replicate_none]
    · subst e
      have hfm : (List.replicate 3 (none : Option (Neighbor α)) ++ tr).filterMap id =
          tr.filterMap id := by
        rw [List.filterMap_append, filterMap_replicate_none, List.nil_append]
      rw [← hfm]
      refine hfin _ _ h rfl rfl _ ?_
      unfold Oom.KDTree_neighbor_search
      simp only [hb, ok_bind, Bool.false_eq_true, if_false]
      have hreq := Region_create_requests t.dim (none : Option (List α)) none h
      simp only at hreq
      by_cases hk : (keep (List.replicate 3 (none : Option (Neighbor α))) h).1 = true
      · have hv := hreq.2 hk
        simp only [Prod.mk.injEq] at hv
        rw [hv.1, hv.2.2]
        simp only
        exact copy_tail_follows _ _ h _ (Follows.after_requests 3 hk (F _))
      · have hf : (keep (List.replicate 3 (none : Option (Neighbor α))) h).1 = false := by
          simpa using hk
        have hn := hreq.1
        rw [hf] at hn
        have hnone : (Oom.Region_create t.dim (none : Option (List α)) none h).1 = none := by
          cases hc : (Oom.Region_create t.dim (none : Option (List α)) none h).1 with
          | none => rfl
          | some x => rw [hc] at hn; cases hn
        rw [hnone]
        simp only
        exact copy_tail_follows _ _ h _ (Follows.failed_requests _ 3 hf)

/-- `all_pairs` when allocations fail, on a tree on which it returns when none does: there
is a list of the requests of the search whose entries are the `neighbor_list` without
failure, and on every list of outcomes the method either raises `MemoryError` or returns as
it does without failure; in both cases `neighbor_list` holds exactly the entries whose
request came before the first failing request of the search, and the method raises
`MemoryError` when one of the requests of the search fails. -/
theorem Oom_all_pairs_trace (libc : Libc α) (t : KDTree α) (r : α) (U : KDTree α)
    (out : List (Neighbor α)) (hU : PyTree_neighbor_search libc t r = PyRet.ok U out) :
    ∃ tr : List (Option (Neighbor α)), tr.filterMap id = U._neighbor_list ∧
      ∀ heap : Heap, ∃ T : KDTree α,
        T._neighbor_list = (keep tr heap).2.1.filterMap id ∧
        PyTree_neighbor_get_count T = T._neighbor_list.length ∧
        (Oom.PyTree_neighbor_search libc t r heap = PyRet.raise T PyErr.MemoryError ∨
          (T = U ∧ Oom.PyTree_neighbor_search libc t r heap = PyRet.ok U out)) ∧
        ((keep tr heap).1 = false →
          Oom.PyTree_neighbor_search libc t r heap = PyRet.raise T PyErr.MemoryError) := by
  unfold PyTree_neighbor_search at hU
  by_cases hr : r ≤ 0
  · rw [if_pos hr] at hU
    cases hU
  · rw [if_neg hr] at hU
    cases hK : KDTree_neighbor_search libc t r with
    | error e => rw [hK] at hU; cases hU
    | ok X =>
      rw [hK] at hU
      simp only [PyRet.ok.injEq] at hU
      rcases hU with ⟨hU1, hU2⟩
      rcases Oom_KDTree_neighbor_search_trace libc t r X hK with ⟨tr, htr, hF⟩
      refine ⟨tr, by rw [htr, hU1], fun heap => ?_⟩
      rcases hF heap with ⟨res, hres, hlist, hcount, hfail, hok⟩
      refine ⟨res.2.1, hlist, hcount, ?_, ?_⟩
      · unfold Oom.PyTree_neighbor_search
        rw [if_neg hr, hres]
        simp only [Oom.returnNeighbors]
        by_cases h1 : res.1 = true
        · rcases hok h1 with ⟨e1, e2⟩
          rw [h1]
          simp only [Bool.not_true, Bool.false_eq_true, if_false]
          split_ifs
          · exact Or.inl rfl
          · exact Or.inl rfl
          · refine Or.inr ⟨by rw [e1, hU1], ?_⟩
            rw [e1, e2, hU1, hU2]
        · have h0 : res.1 = false := by simpa using h1
          rw [h0]
          exact Or.inl rfl
      · intro hk
        unfold Oom.PyTree_neighbor_search
        rw [if_neg hr, hres]
        simp only [Oom.returnNeighbors]
        rw [hfail hk]
        rfl

/-! ### The sweep when allocations fail -/

theorem point_congr {T u : KDTree α} (h : T._data_point_list = u._data_point_list) (j : Nat) :
    T.point j = u.point j := by
  unfold KDTree.point
  rw [h]

theorem nhit_congr (libc : Libc α) {T u : KDTree α} (hd : T.dim = u.dim)
    (hr : T._neighbor_radius_sq = u._neighbor_radius_sq) (p1 p2 : DataPoint α) :
    nhit libc T p1 p2 = nhit libc u p1 p2 := by
  unfold nhit
  rw [hd, hr]

/-- The inner loop of the sweep, for one `i`: it stops at the first request that fails, and
the outcomes left are those after the requests made. -/
theorem sweep_inner_keep (libc : Libc α) (radius : α) (p1 : DataPoint α) (x1 : α) :
    ∀ (js : List Nat) (u X : KDTree α),
      KDTree_neighbor_simple_search.inner libc radius p1 x1 js u = Except.ok X →
      ∃ L : List (Neighbor α), X = u.addNeighbors L ∧
        ∀ (flag : Bool) (T : KDTree α) (h : Heap),
          T._data_point_list = u._data_point_list → T.dim = u.dim →
          T._neighbor_radius_sq = u._neighbor_radius_sq →
          ∃ flag1 : Bool,
            Oom.KDTree_neighbor_simple_search.inner libc radius p1 x1 js (flag, T, h) =
              Except.ok (flag1, T.addNeighbors (keep L h).2.1, (keep L h).2.2) := by
  intro js
  induction js with
  | nil =>
    intro u X hX
    cases hX
    refine ⟨[], (addNeighbors_nil u).symm, fun flag T h _ _ _ => ⟨flag, ?_⟩⟩
    rw [Oom.KDTree_neighbor_simple_search.inner]
    simp [keep, addNeighbors_nil]
    rfl
  | cons j rest ih =>
    intro u X hX
    rw [KDTree_neighbor_simple_search.inner] at hX
    rcases bind_ok_inv hX with ⟨p2, hp, hX⟩
    simp only at hX
    by_cases hclose : Fabs.fabs (idx p2._coord 0 - x1) ≤ radius
    · rw [if_pos hclose, KDTree_test_neighbors_eq] at hX
      rcases ih _ X hX with ⟨L, e, F⟩
      refine ⟨nhit libc u p1 p2 ++ L, ?_, fun flag T h hs hd hr => ?_⟩
      · rw [e, addNeighbors_addNeighbors]
      · rw [Oom.KDTree_neighbor_simple_search.inner]
        simp only [point_congr hs, hp, ok_bind, if_pos hclose]
        rw [Oom_test_neighbors_keep, nhit_congr libc hd hr, keep_append]
        by_cases hk : (keep (nhit libc u p1 p2) h).1 = true
        · simp only [hk, Bool.not_true, Bool.false_eq_true, if_false, if_true]
          rcases F true (T.addNeighbors (keep (nhit libc u p1 p2) h).2.1)
            (keep (nhit libc u p1 p2) h).2.2 (by rw [addNeighbors_store, addNeighbors_store]; exact hs)
            (by rw [addNeighbors_dim, addNeighbors_dim]; exact hd)
            (by simp only [KDTree.addNeighbors]; exact hr) with ⟨flag1, hF⟩
          refine ⟨flag1, ?_⟩
          rw [hF, addNeighbors_addNeighbors]
        · have hf : (keep (nhit libc u p1 p2) h).1 = false := by simpa using hk
          simp only [hf, Bool.not_false, if_true, Bool.false_eq_true, if_false]
          exact ⟨false, rfl⟩
    · rw [if_neg hclose] at hX
      cases hX
      refine ⟨[], (addNeighbors_nil u).symm, fun flag T h hs _ _ => ⟨flag, ?_⟩⟩
      rw [Oom.KDTree_neighbor_simple_search.inner]
      simp only [point_congr hs, hp, ok_bind, if_neg hclose]
      simp [keep, addNeighbors_nil]
      rfl

/-- The outer loop of the sweep: a failure ends the inner loop only, and the next `i` goes
on with the outcomes that are left. -/
theorem sweep_outer_keep (bodyM : Nat → KDTree α → Run (KDTree α))
    (bodyO : Nat → Bool × KDTree α × Heap → Run (Bool × KDTree α × Heap))
    (hbody : ∀ (i : Nat) (u X : KDTree α), bodyM i u = Except.ok X →
      ∃ L : List (Neighbor α), X = u.addNeighbors L ∧
        ∀ (flag : Bool) (T : KDTree α) (h : Heap),
          T._data_point_list = u._data_point_list → T.dim = u.dim →
          T._neighbor_radius_sq = u._neighbor_radius_sq →
          ∃ flag1 : Bool,
            bodyO i (flag, T, h) =
              Except.ok (flag1, T.addNeighbors (keep L h).2.1, (keep L h).2.2)) :
    ∀ (l : List Nat) (u X : KDTree α),
      l.foldlM (fun s i => bodyM i s) u = Except.ok X →
      ∃ rows : List (List (Neighbor α)), X = u.addNeighbors rows.flatten ∧
        ∀ (flag : Bool) (T : KDTree α) (h : Heap),
          T._data_point_list = u._data_point_list → T.dim = u.dim →
          T._neighbor_radius_sq = u._neighbor_radius_sq →
          ∃ (flag1 : Bool) (h1 : Heap),
            l.foldlM (fun s i => bodyO i s) (flag, T, h) =
              Except.ok (flag1, T.addNeighbors (keepRows rows h), h1) := by
  intro l
  induction l with
  | nil =>
    intro u X hX
    cases hX
    refine ⟨[], ?_, fun flag T h _ _ _ => ⟨flag, h, ?_⟩⟩
    · simp [addNeighbors_nil]
    · simp [keepRows, addNeighbors_nil]
      rfl
  | cons i rest ih =>
    intro u X hX
    rw [List.foldlM_cons] at hX
    rcases bind_ok_inv hX with ⟨X1, h1, h2⟩
    rcases hbody i u X1 h1 with ⟨L, e1, F1⟩
    subst e1
    rcases ih _ X h2 with ⟨rows, e2, F2⟩
    refine ⟨L :: rows, ?_, fun flag T h hs hd hr => ?_⟩
    · rw [e2, List.flatten_cons, addNeighbors_addNeighbors]
    · rcases F1 flag T h hs hd hr with ⟨flag1, hF1⟩
      rcases F2 flag1 (T.addNeighbors (keep L h).2.1) (keep L h).2.2
        (by rw [addNeighbors_store, addNeighbors_store]; exact hs)
        (by rw [addNeighbors_dim, addNeighbors_dim]; exact hd)
        (by simp only [KDTree.addNeighbors]; exact hr) with ⟨flag2, h2, hF2⟩
      refine ⟨flag2, h2, ?_⟩
      rw [List.foldlM_cons, hF1, ok_bind, hF2, keepRows, addNeighbors_addNeighbors]

/-- `KDTree_neighbor_simple_search` when allocations fail: `_neighbor_list` is left with
the entries that the inner loops appended before their first failing request. -/
theorem Oom_KDTree_neighbor_simple_search_rows (libc : Libc α) (t : KDTree α) (r : α)
    (X : KDTree α × List (Neighbor α))
    (hX : KDTree_neighbor_simple_search libc t r = Except.ok X) :
    ∃ rows : List (List (Neighbor α)), rows.flatten = X.1._neighbor_list ∧
      ∀ h : Heap, ∃ res : Bool × KDTree α × List (Neighbor α) × Heap,
        Oom.KDTree_neighbor_simple_search libc t r h = Except.ok res ∧
        res.2.1._neighbor_list = keepRows rows h ∧
        res.2.1._neighbor_count = res.2.1._neighbor_list.length := by
  unfold KDTree_neighbor_simple_search at hX
  simp only at hX
  rcases bind_ok_inv hX with ⟨X1, hx1, hX⟩
  cases hX
  unfold forRange at hx1
  rcases sweep_outer_keep _
    (fun i (s : Bool × KDTree α × Heap) => do
      let p1 ← s.2.1.point i
      let x1 := idx p1._coord 0
      Oom.KDTree_neighbor_simple_search.inner libc r p1 x1
        (List.range' (i + 1) ((DataPoint_sort libc t._data_point_list
          t._data_point_list.length 0).length - (i + 1))) s)
    (by
      intro i u X hXi
      rcases bind_ok_inv hXi with ⟨p1, hp, hXi⟩
      rcases sweep_inner_keep libc r p1 _ _ u X hXi with ⟨L, e, F⟩
      refine ⟨L, e, fun flag T h hs hd hr => ?_⟩
      rcases F flag T h hs hd hr with ⟨flag1, hF⟩
      refine ⟨flag1, ?_⟩
      simp only [point_congr hs, hp, ok_bind]
      exact hF) _ _ X1 hx1 with ⟨rows, e, F⟩
  · refine ⟨rows, ?_, fun h => ?_⟩
    · rw [e]
      simp [KDTree.addNeighbors]
    · rcases F true _ h rfl rfl rfl with ⟨flag1, h1, hF⟩
      unfold Oom.KDTree_neighbor_simple_search forRange
      simp only
      rw [hF, ok_bind]
      by_cases hf : flag1 = true
      · subst hf
        simp only [Bool.not_true, Bool.false_eq_true, if_false]
        split
        · exact ⟨_, rfl, by simp [KDTree.addNeighbors], by simp [KDTree.addNeighbors]⟩
        · exact ⟨_, rfl, by simp [KDTree.addNeighbors], by simp [KDTree.addNeighbors]⟩
      · have hf0 : flag1 = false := by simpa using hf
        subst hf0
        simp only [Bool.not_false, if_true]
        exact ⟨_, rfl, by simp [KDTree.addNeighbors], by simp [KDTree.addNeighbors]⟩

/-- `all_pairs_sweep` when allocations fail, on a tree on which it returns when none does:
the entries of `neighbor_list` without failure come in lists, one for each inner loop, and
on every list of outcomes the method raises `MemoryError` or returns, with the entries in
`neighbor_list` that the inner loops appended before their first failing request. -/
theorem Oom_sweep_rows (libc : Libc α) (t : KDTree α) (r : α) (U : KDTree α)
    (out : List (Neighbor α))
    (hU : PyTree_neighbor_simple_search libc t r = PyRet.ok U out) :
    ∃ rows : List (List (Neighbor α)), rows.flatten = U._neighbor_list ∧
      ∀ heap : Heap, ∃ T : KDTree α,
        T._neighbor_list = keepRows rows heap ∧
        PyTree_neighbor_get_count T = T._neighbor_list.length ∧
        (Oom.PyTree_neighbor_simple_search libc t r heap = PyRet.raise T PyErr.MemoryError ∨
          ∃ out1, Oom.PyTree_neighbor_simple_search libc t r heap = PyRet.ok T out1) := by
  unfold PyTree_neighbor_simple_search at hU
  by_cases hr : r ≤ 0
  · rw [if_pos hr] at hU
    cases hU
  · rw [if_neg hr] at hU
    cases hK : KDTree_neighbor_simple_search libc t r with
    | error e => rw [hK] at hU; cases hU
    | ok X =>
      rw [hK] at hU
      simp only [PyRet.ok.injEq] at hU
      rcases Oom_KDTree_neighbor_simple_search_rows libc t r X hK with ⟨rows, hrows, hF⟩
      refine ⟨rows, by rw [hrows, hU.1], fun heap => ?_⟩
      rcases hF heap with ⟨res, hres, hlist, hcount⟩
      refine ⟨res.2.1, hlist, hcount, ?_⟩
      unfold Oom.PyTree_neighbor_simple_search
      rw [if_neg hr, hres]
      simp only [Oom.returnNeighbors]
      split_ifs
      · exact Or.inl rfl
      · exact Or.inl rfl
      · exact Or.inl rfl
      · exact Or.inr ⟨_, rfl⟩

/-! ### The first failing request -/

theorem keep_replicate_ok {β : Type} : ∀ (L : List β) (m : Nat) (rest : Heap),
    L.length ≤ m →
    keep L (List.replicate m true ++ rest) =
      (true, L, List.replicate (m - L.length) true ++ rest) := by
  intro L
  induction L with
  | nil => intro m rest _; rfl
  | cons x tl ih =>
    intro m rest h
    cases m with
    | zero => simp at h
    | succ m =>
      rw [keep, request_replicate]
      simp only [Bool.not_true, Bool.false_eq_true, if_false]
      rw [ih m rest (by simpa using h)]
      simp

/-- When request number `j + 1` is the first to fail, the entries kept begin with the first
`j` entries of the lists. -/
theorem keepRows_prefix {β : Type} : ∀ (rows : List (List β)) (j : Nat) (post : Heap),
    j < rows.flatten.length →
    ∃ more, keepRows rows (List.replicate j true ++ false :: post) =
      rows.flatten.take j ++ more := by
  intro rows
  induction rows with
  | nil => intro j post h; simp at h
  | cons L rest ih =>
    intro j post h
    rw [keepRows, List.flatten_cons]
    by_cases hj : j < L.length
    · rw [keep_replicate_fail L j post hj]
      refine ⟨keepRows rest post, ?_⟩
      rw [List.take_append_of_le_length (le_of_lt hj)]
    · have hle : L.length ≤ j := not_lt.mp hj
      rw [keep_replicate_ok L j _ hle]
      rw [List.flatten_cons, List.length_append] at h
      rcases ih (j - L.length) post (by omega) with ⟨more, hm⟩
      refine ⟨more, ?_⟩
      simp only
      rw [hm, List.take_append_eq_append_take, List.take_of_length_le hle, List.append_assoc]

/-- The requests before the one that appends entry number `j + 1`. -/
theorem exists_take_filterMap {β : Type} : ∀ (tr : List (Option β)) (j : Nat),
    j < (tr.filterMap id).length →
    ∃ m, m < tr.length ∧ (tr.take m).filterMap id = (tr.filterMap id).take j := by
  intro tr
  induction tr with
  | nil => intro j h; simp at h
  | cons x rest ih =>
    intro j h
    cases x with
    | none =>
      simp only [List.filterMap_cons, id] at h ⊢
      rcases ih j h with ⟨m, hm, e⟩
      exact ⟨m + 1, by simpa using hm, by simpa using e⟩
    | some e =>
      simp only [List.filterMap_cons, id, List.length_cons] at h ⊢
      cases j with
      | zero => exact ⟨0, by simp, by simp⟩
      | succ j =>
        rcases ih j (by omega) with ⟨m, hm, e1⟩
        exact ⟨m + 1, by simpa using hm, by simp [e1]⟩

/-- `all_pairs` on any tree on which it returns when no allocation fails: for every entry
of its list there is a request such that, when that request is the first to fail,
`all_pairs` raises `MemoryError` and leaves in `neighbor_list` exactly the entries that
come before this one. -/
theorem Oom_all_pairs_keeps (libc : Libc α) (t : KDTree α) (r : α) (U : KDTree α)
    (out : List (Neighbor α)) (hU : PyTree_neighbor_search libc t r = PyRet.ok U out)
    (j : Nat) (hj : j < U._neighbor_list.length) :
    ∃ m : Nat, ∀ post : Heap, ∃ T : KDTree α,
      Oom.PyTree_neighbor_search libc t r (List.replicate m true ++ false :: post) =
        PyRet.raise T PyErr.MemoryError ∧
      T._neighbor_list = U._neighbor_list.take j ∧
      PyTree_neighbor_get_count T = j := by
  rcases Oom_all_pairs_trace libc t r U out hU with ⟨tr, htr, hF⟩
  rw [← htr] at hj
  rcases exists_take_filterMap tr j hj with ⟨m, hm, e⟩
  refine ⟨m, fun post => ?_⟩
  rcases hF (List.replicate m true ++ false :: post) with ⟨T, hlist, hcount, _, hfail⟩
  rw [keep_replicate_fail tr m post hm] at hlist hfail
  refine ⟨T, hfail rfl, ?_, ?_⟩
  · rw [hlist, ← htr]
    exact e
  · rw [hcount, hlist]
    simp only at e ⊢
    rw [e, List.length_take]
    omega

/-- `all_pairs_sweep` on any tree: when request number `j + 1` is the first to fail, the
method raises `MemoryError` or returns, and `neighbor_list` begins with the first `j`
entries of the list without failure. -/
theorem Oom_sweep_keeps (libc : Libc α) (t : KDTree α) (r : α) (U : KDTree α)
    (out : List (Neighbor α))
    (hU : PyTree_neighbor_simple_search libc t r = PyRet.ok U out)
    (j : Nat) (hj : j < U._neighbor_list.length) (post : Heap) :
    ∃ (T : KDTree α) (more : List (Neighbor α)),
      (Oom.PyTree_neighbor_simple_search libc t r (List.replicate j true ++ false :: post) =
          PyRet.raise T PyErr.MemoryError ∨
        ∃ out1, Oom.PyTree_neighbor_simple_search libc t r
          (List.replicate j true ++ false :: post) = PyRet.ok T out1) ∧
      T._neighbor_list = U._neighbor_list.take j ++ more ∧
      PyTree_neighbor_get_count T = T._neighbor_list.length := by
  rcases Oom_sweep_rows libc t r U out hU with ⟨rows, hrows, hF⟩
  rw [← hrows] at hj
  rcases keepRows_prefix rows j post hj with ⟨more, hm⟩
  rcases hF (List.replicate j true ++ false :: post) with ⟨T, hlist, hcount, hres⟩
  exact ⟨T, more, hres, by rw [hlist, hm, hrows], hcount⟩

/-! ### Allocation failure during a pair query -/

/-- C17, as the code handles a failed allocation in `all_pairs` and `all_pairs_sweep`: the
neighbor buffer is not rolled back, and it keeps the entries appended before the failure.
For every tree state `t`, radius and list of outcomes of the allocation requests:

* when a method raises `MemoryError` the nodes are unchanged (and the point store, which the
  sweep leaves sorted on axis 0), `radius_list` and `count` are unchanged, and
  `neighbor_count` is the number of entries of `neighbor_list`;
* `all_pairs`, on every tree on which it returns when no allocation fails: its allocation
  requests form a list `tr` (a request for a region, or the `realloc` that appends an
  entry) whose entries are the `neighbor_list` without failure, and on every list of
  outcomes the method raises `MemoryError` or returns as without failure, with exactly the
  entries in `neighbor_list` whose `realloc` came before the first failing request of the
  search; so for every entry of the list without failure there is a request such that,
  when it is the first to fail, `MemoryError` is raised and `neighbor_list` holds exactly
  the entries before that one, `neighbor_count` being their number;
* `all_pairs_sweep`, likewise: the entries without failure come in lists, one for each run
  of the inner loop, and on every list of outcomes the method raises `MemoryError` or
  returns, each inner loop having appended its entries up to its first failing request; so
  when request number `j + 1` is the first to fail, `neighbor_list` begins with the first
  `j` entries of the list without failure;
* no step removes an entry, whatever the buffer holds when the step is entered: a
  `KDTree_test_neighbors` that fails leaves the tree as it is, and `KDTree_test_neighbors`,
  the two bucket scans, `KDTree_neighbor_search_pairs`, `KDTree__neighbor_search` and the
  inner loop of the sweep return, failing or not, the tree they were entered with plus the
  entries appended since; a bucket scan in which request number `j + 1` is the first to
  fail returns 0 with exactly the first `j` entries of the scan without failure appended,
  and on a tree of one bucket `all_pairs` then raises `MemoryError` with exactly the first
  `j` entries of its list without failure;
* when no allocation fails the two methods are those of the model without allocation
  failure. -/
theorem C17_failed_pair_query_keeps_entries (libc : Libc α) (t : KDTree α) (r : α)
    (heap : Heap) (T : KDTree α) :
    (Oom.PyTree_neighbor_search libc t r heap = PyRet.raise T PyErr.MemoryError →
      T._root = t._root ∧ T._data_point_list = t._data_point_list ∧
      T._radius_list = t._radius_list ∧ T._count = t._count ∧
      PyTree_neighbor_get_count T = T._neighbor_list.length) ∧
    (Oom.PyTree_neighbor_simple_search libc t r heap = PyRet.raise T PyErr.MemoryError →
      T._root = t._root ∧
      T._data_point_list =
        DataPoint_sort libc t._data_point_list t._data_point_list.length 0 ∧
      T._radius_list = t._radius_list ∧ T._count = t._count ∧
      PyTree_neighbor_get_count T = T._neighbor_list.length) ∧
    (∀ (U : KDTree α) (out : List (Neighbor α)),
      PyTree_neighbor_search libc t r = PyRet.ok U out →
      (∃ tr : List (Option (Neighbor α)), tr.filterMap id = U._neighbor_list ∧
        ∀ h : Heap, ∃ T1 : KDTree α,
          T1._neighbor_list = (keep tr h).2.1.filterMap id ∧
          PyTree_neighbor_get_count T1 = T1._neighbor_list.length ∧
          (Oom.PyTree_neighbor_search libc t r h = PyRet.raise T1 PyErr.MemoryError ∨
            (T1 = U ∧ Oom.PyTree_neighbor_search libc t r h = PyRet.ok U out)) ∧
          ((keep tr h).1 = false →
            Oom.PyTree_neighbor_search libc t r h = PyRet.raise T1 PyErr.MemoryError)) ∧
      ∀ j : Nat, j < U._neighbor_list.length →
        ∃ m : Nat, ∀ post : Heap, ∃ T1 : KDTree α,
          Oom.PyTree_neighbor_search libc t r (List.replicate m true ++ false :: post) =
            PyRet.raise T1 PyErr.MemoryError ∧
          T1._neighbor_list = U._neighbor_list.take j ∧
          PyTree_neighbor_get_count T1 = j) ∧
    (∀ (U : KDTree α) (out : List (Neighbor α)),
      PyTree_neighbor_simple_search libc t r = PyRet.ok U out →
      (∃ rows : List (List (Neighbor α)), rows.flatten = U._neighbor_list ∧
        ∀ h : Heap, ∃ T1 : KDTree α,
          T1._neighbor_list = keepRows rows h ∧
          PyTree_neighbor_get_count T1 = T1._neighbor_list.length ∧
          (Oom.PyTree_neighbor_simple_search libc t r h = PyRet.raise T1 PyErr.MemoryError ∨
            ∃ out1, Oom.PyTree_neighbor_simple_search libc t r h = PyRet.ok T1 out1)) ∧
      ∀ (j : Nat) (post : Heap), j < U._neighbor_list.length →
        ∃ (T1 : KDTree α) (more : List (Neighbor α)),
          (Oom.PyTree_neighbor_simple_search libc t r
              (List.replicate j true ++ false :: post) = PyRet.raise T1 PyErr.MemoryError ∨
            ∃ out1, Oom.PyTree_neighbor_simple_search libc t r
              (List.replicate j true ++ false :: post) = PyRet.ok T1 out1) ∧
          T1._neighbor_list = U._neighbor_list.take j ++ more ∧
          PyTree_neighbor_get_count T1 = T1._neighbor_list.length) ∧
    (∀ (u : KDTree α) (p1 p2 : DataPoint α) (h : Heap),
      ((Oom.KDTree_test_neighbors libc u p1 p2 h).1 = false →
        (Oom.KDTree_test_neighbors libc u p1 p2 h).2.1 = u) ∧
      ∃ hits, (Oom.KDTree_test_neighbors libc u p1 p2 h).2.1 = u.addNeighbors hits) ∧
    (∀ (u : KDTree α) (h : Heap) (node : Node α) (res : Bool × KDTree α × Heap),
      Oom.KDTree_search_neighbors_in_bucket libc u h node = Except.ok res →
        ∃ hits, res.2.1 = u.addNeighbors hits) ∧
    (∀ (u : KDTree α) (h : Heap) (node1 node2 : Node α) (res : Bool × KDTree α × Heap),
      Oom.KDTree_search_neighbors_between_buckets libc u h node1 node2 = Except.ok res →
        ∃ hits, res.2.1 = u.addNeighbors hits) ∧
    (∀ (u : KDTree α) (h : Heap) (down : Node α) (down_region : Option (Region α))
      (up : Node α) (up_region : Option (Region α)) (depth : Nat)
      (res : Bool × KDTree α × Heap),
      Oom.KDTree_neighbor_search_pairs libc u h down down_region up up_region depth =
        Except.ok res → ∃ hits, res.2.1 = u.addNeighbors hits) ∧
    (∀ (u : KDTree α) (h : Heap) (node : Node α) (region : Option (Region α)) (depth : Nat)
      (res : Bool × KDTree α × Heap),
      Oom.KDTree__neighbor_search libc u h node region depth = Except.ok res →
        ∃ hits, res.2.1 = u.addNeighbors hits) ∧
    (∀ (radius : α) (p1 : DataPoint α) (x1 : α) (js : List Nat)
      (s res : Bool × KDTree α × Heap),
      Oom.KDTree_neighbor_simple_search.inner libc radius p1 x1 js s = Except.ok res →
        ∃ hits, res.2.1 = s.2.1.addNeighbors hits) ∧
    (∀ (u : KDTree α) (l rr : Node α) (v : α) (cd s e j : Nat) (post : Heap),
      e ≤ u._data_point_list.length →
      j < (innerL libc u (slice u._data_point_list s e)).length →
        KDTree_search_neighbors_in_bucket libc u (Node.mk l rr v cd s e) =
          Except.ok (u.addNeighbors (innerL libc u (slice u._data_point_list s e))) ∧
        Oom.KDTree_search_neighbors_in_bucket libc u (List.replicate j true ++ false :: post)
            (Node.mk l rr v cd s e) =
          Except.ok (false,
            u.addNeighbors ((innerL libc u (slice u._data_point_list s e)).take j), post)) ∧
    (∀ (v : α) (cd s e j : Nat) (post : Heap) (out : List (Neighbor α)) (U : KDTree α),
      0 < r → t._root = Node.mk Node.NULL Node.NULL v cd s e →
      e ≤ t._data_point_list.length →
      PyTree_neighbor_search libc t r = PyRet.ok U out → j < out.length →
        U._neighbor_list = out.reverse ∧
        ∃ T' : KDTree α,
          Oom.PyTree_neighbor_search libc t r (List.replicate j true ++ false :: post) =
            PyRet.raise T' PyErr.MemoryError ∧
          T'._neighbor_list = U._neighbor_list.take j ∧
          PyTree_neighbor_get_count T' = j) ∧
    Oom.PyTree_neighbor_search libc t r [] = PyTree_neighbor_search libc t r ∧
    Oom.PyTree_neighbor_simple_search libc t r [] =
      PyTree_neighbor_simple_search libc t r := by
  refine ⟨?_, ?_, ?_, ?_, ?_, ?_, ?_, ?_, ?_, ?_, ?_, ?_,
    Oom_PyTree_neighbor_search_nil libc t r, Oom_PyTree_neighbor_simple_search_nil libc t r⟩
  · intro h
    have hr : 0 < r := by
      by_contra hn
      unfold Oom.PyTree_neighbor_search at h
      rw [if_pos (not_lt.mp hn)] at h
      cases h
    rcases Oom_PyTree_neighbor_search_adds libc t T r heap hr (by rw [h]; rfl) with ⟨hits, rfl⟩
    simp [KDTree.addNeighbors, PyTree_neighbor_get_count]
  · intro h
    have hr : 0 < r := by
      by_contra hn
      unfold Oom.PyTree_neighbor_simple_search at h
      rw [if_pos (not_lt.mp hn)] at h
      cases h
    rcases Oom_PyTree_neighbor_simple_search_adds libc t T r heap hr (by rw [h]; rfl) with
      ⟨hits, rfl⟩
    simp [KDTree.addNeighbors, PyTree_neighbor_get_count]
  · intro U out hU
    exact ⟨Oom_all_pairs_trace libc t r U out hU,
      fun j hj => Oom_all_pairs_keeps libc t r U out hU j hj⟩
  · intro U out hU
    exact ⟨Oom_sweep_rows libc t r U out hU,
      fun j post hj => Oom_sweep_keeps libc t r U out hU j hj post⟩
  · intro u p1 p2 h
    refine ⟨?_, Oom_test_neighbors_adds libc u p1 p2 h⟩
    intro hf
    rw [Oom_test_neighbors_keep] at hf ⊢
    simp only at hf ⊢
    unfold nhit at hf ⊢
    split_ifs at hf ⊢ with hd
    · simp only [keep] at hf ⊢
      split_ifs at hf ⊢ with hq
      exact addNeighbors_nil u
    · simp only [keep]
      exact addNeighbors_nil u
  · intro u h node res hres
    exact Oom_in_bucket_rel libc adds_refl adds_trans
      (fun t p1 p2 heap => Oom_test_neighbors_adds libc t p1 p2 heap) node u h res hres
  · intro u h node1 node2 res hres
    exact Oom_between_buckets_rel libc adds_refl adds_trans
      (fun t p1 p2 heap => Oom_test_neighbors_adds libc t p1 p2 heap) node1 node2 u h res hres
  · intro u h down dr up ur depth res hres
    exact Oom_pairs_rel libc adds_refl adds_trans
      (fun t p1 p2 heap => Oom_test_neighbors_adds libc t p1 p2 heap) _ u h down dr up ur
      depth res hres
  · intro u h node region depth res hres
    exact Oom_neighbor_search_rel libc adds_refl adds_trans
      (fun t p1 p2 heap => Oom_test_neighbors_adds libc t p1 p2 heap) node u h region depth
      res hres
  · intro radius p1 x1 js s res hres
    exact Oom_sweep_inner_rel libc adds_refl adds_trans
      (fun t p1 p2 heap => Oom_test_neighbors_adds libc t p1 p2 heap) radius p1 x1 js s res
      hres
  · intro u l rr v cd s e j post he hj
    refine ⟨KDTree_search_neighbors_in_bucket_eq libc l rr v cd s e u he, ?_⟩
    rw [Oom_in_bucket_keep libc l rr v cd s e u _ he, keep_replicate_fail _ j post hj]
    rfl
  · intro v cd s e j post out U hr hroot he hU hj
    have hm := single_bucket_model libc t r hr v cd s e hroot he _ rfl
    rw [hm] at hU
    simp only [PyRet.ok.injEq] at hU
    rcases hU with ⟨hU1, hU2⟩
    have hlen : j < (innerL libc { t with
             _neighbor_list := [],
             _neighbor_count := 0,
             _neighbor_radius := r,
             _neighbor_radius_sq := r * r } (slice t._data_point_list s e)).length := by
      rw [← hU2, List.length_reverse] at hj
      exact hj
    refine ⟨?_, _, Oom_single_bucket libc t r hr v cd s e hroot he _ rfl j post hlen, ?_, ?_⟩
    · rw [← hU1, ← hU2, List.reverse_reverse]
      simp [KDTree.addNeighbors]
    · rw [← hU1]
      simp [KDTree.addNeighbors]
    · simp only [PyTree_neighbor_get_count, KDTree.addNeighbors, List.length_take]
      omega

/-- C17 at a concrete input: the tree of the points 0, 1, 2, 3 built with bucket size 1
(four leaves), radius 1. Without failure `all_pairs` leaves the entries `(0, 1)`, `(2, 3)`,
`(2, 1)` and `all_pairs_sweep` the entries `(0, 1)`, `(1, 2)`, `(2, 3)`, so the hypotheses
hold. When request number 36, the `realloc` for its third entry, is the first to fail,
`all_pairs` raises `MemoryError`, the nodes, the store and `radius_list` are as before, and
`neighbor_list` holds the entries `(0, 1)` and `(2, 3)`. When the second request fails and
the third succeeds, `all_pairs_sweep` raises `MemoryError` (a later request fails) with the
entry `(0, 1)`, appended before the failure, and the entry `(2, 3)`, appended after it. -/
theorem C17_witness_four_leaves :
    (PyTree_neighbor_search libcInt fourLeaves 1 =
        PyRet.ok (PyTree_neighbor_search libcInt fourLeaves 1).finalTree
          [⟨2, 1, 1⟩, ⟨2, 3, 1⟩, ⟨0, 1, 1⟩] ∧
      (PyTree_neighbor_search libcInt fourLeaves 1).finalTree._neighbor_list =
        [⟨0, 1, 1⟩, ⟨2, 3, 1⟩, ⟨2, 1, 1⟩] ∧
      Oom.PyTree_neighbor_search libcInt fourLeaves 1 (List.replicate 35 true ++ [false]) =
        PyRet.raise
          (Oom.PyTree_neighbor_search libcInt fourLeaves 1
            (List.replicate 35 true ++ [false])).finalTree PyErr.MemoryError ∧
      (Oom.PyTree_neighbor_search libcInt fourLeaves 1
        (List.replicate 35 true ++ [false])).finalTree._neighbor_list =
        [⟨0, 1, 1⟩, ⟨2, 3, 1⟩] ∧
      PyTree_neighbor_simple_search libcInt fourLeaves 1 =
        PyRet.ok (PyTree_neighbor_simple_search libcInt fourLeaves 1).finalTree
          [⟨2, 3, 1⟩, ⟨1, 2, 1⟩, ⟨0, 1, 1⟩] ∧
      (PyTree_neighbor_simple_search libcInt fourLeaves 1).finalTree._neighbor_list =
        [⟨0, 1, 1⟩, ⟨1, 2, 1⟩, ⟨2, 3, 1⟩] ∧
      (Oom.PyTree_neighbor_simple_search libcInt fourLeaves 1
        (List.replicate 1 true ++ false :: [true, false])).raised?.map
          (fun p => (p.1, p.2._neighbor_list)) =
        some (PyErr.MemoryError, [⟨0, 1, 1⟩, ⟨2, 3, 1⟩])) ∧
    ((Oom.PyTree_neighbor_search libcInt fourLeaves 1
        (List.replicate 35 true ++ [false])).finalTree._root = fourLeaves._root ∧
      (Oom.PyTree_neighbor_search libcInt fourLeaves 1
        (List.replicate 35 true ++ [false])).finalTree._data_point_list =
        fourLeaves._data_point_list ∧
      (Oom.PyTree_neighbor_search libcInt fourLeaves 1
        (List.replicate 35 true ++ [false])).finalTree._radius_list = fourLeaves._radius_list ∧
      (Oom.PyTree_neighbor_search libcInt fourLeaves 1
        (List.replicate 35 true ++ [false])).finalTree._count = fourLeaves._count ∧
      PyTree_neighbor_get_count
        (Oom.PyTree_neighbor_search libcInt fourLeaves 1
          (List.replicate 35 true ++ [false])).finalTree =
        (Oom.PyTree_neighbor_search libcInt fourLeaves 1
          (List.replicate 35 true ++ [false])).finalTree._neighbor_list.length) ∧
    (∃ m : Nat, ∀ post : Heap, ∃ T1 : KDTree ℤ,
      Oom.PyTree_neighbor_search libcInt fourLeaves 1
          (List.replicate m true ++ false :: post) = PyRet.raise T1 PyErr.MemoryError ∧
      T1._neighbor_list =
        (PyTree_neighbor_search libcInt fourLeaves 1).finalTree._neighbor_list.take 2 ∧
      PyTree_neighbor_get_count T1 = 2) ∧
    ∃ (T1 : KDTree ℤ) (more : List (Neighbor ℤ)),
      (Oom.PyTree_neighbor_simple_search libcInt fourLeaves 1
          (List.replicate 1 true ++ false :: [true, false]) =
          PyRet.raise T1 PyErr.MemoryError ∨
        ∃ out1, Oom.PyTree_neighbor_simple_search libcInt fourLeaves 1
          (List.replicate 1 true ++ false :: [true, false]) = PyRet.ok T1 out1) ∧
      T1._neighbor_list =
        (PyTree_neighbor_simple_search libcInt fourLeaves 1).finalTree._neighbor_list.take 1 ++
          more ∧
      PyTree_neighbor_get_count T1 = T1._neighbor_list.length :=
  ⟨by decide!,
    (C17_failed_pair_query_keeps_entries libcInt fourLeaves 1
      (List.replicate 35 true ++ [false])
      (Oom.PyTree_neighbor_search libcInt fourLeaves 1
        (List.replicate 35 true ++ [false])).finalTree).1 (by decide!),
    ((C17_failed_pair_query_keeps_entries libcInt fourLeaves 1 [] fourLeaves).2.2.1
      (PyTree_neighbor_search libcInt fourLeaves 1).finalTree
      [⟨2, 1, 1⟩, ⟨2, 3, 1⟩, ⟨0, 1, 1⟩] (by decide!)).2 2 (by decide!),
    ((C17_failed_pair_query_keeps_entries libcInt fourLeaves 1 [] fourLeaves).2.2.2.1
      (PyTree_neighbor_simple_search libcInt fourLeaves 1).finalTree
      [⟨2, 3, 1⟩, ⟨1, 2, 1⟩, ⟨0, 1, 1⟩] (by decide!)).2 1 [true, false] (by decide!)⟩

/-! ### What every query reports, whatever the arithmetic

The statements of this section are about the queries in any arithmetic, that of binary32
among them, on any tree state: no condition on the coordinates, which may round, overflow
or be NaN. -/

section AnyArithmetic

variable {β : Type} [Zero β] [One β] [Add β] [Sub β] [Mul β] [Neg β] [LT β] [LE β]
  [DecidableRel (fun a b : β => a < b)] [DecidableRel (fun a b : β => a ≤ b)]
  [DecidableEq β] [OfNat β 1000000] [Fabs β]

theorem point_mem {t : KDTree β} {i : Nat} {p : DataPoint β}
    (h : t.point i = Except.ok p) : p ∈ t._data_point_list := by
  unfold KDTree.point at h
  cases hg : t._data_point_list.get? i with
  | none => rw [hg] at h; cases h
  | some q =>
    rw [hg] at h
    cases h
    exact List.get?_mem hg

theorem bind_keeps {P : KDTree β → Prop} {r1 : Run (KDTree β)}
    {f : KDTree β → Run (KDTree β)}
    (h1 : ∀ t1, r1 = Except.ok t1 → P t1)
    (h2 : ∀ t1 t2, P t1 → f t1 = Except.ok t2 → P t2) :
    ∀ t2, (r1 >>= f) = Except.ok t2 → P t2 := by
  intro t2 h
  cases hr : r1 with
  | error e => rw [hr] at h; cases h
  | ok t1 =>
    rw [hr] at h
    exact h2 t1 t2 (h1 t1 hr) h

theorem forRange_keeps {P : KDTree β → Prop} (body : Nat → KDTree β → Run (KDTree β))
    (hbody : ∀ i t t', P t → body i t = Except.ok t' → P t') (hi : Nat) :
    ∀ (n lo : Nat) (t t' : KDTree β), hi - lo = n → P t →
      forRange lo hi body t = Except.ok t' → P t' := by
  intro n
  induction n with
  | zero =>
    intro lo t t' h hP hr
    rw [forRange_done _ _ (by omega)] at hr
    cases hr
    exact hP
  | succ n ih =>
    intro lo t t' h hP hr
    rw [forRange_step _ _ (by omega)] at hr
    exact bind_keeps (fun t1 h1 => hbody lo t t1 hP h1)
      (fun t1 t2 hP1 h2 => ih (lo + 1) t1 t2 (by omega) hP1 h2) t' hr

theorem point_bind_keeps {P : KDTree β → Prop} {t : KDTree β} {i : Nat}
    {f : DataPoint β → Run (KDTree β)}
    (hf : ∀ p t', p ∈ t._data_point_list → f p = Except.ok t' → P t') :
    ∀ t', (t.point i >>= f) = Except.ok t' → P t' := by
  intro t' h
  cases hp : t.point i with
  | error e => rw [hp] at h; cases h
  | ok p => rw [hp] at h; exact hf p t' (point_mem hp) h

theorem leaf_bind_keeps {P : KDTree β → Prop} {node : Node β}
    {f : Bool → Run (KDTree β)} (hf : ∀ b t', f b = Except.ok t' → P t') :
    ∀ t', (Node_is_leaf node >>= f) = Except.ok t' → P t' := by
  intro t' h
  cases hp : Node_is_leaf node with
  | error e => rw [hp] at h; cases h
  | ok p => rw [hp] at h; exact hf p t' h

/-- `KDTree_report_subtree` keeps every property of the tree that `KDTree_report_point`
keeps when it is called on a record of the point store. -/
theorem KDTree_report_subtree_keeps (libc : Libc β) {P : KDTree β → Prop}
    (hstep : ∀ t p, P t → p ∈ t._data_point_list →
      P (KDTree_report_point libc t p._index p._coord)) (node : Node β) :
    ∀ (t t' : KDTree β), P t → KDTree_report_subtree libc t node = Except.ok t' → P t' := by
  induction node with
  | NULL => intro t t' _ h; simp [KDTree_report_subtree] at h
  | mk l r v cd s e ihl ihr =>
    intro t t' hP h
    rw [KDTree_report_subtree] at h
    split_ifs at h
    · refine forRange_keeps _ ?_ e _ s t t' rfl hP h
      intro i t1 t2 hP1
      apply point_bind_keeps
      intro p t3 hp h3
      cases h3
      exact hstep _ _ hP1 hp
    · exact bind_keeps (fun t1 h1 => ihl t t1 hP h1) (fun t1 t2 hP1 h2 => ihr t1 t2 hP1 h2) t' h

/-- `KDTree_search` and `KDTree_test_region` keep every such property. -/
theorem search_keeps (libc : Libc β) {P : KDTree β → Prop}
    (hstep : ∀ t p, P t → p ∈ t._data_point_list →
      P (KDTree_report_point libc t p._index p._coord)) : ∀ fuel : Nat,
    (∀ (t t' : KDTree β) (region : Option (Region β)) (node : Node β) (depth : Nat),
      P t → KDTree_search.go libc fuel t region node depth = Except.ok t' → P t') ∧
    (∀ (t t' : KDTree β) (node : Node β) (region : Region β) (depth : Nat),
      P t → KDTree_test_region.go libc fuel t node region depth = Except.ok t' → P t') := by
  intro fuel
  induction fuel with
  | zero =>
    constructor
    · intro t t' region node depth _ h
      simp [KDTree_search.go] at h
    · intro t t' node region depth _ h
      simp [KDTree_test_region.go] at h
  | succ fuel ih =>
    constructor
    · intro t t' region node depth hP h
      rw [KDTree_search.go] at h
      simp only at h
      generalize (if depth = 0 then t._root else node) = node' at h
      generalize (if depth = 0 then some (Region_create t.dim none none) else region) =
        region' at h
      cases node' with
      | NULL => cases h
      | mk l r v cd s e =>
        simp only at h
        by_cases hleaf : (l.isNull && r.isNull) = true
        · rw [if_pos hleaf] at h
          refine forRange_keeps _ ?_ _ _ _ t t' rfl hP h
          intro i t1 t2 hP1
          apply point_bind_keeps
          intro p t3 hp h3
          cases hq : Region.deref t1._query_region with
          | error e => rw [hq] at h3; cases h3
          | ok q =>
            rw [hq] at h3
            simp only [ok_bind] at h3
            split_ifs at h3
            · cases h3
              exact hstep _ _ hP1 hp
            · cases h3
              exact hP1
        · rw [if_neg hleaf] at h
          cases hreg : Region.deref region' with
          | error e => rw [hreg] at h; cases h
          | ok Rg =>
            rw [hreg] at h
            simp only [ok_bind] at h
            have hright : ∀ t1 t2 : KDTree β, P t1 →
                (match right_child_region t1.dim Rg v (depth % t.dim) with
                  | some right_region => KDTree_test_region.go libc fuel t1 r right_region depth
                  | none => pure t1) = Except.ok t2 → P t2 := by
              intro t1 t2 hP1 h2
              split at h2
              · exact ih.2 _ _ _ _ _ hP1 h2
              · cases h2; exact hP1
            split at h
            · refine bind_keeps ?_ hright t' h
              intro t1 h1
              exact ih.2 _ _ _ _ _ hP h1
            · rw [pure_bind] at h
              exact hright t t' hP h
    · intro t t' node region depth hP h
      rw [KDTree_test_region.go] at h
      cases hq : Region.deref t._query_region with
      | error e => rw [hq] at h; cases h
      | ok q =>
        rw [hq] at h
        simp only [ok_bind] at h
        split_ifs at h
        · exact KDTree_report_subtree_keeps libc hstep node t t' hP h
        · exact ih.1 _ _ _ _ _ hP h
        · cases h; exact hP

theorem KDTree_search_keeps (libc : Libc β) {P : KDTree β → Prop}
    (hstep : ∀ t p, P t → p ∈ t._data_point_list →
      P (KDTree_report_point libc t p._index p._coord)) (t t' : KDTree β)
    (region : Option (Region β)) (node : Node β) (depth : Nat) (hP : P t)
    (h : KDTree_search libc t region node depth = Except.ok t') : P t' :=
  (search_keeps libc hstep _).1 t t' region node depth hP h

theorem row_keeps (libc : Libc β) {P : KDTree β → Prop} (S : List (DataPoint β))
    (hS : ∀ t, P t → t._data_point_list = S)
    (hstep : ∀ t p1 p2, P t → p1 ∈ S → p2 ∈ S → P (KDTree_test_neighbors libc t p1 p2))
    (p1 : DataPoint β) (hp1 : p1 ∈ S) (lo hi : Nat) (t t' : KDTree β) (hP : P t)
    (h : forRange lo hi (fun j tree => do
        let p2 ← tree.point j
        pure (KDTree_test_neighbors libc tree p1 p2)) t = Except.ok t') : P t' := by
  refine forRange_keeps _ ?_ hi _ lo t t' rfl hP h
  intro j t1 t2 hP1
  apply point_bind_keeps
  intro p t3 hp h3
  cases h3
  exact hstep _ _ _ hP1 hp1 (hS t1 hP1 ▸ hp)

theorem KDTree_search_neighbors_in_bucket_keeps (libc : Libc β) {P : KDTree β → Prop}
    (S : List (DataPoint β)) (hS : ∀ t, P t → t._data_point_list = S)
    (hstep : ∀ t p1 p2, P t → p1 ∈ S → p2 ∈ S → P (KDTree_test_neighbors libc t p1 p2))
    (node : Node β) (t t' : KDTree β) (hP : P t)
    (h : KDTree_search_neighbors_in_bucket libc t node = Except.ok t') : P t' := by
  cases node with
  | NULL => cases h
  | mk l r v cd s e =>
    refine forRange_keeps _ ?_ e _ s t t' rfl hP h
    intro i t1 t2 hP1
    apply point_bind_keeps
    intro p t3 hp h3
    exact row_keeps libc S hS hstep p (hS t1 hP1 ▸ hp) _ _ t1 t3 hP1 h3

theorem KDTree_search_neighbors_between_buckets_keeps (libc : Libc β)
    {P : KDTree β → Prop} (S : List (DataPoint β)) (hS : ∀ t, P t → t._data_point_list = S)
    (hstep : ∀ t p1 p2, P t → p1 ∈ S → p2 ∈ S → P (KDTree_test_neighbors libc t p1 p2))
    (node1 node2 : Node β) (t t' : KDTree β) (hP : P t)
    (h : KDTree_search_neighbors_between_buckets libc t node1 node2 = Except.ok t') :
    P t' := by
  cases node1 with
  | NULL => cases h
  | mk l r v cd s e =>
    cases node2 with
    | NULL => cases h
    | mk l2 r2 v2 cd2 s2 e2 =>
      refine forRange_keeps _ ?_ e _ s t t' rfl hP h
      intro i t1 t2 hP1
      apply point_bind_keeps
      intro p t3 hp h3
      exact row_keeps libc S hS hstep p (hS t1 hP1 ▸ hp) _ _ t1 t3 hP1 h3

/-- The dual descent keeps every property of the tree that `KDTree_test_neighbors` keeps
when it is called on two records of the point store. -/
theorem pairs_keeps (libc : Libc β) {P : KDTree β → Prop} (S : List (DataPoint β))
    (hS : ∀ t, P t → t._data_point_list = S)
    (hstep : ∀ t p1 p2, P t → p1 ∈ S → p2 ∈ S → P (KDTree_test_neighbors libc t p1 p2)) :
    ∀ (fuel : Nat) (t t' : KDTree β) (down : Node β)
    (down_region : Option (Region β)) (up : Node β) (up_region : Option (Region β))
    (depth : Nat), P t →
    KDTree_neighbor_search_pairs.go libc fuel t down down_region up up_region depth =
      Except.ok t' → P t' := by
  intro fuel
  induction fuel with
  | zero =>
    intro t t' down dr up ur depth _ h
    simp [KDTree_neighbor_search_pairs.go] at h
  | succ fuel ih =>
    intro t t' down dr up ur depth hP h
    unfold KDTree_neighbor_search_pairs.go at h
    split at h
    · simp only at h
      split_ifs at h
      · cases h; exact hP
      · exact KDTree_search_neighbors_between_buckets_keeps libc S hS hstep _ _ t t' hP h
      · refine bind_keeps ?_ ?_ t' h
        · intro t1 h1
          exact ih _ _ _ _ _ _ _ hP h1
        intro t1 t2 hP1 h2
        refine bind_keeps ?_ ?_ t2 h2
        · intro t3 h3
          exact ih _ _ _ _ _ _ _ hP1 h3
        intro t3 t4 hP3 h4
        refine bind_keeps ?_ ?_ t4 h4
        · intro t5 h5
          exact ih _ _ _ _ _ _ _ hP3 h5
        intro t5 t6 hP5 h6
        exact ih _ _ _ _ _ _ _ hP5 h6
    · cases h; exact hP

/-- The descent over one tree keeps every such property. -/
theorem neighbor_search_keeps (libc : Libc β) {P : KDTree β → Prop} (S : List (DataPoint β))
    (hS : ∀ t, P t → t._data_point_list = S)
    (hstep : ∀ t p1 p2, P t → p1 ∈ S → p2 ∈ S → P (KDTree_test_neighbors libc t p1 p2))
    (node : Node β) :
    ∀ (t t' : KDTree β) (region : Option (Region β)) (depth : Nat), P t →
      KDTree__neighbor_search libc t node region depth = Except.ok t' → P t' := by
  induction node with
  | NULL => intro t t' region depth _ h; simp [KDTree__neighbor_search] at h
  | mk l r v cd s e ihl ihr =>
    intro t t' region depth hP h
    cases region with
    | none => simp [KDTree__neighbor_search] at h
    | some Rg =>
      rw [KDTree__neighbor_search] at h
      simp only at h
      refine leaf_bind_keeps ?_ t' h
      intro b t1 h1
      have hpairs : ∀ (t5 t6 : KDTree β) (dr ur : Option (Region β)), P t5 →
          KDTree_neighbor_search_pairs libc t5 l dr r ur (depth + 1) = Except.ok t6 →
            P t6 :=
        fun t5 t6 dr ur hP5 h6 => pairs_keeps libc S hS hstep _ _ _ _ _ _ _ _ hP5 h6
      have hrest : ∀ (f : KDTree β → Run (KDTree β)) (t2 t3 : KDTree β)
          (hf : ∀ t5 t6, P t5 → f t5 = Except.ok t6 → P t6), P t2 →
          (Node_is_leaf r >>= fun right_is_leaf =>
            if (!right_is_leaf) = true then
              KDTree__neighbor_search libc t2 r
                (right_child_region t.dim Rg v (depth % t.dim)) (depth + 1) >>= f
            else KDTree_search_neighbors_in_bucket libc t2 r >>= f) = Except.ok t3 →
            P t3 := by
        intro f t2 t3 hf hP2 h3
        refine leaf_bind_keeps ?_ t3 h3
        intro b2 t4 h4
        split_ifs at h4
        · refine bind_keeps ?_ hf t4 h4
          intro t5 h5
          exact ihr _ _ _ _ hP2 h5
        · refine bind_keeps ?_ hf t4 h4
          intro t5 h5
          exact KDTree_search_neighbors_in_bucket_keeps libc S hS hstep _ _ _ hP2 h5
      split_ifs at h1
      · refine bind_keeps ?_ ?_ t1 h1
        · intro t2 h2
          exact ihl _ _ _ _ hP h2
        intro t2 t3 hP2 h3
        exact hrest _ t2 t3 (fun t5 t6 hP5 h6 => hpairs t5 t6 _ _ hP5 h6) hP2 h3
      · refine bind_keeps ?_ ?_ t1 h1
        · intro t2 h2
          exact KDTree_search_neighbors_in_bucket_keeps libc S hS hstep _ _ _ hP h2
        intro t2 t3 hP2 h3
        exact hrest _ t2 t3 (fun t5 t6 hP5 h6 => hpairs t5 t6 _ _ hP5 h6) hP2 h3

/-- Every entry that `search_center_radius` leaves in `_radius_list`, in any arithmetic and
on any tree, is the index of a record of the point store whose squared distance to the
center, as `KDTree_dist` computes it, passed the test against `radius * radius`, and holds
the square root of that distance. -/
theorem PyTree_search_center_radius_reports (libc : Libc β) (t : KDTree β)
    (view : Py_buffer β) (r : β) (T : KDTree β)
    (h : PyTree_search_center_radius libc t view r = PyRet.ok T ()) :
    T._data_point_list = t._data_point_list ∧ T.dim = t.dim ∧
      T._center_coord =
        (List.range t.dim).map (fun i => idx (COPY1DARRAY view (view.shape.getD 0 0)) i) ++
          t._center_coord.drop t.dim ∧
      ∀ e, e ∈ T._radius_list → ∃ p, p ∈ t._data_point_list ∧ e.index = p._index ∧
        KDTree_dist T._center_coord p._coord t.dim ≤ r * r ∧
        e.value = libc.sqrt (KDTree_dist T._center_coord p._coord t.dim) := by
  unfold PyTree_search_center_radius at h
  split_ifs at h
  simp only at h
  split at h
  · rename_i T1 hT
    cases h
    have key := KDTree_search_keeps libc
      (P := fun u : KDTree β => u._data_point_list = t._data_point_list ∧ u.dim = t.dim ∧
        u._center_coord =
          (List.range t.dim).map (fun i => idx (COPY1DARRAY view (view.shape.getD 0 0)) i) ++
            t._center_coord.drop t.dim ∧
        u._radius_sq = r * r ∧
        ∀ e, e ∈ u._radius_list → ∃ p, p ∈ t._data_point_list ∧ e.index = p._index ∧
          KDTree_dist u._center_coord p._coord t.dim ≤ r * r ∧
          e.value = libc.sqrt (KDTree_dist u._center_coord p._coord t.dim))
      ?_ _ _ _ _ _ ?_ hT
    · exact ⟨key.1, key.2.1, key.2.2.1, key.2.2.2.2⟩
    · rintro u p ⟨h1, h2, h3, h4, h5⟩ hp
      unfold KDTree_report_point
      simp only
      split_ifs with hle
      · refine ⟨h1, h2, h3, h4, ?_⟩
        intro e he
        simp only [List.mem_append, List.mem_singleton] at he
        rcases he with he | he
        · exact h5 e he
        · subst he
          refine ⟨p, h1 ▸ hp, rfl, ?_, ?_⟩
          · rw [← h4, ← h2]; exact hle
          · rw [← h2]
      · exact ⟨h1, h2, h3, h4, h5⟩
    · refine ⟨rfl, rfl, rfl, rfl, ?_⟩
      intro e he
      cases he
  · cases h

/-- Every entry that `all_pairs` leaves in `_neighbor_list`, and so every pair that it
returns, in any arithmetic and on any tree, holds the indices of two records of the point
store whose squared distance, as `KDTree_dist` computes it, passed the test against
`radius * radius`, and the square root of that distance. -/
theorem PyTree_neighbor_search_reports (libc : Libc β) (t : KDTree β) (r : β)
    (T : KDTree β) (out : List (Neighbor β))
    (h : PyTree_neighbor_search libc t r = PyRet.ok T out) :
    T._data_point_list = t._data_point_list ∧ T.dim = t.dim ∧
      (∀ e, e ∈ out → e ∈ T._neighbor_list) ∧
      ∀ e, e ∈ T._neighbor_list → ∃ p q, p ∈ t._data_point_list ∧ q ∈ t._data_point_list ∧
        e.index1 = p._index ∧ e.index2 = q._index ∧
        KDTree_dist p._coord q._coord t.dim ≤ r * r ∧
        e.radius = libc.sqrt (KDTree_dist p._coord q._coord t.dim) := by
  unfold PyTree_neighbor_search at h
  split_ifs at h
  split at h
  · rename_i res hres
    cases h
    unfold KDTree_neighbor_search at hres
    simp only at hres
    have hstep : ∀ (u : KDTree β) (p1 p2 : DataPoint β),
        (u._data_point_list = t._data_point_list ∧ u.dim = t.dim ∧
          u._neighbor_radius_sq = r * r ∧
          ∀ e, e ∈ u._neighbor_list → ∃ p q, p ∈ t._data_point_list ∧
            q ∈ t._data_point_list ∧ e.index1 = p._index ∧ e.index2 = q._index ∧
            KDTree_dist p._coord q._coord t.dim ≤ r * r ∧
            e.radius = libc.sqrt (KDTree_dist p._coord q._coord t.dim)) →
        p1 ∈ t._data_point_list → p2 ∈ t._data_point_list →
        ((KDTree_test_neighbors libc u p1 p2)._data_point_list = t._data_point_list ∧
          (KDTree_test_neighbors libc u p1 p2).dim = t.dim ∧
          (KDTree_test_neighbors libc u p1 p2)._neighbor_radius_sq = r * r ∧
          ∀ e, e ∈ (KDTree_test_neighbors libc u p1 p2)._neighbor_list →
            ∃ p q, p ∈ t._data_point_list ∧
            q ∈ t._data_point_list ∧ e.index1 = p._index ∧ e.index2 = q._index ∧
            KDTree_dist p._coord q._coord t.dim ≤ r * r ∧
            e.radius = libc.sqrt (KDTree_dist p._coord q._coord t.dim)) := by
      rintro u p1 p2 ⟨h1, h2, h3, h4⟩ hp1 hp2
      unfold KDTree_test_neighbors
      simp only
      split_ifs with hle
      · refine ⟨h1, h2, h3, ?_⟩
        intro e he
        simp only [List.mem_append, List.mem_singleton] at he
        rcases he with he | he
        · exact h4 e he
        · subst he
          refine ⟨p1, p2, hp1, hp2, rfl, rfl, ?_, ?_⟩
          · rw [← h3, ← h2]; exact hle
          · rw [← h2]
      · exact ⟨h1, h2, h3, h4⟩
    have hstart : ({ t with
        _neighbor_list := [],
        _neighbor_count := 0,
        _neighbor_radius := r,
        _neighbor_radius_sq := r * r } : KDTree β)._data_point_list = t._data_point_list ∧
        ({ t with
        _neighbor_list := [],
        _neighbor_count := 0,
        _neighbor_radius := r,
        _neighbor_radius_sq := r * r } : KDTree β).dim = t.dim ∧
        ({ t with
        _neighbor_list := [],
        _neighbor_count := 0,
        _neighbor_radius := r,
        _neighbor_radius_sq := r * r } : KDTree β)._neighbor_radius_sq = r * r ∧
        ∀ e, e ∈ ({ t with
        _neighbor_list := [],
        _neighbor_count := 0,
        _neighbor_radius := r,
        _neighbor_radius_sq := r * r } : KDTree β)._neighbor_list →
          ∃ p q, p ∈ t._data_point_list ∧
            q ∈ t._data_point_list ∧ e.index1 = p._index ∧ e.index2 = q._index ∧
            KDTree_dist p._coord q._coord t.dim ≤ r * r ∧
            e.radius = libc.sqrt (KDTree_dist p._coord q._coord t.dim) := by
      refine ⟨rfl, rfl, rfl, ?_⟩
      intro e he
      cases he
    generalize ({ t with
        _neighbor_list := [],
        _neighbor_count := 0,
        _neighbor_radius := r,
        _neighbor_radius_sq := r * r } : KDTree β) = t0 at hres hstart
    have hfin : ∀ (x : Run (KDTree β)) (hx : ∀ u, x = Except.ok u →
          u._data_point_list = t._data_point_list ∧ u.dim = t.dim ∧
          u._neighbor_radius_sq = r * r ∧
          ∀ e, e ∈ u._neighbor_list → ∃ p q, p ∈ t._data_point_list ∧
            q ∈ t._data_point_list ∧ e.index1 = p._index ∧ e.index2 = q._index ∧
            KDTree_dist p._coord q._coord t.dim ≤ r * r ∧
            e.radius = libc.sqrt (KDTree_dist p._coord q._coord t.dim)),
        (x >>= fun tree => pure (tree,
          (tree._neighbor_list.take tree._neighbor_count).foldl
            (fun neighbors neighbor => neighbor :: neighbors) [])) = Except.ok res →
        res.1._data_point_list = t._data_point_list ∧ res.1.dim = t.dim ∧
          (∀ e, e ∈ res.2 → e ∈ res.1._neighbor_list) ∧
          ∀ e, e ∈ res.1._neighbor_list → ∃ p q, p ∈ t._data_point_list ∧
            q ∈ t._data_point_list ∧ e.index1 = p._index ∧ e.index2 = q._index ∧
            KDTree_dist p._coord q._coord t.dim ≤ r * r ∧
            e.radius = libc.sqrt (KDTree_dist p._coord q._coord t.dim) := by
      intro x hx hb
      cases hxv : x with
      | error e => rw [hxv] at hb; cases hb
      | ok u =>
        rw [hxv] at hb
        cases hb
        have hu := hx u hxv
        refine ⟨hu.1, hu.2.1, ?_, hu.2.2.2⟩
        intro e he
        simp only [foldl_push, List.append_nil, List.mem_reverse] at he
        exact List.mem_of_mem_take he
    cases hl : Node_is_leaf t._root with
    | error e => rw [hl] at hres; cases hres
    | ok b =>
      rw [hl] at hres
      simp only [ok_bind] at hres
      by_cases hb : b = true
      · simp only [hb, if_true] at hres
        exact hfin _ (fun u hu => KDTree_search_neighbors_in_bucket_keeps libc
          t._data_point_list (fun u hu => hu.1) hstep _ _ _ hstart hu) hres
      · simp only [hb, if_false] at hres
        exact hfin _ (fun u hu => neighbor_search_keeps libc
          t._data_point_list (fun u hu => hu.1) hstep _ _ _ _ _ hstart hu) hres
  · cases h

end AnyArithmetic

/-! ### The tree queries on any coordinates -/

end Proofs

end KDTrees
